import Mathlib

/-!
# A verification development for the path tracer

The C++ sources compute on `double`.  The embedding replaces `double` by an
arbitrary linearly ordered field `F` (exact arithmetic), so every definition
can be run on `ℚ` and every theorem holds in particular over `ℝ`.

* The functions of `<cmath>` are not arithmetic of the field; they are the
  fields of `Env`.  Theorems state what they need of them (for instance that
  `sqrt d * sqrt d = d` at the one discriminant in question).
* The constants `INF` and `-INF` of `rtweekend.h` are the two extra points of
  `Ext F`, the type of the interval bounds `t_min`, `t_max`.
* `random_double2()` reads a global generator; the embedding passes the
  generator state `Rng F` explicitly.
* `bool f(..., T &out)` becomes a function from the incoming `out` to the pair
  of the returned flag and the outgoing `out`.
* A null `shared_ptr` is `none` (materials) or `Pdf.null`; dereferencing it, and
  dividing a colour by a zero density, are faults of `Fault`: outcomes of the
  C++ program that are no value of exact arithmetic.
-/

namespace RayTracing

/-! ## vec3.h and ray.h -/

/-- Modelled from the spec: `Vec3` of `vec3.h` (the vector/point/colour algebra
library is an external collaborator and not among the sources): three
coordinates `e[0]`, `e[1]`, `e[2]`.  `Point3` and `Color` are aliases. -/
structure Vec3 (F : Type) where
  x : F
  y : F
  z : F
deriving DecidableEq, Repr

namespace Vec3

variable {F : Type} [LinearOrderedField F]

instance : Zero (Vec3 F) := ⟨⟨0, 0, 0⟩⟩

/-- Modelled from the spec: `operator+` of `vec3.h`, componentwise. -/
instance : Add (Vec3 F) := ⟨fun a b => ⟨a.x + b.x, a.y + b.y, a.z + b.z⟩⟩

/-- Modelled from the spec: binary `operator-` of `vec3.h`, componentwise. -/
instance : Sub (Vec3 F) := ⟨fun a b => ⟨a.x - b.x, a.y - b.y, a.z - b.z⟩⟩

/-- Modelled from the spec: unary `operator-` of `vec3.h`. -/
instance : Neg (Vec3 F) := ⟨fun a => ⟨-a.x, -a.y, -a.z⟩⟩

/-- Modelled from the spec: `operator*(const Vec3&, const Vec3&)` of `vec3.h`,
the componentwise product used for colours. -/
instance : Mul (Vec3 F) := ⟨fun a b => ⟨a.x * b.x, a.y * b.y, a.z * b.z⟩⟩

/-- Modelled from the spec: `operator*(double, const Vec3&)` of `vec3.h`. -/
instance : HMul F (Vec3 F) (Vec3 F) := ⟨fun t a => ⟨t * a.x, t * a.y, t * a.z⟩⟩

/-- Modelled from the spec: `operator*(const Vec3&, double)` of `vec3.h`. -/
instance : HMul (Vec3 F) F (Vec3 F) := ⟨fun a t => ⟨t * a.x, t * a.y, t * a.z⟩⟩

/-- Modelled from the spec: `operator/(Vec3, double)` of `vec3.h`, which is
`(1 / t) * v`. -/
instance : HDiv (Vec3 F) F (Vec3 F) := ⟨fun a t => ⟨1 / t * a.x, 1 / t * a.y, 1 / t * a.z⟩⟩

/-- Modelled from the spec: `dot` of `vec3.h`. -/
def dot (a b : Vec3 F) : F := a.x * b.x + a.y * b.y + a.z * b.z

/-- Modelled from the spec: `cross` of `vec3.h`. -/
def cross (a b : Vec3 F) : Vec3 F :=
  ⟨a.y * b.z - a.z * b.y, a.z * b.x - a.x * b.z, a.x * b.y - a.y * b.x⟩

/-- Modelled from the spec: `Vec3::length_squared` of `vec3.h`. -/
def length_squared (a : Vec3 F) : F := a.x * a.x + a.y * a.y + a.z * a.z

end Vec3

/-- Modelled from the spec: `Ray` of `ray.h` (not among the sources): origin,
direction and the time of the shutter sample. -/
structure Ray (F : Type) where
  orig : Vec3 F
  dir : Vec3 F
  tm : F
deriving DecidableEq, Repr

namespace Ray

variable {F : Type} [LinearOrderedField F]

/-- Modelled from the spec: the accessor `Ray::origin`. -/
def origin (r : Ray F) : Vec3 F := r.orig

/-- Modelled from the spec: the accessor `Ray::direction`. -/
def direction (r : Ray F) : Vec3 F := r.dir

/-- Modelled from the spec: the accessor `Ray::time`. -/
def time (r : Ray F) : F := r.tm

/-- Modelled from the spec: `Ray::at`, the point `orig + t * dir`. -/
def «at» (r : Ray F) (t : F) : Vec3 F := r.orig + t * r.dir

/-- Modelled from the spec: the two-argument constructor `Ray(origin, direction)`
of `ray.h`, whose time defaults to `0.0`. -/
def mk2 (o d : Vec3 F) : Ray F := ⟨o, d, 0⟩

end Ray

/-! ## rtweekend.h -/

/-- The global generator behind `random_double2()`: the sequence of numbers it
will return, and how many have been taken. -/
structure Rng (F : Type) where
  draws : ℕ → F
  pos : ℕ

/-- Modelled from the spec: the functions of `<cmath>` the sources call on
`double` that are not field arithmetic, and the two functions of the absent
`vec3.h` the spec does not spell out: the rejection sampler
`random_in_unit_sphere` (a point of the unit ball, and the advanced generator)
and `refract`. -/
structure Env (F : Type) where
  sqrt : F → F
  sin : F → F
  cos : F → F
  acos : F → F
  atan2 : F → F → F
  log : F → F
  random_in_unit_sphere : Rng F → Vec3 F × Rng F
  refract : Vec3 F → Vec3 F → F → Vec3 F

/-- The interval bounds `t_min`, `t_max` are `double`s that callers also set to
`INF` and `-INF` (`rtweekend.h`: `numeric_limits<double>::infinity()`). -/
inductive Ext (F : Type) where
  | negInf : Ext F
  | fin (x : F) : Ext F
  | posInf : Ext F
deriving DecidableEq, Repr

namespace Ext

variable {F : Type} [LinearOrderedField F]

/-- The comparison `a < b` of two `double`s that may be infinite. -/
def blt : Ext F → Ext F → Bool
  | negInf, negInf => false
  | negInf, _ => true
  | fin a, fin b => decide (a < b)
  | fin _, posInf => true
  | _, _ => false

instance : LT (Ext F) := ⟨fun a b => blt a b = true⟩

instance : LE (Ext F) := ⟨fun a b => blt b a = false⟩

instance (a b : Ext F) : Decidable (a < b) := inferInstanceAs (Decidable (blt a b = true))

instance (a b : Ext F) : Decidable (a ≤ b) := inferInstanceAs (Decidable (blt b a = false))

instance : Coe F (Ext F) := ⟨fin⟩

end Ext

variable {F : Type} [LinearOrderedField F]

/-- The constant `PI` of `rtweekend.h`. -/
def PI : F := 3.1415926535897932385

/-- The function `random_double2()` of `rtweekend.h`: the next number of the
generator, and the advanced generator. -/
def random_double2 (g : Rng F) : F × Rng F := (g.draws g.pos, ⟨g.draws, g.pos + 1⟩)

/-- Modelled from the spec: `Vec3::length` of `vec3.h`, the square root of
`length_squared`. -/
def Vec3.length (env : Env F) (a : Vec3 F) : F := env.sqrt a.length_squared

/-- Modelled from the spec: the free function `normal(v)` of `vec3.h`, the unit
vector `v / v.length()` (the sources call the normalisation `normal`). -/
def Vec3.normal (env : Env F) (a : Vec3 F) : Vec3 F := a / a.length env

/-- Modelled from the spec: `reflect(v, n)` of `vec3.h`, the mirror image of `v`
about the normal `n`. -/
def Vec3.reflect (v n : Vec3 F) : Vec3 F := v - (2 * Vec3.dot v n) * n

/-! ## texture.h -/

/-- The class `Texture` and its subclasses.  `SolidColor` and `CheckerTexture`
are embedded as written; a subclass whose `value` calls an external
collaborator (`NoiseTexture`: Perlin noise, `ImageTexture`: the bitmap decoder)
is given by its `value` function. -/
inductive Texture (F : Type) where
  | solidColor (color_value : Vec3 F) : Texture F
  | checker (odd even : Texture F) : Texture F
  | other (value : F → F → Vec3 F → Vec3 F) : Texture F

/-- The virtual `Texture::value(u, v, p)`. -/
def Texture.value (env : Env F) : Texture F → F → F → Vec3 F → Vec3 F
  | .solidColor c, _, _, _ => c
  | .checker odd even, u, v, p =>
    let sines := env.sin (10 * p.x) * env.sin (10 * p.y) * env.sin (10 * p.z)
    if sines < 0 then odd.value env u v p else even.value env u v p
  | .other f, u, v, p => f u v p

/-! ## material.h: the data of the materials -/

/-- The subclasses of `Material` with their fields. -/
inductive Material (F : Type) where
  | lambertian (albedo : Texture F) : Material F
  | metal (albedo : Vec3 F) (fuzz : F) : Material F
  | dielectric (ir : F) : Material F
  | diffuseLight (emit : Texture F) : Material F
  | isotropic (albedo : Texture F) : Material F

/-- The constructor `Metal(const Color &a, double f)`:
`albedo(a), fuzz(f < 1 ? f : 1)`. -/
def Metal (a : Vec3 F) (f : F) : Material F := .metal a (if f < 1 then f else 1)

/-! ## hittable.h -/

/-- The struct `HitRecord`; `mat_ptr` is a `shared_ptr<Material>`, `none` when
null. -/
structure HitRecord (F : Type) where
  p : Vec3 F
  normal : Vec3 F
  mat_ptr : Option (Material F)
  t : F
  u : F
  v : F
  front_face : Bool

/-- The method `HitRecord::set_face_normal`. -/
def HitRecord.set_face_normal (rec : HitRecord F) (r : Ray F) (outward_normal : Vec3 F) :
    HitRecord F :=
  let front_face : Bool := decide (Vec3.dot r.direction outward_normal < 0)
  { rec with front_face := front_face,
             normal := if front_face then outward_normal else -outward_normal }

/-- Modelled from the spec: the class `Aabb` of `aabb.h` (not among the
sources), an axis-aligned box given by its two corners, which the accessors
`min()` and `max()` return. -/
structure Aabb (F : Type) where
  minimum : Vec3 F
  maximum : Vec3 F

/-- The abstract class `Hittable`, as the table of its virtual functions.
`hit` may draw random numbers (`ConstantMedium::hit` does), so it takes and
returns the generator; it returns the flag and the record it leaves in `rec`.
`bounding_box(time0, time1, output_box)` returns its flag and the box it leaves
in `output_box`. -/
structure Hittable (F : Type) where
  hit : Ray F → Ext F → Ext F → HitRecord F → Rng F → (Bool × HitRecord F) × Rng F
  bounding_box : F → F → Aabb F → Bool × Aabb F
  pdf_value : Vec3 F → Vec3 F → F
  random : Vec3 F → Rng F → Vec3 F × Rng F

/-- The defaults of the base class: `Hittable::pdf_value` returns `0.0`. -/
def Hittable.default_pdf_value (_o _v : Vec3 F) : F := 0

/-- The defaults of the base class: `Hittable::random` returns `Vec3(1, 0, 0)`
and draws nothing. -/
def Hittable.default_random (_o : Vec3 F) (g : Rng F) : Vec3 F × Rng F := (⟨1, 0, 0⟩, g)

/-! ## sphere.h -/

/-- The class `Sphere`. -/
structure Sphere (F : Type) where
  center : Vec3 F
  radius : F
  mat_ptr : Option (Material F)

namespace Sphere

/-- The static `Sphere::get_sphere_uv(p, u, v)`: the pair `(u, v)` it writes. -/
def get_sphere_uv (env : Env F) (p : Vec3 F) : F × F :=
  let theta := env.acos (-p.y)
  let phi := env.atan2 (-p.z) p.x + PI
  (phi / (2 * PI), theta / PI)

/-- The discriminant `half_b * half_b - a * c` computed by `Sphere::hit`. -/
def discriminant (s : Sphere F) (r : Ray F) : F :=
  let oc := r.origin - s.center
  let a := r.direction.length_squared
  let half_b := Vec3.dot oc r.direction
  let c := oc.length_squared - s.radius * s.radius
  half_b * half_b - a * c

/-- The tail of `Sphere::hit` (from `rec.t = root;` to `return true;`): the
record it leaves once the root is chosen. -/
def fill (env : Env F) (s : Sphere F) (r : Ray F) (rec : HitRecord F) (root : F) :
    HitRecord F :=
  let rec1 := { rec with t := root }
  let rec2 := { rec1 with p := r.at rec1.t }
  let outward_normal := (rec2.p - s.center) / s.radius
  let rec3 := rec2.set_face_normal r outward_normal
  let uv := get_sphere_uv env outward_normal
  { rec3 with u := uv.1, v := uv.2, mat_ptr := s.mat_ptr }

/-- The method `Sphere::hit`, in exact arithmetic.  It divides by
`a = |direction|²` and, through `fill`, by `radius`: it follows the `double`
computation where the direction is not the zero vector and the radius is not
zero.  `Sphere.hit_ieee` follows a zero divisor. -/
def hit (env : Env F) (s : Sphere F) (r : Ray F) (t_min t_max : Ext F) (rec : HitRecord F) :
    Bool × HitRecord F :=
  let oc := r.origin - s.center
  let a := r.direction.length_squared
  let half_b := Vec3.dot oc r.direction
  let c := oc.length_squared - s.radius * s.radius
  let discriminant := half_b * half_b - a * c
  if discriminant < 0 then (false, rec)
  else
    let sqrtd := env.sqrt discriminant
    let root := (-half_b - sqrtd) / a
    if Ext.fin root < t_min ∨ t_max < Ext.fin root then
      let root := (-half_b + sqrtd) / a
      if Ext.fin root < t_min ∨ t_max < Ext.fin root then (false, rec)
      else (true, fill env s r rec root)
    else (true, fill env s r rec root)

end Sphere

/-- The value `half_b = dot(oc, r.direction())` computed by `Sphere::hit`. -/
def Sphere.half_b (s : Sphere F) (r : Ray F) : F := Vec3.dot (r.origin - s.center) r.direction

/-- The root `(-half_b - sqrtd) / a` that `Sphere::hit` tries first. -/
def Sphere.root_minus (env : Env F) (s : Sphere F) (r : Ray F) : F :=
  (-s.half_b r - env.sqrt (s.discriminant r)) / r.direction.length_squared

/-- The root `(-half_b + sqrtd) / a` that `Sphere::hit` tries second. -/
def Sphere.root_plus (env : Env F) (s : Sphere F) (r : Ray F) : F :=
  (-s.half_b r + env.sqrt (s.discriminant r)) / r.direction.length_squared

/-! ## onb.h -/

/-- The class `Onb`: the array `Vec3 axis[3]`. -/
structure Onb (F : Type) where
  axis0 : Vec3 F
  axis1 : Vec3 F
  axis2 : Vec3 F

namespace Onb

/-- The accessor `Onb::u`. -/
def u (b : Onb F) : Vec3 F := b.axis0

/-- The accessor `Onb::v`. -/
def v (b : Onb F) : Vec3 F := b.axis1

/-- The accessor `Onb::w`. -/
def w (b : Onb F) : Vec3 F := b.axis2

/-- The method `Onb::local(const Vec3 &a)`. -/
def «local» (b : Onb F) (a : Vec3 F) : Vec3 F := a.x * b.u + a.y * b.v + a.z * b.w

/-- The method `Onb::build_from_w`, which writes all three axes. -/
def build_from_w (env : Env F) (n : Vec3 F) : Onb F :=
  let axis2 := Vec3.normal env n
  let a : Vec3 F := if |axis2.x| > 0.9 then ⟨0, 1, 0⟩ else ⟨1, 0, 0⟩
  let axis1 := Vec3.normal env (Vec3.cross axis2 a)
  let axis0 := Vec3.cross axis2 axis1
  ⟨axis0, axis1, axis2⟩

end Onb

/-! ## pdf.h -/

/-- The function `random_cosine_direction`. -/
def random_cosine_direction (env : Env F) (g : Rng F) : Vec3 F × Rng F :=
  let (r1, g1) := random_double2 g
  let (r2, g2) := random_double2 g1
  let z := env.sqrt (1 - r2)
  let phi := 2 * PI * r1
  let x := env.cos phi * env.sqrt r2
  let y := env.sin phi * env.sqrt r2
  (⟨x, y, z⟩, g2)

/-- The function `random_to_sphere`. -/
def random_to_sphere (env : Env F) (radius distance_squared : F) (g : Rng F) :
    Vec3 F × Rng F :=
  let (r1, g1) := random_double2 g
  let (r2, g2) := random_double2 g1
  let z := 1 + r2 * (env.sqrt (1 - radius * radius / distance_squared) - 1)
  let phi := 2 * PI * r1
  let x := env.cos phi * env.sqrt (1 - z * z)
  let y := env.sin phi * env.sqrt (1 - z * z)
  (⟨x, y, z⟩, g2)

/-- What goes wrong in the C++ program and has no value in exact arithmetic:
a null `shared_ptr` is dereferenced; a colour is divided by a zero density (the
`double` result is infinite or NaN); the bound on the nesting of calls that
`ray_color_bounded` is run with is exceeded. -/
inductive Fault where
  | nullDeref : Fault
  | nonFinite : Fault
  | nestingExceeded : Fault
deriving DecidableEq, Repr

/-- A `shared_ptr<Pdf>`: null, or one of the subclasses `CosinePdf`,
`HittablePdf`, `MixturePdf` with its fields. -/
inductive Pdf (F : Type) where
  | null : Pdf F
  | cosine (uvw : Onb F) : Pdf F
  | hittable (o : Vec3 F) (ptr : Hittable F) : Pdf F
  | mixture (p0 p1 : Pdf F) : Pdf F

/-- The constructor `CosinePdf(const Vec3 &w)`: `uvw.build_from_w(w)`. -/
def CosinePdf (env : Env F) (w : Vec3 F) : Pdf F := .cosine (Onb.build_from_w env w)

/-- The constructor `HittablePdf(origin, p)`. -/
def HittablePdf (origin : Vec3 F) (p : Hittable F) : Pdf F := .hittable origin p

/-- The constructor `MixturePdf(p0, p1)`. -/
def MixturePdf (p0 p1 : Pdf F) : Pdf F := .mixture p0 p1

namespace Pdf

/-- The virtual `Pdf::value(direction)`, called through the pointer. -/
def value (env : Env F) : Pdf F → Vec3 F → Except Fault F
  | .null, _ => .error Fault.nullDeref
  | .cosine uvw, direction =>
    let cosine := Vec3.dot (Vec3.normal env direction) uvw.w
    .ok (if cosine ≤ 0 then 0 else cosine / PI)
  | .hittable o ptr, direction => .ok (ptr.pdf_value o direction)
  | .mixture p0 p1, direction =>
    match value env p0 direction with
    | .error e => .error e
    | .ok v0 =>
      match value env p1 direction with
      | .error e => .error e
      | .ok v1 => .ok (0.5 * v0 + 0.5 * v1)

/-- The virtual `Pdf::generate()`, called through the pointer. -/
def generate (env : Env F) : Pdf F → Rng F → Except Fault (Vec3 F × Rng F)
  | .null, _ => .error Fault.nullDeref
  | .cosine uvw, g =>
    let (d, g1) := random_cosine_direction env g
    .ok (uvw.local d, g1)
  | .hittable o ptr, g => .ok (ptr.random o g)
  | .mixture p0 p1, g =>
    let (x, g1) := random_double2 g
    if x < 0.5 then generate env p0 g1 else generate env p1 g1

end Pdf

/-! ## sphere.h and hittable.h: the shapes as `Hittable`s -/

/-- The method `Sphere::pdf_value`. -/
def Sphere.pdf_value (env : Env F) (s : Sphere F) (rec : HitRecord F) (o v : Vec3 F) : F :=
  if ¬ (Sphere.hit env s (Ray.mk2 o v) (Ext.fin 0.001) Ext.posInf rec).1 then 0
  else
    let cos_theta_max :=
      env.sqrt (1 - s.radius * s.radius / (s.center - o).length_squared)
    let solid_angle := 2 * PI * (1 - cos_theta_max)
    1 / solid_angle

/-- The method `Sphere::random`. -/
def Sphere.random (env : Env F) (s : Sphere F) (o : Vec3 F) (g : Rng F) : Vec3 F × Rng F :=
  let direction := s.center - o
  let distance_squared := direction.length_squared
  let uvw := Onb.build_from_w env direction
  let (d, g1) := random_to_sphere env s.radius distance_squared g
  (uvw.local d, g1)

/-- The method `Sphere::bounding_box`. -/
def Sphere.bounding_box (s : Sphere F) (_time0 _time1 : F) (_output_box : Aabb F) :
    Bool × Aabb F :=
  (true, ⟨s.center - ⟨s.radius, s.radius, s.radius⟩, s.center + ⟨s.radius, s.radius, s.radius⟩⟩)

/-- A `Sphere` behind a `Hittable` pointer.  `junk` is the content of the
uninitialised local `HitRecord rec` of `Sphere::pdf_value`. -/
def Sphere.toHittable (env : Env F) (junk : HitRecord F) (s : Sphere F) : Hittable F where
  hit := fun r t_min t_max rec g => (Sphere.hit env s r t_min t_max rec, g)
  bounding_box := Sphere.bounding_box s
  pdf_value := Sphere.pdf_value env s junk
  random := Sphere.random env s

/-- The class `FlipFace`: `hit` negates `front_face` of the child's hit,
`bounding_box` is the child's; `pdf_value` and `random` are not overridden. -/
def FlipFace (ptr : Hittable F) : Hittable F where
  hit := fun r t_min t_max rec g =>
    let res := ptr.hit r t_min t_max rec g
    if ¬ res.1.1 then ((false, res.1.2), res.2)
    else ((true, { res.1.2 with front_face := !res.1.2.front_face }), res.2)
  bounding_box := fun time0 time1 output_box => ptr.bounding_box time0 time1 output_box
  pdf_value := Hittable.default_pdf_value
  random := Hittable.default_random

/-! ## material.h: the virtual functions -/

/-- The struct `ScatterRecord`. -/
structure ScatterRecord (F : Type) where
  specular_ray : Ray F
  is_specular : Bool
  attenuation : Vec3 F
  pdf_ptr : Pdf F

/-- The static `Dielectric::reflectance`, Schlick's approximation. -/
def Dielectric.reflectance (cosine ref_idx : F) : F :=
  let r0 := (1 - ref_idx) / (1 + ref_idx)
  let r0 := r0 * r0
  r0 + (1 - r0) * (1 - cosine) ^ 5

namespace Material

/-- The virtual `Material::scatter(r_in, rec, srec)`: the returned flag, the
record left in `srec`, and the generator after the draws.  `Lambertian`, `Metal`
and `Dielectric` override it; `DiffuseLight` and `Isotropic` (whose override is
commented out in the source) inherit the base version, which returns false. -/
def scatter (env : Env F) (m : Material F) (r_in : Ray F) (rec : HitRecord F)
    (srec : ScatterRecord F) (g : Rng F) : (Bool × ScatterRecord F) × Rng F :=
  match m with
  | .lambertian albedo =>
    ((true, { srec with is_specular := false,
                        attenuation := albedo.value env rec.u rec.v rec.p,
                        pdf_ptr := CosinePdf env rec.normal }), g)
  | .metal albedo fuzz =>
    let reflected := Vec3.reflect (Vec3.normal env r_in.direction) rec.normal
    let (q, g1) := env.random_in_unit_sphere g
    ((true, { srec with specular_ray := ⟨rec.p, reflected + fuzz * q, r_in.time⟩,
                        attenuation := albedo,
                        is_specular := true,
                        pdf_ptr := Pdf.null }), g1)
  | .dielectric ir =>
    let refraction_ratio := if rec.front_face then 1.0 / ir else ir
    let unit_direction := Vec3.normal env r_in.direction
    let cos_theta := min (Vec3.dot (-unit_direction) rec.normal) 1.0
    let sin_theta := env.sqrt (1.0 - cos_theta * cos_theta)
    let cannot_refract : Bool := decide (refraction_ratio * sin_theta > 1.0)
    let (reflects, g1) : Bool × Rng F :=
      if cannot_refract then (true, g)
      else
        let (x, g1) := random_double2 g
        (decide (Dielectric.reflectance cos_theta refraction_ratio > x), g1)
    let direction :=
      if reflects then Vec3.reflect unit_direction rec.normal
      else env.refract unit_direction rec.normal refraction_ratio
    ((true, { srec with is_specular := true,
                        pdf_ptr := Pdf.null,
                        attenuation := ⟨1.0, 1.0, 1.0⟩,
                        specular_ray := ⟨rec.p, direction, r_in.time⟩ }), g1)
  | .diffuseLight _ => ((false, srec), g)
  | .isotropic _ => ((false, srec), g)

/-- The virtual `Material::scattering_pdf(r_in, rec, scattered)`: `Lambertian`
overrides it, the other materials inherit the base version, which returns 0. -/
def scattering_pdf (env : Env F) (m : Material F) (_r_in : Ray F) (rec : HitRecord F)
    (scattered : Ray F) : F :=
  match m with
  | .lambertian _ =>
    let cosine := Vec3.dot rec.normal (Vec3.normal env scattered.direction)
    if cosine < 0 then 0 else cosine / PI
  | _ => 0

/-- The virtual `Material::emitted(r_in, rec, u, v, p)`: `DiffuseLight` overrides
it, the other materials inherit the base version, which returns black. -/
def emitted (env : Env F) (m : Material F) (_r_in : Ray F) (rec : HitRecord F)
    (u v : F) (p : Vec3 F) : Vec3 F :=
  match m with
  | .diffuseLight emit => if ¬ rec.front_face then ⟨0, 0, 0⟩ else emit.value env u v p
  | _ => ⟨0, 0, 0⟩

end Material

/-! ## main.cpp: the radiance estimator -/

/-- The uninitialised locals `HitRecord rec; ScatterRecord srec;` of `ray_color`:
their contents before the callees write them. -/
structure Locals (F : Type) where
  hrec : HitRecord F
  srec : ScatterRecord F

/-- The division `Color / pdf_val` that ends `ray_color`.  On `double` a zero
divisor gives an infinite or NaN colour, which no later arithmetic of the
estimator turns back into a number; that outcome is `Fault.nonFinite`. -/
def Vec3.divDensity (c : Vec3 F) (pdf_val : F) : Except Fault (Vec3 F) :=
  if pdf_val = 0 then .error Fault.nonFinite else .ok (c / pdf_val)

/-- The body of `ray_color` after the test of `depth`; `self` stands for the
recursive call `ray_color(·, background, world, lights, depth - 1)`. -/
def ray_color_body (env : Env F) (loc : Locals F) (background : Vec3 F)
    (world lights : Hittable F)
    (self : Ray F → Rng F → Except Fault (Vec3 F × Rng F))
    (r : Ray F) (g : Rng F) : Except Fault (Vec3 F × Rng F) :=
  let h := world.hit r (Ext.fin 0.001) Ext.posInf loc.hrec g
  let hrec := h.1.2
  if ¬ h.1.1 then .ok (background, h.2)
  else
    match hrec.mat_ptr with
    | none => .error Fault.nullDeref
    | some mat =>
      let emitted := mat.emitted env r hrec hrec.u hrec.v hrec.p
      let sc := mat.scatter env r hrec loc.srec h.2
      let srec := sc.1.2
      if ¬ sc.1.1 then .ok (emitted, sc.2)
      else
        let light_ptr := HittablePdf hrec.p lights
        let p := MixturePdf light_ptr srec.pdf_ptr
        match p.generate env sc.2 with
        | .error e => .error e
        | .ok (direction, g3) =>
          let scattered : Ray F := ⟨hrec.p, direction, r.time⟩
          match p.value env scattered.direction with
          | .error e => .error e
          | .ok pdf_val =>
            match self scattered g3 with
            | .error e => .error e
            | .ok (rc, g4) =>
              match Vec3.divDensity
                  (srec.attenuation * mat.scattering_pdf env r hrec scattered * rc) pdf_val with
              | .error e => .error e
              | .ok q => .ok (emitted + q, g4)

/-- The function `ray_color(r, background, world, lights, depth)`. -/
def ray_color (env : Env F) (loc : Locals F) (background : Vec3 F)
    (world lights : Hittable F) (depth : ℤ) : Ray F → Rng F → Except Fault (Vec3 F × Rng F) :=
  if depth ≤ 0 then fun _ g => .ok (⟨0, 0, 0⟩, g)
  else ray_color_body env loc background world lights
    (ray_color env loc background world lights (depth - 1))
termination_by depth.toNat
decreasing_by omega

/-- The same evaluation, run with a bound on the nesting of calls of `ray_color`:
every call uses up one unit of `budget`, and a call made with none left is the
fault `nestingExceeded`. -/
def ray_color_bounded (env : Env F) (loc : Locals F) (background : Vec3 F)
    (world lights : Hittable F) :
    ℕ → ℤ → Ray F → Rng F → Except Fault (Vec3 F × Rng F)
  | 0, _ => fun _ _ => .error Fault.nestingExceeded
  | budget + 1, depth =>
    if depth ≤ 0 then fun _ g => .ok (⟨0, 0, 0⟩, g)
    else ray_color_body env loc background world lights
      (ray_color_bounded env loc background world lights budget (depth - 1))

/-! ## main.cpp: the render loop -/

/-- The element type of the vector `pixels`:
`std::pair<std::pair<int, int>, Color>`, the pair of row and column with the
summed colour. -/
abbrev Pixel (C : Type) := (ℤ × ℤ) × C

/-- The comparator lambda passed to `std::sort` in `main`. -/
def pixel_less {C : Type} (a b : Pixel C) : Bool :=
  if a.1.1 = b.1.1 then decide (a.1.2 < b.1.2) else decide (a.1.1 > b.1.1)

/-- The results of the tasks of row `j` for the columns `i, i + 1, ...`: the task
of column `i` returns `make_pair(make_pair(j, i), pixel_color)`. -/
def row_from {C : Type} (j : ℤ) : ℤ → List C → List (Pixel C)
  | _, [] => []
  | i, c :: cs => ((j, i), c) :: row_from j (i + 1) cs

/-- The results of the `image_width` tasks of row `j`, in the order of the
columns `0, 1, ..., image_width - 1`; `colors` lists the colour each task
computed. -/
def row_results {C : Type} (j : ℤ) (colors : List C) : List (Pixel C) := row_from j 0 colors

/-- The postcondition of `std::sort(first, last, comp)` (C++ standard library):
the range is a rearrangement of what it was, and `comp(later, earlier)` is false
for every two of its positions. -/
def std_sort_post {α : Type} (comp : α → α → Bool) (input output : List α) : Prop :=
  output.Perm input ∧ output.Pairwise (fun a b => comp b a = false)

/-! ## aarect.h -/

/-- The class `XYRect`: the rectangle `[x0, x1] × [y0, y1]` in the plane `z = k`. -/
structure XYRect (F : Type) where
  x0 : F
  x1 : F
  y0 : F
  y1 : F
  k : F
  mp : Option (Material F)

/-- The class `XZRect`: the rectangle `[x0, x1] × [z0, z1]` in the plane `y = k`. -/
structure XZRect (F : Type) where
  x0 : F
  x1 : F
  z0 : F
  z1 : F
  k : F
  mp : Option (Material F)

/-- The class `YZRect`: the rectangle `[y0, y1] × [z0, z1]` in the plane `x = k`. -/
structure YZRect (F : Type) where
  y0 : F
  y1 : F
  z0 : F
  z1 : F
  k : F
  mp : Option (Material F)

/-- The method `XYRect::hit`. -/
def XYRect.hit (q : XYRect F) (r : Ray F) (t_min t_max : Ext F) (rec : HitRecord F) :
    Bool × HitRecord F :=
  let t := (q.k - r.origin.z) / r.direction.z
  if Ext.fin t < t_min ∨ Ext.fin t > t_max then (false, rec)
  else
    let x := r.origin.x + t * r.direction.x
    let y := r.origin.y + t * r.direction.y
    if x < q.x0 ∨ x > q.x1 ∨ y < q.y0 ∨ y > q.y1 then (false, rec)
    else
      let rec1 := { rec with u := (x - q.x0) / (q.x1 - q.x0),
                             v := (y - q.y0) / (q.y1 - q.y0),
                             t := t }
      let outward_normal : Vec3 F := ⟨0, 0, 1⟩
      let rec2 := rec1.set_face_normal r outward_normal
      (true, { rec2 with mat_ptr := q.mp, p := r.at t })

/-- The method `XZRect::hit`. -/
def XZRect.hit (q : XZRect F) (r : Ray F) (t_min t_max : Ext F) (rec : HitRecord F) :
    Bool × HitRecord F :=
  let t := (q.k - r.origin.y) / r.direction.y
  if Ext.fin t < t_min ∨ Ext.fin t > t_max then (false, rec)
  else
    let x := r.origin.x + t * r.direction.x
    let z := r.origin.z + t * r.direction.z
    if x < q.x0 ∨ x > q.x1 ∨ z < q.z0 ∨ z > q.z1 then (false, rec)
    else
      let rec1 := { rec with u := (x - q.x0) / (q.x1 - q.x0),
                             v := (z - q.z0) / (q.z1 - q.z0),
                             t := t }
      let outward_normal : Vec3 F := ⟨0, 1, 0⟩
      let rec2 := rec1.set_face_normal r outward_normal
      (true, { rec2 with mat_ptr := q.mp, p := r.at t })

/-- The method `YZRect::hit`. -/
def YZRect.hit (q : YZRect F) (r : Ray F) (t_min t_max : Ext F) (rec : HitRecord F) :
    Bool × HitRecord F :=
  let t := (q.k - r.origin.x) / r.direction.x
  if Ext.fin t < t_min ∨ Ext.fin t > t_max then (false, rec)
  else
    let y := r.origin.y + t * r.direction.y
    let z := r.origin.z + t * r.direction.z
    if y < q.y0 ∨ y > q.y1 ∨ z < q.z0 ∨ z > q.z1 then (false, rec)
    else
      let rec1 := { rec with u := (y - q.y0) / (q.y1 - q.y0),
                             v := (z - q.z0) / (q.z1 - q.z0),
                             t := t }
      let outward_normal : Vec3 F := ⟨1, 0, 0⟩
      let rec2 := rec1.set_face_normal r outward_normal
      (true, { rec2 with mat_ptr := q.mp, p := r.at t })

/-- The method `XYRect::bounding_box`. -/
def XYRect.bounding_box (q : XYRect F) (_time0 _time1 : F) (_output_box : Aabb F) :
    Bool × Aabb F :=
  (true, ⟨⟨q.x0, q.y0, q.k - 0.0001⟩, ⟨q.x1, q.y1, q.k + 0.0001⟩⟩)

/-- The method `XZRect::bounding_box`. -/
def XZRect.bounding_box (q : XZRect F) (_time0 _time1 : F) (_output_box : Aabb F) :
    Bool × Aabb F :=
  (true, ⟨⟨q.x0, q.k - 0.0001, q.z0⟩, ⟨q.x1, q.k + 0.0001, q.z1⟩⟩)

/-- The method `YZRect::bounding_box`. -/
def YZRect.bounding_box (q : YZRect F) (_time0 _time1 : F) (_output_box : Aabb F) :
    Bool × Aabb F :=
  (true, ⟨⟨q.k - 0.0001, q.y0, q.z0⟩, ⟨q.k + 0.0001, q.y1, q.z1⟩⟩)

/-! ## moving_sphere.h -/

/-- The class `MovingSphere`. -/
structure MovingSphere (F : Type) where
  center0 : Vec3 F
  center1 : Vec3 F
  time0 : F
  time1 : F
  radius : F
  mat_ptr : Option (Material F)

/-- The method `MovingSphere::center(time)`, in exact arithmetic.  It divides by
`time1 - time0`: it follows the `double` computation where `time0 ≠ time1`.
`MovingSphere.center_ieee` follows a zero divisor. -/
def MovingSphere.center (s : MovingSphere F) (time : F) : Vec3 F :=
  s.center0 + ((time - s.time0) / (s.time1 - s.time0)) * (s.center1 - s.center0)

/-- The method `MovingSphere::hit`, in exact arithmetic; it leaves `rec.u` and
`rec.v` as they were.  It divides by `a = |direction|²`, by `radius` and, through
`center`, by `time1 - time0`: it follows the `double` computation where the
direction is not the zero vector, the radius is not zero and `time0 ≠ time1`.
`MovingSphere.hit_ieee` follows a zero divisor. -/
def MovingSphere.hit (env : Env F) (s : MovingSphere F) (r : Ray F) (t_min t_max : Ext F)
    (rec : HitRecord F) : Bool × HitRecord F :=
  let oc := r.origin - s.center r.time
  let a := r.direction.length_squared
  let half_b := Vec3.dot oc r.direction
  let c := oc.length_squared - s.radius * s.radius
  let discriminant := half_b * half_b - a * c
  if discriminant < 0 then (false, rec)
  else
    let sqrtd := env.sqrt discriminant
    let finish (root : F) : Bool × HitRecord F :=
      let rec1 := { rec with t := root }
      let rec2 := { rec1 with p := r.at rec1.t }
      let outward_normal := (rec2.p - s.center r.time) / s.radius
      let rec3 := rec2.set_face_normal r outward_normal
      (true, { rec3 with mat_ptr := s.mat_ptr })
    let root := (-half_b - sqrtd) / a
    if Ext.fin root < t_min ∨ t_max < Ext.fin root then
      let root := (-half_b + sqrtd) / a
      if Ext.fin root < t_min ∨ t_max < Ext.fin root then (false, rec)
      else finish root
    else finish root

/-! ## hittable.h: the decorators -/

/-- The class `Translate`; `pdf_value` and `random` are not overridden. -/
def Translate (ptr : Hittable F) (offset : Vec3 F) : Hittable F where
  hit := fun r t_min t_max rec g =>
    let moved_r : Ray F := ⟨r.origin - offset, r.direction, r.time⟩
    let res := ptr.hit moved_r t_min t_max rec g
    if ¬ res.1.1 then ((false, res.1.2), res.2)
    else
      let rec1 := { res.1.2 with p := res.1.2.p + offset }
      ((true, rec1.set_face_normal moved_r rec1.normal), res.2)
  bounding_box := fun time0 time1 output_box =>
    let res := ptr.bounding_box time0 time1 output_box
    if ¬ res.1 then (false, res.2)
    else (true, ⟨res.2.minimum + offset, res.2.maximum + offset⟩)
  pdf_value := Hittable.default_pdf_value
  random := Hittable.default_random

/-- The function `degrees_to_radians` of `rtweekend.h`. -/
def degrees_to_radians (degrees : F) : F := degrees * PI / 180.0

/-- The calls `fmin(a, x)` of the rotation constructors: `a` is the running
minimum, which starts at `INF`. -/
def Ext.fmin (a : Ext F) (x : F) : Ext F :=
  match a with
  | .posInf => .fin x
  | .fin y => .fin (min y x)
  | .negInf => .negInf

/-- The calls `fmax(a, x)` of the rotation constructors: `a` is the running
maximum, which starts at `-INF`. -/
def Ext.fmax (a : Ext F) (x : F) : Ext F :=
  match a with
  | .negInf => .fin x
  | .fin y => .fin (max y x)
  | .posInf => .posInf

/-- The number a bound holds when it is finite.  (The constructors store their
extrema after the eight corners have made them finite; an infinite bound has
no number in `F`.) -/
def Ext.val (a : Ext F) : F :=
  match a with
  | .fin x => x
  | _ => 0

/-- The innermost loop of the rotation constructors,
`for (c = 0; c < 3; c++) { min[c] = fmin(min[c], tester[c]); max[c] = fmax(max[c], tester[c]); }`,
on the pair of the locals `min` and `max`. -/
def extend_extrema (acc : Vec3 (Ext F) × Vec3 (Ext F)) (tester : Vec3 F) :
    Vec3 (Ext F) × Vec3 (Ext F) :=
  (⟨acc.1.x.fmin tester.x, acc.1.y.fmin tester.y, acc.1.z.fmin tester.z⟩,
   ⟨acc.2.x.fmax tester.x, acc.2.y.fmax tester.y, acc.2.z.fmax tester.z⟩)

/-- The three nested loops `for i, j, k in 0, 1` of the rotation constructors
over the corners of `bbox`; `tester x y z` is the vector the body builds from
the corner, and the locals start as `min(INF, INF, INF)`, `max(-INF, -INF, -INF)`.
The result is the box `Aabb(min, max)`. -/
def rotated_box (bbox : Aabb F) (tester : F → F → F → Vec3 F) : Aabb F :=
  let init : Vec3 (Ext F) × Vec3 (Ext F) :=
    (⟨.posInf, .posInf, .posInf⟩, ⟨.negInf, .negInf, .negInf⟩)
  let acc := ([0, 1] : List F).foldl (fun acc i =>
    ([0, 1] : List F).foldl (fun acc j =>
      ([0, 1] : List F).foldl (fun acc k =>
        let x := i * bbox.maximum.x + (1 - i) * bbox.minimum.x
        let y := j * bbox.maximum.y + (1 - j) * bbox.minimum.y
        let z := k * bbox.maximum.z + (1 - k) * bbox.minimum.z
        extend_extrema acc (tester x y z)) acc) acc) init
  ⟨⟨acc.1.x.val, acc.1.y.val, acc.1.z.val⟩, ⟨acc.2.x.val, acc.2.y.val, acc.2.z.val⟩⟩

/-- The class `RotateX`. -/
structure RotateX (F : Type) where
  ptr : Hittable F
  sin_theta : F
  cos_theta : F
  hasbox : Bool
  bbox : Aabb F

/-- The class `RotateY`. -/
structure RotateY (F : Type) where
  ptr : Hittable F
  sin_theta : F
  cos_theta : F
  hasbox : Bool
  bbox : Aabb F

/-- The class `RotateZ`. -/
structure RotateZ (F : Type) where
  ptr : Hittable F
  sin_theta : F
  cos_theta : F
  hasbox : Bool
  bbox : Aabb F

/-- The constructor `RotateX::RotateX(p, angle)`; `junk` is the content of the
member `bbox` before `ptr->bounding_box(0, 1, bbox)` writes it. -/
def RotateX.construct (env : Env F) (junk : Aabb F) (p : Hittable F) (angle : F) : RotateX F :=
  let radians := degrees_to_radians angle
  let sin_theta := env.sin radians
  let cos_theta := env.cos radians
  let bb := p.bounding_box 0 1 junk
  let bbox := rotated_box bb.2 (fun x y z =>
    let newy := cos_theta * y - sin_theta * z
    let newz := sin_theta * y + cos_theta * z
    ⟨newy, x, newz⟩)
  ⟨p, sin_theta, cos_theta, bb.1, bbox⟩

/-- The constructor `RotateY::RotateY(p, angle)`; `junk` is the content of the
member `bbox` before `ptr->bounding_box(0, 1, bbox)` writes it. -/
def RotateY.construct (env : Env F) (junk : Aabb F) (p : Hittable F) (angle : F) : RotateY F :=
  let radians := degrees_to_radians angle
  let sin_theta := env.sin radians
  let cos_theta := env.cos radians
  let bb := p.bounding_box 0 1 junk
  let bbox := rotated_box bb.2 (fun x y z =>
    let newx := cos_theta * x + sin_theta * z
    let newz := -sin_theta * x + cos_theta * z
    ⟨newx, y, newz⟩)
  ⟨p, sin_theta, cos_theta, bb.1, bbox⟩

/-- The constructor `RotateZ::RotateZ(p, angle)`; `junk` is the content of the
member `bbox` before `ptr->bounding_box(0, 1, bbox)` writes it. -/
def RotateZ.construct (env : Env F) (junk : Aabb F) (p : Hittable F) (angle : F) : RotateZ F :=
  let radians := degrees_to_radians angle
  let sin_theta := env.sin radians
  let cos_theta := env.cos radians
  let bb := p.bounding_box 0 1 junk
  let bbox := rotated_box bb.2 (fun x y z =>
    let newx := cos_theta * x - sin_theta * y
    let newy := sin_theta * x + cos_theta * y
    ⟨newx, newy, z⟩)
  ⟨p, sin_theta, cos_theta, bb.1, bbox⟩

/-- The method `RotateX::hit`. -/
def RotateX.hit (q : RotateX F) (r : Ray F) (t_min t_max : Ext F) (rec : HitRecord F)
    (g : Rng F) : (Bool × HitRecord F) × Rng F :=
  let origin : Vec3 F :=
    ⟨r.origin.x,
     q.cos_theta * r.origin.y + q.sin_theta * r.origin.z,
     -q.sin_theta * r.origin.y + q.cos_theta * r.origin.z⟩
  let direction : Vec3 F :=
    ⟨r.direction.x,
     q.cos_theta * r.direction.y + q.sin_theta * r.direction.z,
     -q.sin_theta * r.direction.y + q.cos_theta * r.direction.z⟩
  let rotated_r : Ray F := ⟨origin, direction, r.time⟩
  let res := q.ptr.hit rotated_r t_min t_max rec g
  if ¬ res.1.1 then ((false, res.1.2), res.2)
  else
    let rec1 := res.1.2
    let p : Vec3 F :=
      ⟨rec1.p.x,
       q.cos_theta * rec1.p.y - q.sin_theta * rec1.p.z,
       q.sin_theta * rec1.p.y + q.cos_theta * rec1.p.z⟩
    let normal : Vec3 F :=
      ⟨rec1.normal.x,
       q.cos_theta * rec1.normal.y - q.sin_theta * rec1.normal.z,
       q.sin_theta * rec1.normal.y + q.cos_theta * rec1.normal.z⟩
    let rec2 := { rec1 with p := p }
    ((true, rec2.set_face_normal rotated_r normal), res.2)

/-- The method `RotateY::hit`. -/
def RotateY.hit (q : RotateY F) (r : Ray F) (t_min t_max : Ext F) (rec : HitRecord F)
    (g : Rng F) : (Bool × HitRecord F) × Rng F :=
  let origin : Vec3 F :=
    ⟨q.cos_theta * r.origin.x - q.sin_theta * r.origin.z,
     r.origin.y,
     q.sin_theta * r.origin.x + q.cos_theta * r.origin.z⟩
  let direction : Vec3 F :=
    ⟨q.cos_theta * r.direction.x - q.sin_theta * r.direction.z,
     r.direction.y,
     q.sin_theta * r.direction.x + q.cos_theta * r.direction.z⟩
  let rotated_r : Ray F := ⟨origin, direction, r.time⟩
  let res := q.ptr.hit rotated_r t_min t_max rec g
  if ¬ res.1.1 then ((false, res.1.2), res.2)
  else
    let rec1 := res.1.2
    let p : Vec3 F :=
      ⟨q.cos_theta * rec1.p.x + q.sin_theta * rec1.p.z,
       rec1.p.y,
       -q.sin_theta * rec1.p.x + q.cos_theta * rec1.p.z⟩
    let normal : Vec3 F :=
      ⟨q.cos_theta * rec1.normal.x + q.sin_theta * rec1.normal.z,
       rec1.normal.y,
       -q.sin_theta * rec1.normal.x + q.cos_theta * rec1.normal.z⟩
    let rec2 := { rec1 with p := p }
    ((true, rec2.set_face_normal rotated_r normal), res.2)

/-- The method `RotateZ::hit`. -/
def RotateZ.hit (q : RotateZ F) (r : Ray F) (t_min t_max : Ext F) (rec : HitRecord F)
    (g : Rng F) : (Bool × HitRecord F) × Rng F :=
  let origin : Vec3 F :=
    ⟨q.cos_theta * r.origin.x + q.sin_theta * r.origin.y,
     -q.sin_theta * r.origin.x + q.cos_theta * r.origin.y,
     r.origin.z⟩
  let direction : Vec3 F :=
    ⟨q.cos_theta * r.direction.x + q.sin_theta * r.direction.y,
     -q.sin_theta * r.direction.x + q.cos_theta * r.direction.y,
     r.direction.z⟩
  let rotated_r : Ray F := ⟨origin, direction, r.time⟩
  let res := q.ptr.hit rotated_r t_min t_max rec g
  if ¬ res.1.1 then ((false, res.1.2), res.2)
  else
    let rec1 := res.1.2
    let p : Vec3 F :=
      ⟨q.cos_theta * rec1.p.x - q.sin_theta * rec1.p.y,
       q.sin_theta * rec1.p.x + q.cos_theta * rec1.p.y,
       rec1.p.z⟩
    let normal : Vec3 F :=
      ⟨q.cos_theta * rec1.normal.x - q.sin_theta * rec1.normal.y,
       q.sin_theta * rec1.normal.x + q.cos_theta * rec1.normal.y,
       rec1.normal.z⟩
    let rec2 := { rec1 with p := p }
    ((true, rec2.set_face_normal rotated_r normal), res.2)

/-- A `RotateX` behind a `Hittable` pointer: `bounding_box` returns the stored
`bbox` and `hasbox`; `pdf_value` and `random` are not overridden. -/
def RotateX.toHittable (q : RotateX F) : Hittable F where
  hit := q.hit
  bounding_box := fun _ _ _ => (q.hasbox, q.bbox)
  pdf_value := Hittable.default_pdf_value
  random := Hittable.default_random

/-- A `RotateY` behind a `Hittable` pointer: `bounding_box` returns the stored
`bbox` and `hasbox`; `pdf_value` and `random` are not overridden. -/
def RotateY.toHittable (q : RotateY F) : Hittable F where
  hit := q.hit
  bounding_box := fun _ _ _ => (q.hasbox, q.bbox)
  pdf_value := Hittable.default_pdf_value
  random := Hittable.default_random

/-- A `RotateZ` behind a `Hittable` pointer: `bounding_box` returns the stored
`bbox` and `hasbox`; `pdf_value` and `random` are not overridden. -/
def RotateZ.toHittable (q : RotateZ F) : Hittable F where
  hit := q.hit
  bounding_box := fun _ _ _ => (q.hasbox, q.bbox)
  pdf_value := Hittable.default_pdf_value
  random := Hittable.default_random

/-- The parameter `t = (k - origin.z) / direction.z` at which `XYRect::hit` puts
the crossing of the plane `z = k`. -/
def XYRect.t_plane (q : XYRect F) (r : Ray F) : F := (q.k - r.origin.z) / r.direction.z

/-- The parameter `t = (k - origin.y) / direction.y` at which `XZRect::hit` puts
the crossing of the plane `y = k`. -/
def XZRect.t_plane (q : XZRect F) (r : Ray F) : F := (q.k - r.origin.y) / r.direction.y

/-- The parameter `t = (k - origin.x) / direction.x` at which `YZRect::hit` puts
the crossing of the plane `x = k`. -/
def YZRect.t_plane (q : YZRect F) (r : Ray F) : F := (q.k - r.origin.x) / r.direction.x

/-! ## aarect.h in IEEE 754 arithmetic

The rectangles divide by the direction component along their normal.  When that
component is zero the quotient is no number of `F`: on `double` it is an
infinity or NaN.  The definitions below repeat the tests of the three `hit`
methods on values that may be infinite or NaN, to follow a zero divisor through
them. -/

/-- A `double`: NaN, an infinity, or a number (taken exactly). -/
inductive Dbl (F : Type) where
  | nan : Dbl F
  | negInf : Dbl F
  | fin (x : F) : Dbl F
  | posInf : Dbl F

namespace Dbl

/-- The IEEE quotient `n / d` of two numbers.  When `d` is zero, `negZero` is its
sign bit (`d` is `-0.0`): `0 / ±0` is NaN and `n / ±0` is the infinity whose sign
is the product of the signs. -/
def div (n d : F) (negZero : Bool) : Dbl F :=
  if d ≠ 0 then .fin (n / d)
  else if n = 0 then .nan
  else if decide (0 < n) = negZero then .negInf else .posInf

/-- The IEEE product `t * x` of a `double` and a number: NaN stays NaN and
`±INF * 0` is NaN. -/
def mul (t : Dbl F) (x : F) : Dbl F :=
  match t with
  | .nan => .nan
  | .fin a => .fin (a * x)
  | .posInf => if x = 0 then .nan else if 0 < x then .posInf else .negInf
  | .negInf => if x = 0 then .nan else if 0 < x then .negInf else .posInf

/-- The IEEE sum `o + t` of a number and a `double`. -/
def add (o : F) (t : Dbl F) : Dbl F :=
  match t with
  | .nan => .nan
  | .fin a => .fin (o + a)
  | .posInf => .posInf
  | .negInf => .negInf

/-- The IEEE comparison `a < b`, false as soon as one side is NaN. -/
def lt (a b : Dbl F) : Bool :=
  match a, b with
  | .nan, _ => false
  | _, .nan => false
  | .negInf, .negInf => false
  | .negInf, _ => true
  | .fin x, .fin y => decide (x < y)
  | .fin _, .posInf => true
  | _, _ => false

/-- An interval bound as a `double`. -/
def ofExt (a : Ext F) : Dbl F :=
  match a with
  | .negInf => .negInf
  | .fin x => .fin x
  | .posInf => .posInf

end Dbl

/-- The tests of `XYRect::hit` in IEEE arithmetic: the flag it returns and the
value it computes for `t` (which it writes to `rec.t` when the flag is true).
`negZero` is the sign bit of `r.direction().z()` when that is zero. -/
def XYRect.hit_ieee (q : XYRect F) (r : Ray F) (negZero : Bool) (t_min t_max : Ext F) :
    Bool × Dbl F :=
  let t := Dbl.div (q.k - r.origin.z) r.direction.z negZero
  if t.lt (Dbl.ofExt t_min) = true ∨ (Dbl.ofExt t_max).lt t = true then (false, t)
  else
    let x := Dbl.add r.origin.x (t.mul r.direction.x)
    let y := Dbl.add r.origin.y (t.mul r.direction.y)
    if x.lt (.fin q.x0) = true ∨ (Dbl.fin q.x1).lt x = true ∨
        y.lt (.fin q.y0) = true ∨ (Dbl.fin q.y1).lt y = true then (false, t)
    else (true, t)

/-- The tests of `XZRect::hit` in IEEE arithmetic: the flag it returns and the
value it computes for `t` (which it writes to `rec.t` when the flag is true).
`negZero` is the sign bit of `r.direction().y()` when that is zero. -/
def XZRect.hit_ieee (q : XZRect F) (r : Ray F) (negZero : Bool) (t_min t_max : Ext F) :
    Bool × Dbl F :=
  let t := Dbl.div (q.k - r.origin.y) r.direction.y negZero
  if t.lt (Dbl.ofExt t_min) = true ∨ (Dbl.ofExt t_max).lt t = true then (false, t)
  else
    let x := Dbl.add r.origin.x (t.mul r.direction.x)
    let z := Dbl.add r.origin.z (t.mul r.direction.z)
    if x.lt (.fin q.x0) = true ∨ (Dbl.fin q.x1).lt x = true ∨
        z.lt (.fin q.z0) = true ∨ (Dbl.fin q.z1).lt z = true then (false, t)
    else (true, t)

/-- The tests of `YZRect::hit` in IEEE arithmetic: the flag it returns and the
value it computes for `t` (which it writes to `rec.t` when the flag is true).
`negZero` is the sign bit of `r.direction().x()` when that is zero. -/
def YZRect.hit_ieee (q : YZRect F) (r : Ray F) (negZero : Bool) (t_min t_max : Ext F) :
    Bool × Dbl F :=
  let t := Dbl.div (q.k - r.origin.x) r.direction.x negZero
  if t.lt (Dbl.ofExt t_min) = true ∨ (Dbl.ofExt t_max).lt t = true then (false, t)
  else
    let y := Dbl.add r.origin.y (t.mul r.direction.y)
    let z := Dbl.add r.origin.z (t.mul r.direction.z)
    if y.lt (.fin q.y0) = true ∨ (Dbl.fin q.y1).lt y = true ∨
        z.lt (.fin q.z0) = true ∨ (Dbl.fin q.z1).lt z = true then (false, t)
    else (true, t)

/-- The eight corners of a box, in the order the loops `i`, `j`, `k` of the
rotation constructors visit them (`0` picks the `min()` coordinate, `1` the
`max()` coordinate). -/
def Aabb.corners (b : Aabb F) : List (Vec3 F) :=
  [⟨b.minimum.x, b.minimum.y, b.minimum.z⟩, ⟨b.minimum.x, b.minimum.y, b.maximum.z⟩,
   ⟨b.minimum.x, b.maximum.y, b.minimum.z⟩, ⟨b.minimum.x, b.maximum.y, b.maximum.z⟩,
   ⟨b.maximum.x, b.minimum.y, b.minimum.z⟩, ⟨b.maximum.x, b.minimum.y, b.maximum.z⟩,
   ⟨b.maximum.x, b.maximum.y, b.minimum.z⟩, ⟨b.maximum.x, b.maximum.y, b.maximum.z⟩]

/-- The point `v` lies in the box `b`. -/
def Aabb.contains (b : Aabb F) (v : Vec3 F) : Prop :=
  b.minimum.x ≤ v.x ∧ v.x ≤ b.maximum.x ∧ b.minimum.y ≤ v.y ∧ v.y ≤ b.maximum.y ∧
  b.minimum.z ≤ v.z ∧ v.z ≤ b.maximum.z

/-- The map `RotateX::hit` applies to the hit point of the child (object space
to world space): `x` unchanged, `y` and `z` rotated. -/
def RotateX.to_world (q : RotateX F) (v : Vec3 F) : Vec3 F :=
  ⟨v.x, q.cos_theta * v.y - q.sin_theta * v.z, q.sin_theta * v.y + q.cos_theta * v.z⟩

/-- The map `RotateY::hit` applies to the hit point of the child (object space
to world space): `y` unchanged, `x` and `z` rotated. -/
def RotateY.to_world (q : RotateY F) (v : Vec3 F) : Vec3 F :=
  ⟨q.cos_theta * v.x + q.sin_theta * v.z, v.y, -q.sin_theta * v.x + q.cos_theta * v.z⟩

/-- The map `RotateZ::hit` applies to the hit point of the child (object space
to world space): `z` unchanged, `x` and `y` rotated. -/
def RotateZ.to_world (q : RotateZ F) (v : Vec3 F) : Vec3 F :=
  ⟨q.cos_theta * v.x - q.sin_theta * v.y, q.sin_theta * v.x + q.cos_theta * v.y, v.z⟩

/-- The least value of `f` over the eight corners of the box. -/
def Aabb.corner_min (b : Aabb F) (f : Vec3 F → F) : F :=
  match b.corners.map f with
  | [] => 0
  | a :: l => l.foldl min a

/-- The greatest value of `f` over the eight corners of the box. -/
def Aabb.corner_max (b : Aabb F) (f : Vec3 F → F) : F :=
  match b.corners.map f with
  | [] => 0
  | a :: l => l.foldl max a

/-- The map `RotateX::hit` applies to the origin and the direction of the ray
(world space to object space). -/
def RotateX.to_object (q : RotateX F) (v : Vec3 F) : Vec3 F :=
  ⟨v.x, q.cos_theta * v.y + q.sin_theta * v.z, -q.sin_theta * v.y + q.cos_theta * v.z⟩

/-- The map `RotateY::hit` applies to the origin and the direction of the ray
(world space to object space). -/
def RotateY.to_object (q : RotateY F) (v : Vec3 F) : Vec3 F :=
  ⟨q.cos_theta * v.x - q.sin_theta * v.z, v.y, q.sin_theta * v.x + q.cos_theta * v.z⟩

/-- The map `RotateZ::hit` applies to the origin and the direction of the ray
(world space to object space). -/
def RotateZ.to_object (q : RotateZ F) (v : Vec3 F) : Vec3 F :=
  ⟨q.cos_theta * v.x + q.sin_theta * v.y, -q.sin_theta * v.x + q.cos_theta * v.y, v.z⟩

/-- The local `rotated_r` of `RotateX::hit`. -/
def RotateX.rotated_r (q : RotateX F) (r : Ray F) : Ray F :=
  ⟨q.to_object r.origin, q.to_object r.direction, r.time⟩

/-- The local `rotated_r` of `RotateY::hit`. -/
def RotateY.rotated_r (q : RotateY F) (r : Ray F) : Ray F :=
  ⟨q.to_object r.origin, q.to_object r.direction, r.time⟩

/-- The local `rotated_r` of `RotateZ::hit`. -/
def RotateZ.rotated_r (q : RotateZ F) (r : Ray F) : Ray F :=
  ⟨q.to_object r.origin, q.to_object r.direction, r.time⟩

/-- The box `box` is the componentwise minimum and maximum of the eight corners
of `b` mapped through `f`: it contains every mapped corner, and each of its six
bounds is the coordinate of a mapped corner. -/
def Aabb.is_corner_hull (box b : Aabb F) (f : Vec3 F → Vec3 F) : Prop :=
  (∀ c ∈ b.corners, box.contains (f c)) ∧
  (∃ c ∈ b.corners, box.minimum.x = (f c).x) ∧ (∃ c ∈ b.corners, box.minimum.y = (f c).y) ∧
  (∃ c ∈ b.corners, box.minimum.z = (f c).z) ∧ (∃ c ∈ b.corners, box.maximum.x = (f c).x) ∧
  (∃ c ∈ b.corners, box.maximum.y = (f c).y) ∧ (∃ c ∈ b.corners, box.maximum.z = (f c).z)

/-! ## rtweekend.h: random numbers in a range -/

/-- The overload `random_double2(min, max)` of `rtweekend.h`:
`min + (max - min) * random_double2()`. -/
def random_double2_range (min max : F) (g : Rng F) : F × Rng F :=
  (min + (max - min) * (random_double2 g).1, (random_double2 g).2)

/-- The conversion `static_cast<int>(x)` of a `double`: the fractional part is
discarded (truncation toward zero).  The result is taken in `ℤ`; the conversion
is defined in C++ only when it fits an `int`. -/
def static_cast_int [FloorRing F] (x : F) : ℤ := if 0 ≤ x then ⌊x⌋ else ⌈x⌉

/-- The function `random_int(min, max)` of `rtweekend.h`:
`static_cast<int>(random_double2(min, max + 1))`.  The `int` arguments are
taken in `ℤ` (`max + 1` is evaluated on `int` before the conversion to
`double`, so `max` is below `INT_MAX`). -/
def random_int [FloorRing F] (min max : ℤ) (g : Rng F) : ℤ × Rng F :=
  (static_cast_int (random_double2_range (min : F) ((max + 1 : ℤ) : F) g).1,
    (random_double2_range (min : F) ((max + 1 : ℤ) : F) g).2)

/-! ## constant_medium.h -/

/-- The class `ConstantMedium`. -/
structure ConstantMedium (F : Type) where
  boundary : Hittable F
  neg_inv_density : F
  phase_function : Option (Material F)

/-- The constructor `ConstantMedium(b, d, a)` with a texture:
`boundary(b), neg_inv_density(-1/d), phase_function(make_shared<Isotropic>(a))`. -/
def ConstantMedium.construct (b : Hittable F) (d : F) (a : Texture F) : ConstantMedium F :=
  ⟨b, -1 / d, some (.isotropic a)⟩

/-- The constructor `ConstantMedium(b, d, c)` with a colour; `Isotropic(Color c)`
wraps the colour in a `SolidColor`. -/
def ConstantMedium.construct_color (b : Hittable F) (d : F) (c : Vec3 F) : ConstantMedium F :=
  ⟨b, -1 / d, some (.isotropic (.solidColor c))⟩

/-- The locals `rec1.t` and `rec2.t` of `ConstantMedium::hit` after the two
statements `if (rec1.t < t_min) rec1.t = t_min; if (rec2.t > t_max) rec2.t = t_max;`,
for the values `entry` and `exit` the boundary reported.  The bounds may be
`INF` or `-INF`, so the clamped values may be. -/
def ConstantMedium.clamp_interval (entry exit : F) (t_min t_max : Ext F) : Ext F × Ext F :=
  (if Ext.fin entry < t_min then t_min else Ext.fin entry,
   if Ext.fin exit > t_max then t_max else Ext.fin exit)

/-- The method `ConstantMedium::hit` (`enableDebug` is the constant `false`, so
`debugging` is false and its `random_double2()` is not evaluated).  `junk1` and
`junk2` are the contents of the uninitialised locals `rec1` and `rec2`.  Past
the test `rec1.t >= rec2.t` both clamped values are numbers. -/
def ConstantMedium.hit (env : Env F) (junk1 junk2 : HitRecord F) (m : ConstantMedium F)
    (r : Ray F) (t_min t_max : Ext F) (rec : HitRecord F) (g : Rng F) :
    (Bool × HitRecord F) × Rng F :=
  let res1 := m.boundary.hit r Ext.negInf Ext.posInf junk1 g
  if ¬ res1.1.1 then ((false, rec), res1.2)
  else
    let res2 := m.boundary.hit r (Ext.fin (res1.1.2.t + 0.0001)) Ext.posInf junk2 res1.2
    if ¬ res2.1.1 then ((false, rec), res2.2)
    else
      let c := ConstantMedium.clamp_interval res1.1.2.t res2.1.2.t t_min t_max
      if c.1 ≥ c.2 then ((false, rec), res2.2)
      else
        let rec1t := if c.1.val < 0 then 0 else c.1.val
        let rec2t := c.2.val
        let ray_length := r.direction.length env
        let distance_inside_boundary := (rec2t - rec1t) * ray_length
        let draw := random_double2 res2.2
        let hit_distance := m.neg_inv_density * env.log draw.1
        if hit_distance > distance_inside_boundary then ((false, rec), draw.2)
        else
          let t := rec1t + hit_distance / ray_length
          ((true, { rec with t := t,
                             p := r.at t,
                             normal := ⟨1, 0, 0⟩,
                             front_face := true,
                             mat_ptr := m.phase_function }), draw.2)

/-- A `ConstantMedium` behind a `Hittable` pointer: `bounding_box` is the
boundary's; `pdf_value` and `random` are not overridden. -/
def ConstantMedium.toHittable (env : Env F) (junk1 junk2 : HitRecord F) (m : ConstantMedium F) :
    Hittable F where
  hit := ConstantMedium.hit env junk1 junk2 m
  bounding_box := fun time0 time1 output_box => m.boundary.bounding_box time0 time1 output_box
  pdf_value := Hittable.default_pdf_value
  random := Hittable.default_random

/-! ## aarect.h: the density of `XZRect` -/

/-- The method `XZRect::pdf_value`; `junk` is the content of the uninitialised
local `HitRecord rec`. -/
def XZRect.pdf_value (env : Env F) (q : XZRect F) (junk : HitRecord F) (origin v : Vec3 F) : F :=
  let res := q.hit (Ray.mk2 origin v) (Ext.fin 0.001) Ext.posInf junk
  if ¬ res.1 then 0
  else
    let area := (q.x1 - q.x0) * (q.z1 - q.z0)
    let distance_squared := res.2.t * res.2.t * v.length_squared
    let cosine := |Vec3.dot v res.2.normal / v.length env|
    distance_squared / (cosine * area)

/-! ## material.h: members and locals the statements name -/

/-- The member `fuzz` of a `Metal`; the other materials have none. -/
def Material.metal_fuzz : Material F → Option F
  | .metal _ fuzz => some fuzz
  | _ => none

/-- The local `refraction_ratio` of `Dielectric::scatter`. -/
def Dielectric.refraction_ratio (ir : F) (rec : HitRecord F) : F :=
  if rec.front_face then 1.0 / ir else ir

/-- The local `cos_theta` of `Dielectric::scatter`. -/
def Dielectric.cos_theta (env : Env F) (r_in : Ray F) (rec : HitRecord F) : F :=
  min (Vec3.dot (-(Vec3.normal env r_in.direction)) rec.normal) 1.0

/-- The local `sin_theta` of `Dielectric::scatter`. -/
def Dielectric.sin_theta (env : Env F) (r_in : Ray F) (rec : HitRecord F) : F :=
  env.sqrt (1.0 - Dielectric.cos_theta env r_in rec * Dielectric.cos_theta env r_in rec)

/-! ## moving_sphere.h: the static sphere a moving sphere is compared with -/

/-- The static sphere of the comparison: the `Sphere` of the same radius and
material whose centre is `center0 + ((tau - time0) / (time1 - time0)) * (center1 - center0)`. -/
def MovingSphere.static_at (s : MovingSphere F) (tau : F) : Sphere F :=
  ⟨s.center0 + ((tau - s.time0) / (s.time1 - s.time0)) * (s.center1 - s.center0),
    s.radius, s.mat_ptr⟩

/-! ## constant_medium.h: the locals of `ConstantMedium::hit` -/

/-- The answer of the first call `boundary->hit(r, -INF, INF, rec1)`. -/
def ConstantMedium.first_hit (m : ConstantMedium F) (junk1 : HitRecord F) (r : Ray F)
    (g : Rng F) : (Bool × HitRecord F) × Rng F :=
  m.boundary.hit r Ext.negInf Ext.posInf junk1 g

/-- The answer of the second call `boundary->hit(r, rec1.t + 0.0001, INF, rec2)`. -/
def ConstantMedium.second_hit (m : ConstantMedium F) (junk1 junk2 : HitRecord F) (r : Ray F)
    (g : Rng F) : (Bool × HitRecord F) × Rng F :=
  m.boundary.hit r (Ext.fin ((m.first_hit junk1 r g).1.2.t + 0.0001)) Ext.posInf junk2
    (m.first_hit junk1 r g).2

/-- The locals `rec1.t`, `rec2.t` after the clamping to `[t_min, t_max]`. -/
def ConstantMedium.clamped (m : ConstantMedium F) (junk1 junk2 : HitRecord F) (r : Ray F)
    (t_min t_max : Ext F) (g : Rng F) : Ext F × Ext F :=
  ConstantMedium.clamp_interval (m.first_hit junk1 r g).1.2.t (m.second_hit junk1 junk2 r g).1.2.t
    t_min t_max

/-- The three early returns of `ConstantMedium::hit` are not taken: both calls
of the boundary report a hit and the clamped `rec1.t` is below the clamped
`rec2.t`. -/
def ConstantMedium.reaches_sampling (m : ConstantMedium F) (junk1 junk2 : HitRecord F)
    (r : Ray F) (t_min t_max : Ext F) (g : Rng F) : Prop :=
  (m.first_hit junk1 r g).1.1 = true ∧ (m.second_hit junk1 junk2 r g).1.1 = true ∧
    (m.clamped junk1 junk2 r t_min t_max g).1 < (m.clamped junk1 junk2 r t_min t_max g).2

/-- The local `rec1.t` after `if (rec1.t < 0) rec1.t = 0;`. -/
def ConstantMedium.rec1_t (m : ConstantMedium F) (junk1 junk2 : HitRecord F) (r : Ray F)
    (t_min t_max : Ext F) (g : Rng F) : F :=
  if (m.clamped junk1 junk2 r t_min t_max g).1.val < 0 then 0
  else (m.clamped junk1 junk2 r t_min t_max g).1.val

/-- The local `distance_inside_boundary`: the path length inside the boundary. -/
def ConstantMedium.distance_inside_boundary (env : Env F) (m : ConstantMedium F)
    (junk1 junk2 : HitRecord F) (r : Ray F) (t_min t_max : Ext F) (g : Rng F) : F :=
  ((m.clamped junk1 junk2 r t_min t_max g).2.val - m.rec1_t junk1 junk2 r t_min t_max g) *
    r.direction.length env

/-- The number `random_double2()` returns inside `ConstantMedium::hit`. -/
def ConstantMedium.sampled_draw (m : ConstantMedium F) (junk1 junk2 : HitRecord F) (r : Ray F)
    (g : Rng F) : F :=
  (random_double2 (m.second_hit junk1 junk2 r g).2).1

/-- The local `hit_distance`. -/
def ConstantMedium.hit_distance (env : Env F) (m : ConstantMedium F)
    (junk1 junk2 : HitRecord F) (r : Ray F) (g : Rng F) : F :=
  m.neg_inv_density * env.log (m.sampled_draw junk1 junk2 r g)

/-! ## aarect.h in IEEE 754 arithmetic: the density of `XZRect` -/

/-- The IEEE product of two `double`s: NaN stays NaN, `±INF * 0` is NaN. -/
def Dbl.mulD (a b : Dbl F) : Dbl F :=
  match b with
  | .nan => .nan
  | .fin y => a.mul y
  | .posInf =>
    match a with
    | .nan => .nan
    | .fin x => (Dbl.posInf).mul x
    | .posInf => .posInf
    | .negInf => .negInf
  | .negInf =>
    match a with
    | .nan => .nan
    | .fin x => (Dbl.negInf).mul x
    | .posInf => .negInf
    | .negInf => .posInf

/-- The function `fabs` on a `double`. -/
def Dbl.abs (a : Dbl F) : Dbl F :=
  match a with
  | .nan => .nan
  | .fin x => .fin |x|
  | _ => .posInf

/-- The IEEE quotient of two `double`s.  `negZero` is the sign bit of the
divisor when it is zero.  A number over an infinity is a zero, an infinity over
an infinity is NaN. -/
def Dbl.divD (a b : Dbl F) (negZero : Bool) : Dbl F :=
  match a, b with
  | .nan, _ => .nan
  | _, .nan => .nan
  | .fin n, .fin d => Dbl.div n d negZero
  | .fin _, _ => .fin 0
  | .posInf, .fin d =>
    if d = 0 then (if negZero then .negInf else .posInf)
    else if 0 < d then .posInf else .negInf
  | .negInf, .fin d =>
    if d = 0 then (if negZero then .posInf else .negInf)
    else if 0 < d then .negInf else .posInf
  | _, _ => .nan

/-- The method `XZRect::pdf_value` in IEEE arithmetic, on the flag and the `t`
of `XZRect.hit_ieee`.  The normal is the one `set_face_normal` stores, a vector
of numbers.  `negZero` is the sign bit of `v.y()` when that is zero, `negArea`
the sign bit of `cosine * area` when that is zero (`v.length()` is never `-0.0`,
and `fabs` discards the sign of its argument). -/
def XZRect.pdf_value_ieee (env : Env F) (q : XZRect F) (junk : HitRecord F)
    (negZero negArea : Bool) (origin v : Vec3 F) : Dbl F :=
  let res := q.hit_ieee (Ray.mk2 origin v) negZero (Ext.fin 0.001) Ext.posInf
  if ¬ res.1 then Dbl.fin 0
  else
    let normal := (junk.set_face_normal (Ray.mk2 origin v) ⟨0, 1, 0⟩).normal
    let area := (q.x1 - q.x0) * (q.z1 - q.z0)
    let distance_squared := (res.2.mulD res.2).mul v.length_squared
    let cosine := (Dbl.div (Vec3.dot v normal) (v.length env) false).abs
    Dbl.divD distance_squared (cosine.mul area) negArea

/-! ## main.cpp: the coordinates of a sample -/

/-- The two statements
`auto u = (i + random_double2()) / (image_width - 1);`
`auto v = (j + random_double2()) / (image_height - 1);`
of the pixel task: the pair `(u, v)` handed to `cam.get_ray` and the generator
after the two draws.  The `int`s `i`, `j`, `image_width - 1` and
`image_height - 1` are converted to `double`. -/
def pixel_uv (i j image_width image_height : ℤ) (g : Rng F) : (F × F) × Rng F :=
  let d1 := random_double2 g
  let u := ((i : F) + d1.1) / ((image_width - 1 : ℤ) : F)
  let d2 := random_double2 d1.2
  let v := ((j : F) + d2.1) / ((image_height - 1 : ℤ) : F)
  ((u, v), d2.2)

/-! ## aarect.h: sampling an `XZRect` -/

/-- The method `XZRect::random`.  The two calls of `random_double2(min, max)` are
arguments of one constructor call, so C++ leaves their order open; they are
taken left to right. -/
def XZRect.random (q : XZRect F) (origin : Vec3 F) (g : Rng F) : Vec3 F × Rng F :=
  let a := random_double2_range q.x0 q.x1 g
  let b := random_double2_range q.z0 q.z1 a.2
  ((⟨a.1, q.k, b.1⟩ : Vec3 F) - origin, b.2)

/-- An `XZRect` behind a `Hittable` pointer; `junk` is the content of the
uninitialised local `HitRecord rec` of `XZRect::pdf_value`. -/
def XZRect.toHittable (env : Env F) (junk : HitRecord F) (q : XZRect F) : Hittable F where
  hit := fun r t_min t_max rec g => (q.hit r t_min t_max rec, g)
  bounding_box := q.bounding_box
  pdf_value := q.pdf_value env junk
  random := q.random

/-! ## onb.h: the helper axis -/

/-- The local `a` of `Onb::build_from_w`, for the axis `w` already stored. -/
def Onb.helper_axis (w : Vec3 F) : Vec3 F := if |w.x| > 0.9 then ⟨0, 1, 0⟩ else ⟨1, 0, 0⟩

/-! ## aarect.h in IEEE 754 arithmetic: the surface coordinates of `XYRect` -/

/-- The values `XYRect::hit` computes for `rec.u` and `rec.v` in IEEE
arithmetic (it writes them when it returns true): `(x - x0) / (x1 - x0)` and
`(y - y0) / (y1 - y0)` for `x`, `y` computed from the quotient `t`.  `negZero` is
the sign bit of `r.direction().z()` when that is zero; `negX`, `negY` are the
sign bits of `x1 - x0` and `y1 - y0` when they are zero. -/
def XYRect.uv_ieee (q : XYRect F) (r : Ray F) (negZero negX negY : Bool) : Dbl F × Dbl F :=
  let t := Dbl.div (q.k - r.origin.z) r.direction.z negZero
  let x := Dbl.add r.origin.x (t.mul r.direction.x)
  let y := Dbl.add r.origin.y (t.mul r.direction.y)
  (Dbl.divD (Dbl.add (-q.x0) x) (Dbl.fin (q.x1 - q.x0)) negX,
   Dbl.divD (Dbl.add (-q.y0) y) (Dbl.fin (q.y1 - q.y0)) negY)

/-! ## sphere.h and moving_sphere.h in IEEE 754 arithmetic

`Sphere::hit` and `MovingSphere::hit` divide by `a = |direction|²` and by
`radius`, and `MovingSphere::center` divides by `time1 - time0`.  When a divisor
is zero the quotient is no number of `F`: on `double` it is an infinity or NaN,
and it spreads through every later operation.  The definitions below repeat the
two methods on values that may be infinite or NaN. -/

namespace Dbl

/-- The IEEE negation. -/
def neg (a : Dbl F) : Dbl F :=
  match a with
  | .nan => .nan
  | .negInf => .posInf
  | .fin x => .fin (-x)
  | .posInf => .negInf

/-- The IEEE sum of two `double`s: `INF + (-INF)` is NaN. -/
def addD (a b : Dbl F) : Dbl F :=
  match a, b with
  | .nan, _ => .nan
  | _, .nan => .nan
  | .fin x, .fin y => .fin (x + y)
  | .fin _, .posInf => .posInf
  | .fin _, .negInf => .negInf
  | .posInf, .fin _ => .posInf
  | .negInf, .fin _ => .negInf
  | .posInf, .posInf => .posInf
  | .negInf, .negInf => .negInf
  | .posInf, .negInf => .nan
  | .negInf, .posInf => .nan

/-- The IEEE difference of two `double`s. -/
def subD (a b : Dbl F) : Dbl F := addD a (neg b)

/-- The IEEE comparison `a <= b`, false as soon as one side is NaN. -/
def le (a b : Dbl F) : Bool :=
  match a, b with
  | .nan, _ => false
  | _, .nan => false
  | .negInf, _ => true
  | _, .posInf => true
  | .fin x, .fin y => decide (x ≤ y)
  | _, _ => false

/-- The function `sqrt` on a `double`: NaN for NaN and for a negative argument,
`INF` for `INF`. -/
def sqrt (env : Env F) (a : Dbl F) : Dbl F :=
  match a with
  | .nan => .nan
  | .negInf => .nan
  | .fin x => if x < 0 then .nan else .fin (env.sqrt x)
  | .posInf => .posInf

/-- A vector of numbers as a vector of `double`s. -/
def vec (v : Vec3 F) : Vec3 (Dbl F) := ⟨.fin v.x, .fin v.y, .fin v.z⟩

/-- The sum of two vectors of `double`s. -/
def vadd (a b : Vec3 (Dbl F)) : Vec3 (Dbl F) := ⟨addD a.x b.x, addD a.y b.y, addD a.z b.z⟩

/-- The difference of two vectors of `double`s. -/
def vsub (a b : Vec3 (Dbl F)) : Vec3 (Dbl F) := ⟨subD a.x b.x, subD a.y b.y, subD a.z b.z⟩

/-- The opposite of a vector of `double`s. -/
def vneg (a : Vec3 (Dbl F)) : Vec3 (Dbl F) := ⟨neg a.x, neg a.y, neg a.z⟩

/-- The product `t * v` of a `double` and a vector of `double`s. -/
def smul (t : Dbl F) (v : Vec3 (Dbl F)) : Vec3 (Dbl F) := ⟨mulD t v.x, mulD t v.y, mulD t v.z⟩

/-- The function `dot` on vectors of `double`s (also `length_squared`, which is
`dot(v, v)`). -/
def dot (a b : Vec3 (Dbl F)) : Dbl F :=
  addD (addD (mulD a.x b.x) (mulD a.y b.y)) (mulD a.z b.z)

end Dbl

/-- The fields of the `HitRecord` that `Sphere::hit` and `MovingSphere::hit`
compute from the root, as `double`s. -/
structure HitRecordD (F : Type) where
  t : Dbl F
  p : Vec3 (Dbl F)
  normal : Vec3 (Dbl F)
  front_face : Bool

/-- The common body of `Sphere::hit` and `MovingSphere::hit` in IEEE arithmetic,
for the centre `center` (which `MovingSphere::center` may have filled with NaN):
`none` when the method returns false, otherwise the fields it writes.  The
divisor `a` is a sum of squares, so it is never `-0.0`; `negRadius` is the sign
bit of `radius` when that is zero.  `operator/(Vec3, double)` is `(1 / t) * v`,
as in the exact embedding. -/
def sphere_hit_ieee (env : Env F) (center : Vec3 (Dbl F)) (radius : F) (negRadius : Bool)
    (r : Ray F) (t_min t_max : Ext F) : Option (HitRecordD F) :=
  let oc := Dbl.vsub (Dbl.vec r.origin) center
  let a : Dbl F := Dbl.fin r.direction.length_squared
  let half_b := Dbl.dot oc (Dbl.vec r.direction)
  let c := Dbl.subD (Dbl.dot oc oc) (Dbl.fin (radius * radius))
  let discriminant := Dbl.subD (half_b.mulD half_b) (a.mulD c)
  if discriminant.lt (Dbl.fin 0) = true then none
  else
    let sqrtd := Dbl.sqrt env discriminant
    let finish (root : Dbl F) : Option (HitRecordD F) :=
      let p := Dbl.vadd (Dbl.vec r.origin) (Dbl.smul root (Dbl.vec r.direction))
      let outward_normal := Dbl.smul (Dbl.div 1 radius negRadius) (Dbl.vsub p center)
      let front_face := (Dbl.dot (Dbl.vec r.direction) outward_normal).lt (Dbl.fin 0)
      some ⟨root, p, if front_face = true then outward_normal else Dbl.vneg outward_normal,
        front_face⟩
    let root := Dbl.divD (Dbl.subD half_b.neg sqrtd) a false
    if root.lt (Dbl.ofExt t_min) = true ∨ (Dbl.ofExt t_max).lt root = true then
      let root := Dbl.divD (Dbl.addD half_b.neg sqrtd) a false
      if root.lt (Dbl.ofExt t_min) = true ∨ (Dbl.ofExt t_max).lt root = true then none
      else finish root
    else finish root

/-- The method `Sphere::hit` in IEEE arithmetic. -/
def Sphere.hit_ieee (env : Env F) (s : Sphere F) (negRadius : Bool) (r : Ray F)
    (t_min t_max : Ext F) : Option (HitRecordD F) :=
  sphere_hit_ieee env (Dbl.vec s.center) s.radius negRadius r t_min t_max

/-- The method `MovingSphere::center(time)` in IEEE arithmetic; `negDt` is the
sign bit of `time1 - time0` when that is zero. -/
def MovingSphere.center_ieee (s : MovingSphere F) (time : F) (negDt : Bool) : Vec3 (Dbl F) :=
  Dbl.vadd (Dbl.vec s.center0)
    (Dbl.smul (Dbl.div (time - s.time0) (s.time1 - s.time0) negDt)
      (Dbl.vec (s.center1 - s.center0)))

/-- The method `MovingSphere::hit` in IEEE arithmetic. -/
def MovingSphere.hit_ieee (env : Env F) (s : MovingSphere F) (negRadius negDt : Bool)
    (r : Ray F) (t_min t_max : Ext F) : Option (HitRecordD F) :=
  sphere_hit_ieee env (s.center_ieee r.time negDt) s.radius negRadius r t_min t_max

/-! ## A concrete environment over `ℚ` -/

/-- The integer square root by search: the largest `k ≤ n` with `k * k ≤ n`. -/
def natSqrt (n : ℕ) : ℕ :=
  (List.range (n + 1)).foldl (fun acc k => if k * k ≤ n then k else acc) 0

/-- A square root on `ℚ`, exact on squares of rationals: the integer square
roots of numerator and denominator. -/
def ratSqrt (q : ℚ) : ℚ := (natSqrt q.num.toNat : ℚ) / (natSqrt q.den : ℚ)

/-- An environment over `ℚ` for running the definitions on concrete inputs.
Only `sqrt` is meaningful (and only on squares of integers); no result stated
for a concrete run below depends on the value of another field. -/
def ratEnv : Env ℚ where
  sqrt := ratSqrt
  sin := fun _ => 0
  cos := fun _ => 0
  acos := fun _ => 0
  atan2 := fun _ _ => 0
  log := fun _ => 0
  random_in_unit_sphere := fun g => (⟨0, 0, 0⟩, g)
  refract := fun _ _ _ => ⟨0, 0, 0⟩

/-- A record with arbitrary contents, standing for an uninitialised local. -/
def rec0 : HitRecord ℚ := ⟨⟨0, 0, 0⟩, ⟨0, 0, 0⟩, none, 0, 0, 0, false⟩

/-- The unit sphere at the origin, without material. -/
def unitSphere : Sphere ℚ := ⟨⟨0, 0, 0⟩, 1, none⟩

/-- The ray from `(0, 0, -3)` along `+z`. -/
def zRay : Ray ℚ := ⟨⟨0, 0, -3⟩, ⟨0, 0, 1⟩, 0⟩

/-- A record whose normal is `(1, 0, 0)`. -/
def recX : HitRecord ℚ := ⟨⟨1, 0, 0⟩, ⟨1, 0, 0⟩, none, 2, 0, 0, true⟩

/-- The ray from `(1, 0, 0)` along `+x`. -/
def xOut : Ray ℚ := ⟨⟨1, 0, 0⟩, ⟨1, 0, 0⟩, 0⟩

/-- The unit sphere at the origin with the material `m`. -/
def ball (m : Option (Material ℚ)) : Sphere ℚ := ⟨⟨0, 0, 0⟩, 1, m⟩

/-- A grey diffuse material. -/
def matte : Material ℚ := .lambertian (.solidColor ⟨1 / 2, 1 / 2, 1 / 2⟩)

/-- A polished metal, built by the constructor `Metal(Color(1, 1, 1), 0)`. -/
def mirror : Material ℚ := Metal ⟨1, 1, 1⟩ 0

/-- A scatter record with arbitrary contents, standing for an uninitialised
local. -/
def srec0 : ScatterRecord ℚ := ⟨zRay, false, ⟨0, 0, 0⟩, Pdf.null⟩

/-- The uninitialised locals of `ray_color` in the concrete runs. -/
def loc0 : Locals ℚ := ⟨rec0, srec0⟩

/-- A light shape that keeps the base-class `pdf_value` (always `0.0`) and
`random` (always `(1, 0, 0)`): a `FlipFace` around a sphere at `(0, 5, 0)`. -/
def dullLight : Hittable ℚ := FlipFace (Sphere.toHittable ratEnv rec0 ⟨⟨0, 5, 0⟩, 1, none⟩)

/-- A generator whose every draw is `0`. -/
def rngZero : Rng ℚ := ⟨fun _ => 0, 0⟩

/-- The ray from `(3, 0, 0)` along `-x`. -/
def xRay : Ray ℚ := ⟨⟨3, 0, 0⟩, ⟨-1, 0, 0⟩, 0⟩

/-- The white background. -/
def white : Vec3 ℚ := ⟨1, 1, 1⟩

/-- The world made of the diffuse unit sphere. -/
def matteWorld : Hittable ℚ := Sphere.toHittable ratEnv rec0 (ball (some matte))

/-- The world made of the metal unit sphere. -/
def mirrorWorld : Hittable ℚ := Sphere.toHittable ratEnv rec0 (ball (some mirror))

/-- The record `Sphere::hit` leaves for the ray along `+z` on the diffuse
sphere: the hit at `t = 2`, at the point `(0, 0, -1)`. -/
def zHit : HitRecord ℚ := Sphere.fill ratEnv (ball (some matte)) zRay rec0 2

/-- The record `Sphere::hit` leaves for the ray along `-x` on the diffuse
sphere: the hit at `t = 2`, at the point `(1, 0, 0)`. -/
def xHit : HitRecord ℚ := Sphere.fill ratEnv (ball (some matte)) xRay rec0 2

/-- The record `Lambertian::scatter` leaves at the hit `h`. -/
def matteScatter (h : HitRecord ℚ) : ScatterRecord ℚ :=
  { srec0 with is_specular := false, attenuation := ⟨1 / 2, 1 / 2, 1 / 2⟩,
               pdf_ptr := CosinePdf ratEnv h.normal }

/-- The generator `rngZero` after one draw. -/
def rngZero1 : Rng ℚ := ⟨fun _ => 0, 1⟩

/-- Three colours for the pixels of a row of width 3. -/
def rowColors : List (Vec3 ℚ) := [⟨1, 0, 0⟩, ⟨0, 1, 0⟩, ⟨0, 0, 1⟩]

/-- The results of row 5 with the first two columns completed in the other
order. -/
def rowShuffled : List (Pixel (Vec3 ℚ)) :=
  [((5, 1), ⟨0, 1, 0⟩), ((5, 0), ⟨1, 0, 0⟩), ((5, 2), ⟨0, 0, 1⟩)]

/-- The unit sphere at the origin behind a `Hittable` pointer. -/
def unitBall : Hittable ℚ := Sphere.toHittable ratEnv rec0 (ball none)

/-- The offset `(0, 0, 1)`. -/
def zShift : Vec3 ℚ := ⟨0, 0, 1⟩

/-- The ray from `(0, 0, z0)` along `+z`. -/
def zRayFrom (z0 : ℚ) : Ray ℚ := ⟨⟨0, 0, z0⟩, ⟨0, 0, 1⟩, 0⟩

/-- The light of the Cornell box of `main.cpp`:
`XZRect(213, 343, 227, 332, 554, shared_ptr<Material>())`. -/
def cornellLight : XZRect ℚ := ⟨213, 343, 227, 332, 554, none⟩

/-- The ray from `(278, 0, 280)` straight up. -/
def upRay : Ray ℚ := ⟨⟨278, 0, 280⟩, ⟨0, 1, 0⟩, 0⟩

/-- A box with arbitrary contents, standing for an uninitialised `Aabb`. -/
def junkBox : Aabb ℚ := ⟨⟨0, 0, 0⟩, ⟨0, 0, 0⟩⟩

/-- The rotation about `y` by the angle `θ` with `sin θ = 3/5`, `cos θ = -4/5`
around the unit sphere (`hit` reads neither `hasbox` nor `bbox`). -/
def innerTurn : RotateY ℚ := ⟨unitBall, 3 / 5, -4 / 5, true, junkBox⟩

/-- The rotation about `y` by `-θ` (`sin (-θ) = -3/5`, `cos (-θ) = -4/5`) around
`innerTurn`. -/
def outerTurn : RotateY ℚ := ⟨innerTurn.toHittable, -3 / 5, -4 / 5, true, junkBox⟩

/-- An environment over `ℚ` whose `sin` and `cos` are exact at the angle `0`
(and only there): `sin 0 = 0`, `cos 0 = 1`. -/
def angle0Env : Env ℚ := { ratEnv with sin := fun _ => 0, cos := fun _ => 1 }

/-- The sphere of radius `1/2` about `(1/2, 21/2, 1/2)`, whose bounding box is
`[0, 1] × [10, 11] × [0, 1]`. -/
def offSphere : Hittable ℚ := Sphere.toHittable ratEnv rec0 ⟨⟨1 / 2, 21 / 2, 1 / 2⟩, 1 / 2, none⟩

/-- The unit square in the plane `z = 0`. -/
def unitSquare : XYRect ℚ := ⟨0, 1, 0, 1, 0, none⟩

/-- The ray from `(1/2, 1/2, 0)` along `+x`: it lies in the plane `z = 0`. -/
def planeRay : Ray ℚ := ⟨⟨1 / 2, 1 / 2, 0⟩, ⟨1, 0, 0⟩, 0⟩

/-- The ray from `(1/2, 1/2, 1)` along `+x`: parallel to the plane `z = 0`, off
it. -/
def aboveRay : Ray ℚ := ⟨⟨1 / 2, 1 / 2, 1⟩, ⟨1, 0, 0⟩, 0⟩

/-- A record of a back-face hit at `(1, 0, 0)` with normal `(0, 0, 1)`. -/
def grazeRec : HitRecord ℚ := ⟨⟨1, 0, 0⟩, ⟨0, 0, 1⟩, none, 2, 0, 0, false⟩

/-- A unit sphere moving from the origin at time `0` to `(0, 2, 0)` at time `1`. -/
def slidingBall : MovingSphere ℚ := ⟨⟨0, 0, 0⟩, ⟨0, 2, 0⟩, 0, 1, 1, none⟩

/-- A generator whose every number is `1/2`. -/
def rngHalf : Rng ℚ := ⟨fun _ => 1 / 2, 0⟩

/-- The environment `ratEnv` with a function in place of `log` that is negative
on `(0, 1)` and zero at `1`, as the logarithm is. -/
def logEnv : Env ℚ := { ratEnv with log := fun x => x - 1 }

/-- The medium `ConstantMedium(unit sphere, 1, white)`. -/
def fog : ConstantMedium ℚ := ConstantMedium.construct unitBall 1 (.solidColor ⟨1, 1, 1⟩)

/-- The unit square in the plane `y = 0`. -/
def floorSquare : XZRect ℚ := ⟨0, 1, 0, 1, 0, none⟩

/-- The point `(1/2, 0, 1/2)` of the plane `y = 0`. -/
def floorPoint : Vec3 ℚ := ⟨1 / 2, 0, 1 / 2⟩

/-- The ray from `(-9/5, 0, 12/5)` along `(3/5, 0, -4/5)`, which `innerTurn`
rotates onto `zRay`. -/
def slantRay : Ray ℚ := ⟨⟨-9 / 5, 0, 12 / 5⟩, ⟨3 / 5, 0, -4 / 5⟩, 0⟩

/-- The rotation about `x` by the angle `0` around the unit sphere. -/
def idTurnX : RotateX ℚ := ⟨unitBall, 0, 1, true, junkBox⟩

/-- The rotation about `z` by the angle `0` around the unit sphere. -/
def idTurnZ : RotateZ ℚ := ⟨unitBall, 0, 1, true, junkBox⟩

/-- A ray from `(0, 0, -3)` whose direction is the zero vector. -/
def stillRay : Ray ℚ := ⟨⟨0, 0, -3⟩, ⟨0, 0, 0⟩, 0⟩

/-- The sphere of radius `0` at the origin. -/
def pointSphere : Sphere ℚ := ⟨⟨0, 0, 0⟩, 0, none⟩

/-- A unit sphere whose two key times coincide: `time0 = time1 = 0`. -/
def frozenBall : MovingSphere ℚ := ⟨⟨0, 0, 0⟩, ⟨0, 2, 0⟩, 0, 0, 1, none⟩

end RayTracing

/-! # Theorems -/

namespace RayTracing

variable {F : Type} [LinearOrderedField F]

/-! ## Unfolding lemmas for the vector algebra and the extended bounds -/

namespace Vec3

theorem add_def (a b : Vec3 F) : a + b = ⟨a.x + b.x, a.y + b.y, a.z + b.z⟩ := rfl

theorem sub_def (a b : Vec3 F) : a - b = ⟨a.x - b.x, a.y - b.y, a.z - b.z⟩ := rfl

theorem neg_def (a : Vec3 F) : -a = ⟨-a.x, -a.y, -a.z⟩ := rfl

theorem mul_def (a b : Vec3 F) : a * b = ⟨a.x * b.x, a.y * b.y, a.z * b.z⟩ := rfl

theorem smul_def (t : F) (a : Vec3 F) : t * a = (⟨t * a.x, t * a.y, t * a.z⟩ : Vec3 F) :=
  rfl

theorem mul_scalar_def (a : Vec3 F) (t : F) :
    a * t = (⟨t * a.x, t * a.y, t * a.z⟩ : Vec3 F) := rfl

theorem div_def (a : Vec3 F) (t : F) :
    a / t = (⟨1 / t * a.x, 1 / t * a.y, 1 / t * a.z⟩ : Vec3 F) := rfl

@[simp] theorem zero_x : (0 : Vec3 F).x = 0 := rfl

@[simp] theorem zero_y : (0 : Vec3 F).y = 0 := rfl

@[simp] theorem zero_z : (0 : Vec3 F).z = 0 := rfl

theorem length_squared_nonneg (a : Vec3 F) : 0 ≤ a.length_squared := by
  unfold length_squared
  nlinarith [mul_self_nonneg a.x, mul_self_nonneg a.y, mul_self_nonneg a.z]

theorem length_squared_pos {a : Vec3 F} (h : a ≠ 0) : 0 < a.length_squared := by
  rcases lt_or_eq_of_le (length_squared_nonneg a) with hlt | heq
  · exact hlt
  · exfalso
    apply h
    unfold length_squared at heq
    have hx : a.x = 0 := by
      nlinarith [mul_self_nonneg a.x, mul_self_nonneg a.y, mul_self_nonneg a.z]
    have hy : a.y = 0 := by
      nlinarith [mul_self_nonneg a.x, mul_self_nonneg a.y, mul_self_nonneg a.z]
    have hz : a.z = 0 := by
      nlinarith [mul_self_nonneg a.x, mul_self_nonneg a.y, mul_self_nonneg a.z]
    have h0 : a = ⟨0, 0, 0⟩ := by
      cases a
      simp only [mk.injEq]
      exact ⟨hx, hy, hz⟩
    exact h0

end Vec3

namespace Ext

@[simp] theorem fin_lt_fin (a b : F) : (fin a < fin b) ↔ a < b := by
  show blt (fin a) (fin b) = true ↔ a < b
  simp [blt]

@[simp] theorem fin_le_fin (a b : F) : (fin a ≤ fin b) ↔ a ≤ b := by
  show blt (fin b) (fin a) = false ↔ a ≤ b
  simp [blt]

@[simp] theorem fin_lt_posInf (a : F) : fin a < posInf := by
  show blt (fin a) posInf = true
  rfl

@[simp] theorem negInf_lt_fin (a : F) : negInf < fin a := by
  show blt negInf (fin a) = true
  rfl

@[simp] theorem not_posInf_lt (b : Ext F) : ¬ posInf < b := by
  show ¬ blt posInf b = true
  cases b <;> simp [blt]

@[simp] theorem not_lt_negInf (a : Ext F) : ¬ a < negInf := by
  show ¬ blt a negInf = true
  cases a <;> simp [blt]

@[simp] theorem le_posInf (a : Ext F) : a ≤ posInf := by
  show blt posInf a = false
  cases a <;> simp [blt]

@[simp] theorem negInf_le (a : Ext F) : negInf ≤ a := by
  show blt a negInf = false
  cases a <;> simp [blt]

theorem not_lt_iff (a b : Ext F) : ¬ a < b ↔ b ≤ a := by
  show ¬ blt a b = true ↔ blt a b = false
  simp

end Ext

/-! ## Sphere::hit -/

namespace Sphere

/-- The method `Sphere::hit` in terms of the discriminant and the two roots. -/
theorem hit_eq (env : Env F) (s : Sphere F) (r : Ray F) (t_min t_max : Ext F)
    (rec : HitRecord F) :
    hit env s r t_min t_max rec =
      if s.discriminant r < 0 then (false, rec)
      else if Ext.fin (s.root_minus env r) < t_min ∨ t_max < Ext.fin (s.root_minus env r) then
        if Ext.fin (s.root_plus env r) < t_min ∨ t_max < Ext.fin (s.root_plus env r) then
          (false, rec)
        else (true, fill env s r rec (s.root_plus env r))
      else (true, fill env s r rec (s.root_minus env r)) := rfl

@[simp] theorem fill_t (env : Env F) (s : Sphere F) (r : Ray F) (rec : HitRecord F) (root : F) :
    (fill env s r rec root).t = root := rfl

@[simp] theorem fill_p (env : Env F) (s : Sphere F) (r : Ray F) (rec : HitRecord F) (root : F) :
    (fill env s r rec root).p = r.at root := rfl

/-- Both roots solve `a t² + 2 half_b t + c = 0` once `sqrtd² = discriminant`, so
the point `r.at t` is at squared distance `radius²` from the centre. -/
theorem at_root_on_sphere (s : Sphere F) (r : Ray F) (sq t : F)
    (hD : r.direction ≠ 0) (hsq : sq * sq = s.discriminant r)
    (ht : t = (-s.half_b r - sq) / r.direction.length_squared ∨
          t = (-s.half_b r + sq) / r.direction.length_squared) :
    (r.at t - s.center).length_squared = s.radius * s.radius := by
  have ha : r.direction.length_squared ≠ 0 := (Vec3.length_squared_pos hD).ne'
  have hat : r.direction.length_squared * t + s.half_b r = -sq ∨
      r.direction.length_squared * t + s.half_b r = sq := by
    rcases ht with h | h
    · left; rw [h]; field_simp; ring
    · right; rw [h]; field_simp
  have hsq2 : (r.direction.length_squared * t + s.half_b r) *
      (r.direction.length_squared * t + s.half_b r) = s.discriminant r := by
    rcases hat with h | h
    · rw [h, ← hsq]; ring
    · rw [h, ← hsq]
  have hmain : r.direction.length_squared *
      ((r.at t - s.center).length_squared - s.radius * s.radius) = 0 := by
    have e : r.direction.length_squared *
        ((r.at t - s.center).length_squared - s.radius * s.radius) =
        (r.direction.length_squared * t + s.half_b r) *
          (r.direction.length_squared * t + s.half_b r) - s.discriminant r := by
      simp only [discriminant, half_b, Ray.at, Ray.origin, Ray.direction, Vec3.length_squared,
        Vec3.dot, Vec3.add_def, Vec3.sub_def, Vec3.smul_def]
      ring
    rw [e, hsq2, sub_self]
  rcases mul_eq_zero.mp hmain with h | h
  · exact absurd h ha
  · exact sub_eq_zero.mp h

end Sphere

/-! ### Concrete evaluation: the unit sphere and the ray along `+z` -/

theorem natSqrt_one : natSqrt 1 = 1 := by decide

theorem natSqrt_zero : natSqrt 0 = 0 := by decide

theorem ratSqrt_one : ratSqrt 1 = 1 := by
  simp [ratSqrt, natSqrt_one]

theorem ratSqrt_zero : ratSqrt 0 = 0 := by
  simp [ratSqrt, natSqrt_zero]

theorem zRay_direction_ne_zero : zRay.direction ≠ 0 := by
  intro h
  have hz : zRay.direction.z = (0 : Vec3 ℚ).z := by rw [h]
  simp [zRay, Ray.direction] at hz

theorem unitSphere_discriminant : unitSphere.discriminant zRay = 1 := by
  simp only [Sphere.discriminant, unitSphere, zRay, Ray.origin, Ray.direction, Vec3.dot,
    Vec3.length_squared, Vec3.sub_def]
  norm_num

theorem unitSphere_root_minus : unitSphere.root_minus ratEnv zRay = 2 := by
  simp only [Sphere.root_minus, unitSphere_discriminant]
  simp only [ratEnv, ratSqrt_one, Sphere.half_b, unitSphere, zRay, Ray.origin, Ray.direction,
    Vec3.dot, Vec3.length_squared, Vec3.sub_def]
  norm_num

theorem unitSphere_root_plus : unitSphere.root_plus ratEnv zRay = 4 := by
  simp only [Sphere.root_plus, unitSphere_discriminant]
  simp only [ratEnv, ratSqrt_one, Sphere.half_b, unitSphere, zRay, Ray.origin, Ray.direction,
    Vec3.dot, Vec3.length_squared, Vec3.sub_def]
  norm_num

/-- On `[t_min, INF]` with `t_min ≤ 2` the first root, `2`, is reported. -/
theorem unitSphere_hit_near (t_min : ℚ) (h : t_min ≤ 2) (rec : HitRecord ℚ) :
    Sphere.hit ratEnv unitSphere zRay (Ext.fin t_min) Ext.posInf rec =
      (true, Sphere.fill ratEnv unitSphere zRay rec 2) := by
  rw [Sphere.hit_eq, unitSphere_discriminant, unitSphere_root_minus]
  have h1 : ¬ ((1 : ℚ) < 0) := by norm_num
  have h2 : ¬ ((Ext.fin (2 : ℚ) < Ext.fin t_min) ∨ (Ext.posInf < Ext.fin (2 : ℚ))) := by
    simp [h]
  rw [if_neg h1, if_neg h2]

/-- On `[3, INF]` the first root, `2`, is outside and the second, `4`, is reported. -/
theorem unitSphere_hit_far (rec : HitRecord ℚ) :
    Sphere.hit ratEnv unitSphere zRay (Ext.fin 3) Ext.posInf rec =
      (true, Sphere.fill ratEnv unitSphere zRay rec 4) := by
  rw [Sphere.hit_eq, unitSphere_discriminant, unitSphere_root_minus, unitSphere_root_plus]
  norm_num

/-! ### The claims on `Sphere::hit` -/

/-- C1: for every sphere, every ray with non-zero direction and every interval
`t_min ≤ t_max`, whenever `Sphere::hit` returns true the recorded parameter
`rec.t` satisfies `t_min ≤ rec.t ≤ t_max`. -/
theorem C1_sphere_hit_t_in_interval (env : Env F) (s : Sphere F) (r : Ray F)
    (t_min t_max : Ext F) (rec : HitRecord F)
    (_hD : r.direction ≠ 0) (_hI : t_min ≤ t_max)
    (hhit : (Sphere.hit env s r t_min t_max rec).1 = true) :
    t_min ≤ Ext.fin (Sphere.hit env s r t_min t_max rec).2.t ∧
      Ext.fin (Sphere.hit env s r t_min t_max rec).2.t ≤ t_max := by
  rw [Sphere.hit_eq] at hhit ⊢
  split_ifs at hhit ⊢ with h1 h2 h3
  · rw [not_or, Ext.not_lt_iff, Ext.not_lt_iff] at h3
    exact h3
  · rw [not_or, Ext.not_lt_iff, Ext.not_lt_iff] at h2
    exact h2

/-- C1 at the unit sphere, the ray from `(0, 0, -3)` along `+z` and `[0, INF]`:
the hit is at `t = 2`. -/
theorem C1_sphere_hit_t_in_interval_witness :
    zRay.direction ≠ 0 ∧ (Ext.fin 0 : Ext ℚ) ≤ Ext.posInf ∧
    (Sphere.hit ratEnv unitSphere zRay (Ext.fin 0) Ext.posInf rec0).1 = true ∧
    (Sphere.hit ratEnv unitSphere zRay (Ext.fin 0) Ext.posInf rec0).2.t = 2 ∧
    ((Ext.fin 0 : Ext ℚ) ≤ Ext.fin (Sphere.hit ratEnv unitSphere zRay (Ext.fin 0) Ext.posInf rec0).2.t ∧
      Ext.fin (Sphere.hit ratEnv unitSphere zRay (Ext.fin 0) Ext.posInf rec0).2.t ≤ Ext.posInf) :=
  ⟨zRay_direction_ne_zero, Ext.le_posInf _,
    by rw [unitSphere_hit_near 0 (by norm_num)],
    by rw [unitSphere_hit_near 0 (by norm_num)]; rfl,
    C1_sphere_hit_t_in_interval ratEnv unitSphere zRay (Ext.fin 0) Ext.posInf rec0
      zRay_direction_ne_zero (Ext.le_posInf _) (by rw [unitSphere_hit_near 0 (by norm_num)])⟩

/-- C2: for every sphere with centre `C` and radius `r` and every ray with origin
`O` and non-zero direction `D`, whenever `Sphere::hit` returns true the recorded
`t` and point `p` satisfy `p = O + t * D` and `|p - C|² = r²`, exactly, given
that `sqrt` squares back to the discriminant. -/
theorem C2_sphere_hit_on_surface (env : Env F) (s : Sphere F) (r : Ray F)
    (t_min t_max : Ext F) (rec : HitRecord F)
    (hD : r.direction ≠ 0)
    (hsq : 0 ≤ s.discriminant r →
      env.sqrt (s.discriminant r) * env.sqrt (s.discriminant r) = s.discriminant r)
    (hhit : (Sphere.hit env s r t_min t_max rec).1 = true) :
    (Sphere.hit env s r t_min t_max rec).2.p =
        r.origin + (Sphere.hit env s r t_min t_max rec).2.t * r.direction ∧
      ((Sphere.hit env s r t_min t_max rec).2.p - s.center).length_squared =
        s.radius * s.radius := by
  rw [Sphere.hit_eq] at hhit ⊢
  split_ifs at hhit ⊢ with h1 h2 h3
  · exact ⟨rfl, Sphere.at_root_on_sphere s r _ _ hD (hsq (not_lt.mp h1)) (Or.inr rfl)⟩
  · exact ⟨rfl, Sphere.at_root_on_sphere s r _ _ hD (hsq (not_lt.mp h1)) (Or.inl rfl)⟩

/-- C2 at the unit sphere and the ray from `(0, 0, -3)` along `+z`: the hit
point is `(0, 0, -1)`. -/
theorem C2_sphere_hit_on_surface_witness :
    zRay.direction ≠ 0 ∧
    ratEnv.sqrt (unitSphere.discriminant zRay) * ratEnv.sqrt (unitSphere.discriminant zRay) =
      unitSphere.discriminant zRay ∧
    (Sphere.hit ratEnv unitSphere zRay (Ext.fin (1 / 1000)) Ext.posInf rec0).1 = true ∧
    (Sphere.hit ratEnv unitSphere zRay (Ext.fin (1 / 1000)) Ext.posInf rec0).2.p = ⟨0, 0, -1⟩ ∧
    ((Sphere.hit ratEnv unitSphere zRay (Ext.fin (1 / 1000)) Ext.posInf rec0).2.p =
        zRay.origin +
          (Sphere.hit ratEnv unitSphere zRay (Ext.fin (1 / 1000)) Ext.posInf rec0).2.t *
            zRay.direction ∧
      ((Sphere.hit ratEnv unitSphere zRay (Ext.fin (1 / 1000)) Ext.posInf rec0).2.p -
          unitSphere.center).length_squared = unitSphere.radius * unitSphere.radius) :=
  have hs : ratEnv.sqrt (unitSphere.discriminant zRay) *
      ratEnv.sqrt (unitSphere.discriminant zRay) = unitSphere.discriminant zRay := by
    rw [unitSphere_discriminant]
    show ratSqrt 1 * ratSqrt 1 = 1
    rw [ratSqrt_one]
    norm_num
  ⟨zRay_direction_ne_zero, hs,
    by rw [unitSphere_hit_near _ (by norm_num)],
    by
      rw [unitSphere_hit_near _ (by norm_num), Sphere.fill_p]
      simp only [Ray.at, zRay, Vec3.add_def, Vec3.smul_def]
      norm_num,
    C2_sphere_hit_on_surface ratEnv unitSphere zRay (Ext.fin (1 / 1000)) Ext.posInf rec0
      zRay_direction_ne_zero (fun _ => hs) (by rw [unitSphere_hit_near _ (by norm_num)])⟩

/-- C3: for every sphere, ray with non-zero direction and interval
`[t_min, t_max]`, `Sphere::hit` returns false (leaving the record alone) when the
discriminant is negative; otherwise it reports the smaller root
`(-half_b - sqrt(disc)) / a` if that root lies in the interval, else the larger
root `(-half_b + sqrt(disc)) / a` if that one lies in the interval, and it
returns false exactly when neither root is in the interval.  The first root is
the smaller one as soon as `sqrt(disc)` is not negative. -/
theorem C3_sphere_hit_root_choice (env : Env F) (s : Sphere F) (r : Ray F)
    (t_min t_max : Ext F) (rec : HitRecord F) (hD : r.direction ≠ 0) :
    (s.discriminant r < 0 → Sphere.hit env s r t_min t_max rec = (false, rec)) ∧
    (0 ≤ s.discriminant r →
      ((t_min ≤ Ext.fin (s.root_minus env r) ∧ Ext.fin (s.root_minus env r) ≤ t_max) →
        (Sphere.hit env s r t_min t_max rec).1 = true ∧
        (Sphere.hit env s r t_min t_max rec).2.t = s.root_minus env r) ∧
      (¬ (t_min ≤ Ext.fin (s.root_minus env r) ∧ Ext.fin (s.root_minus env r) ≤ t_max) →
        (t_min ≤ Ext.fin (s.root_plus env r) ∧ Ext.fin (s.root_plus env r) ≤ t_max) →
        (Sphere.hit env s r t_min t_max rec).1 = true ∧
        (Sphere.hit env s r t_min t_max rec).2.t = s.root_plus env r) ∧
      ((Sphere.hit env s r t_min t_max rec).1 = false ↔
        ¬ (t_min ≤ Ext.fin (s.root_minus env r) ∧ Ext.fin (s.root_minus env r) ≤ t_max) ∧
        ¬ (t_min ≤ Ext.fin (s.root_plus env r) ∧ Ext.fin (s.root_plus env r) ≤ t_max))) ∧
    (0 ≤ env.sqrt (s.discriminant r) → s.root_minus env r ≤ s.root_plus env r) := by
  have hin : ∀ x : F, (t_min ≤ Ext.fin x ∧ Ext.fin x ≤ t_max) ↔
      ¬ (Ext.fin x < t_min ∨ t_max < Ext.fin x) := by
    intro x
    rw [not_or, Ext.not_lt_iff, Ext.not_lt_iff]
  refine ⟨?_, ?_, ?_⟩
  · intro hneg
    rw [Sphere.hit_eq, if_pos hneg]
  · intro hpos
    have h1 : ¬ s.discriminant r < 0 := not_lt.mpr hpos
    refine ⟨?_, ?_, ?_⟩
    · intro hm
      rw [Sphere.hit_eq, if_neg h1, if_neg ((hin _).mp hm)]
      exact ⟨rfl, rfl⟩
    · intro hm hp
      rw [Sphere.hit_eq, if_neg h1, if_pos (not_not.mp (mt (hin _).mpr hm)),
        if_neg ((hin _).mp hp)]
      exact ⟨rfl, rfl⟩
    · rw [Sphere.hit_eq, if_neg h1, hin, hin, not_not, not_not]
      split_ifs with h2 h3
      · exact ⟨fun _ => ⟨h2, h3⟩, fun _ => rfl⟩
      · exact ⟨fun h => absurd h (by simp), fun h => absurd h.2 h3⟩
      · exact ⟨fun h => absurd h (by simp), fun h => absurd h.1 h2⟩
  · intro hs
    have ha : 0 < r.direction.length_squared := Vec3.length_squared_pos hD
    unfold Sphere.root_minus Sphere.root_plus
    apply div_le_div_of_nonneg_right _ ha.le
    linarith

/-- C3 at the unit sphere and the ray from `(0, 0, -3)` along `+z` on `[3, INF]`:
the roots are `2` and `4`, the smaller one is outside, the larger one is
reported. -/
theorem C3_sphere_hit_root_choice_witness :
    zRay.direction ≠ 0 ∧
    unitSphere.root_minus ratEnv zRay = 2 ∧ unitSphere.root_plus ratEnv zRay = 4 ∧
    ((Sphere.hit ratEnv unitSphere zRay (Ext.fin 3) Ext.posInf rec0).1 = true ∧
      (Sphere.hit ratEnv unitSphere zRay (Ext.fin 3) Ext.posInf rec0).2.t =
        unitSphere.root_plus ratEnv zRay) :=
  ⟨zRay_direction_ne_zero, unitSphere_root_minus, unitSphere_root_plus,
    ((C3_sphere_hit_root_choice ratEnv unitSphere zRay (Ext.fin 3) Ext.posInf rec0
        zRay_direction_ne_zero).2.1 (by rw [unitSphere_discriminant]; norm_num)).2.1
      (by rw [unitSphere_root_minus]; simp; norm_num)
      (by rw [unitSphere_root_plus]; simp; norm_num)⟩

/-! ## pdf.h and material.h -/

theorem PI_pos : (0 : F) < PI := by
  unfold PI
  norm_num

theorem PI_ne_zero : (PI : F) ≠ 0 := PI_pos.ne'

/-- A unit axis is its own normalisation when `sqrt 1 = 1`. -/
theorem normal_ex (env : Env F) (h1 : env.sqrt 1 = 1) :
    Vec3.normal env (⟨1, 0, 0⟩ : Vec3 F) = ⟨1, 0, 0⟩ := by
  simp [Vec3.normal, Vec3.length, Vec3.length_squared, Vec3.div_def, h1]

theorem ratEnv_sqrt_one : ratEnv.sqrt 1 = 1 := ratSqrt_one

/-- C9: for every pair of child distributions `p0`, `p1` and every direction `d`,
`MixturePdf(p0, p1).value(d) = 0.5 * p0.value(d) + 0.5 * p1.value(d)`. -/
theorem C9_mixture_value (env : Env F) (p0 p1 : Pdf F) (d : Vec3 F) (v0 v1 : F)
    (h0 : p0.value env d = .ok v0) (h1 : p1.value env d = .ok v1) :
    (MixturePdf p0 p1).value env d = .ok (0.5 * v0 + 0.5 * v1) := by
  simp only [MixturePdf, Pdf.value, h0, h1]

/-- C9 at the mixture of a light distribution of density `0` and the cosine
distribution about `(1, 0, 0)`, in the direction `(1, 0, 0)`: the value is
`0.5 * 0 + 0.5 * (1 / PI)`. -/
theorem C9_mixture_value_witness :
    (HittablePdf (⟨0, 0, 0⟩ : Vec3 ℚ)
        (FlipFace (Sphere.toHittable ratEnv rec0 unitSphere))).value ratEnv ⟨1, 0, 0⟩ = .ok 0 ∧
    (CosinePdf ratEnv (⟨1, 0, 0⟩ : Vec3 ℚ)).value ratEnv ⟨1, 0, 0⟩ = .ok (1 / PI) ∧
    (MixturePdf
        (HittablePdf (⟨0, 0, 0⟩ : Vec3 ℚ) (FlipFace (Sphere.toHittable ratEnv rec0 unitSphere)))
        (CosinePdf ratEnv (⟨1, 0, 0⟩ : Vec3 ℚ))).value ratEnv ⟨1, 0, 0⟩ =
      .ok (0.5 * 0 + 0.5 * (1 / PI)) :=
  have h0 : (HittablePdf (⟨0, 0, 0⟩ : Vec3 ℚ)
      (FlipFace (Sphere.toHittable ratEnv rec0 unitSphere))).value ratEnv ⟨1, 0, 0⟩ = .ok 0 := rfl
  have h1 : (CosinePdf ratEnv (⟨1, 0, 0⟩ : Vec3 ℚ)).value ratEnv ⟨1, 0, 0⟩ = .ok (1 / PI) := by
    simp only [CosinePdf, Pdf.value, Onb.build_from_w, Onb.w, normal_ex ratEnv ratEnv_sqrt_one,
      Vec3.dot]
    norm_num
  ⟨h0, h1, C9_mixture_value ratEnv _ _ _ _ _ h0 h1⟩

/-- C10: for every hit record with unit surface normal `n` and every scattered
ray with non-zero direction `w` (whose length `|w|` is what `sqrt` returns on
`w · w`), `Lambertian::scattering_pdf` returns `max(0, cos θ) / PI` with
`cos θ = dot(n, w) / |w|`. -/
theorem C10_lambertian_scattering_pdf (env : Env F) (albedo : Texture F) (r_in : Ray F)
    (rec : HitRecord F) (scattered : Ray F)
    (_hn : rec.normal.length_squared = 1) (_hw : scattered.direction ≠ 0)
    (_hlen : 0 < scattered.direction.length env ∧
      scattered.direction.length env * scattered.direction.length env =
        scattered.direction.length_squared) :
    (Material.lambertian albedo).scattering_pdf env r_in rec scattered =
      max 0 (Vec3.dot rec.normal scattered.direction / scattered.direction.length env) / PI := by
  have hdot : Vec3.dot rec.normal (Vec3.normal env scattered.direction) =
      Vec3.dot rec.normal scattered.direction / scattered.direction.length env := by
    simp only [Vec3.normal, Vec3.dot, Vec3.div_def]
    ring
  simp only [Material.scattering_pdf, hdot]
  split_ifs with h
  · rw [max_eq_left h.le, zero_div]
  · rw [max_eq_right (not_lt.mp h)]

theorem xOut_length : xOut.direction.length ratEnv = 1 := by
  simp only [xOut, Ray.direction, Vec3.length, Vec3.length_squared]
  norm_num
  exact ratSqrt_one

theorem xOut_direction_ne_zero : xOut.direction ≠ 0 := by
  intro h
  have hx : xOut.direction.x = (0 : Vec3 ℚ).x := by rw [h]
  simp [xOut, Ray.direction] at hx

/-- C10 at the normal `(1, 0, 0)` and the scattered direction `(1, 0, 0)`: the
density is `1 / PI`. -/
theorem C10_lambertian_scattering_pdf_witness :
    recX.normal.length_squared = 1 ∧ xOut.direction ≠ 0 ∧
    (0 < xOut.direction.length ratEnv ∧
      xOut.direction.length ratEnv * xOut.direction.length ratEnv =
        xOut.direction.length_squared) ∧
    (Material.lambertian (Texture.solidColor ⟨1, 1, 1⟩)).scattering_pdf ratEnv zRay recX xOut =
      max 0 (Vec3.dot recX.normal xOut.direction / xOut.direction.length ratEnv) / PI ∧
    max 0 (Vec3.dot recX.normal xOut.direction / xOut.direction.length ratEnv) / PI =
      (1 / PI : ℚ) :=
  have hn : recX.normal.length_squared = 1 := by
    simp only [recX, Vec3.length_squared]
    norm_num
  have hl : 0 < xOut.direction.length ratEnv ∧
      xOut.direction.length ratEnv * xOut.direction.length ratEnv =
        xOut.direction.length_squared := by
    rw [xOut_length]
    simp only [xOut, Ray.direction, Vec3.length_squared]
    norm_num
  ⟨hn, xOut_direction_ne_zero, hl,
    C10_lambertian_scattering_pdf ratEnv _ zRay recX xOut hn xOut_direction_ne_zero hl,
    by
      rw [xOut_length]
      simp only [recX, xOut, Ray.direction, Vec3.dot]
      norm_num⟩

/-! ## main.cpp: ray_color -/

/-- The function `ray_color`, unfolded once. -/
theorem ray_color_eq (env : Env F) (loc : Locals F) (background : Vec3 F)
    (world lights : Hittable F) (depth : ℤ) :
    ray_color env loc background world lights depth =
      if depth ≤ 0 then fun _ g => .ok (⟨0, 0, 0⟩, g)
      else ray_color_body env loc background world lights
        (ray_color env loc background world lights (depth - 1)) := by
  rw [ray_color]

theorem ray_color_nonpos (env : Env F) (loc : Locals F) (background : Vec3 F)
    (world lights : Hittable F) (depth : ℤ) (h : depth ≤ 0) (r : Ray F) (g : Rng F) :
    ray_color env loc background world lights depth r g = .ok (⟨0, 0, 0⟩, g) := by
  rw [ray_color_eq, if_pos h]

theorem ray_color_pos (env : Env F) (loc : Locals F) (background : Vec3 F)
    (world lights : Hittable F) (depth : ℤ) (h : 0 < depth) (r : Ray F) (g : Rng F) :
    ray_color env loc background world lights depth r g =
      ray_color_body env loc background world lights
        (ray_color env loc background world lights (depth - 1)) r g := by
  rw [ray_color_eq, if_neg (not_le.mpr h)]

/-- The only fault of `Pdf::value` is the null pointer. -/
theorem Pdf.value_error (env : Env F) (p : Pdf F) (d : Vec3 F) (e : Fault)
    (h : p.value env d = .error e) : e = Fault.nullDeref := by
  induction p with
  | null => simp only [Pdf.value, Except.error.injEq] at h; exact h.symm
  | cosine uvw => simp only [Pdf.value] at h; exact absurd h (by simp)
  | hittable o ptr => simp only [Pdf.value] at h; exact absurd h (by simp)
  | mixture p0 p1 ih0 ih1 =>
    simp only [Pdf.value] at h
    cases h0 : Pdf.value env p0 d with
    | error e0 =>
      rw [h0] at h
      simp only [Except.error.injEq] at h
      exact ih0 (h ▸ h0)
    | ok v0 =>
      rw [h0] at h
      cases h1 : Pdf.value env p1 d with
      | error e1 =>
        rw [h1] at h
        simp only [Except.error.injEq] at h
        exact ih1 (h ▸ h1)
      | ok v1 =>
        rw [h1] at h
        exact absurd h (by simp)

/-- The only fault of `Pdf::generate` is the null pointer. -/
theorem Pdf.generate_error (env : Env F) (p : Pdf F) (g : Rng F) (e : Fault)
    (h : p.generate env g = .error e) : e = Fault.nullDeref := by
  induction p generalizing g with
  | null => simp only [Pdf.generate, Except.error.injEq] at h; exact h.symm
  | cosine uvw => simp only [Pdf.generate] at h; exact absurd h (by simp)
  | hittable o ptr => simp only [Pdf.generate] at h; exact absurd h (by simp)
  | mixture p0 p1 ih0 ih1 =>
    simp only [Pdf.generate] at h
    split_ifs at h
    · exact ih0 _ h
    · exact ih1 _ h

/-- A mixture whose second child is null: `value` dereferences it. -/
theorem Pdf.mixture_null_value (env : Env F) (o d : Vec3 F) (lights : Hittable F) :
    (MixturePdf (HittablePdf o lights) Pdf.null).value env d = .error Fault.nullDeref := rfl

/-- The body of `ray_color` when the hit material scatters and leaves a record
whose `pdf_ptr` is null: whichever child `generate` picks, the null pointer is
dereferenced, at the latest by `value`. -/
theorem ray_color_body_null_pdf (env : Env F) (loc : Locals F) (background : Vec3 F)
    (world lights : Hittable F) (self : Ray F → Rng F → Except Fault (Vec3 F × Rng F))
    (r : Ray F) (g g1 g2 : Rng F) (hrec : HitRecord F) (mat : Material F)
    (srec : ScatterRecord F)
    (hhit : world.hit r (Ext.fin 0.001) Ext.posInf loc.hrec g = ((true, hrec), g1))
    (hmat : hrec.mat_ptr = some mat)
    (hsc : mat.scatter env r hrec loc.srec g1 = ((true, srec), g2))
    (hnull : srec.pdf_ptr = Pdf.null) :
    ray_color_body env loc background world lights self r g = .error Fault.nullDeref := by
  simp only [ray_color_body, hhit, hmat, hsc, hnull, not_true_eq_false, if_false]
  cases hgen : (MixturePdf (HittablePdf hrec.p lights) Pdf.null).generate env g2 with
  | error e =>
    simp only
    rw [Pdf.generate_error env _ _ _ hgen]
  | ok dg =>
    obtain ⟨d, g3⟩ := dg
    simp only [Pdf.mixture_null_value]

/-- C4: for every ray, scene and `depth > 0` where the world is hit and the hit
material scatters non-specularly, `ray_color` returns
`emitted + attenuation * scattering_pdf(r, rec, scattered) * ray_color(scattered, depth - 1) / p.value(scattered.direction)`,
where `p` is the even mixture of the `HittablePdf` of the lights anchored at the
hit point and the material's own pdf, and `scattered` is the ray from the hit
point along the direction drawn from `p`, carrying the incoming ray's time
(stated where the density is not zero and the recursive call returns a colour). -/
theorem C4_ray_color_scatter_formula (env : Env F) (loc : Locals F) (background : Vec3 F)
    (world lights : Hittable F) (depth : ℤ) (r : Ray F) (g g1 g2 g3 g4 : Rng F)
    (hrec : HitRecord F) (mat : Material F) (srec : ScatterRecord F)
    (direction rc : Vec3 F) (pdf_val : F)
    (hdepth : 0 < depth)
    (hhit : world.hit r (Ext.fin 0.001) Ext.posInf loc.hrec g = ((true, hrec), g1))
    (hmat : hrec.mat_ptr = some mat)
    (hsc : mat.scatter env r hrec loc.srec g1 = ((true, srec), g2))
    (_hspec : srec.is_specular = false)
    (hgen : (MixturePdf (HittablePdf hrec.p lights) srec.pdf_ptr).generate env g2 =
      .ok (direction, g3))
    (hval : (MixturePdf (HittablePdf hrec.p lights) srec.pdf_ptr).value env direction =
      .ok pdf_val)
    (hnz : pdf_val ≠ 0)
    (hrc : ray_color env loc background world lights (depth - 1)
      ⟨hrec.p, direction, r.time⟩ g3 = .ok (rc, g4)) :
    ray_color env loc background world lights depth r g =
      .ok (mat.emitted env r hrec hrec.u hrec.v hrec.p +
            srec.attenuation * mat.scattering_pdf env r hrec ⟨hrec.p, direction, r.time⟩ * rc /
              pdf_val, g4) := by
  rw [ray_color_pos _ _ _ _ _ _ hdepth]
  simp only [ray_color_body, hhit, hmat, hsc, hgen, Ray.direction, hval, hrc, Vec3.divDensity,
    if_neg hnz, not_true_eq_false, if_false]

/-- Whenever the mixture density evaluated at the drawn direction
is zero (and the recursive call returns a colour), `ray_color` still divides by
it: there is no guard, and the result is no colour at all but the outcome of a
division by zero. -/
theorem ray_color_zero_density (env : Env F) (loc : Locals F)
    (background : Vec3 F) (world lights : Hittable F) (depth : ℤ) (r : Ray F)
    (g g1 g2 g3 g4 : Rng F) (hrec : HitRecord F) (mat : Material F) (srec : ScatterRecord F)
    (direction rc : Vec3 F)
    (hdepth : 0 < depth)
    (hhit : world.hit r (Ext.fin 0.001) Ext.posInf loc.hrec g = ((true, hrec), g1))
    (hmat : hrec.mat_ptr = some mat)
    (hsc : mat.scatter env r hrec loc.srec g1 = ((true, srec), g2))
    (hgen : (MixturePdf (HittablePdf hrec.p lights) srec.pdf_ptr).generate env g2 =
      .ok (direction, g3))
    (hval : (MixturePdf (HittablePdf hrec.p lights) srec.pdf_ptr).value env direction = .ok 0)
    (hrc : ray_color env loc background world lights (depth - 1)
      ⟨hrec.p, direction, r.time⟩ g3 = .ok (rc, g4)) :
    ray_color env loc background world lights depth r g = .error Fault.nonFinite := by
  rw [ray_color_pos _ _ _ _ _ _ hdepth]
  simp only [ray_color_body, hhit, hmat, hsc, hgen, Ray.direction, hval, hrc, Vec3.divDensity,
    if_true, not_true_eq_false, if_false]

/-- The amended C6: whenever the mixture density evaluated at the drawn direction
is zero (and the recursive call returns a colour), `ray_color` still divides by
it: there is no guard, and the result is no colour at all but the outcome of a
division by zero. -/
theorem C6_ray_color_zero_density_unguarded (env : Env F) (loc : Locals F)
    (background : Vec3 F) (world lights : Hittable F) (depth : ℤ) (r : Ray F)
    (g g1 g2 g3 g4 : Rng F) (hrec : HitRecord F) (mat : Material F) (srec : ScatterRecord F)
    (direction rc : Vec3 F)
    (hdepth : 0 < depth)
    (hhit : world.hit r (Ext.fin 0.001) Ext.posInf loc.hrec g = ((true, hrec), g1))
    (hmat : hrec.mat_ptr = some mat)
    (hsc : mat.scatter env r hrec loc.srec g1 = ((true, srec), g2))
    (hgen : (MixturePdf (HittablePdf hrec.p lights) srec.pdf_ptr).generate env g2 =
      .ok (direction, g3))
    (hval : (MixturePdf (HittablePdf hrec.p lights) srec.pdf_ptr).value env direction = .ok 0)
    (hrc : ray_color env loc background world lights (depth - 1)
      ⟨hrec.p, direction, r.time⟩ g3 = .ok (rc, g4)) :
    ray_color env loc background world lights depth r g = .error Fault.nonFinite :=
  ray_color_zero_density env loc background world lights depth r g g1 g2 g3 g4 hrec mat srec
    direction rc hdepth hhit hmat hsc hgen hval hrc

/-- The body of `ray_color` exceeds no nesting bound unless the recursive call
does. -/
theorem ray_color_body_ne_nestingExceeded (env : Env F) (loc : Locals F)
    (background : Vec3 F) (world lights : Hittable F)
    (self : Ray F → Rng F → Except Fault (Vec3 F × Rng F))
    (hself : ∀ r g, self r g ≠ .error Fault.nestingExceeded) (r : Ray F) (g : Rng F) :
    ray_color_body env loc background world lights self r g ≠
      .error Fault.nestingExceeded := by
  unfold ray_color_body
  simp only
  split_ifs with h1
  · split
    · simp
    · split_ifs with h2
      · split
        · rename_i e he
          intro hc
          have := Pdf.generate_error env _ _ _ he
          simp only [Except.error.injEq] at hc
          rw [this] at hc
          exact absurd hc (by decide)
        · split
          · rename_i e he
            intro hc
            have := Pdf.value_error env _ _ _ he
            simp only [Except.error.injEq] at hc
            rw [this] at hc
            exact absurd hc (by decide)
          · split
            · rename_i e he
              intro hc
              simp only [Except.error.injEq] at hc
              rw [hc] at he
              exact hself _ _ he
            · split
              · rename_i e he
                intro hc
                simp only [Except.error.injEq] at hc
                rw [hc] at he
                unfold Vec3.divDensity at he
                split_ifs at he
                · simp at he
              · simp
      · simp
  · simp

/-- The function `ray_color` never reports an exceeded nesting bound: it is run
without one. -/
theorem ray_color_ne_nestingExceeded (env : Env F) (loc : Locals F) (background : Vec3 F)
    (world lights : Hittable F) (n : ℕ) :
    ∀ (depth : ℤ), depth.toNat = n → ∀ (r : Ray F) (g : Rng F),
      ray_color env loc background world lights depth r g ≠ .error Fault.nestingExceeded := by
  induction n with
  | zero =>
    intro depth hd r g
    rw [ray_color_nonpos _ _ _ _ _ _ (by omega)]
    simp
  | succ k ih =>
    intro depth hd r g
    rw [ray_color_pos _ _ _ _ _ _ (by omega)]
    exact ray_color_body_ne_nestingExceeded env loc background world lights _
      (ih (depth - 1) (by omega)) r g

/-- With a nesting bound above `depth` the bounded evaluation is `ray_color`. -/
theorem ray_color_bounded_eq (env : Env F) (loc : Locals F) (background : Vec3 F)
    (world lights : Hittable F) (budget : ℕ) :
    ∀ (depth : ℤ), depth.toNat < budget →
      ray_color_bounded env loc background world lights budget depth =
        ray_color env loc background world lights depth := by
  induction budget with
  | zero => intro depth h; omega
  | succ k ih =>
    intro depth h
    rw [ray_color_eq]
    simp only [ray_color_bounded]
    split_ifs with hd
    · rfl
    · rw [ih (depth - 1) (by omega)]

/-- C7: `ray_color` is bounded by its depth counter.  For every `depth ≤ 0` it
returns the zero colour whatever the scene is and without touching the
generator (the scene is not queried); for every `depth > 0`, every scene and
every random stream, it is its body with the recursive call made at
`depth - 1`; so an evaluation allowed to nest more than `depth` calls (the
outermost one and at most `depth` recursive ones) never runs into its bound and
yields the result of `ray_color`: the evaluation terminates. -/
theorem C7_ray_color_depth_bounded (env : Env F) (loc : Locals F) (background : Vec3 F)
    (world lights : Hittable F) (depth : ℤ) (r : Ray F) (g : Rng F) :
    (depth ≤ 0 → ∀ world1 lights1 : Hittable F,
      ray_color env loc background world1 lights1 depth r g = .ok (⟨0, 0, 0⟩, g)) ∧
    (0 < depth → ray_color env loc background world lights depth r g =
      ray_color_body env loc background world lights
        (ray_color env loc background world lights (depth - 1)) r g) ∧
    (∀ budget : ℕ, depth.toNat < budget →
      ray_color_bounded env loc background world lights budget depth r g =
        ray_color env loc background world lights depth r g) ∧
    ray_color env loc background world lights depth r g ≠ .error Fault.nestingExceeded := by
  refine ⟨?_, ?_, ?_, ?_⟩
  · intro h world1 lights1
    exact ray_color_nonpos env loc background world1 lights1 depth h r g
  · intro h
    exact ray_color_pos env loc background world lights depth h r g
  · intro budget h
    rw [ray_color_bounded_eq env loc background world lights budget depth h]
  · exact ray_color_ne_nestingExceeded env loc background world lights _ depth rfl r g

/-! ### Concrete evaluation: the scenes of the estimator -/

theorem ball_hit_zRay (m : Option (Material ℚ)) (rec : HitRecord ℚ) :
    Sphere.hit ratEnv (ball m) zRay (Ext.fin 0.001) Ext.posInf rec =
      (true, Sphere.fill ratEnv (ball m) zRay rec 2) := by
  have hd : (ball m).discriminant zRay = 1 := by
    simp only [Sphere.discriminant, ball, zRay, Ray.origin, Ray.direction, Vec3.dot,
      Vec3.length_squared, Vec3.sub_def]
    norm_num
  have hr : (ball m).root_minus ratEnv zRay = 2 := by
    simp only [Sphere.root_minus, hd]
    simp only [ratEnv, ratSqrt_one, Sphere.half_b, ball, zRay, Ray.origin, Ray.direction,
      Vec3.dot, Vec3.length_squared, Vec3.sub_def]
    norm_num
  rw [Sphere.hit_eq, hd, hr]
  have h1 : ¬ ((1 : ℚ) < 0) := by norm_num
  have h2 : ¬ ((Ext.fin (2 : ℚ) < Ext.fin 0.001) ∨ (Ext.posInf < Ext.fin (2 : ℚ))) := by
    simp
    norm_num
  rw [if_neg h1, if_neg h2]

theorem ball_hit_xRay (m : Option (Material ℚ)) (rec : HitRecord ℚ) :
    Sphere.hit ratEnv (ball m) xRay (Ext.fin 0.001) Ext.posInf rec =
      (true, Sphere.fill ratEnv (ball m) xRay rec 2) := by
  have hd : (ball m).discriminant xRay = 1 := by
    simp only [Sphere.discriminant, ball, xRay, Ray.origin, Ray.direction, Vec3.dot,
      Vec3.length_squared, Vec3.sub_def]
    norm_num
  have hr : (ball m).root_minus ratEnv xRay = 2 := by
    simp only [Sphere.root_minus, hd]
    simp only [ratEnv, ratSqrt_one, Sphere.half_b, ball, xRay, Ray.origin, Ray.direction,
      Vec3.dot, Vec3.length_squared, Vec3.sub_def]
    norm_num
  rw [Sphere.hit_eq, hd, hr]
  have h1 : ¬ ((1 : ℚ) < 0) := by norm_num
  have h2 : ¬ ((Ext.fin (2 : ℚ) < Ext.fin 0.001) ∨ (Ext.posInf < Ext.fin (2 : ℚ))) := by
    simp
    norm_num
  rw [if_neg h1, if_neg h2]

theorem ball_miss_xOut (m : Option (Material ℚ)) (rec : HitRecord ℚ) :
    Sphere.hit ratEnv (ball m) xOut (Ext.fin 0.001) Ext.posInf rec = (false, rec) := by
  have hd : (ball m).discriminant xOut = 1 := by
    simp only [Sphere.discriminant, ball, xOut, Ray.origin, Ray.direction, Vec3.dot,
      Vec3.length_squared, Vec3.sub_def]
    norm_num
  have hr : (ball m).root_minus ratEnv xOut = -2 := by
    simp only [Sphere.root_minus, hd]
    simp only [ratEnv, ratSqrt_one, Sphere.half_b, ball, xOut, Ray.origin, Ray.direction,
      Vec3.dot, Vec3.length_squared, Vec3.sub_def]
    norm_num
  have hp : (ball m).root_plus ratEnv xOut = 0 := by
    simp only [Sphere.root_plus, hd]
    simp only [ratEnv, ratSqrt_one, Sphere.half_b, ball, xOut, Ray.origin, Ray.direction,
      Vec3.dot, Vec3.length_squared, Vec3.sub_def]
    norm_num
  rw [Sphere.hit_eq, hd, hr, hp]
  have h1 : ¬ ((1 : ℚ) < 0) := by norm_num
  have h2 : (Ext.fin (-2 : ℚ) < Ext.fin 0.001) ∨ (Ext.posInf < Ext.fin (-2 : ℚ)) := by
    left
    simp
    norm_num
  have h3 : (Ext.fin (0 : ℚ) < Ext.fin 0.001) ∨ (Ext.posInf < Ext.fin (0 : ℚ)) := by
    left
    simp
    norm_num
  rw [if_neg h1, if_pos h2, if_pos h3]

theorem fill_zRay_p (m : Option (Material ℚ)) (rec : HitRecord ℚ) :
    (Sphere.fill ratEnv (ball m) zRay rec 2).p = ⟨0, 0, -1⟩ := by
  simp only [Sphere.fill_p, Ray.at, zRay, Vec3.add_def, Vec3.smul_def]
  norm_num

theorem fill_zRay_normal (m : Option (Material ℚ)) (rec : HitRecord ℚ) :
    (Sphere.fill ratEnv (ball m) zRay rec 2).normal = ⟨0, 0, -1⟩ := by
  simp only [Sphere.fill, HitRecord.set_face_normal, Ray.at, Ray.direction, zRay, ball,
    Vec3.add_def, Vec3.smul_def, Vec3.sub_def, Vec3.div_def, Vec3.dot, Vec3.neg_def]
  norm_num

theorem fill_xRay_p (m : Option (Material ℚ)) (rec : HitRecord ℚ) :
    (Sphere.fill ratEnv (ball m) xRay rec 2).p = ⟨1, 0, 0⟩ := by
  simp only [Sphere.fill_p, Ray.at, xRay, Vec3.add_def, Vec3.smul_def]
  norm_num

theorem fill_xRay_normal (m : Option (Material ℚ)) (rec : HitRecord ℚ) :
    (Sphere.fill ratEnv (ball m) xRay rec 2).normal = ⟨1, 0, 0⟩ := by
  simp only [Sphere.fill, HitRecord.set_face_normal, Ray.at, Ray.direction, xRay, ball,
    Vec3.add_def, Vec3.smul_def, Vec3.sub_def, Vec3.div_def, Vec3.dot, Vec3.neg_def]
  norm_num

theorem fill_mat_ptr (env : Env F) (s : Sphere F) (r : Ray F) (rec : HitRecord F) (root : F) :
    (Sphere.fill env s r rec root).mat_ptr = s.mat_ptr := rfl

theorem matteWorld_hit_zRay :
    matteWorld.hit zRay (Ext.fin 0.001) Ext.posInf loc0.hrec rngZero = ((true, zHit), rngZero) := by
  show (Sphere.hit ratEnv (ball (some matte)) zRay (Ext.fin 0.001) Ext.posInf rec0, rngZero) = _
  rw [ball_hit_zRay]
  rfl

theorem matteWorld_hit_xRay :
    matteWorld.hit xRay (Ext.fin 0.001) Ext.posInf loc0.hrec rngZero = ((true, xHit), rngZero) := by
  show (Sphere.hit ratEnv (ball (some matte)) xRay (Ext.fin 0.001) Ext.posInf rec0, rngZero) = _
  rw [ball_hit_xRay]
  rfl

theorem matte_scatter (r : Ray ℚ) (h : HitRecord ℚ) (g : Rng ℚ) :
    matte.scatter ratEnv r h loc0.srec g = ((true, matteScatter h), g) := rfl

/-- The mixture draws with `rngZero`: the first draw is `0 < 0.5`, so the light
distribution is sampled, and `dullLight` answers `(1, 0, 0)`. -/
theorem mixture_generate_dull (o : Vec3 ℚ) (p1 : Pdf ℚ) :
    (MixturePdf (HittablePdf o dullLight) p1).generate ratEnv rngZero =
      .ok (⟨1, 0, 0⟩, rngZero1) := by
  have h : ((0 : ℚ) < 0.5) := by norm_num
  simp only [MixturePdf, HittablePdf, Pdf.generate, random_double2, rngZero, if_pos h]
  rfl

theorem normal_negz : Vec3.normal ratEnv (⟨0, 0, -1⟩ : Vec3 ℚ) = ⟨0, 0, -1⟩ := by
  simp only [Vec3.normal, Vec3.length, Vec3.length_squared, Vec3.div_def, ratEnv]
  norm_num [ratSqrt_one]

/-- At the hit `(0, 0, -1)` the direction `(1, 0, 0)` is tangent to the sphere:
both halves of the mixture have density `0` there. -/
theorem mixture_value_zHit :
    (MixturePdf (HittablePdf zHit.p dullLight) (matteScatter zHit).pdf_ptr).value ratEnv
      ⟨1, 0, 0⟩ = .ok 0 := by
  have hn : zHit.normal = ⟨0, 0, -1⟩ := fill_zRay_normal _ _
  simp only [MixturePdf, HittablePdf, Pdf.value, matteScatter, CosinePdf, Onb.build_from_w,
    Onb.w, hn, normal_negz, normal_ex ratEnv ratEnv_sqrt_one, Vec3.dot]
  have hl : dullLight.pdf_value zHit.p ⟨1, 0, 0⟩ = 0 := rfl
  rw [hl]
  norm_num

/-- At the hit `(1, 0, 0)` the direction `(1, 0, 0)` is the normal: the cosine
half of the mixture has density `1 / PI`, the light half `0`. -/
theorem mixture_value_xHit :
    (MixturePdf (HittablePdf xHit.p dullLight) (matteScatter xHit).pdf_ptr).value ratEnv
      ⟨1, 0, 0⟩ = .ok (0.5 * 0 + 0.5 * (1 / PI)) := by
  have hn : xHit.normal = ⟨1, 0, 0⟩ := fill_xRay_normal _ _
  simp only [MixturePdf, HittablePdf, Pdf.value, matteScatter, CosinePdf, Onb.build_from_w,
    Onb.w, hn, normal_ex ratEnv ratEnv_sqrt_one, Vec3.dot]
  have hl : dullLight.pdf_value xHit.p ⟨1, 0, 0⟩ = 0 := rfl
  rw [hl]
  norm_num

/-! ### The claims on `ray_color` at the concrete scenes -/

theorem matteWorld_miss_xOut (g : Rng ℚ) :
    matteWorld.hit ⟨xHit.p, ⟨1, 0, 0⟩, xRay.time⟩ (Ext.fin 0.001) Ext.posInf loc0.hrec g =
      ((false, rec0), g) := by
  have hp : xHit.p = ⟨1, 0, 0⟩ := fill_xRay_p _ _
  rw [hp]
  show (Sphere.hit ratEnv (ball (some matte)) xOut (Ext.fin 0.001) Ext.posInf rec0, g) = _
  rw [ball_miss_xOut]

/-- The scattered ray of the second bounce leaves the sphere: the background. -/
theorem ray_color_xOut :
    ray_color ratEnv loc0 white matteWorld dullLight (2 - 1) ⟨xHit.p, ⟨1, 0, 0⟩, xRay.time⟩
      rngZero1 = .ok (white, rngZero1) := by
  rw [ray_color_pos _ _ _ _ _ _ (by norm_num)]
  simp only [ray_color_body, matteWorld_miss_xOut]
  rfl

/-- C4 at the diffuse unit sphere, the ray from `(3, 0, 0)` along `-x`, depth 2,
a white background and a generator that draws zeros: the hit is at `(1, 0, 0)`,
the mixture draws the direction `(1, 0, 0)` with density
`0.5 * 0 + 0.5 * (1 / PI)`, and the scattered ray reaches the background. -/
theorem C4_ray_color_scatter_formula_witness :
    matteWorld.hit xRay (Ext.fin 0.001) Ext.posInf loc0.hrec rngZero = ((true, xHit), rngZero) ∧
    matte.scatter ratEnv xRay xHit loc0.srec rngZero = ((true, matteScatter xHit), rngZero) ∧
    (matteScatter xHit).is_specular = false ∧
    (MixturePdf (HittablePdf xHit.p dullLight) (matteScatter xHit).pdf_ptr).generate ratEnv
      rngZero = .ok (⟨1, 0, 0⟩, rngZero1) ∧
    (MixturePdf (HittablePdf xHit.p dullLight) (matteScatter xHit).pdf_ptr).value ratEnv
      ⟨1, 0, 0⟩ = .ok (0.5 * 0 + 0.5 * (1 / PI)) ∧
    (0.5 * 0 + 0.5 * (1 / PI) : ℚ) ≠ 0 ∧
    ray_color ratEnv loc0 white matteWorld dullLight 2 xRay rngZero =
      .ok (matte.emitted ratEnv xRay xHit xHit.u xHit.v xHit.p +
            (matteScatter xHit).attenuation *
                matte.scattering_pdf ratEnv xRay xHit ⟨xHit.p, ⟨1, 0, 0⟩, xRay.time⟩ * white /
              (0.5 * 0 + 0.5 * (1 / PI) : ℚ), rngZero1) :=
  have hnz : (0.5 * 0 + 0.5 * (1 / PI) : ℚ) ≠ 0 := by
    have := PI_pos (F := ℚ)
    have h2 : (0 : ℚ) < 0.5 * 0 + 0.5 * (1 / PI) := by positivity
    exact h2.ne'
  ⟨matteWorld_hit_xRay, matte_scatter _ _ _, rfl, mixture_generate_dull _ _, mixture_value_xHit,
    hnz,
    C4_ray_color_scatter_formula ratEnv loc0 white matteWorld dullLight 2 xRay rngZero rngZero
      rngZero rngZero1 rngZero1 xHit matte (matteScatter xHit) ⟨1, 0, 0⟩ white
      (0.5 * 0 + 0.5 * (1 / PI)) (by norm_num) matteWorld_hit_xRay rfl (matte_scatter _ _ _) rfl
      (mixture_generate_dull _ _) mixture_value_xHit hnz ray_color_xOut⟩

/-- C6 fails as stated: at the diffuse unit sphere hit by the ray from
`(0, 0, -3)` along `+z`, with depth 1 and a generator that draws zeros, the
mixture draws the tangent direction `(1, 0, 0)`, its density there is `0`, and
`ray_color` does not return the emitted radiance: it divides by the zero
density. -/
theorem C6_zero_density_counterexample :
    matteWorld.hit zRay (Ext.fin 0.001) Ext.posInf loc0.hrec rngZero = ((true, zHit), rngZero) ∧
    (MixturePdf (HittablePdf zHit.p dullLight) (matteScatter zHit).pdf_ptr).generate ratEnv
      rngZero = .ok (⟨1, 0, 0⟩, rngZero1) ∧
    (MixturePdf (HittablePdf zHit.p dullLight) (matteScatter zHit).pdf_ptr).value ratEnv
      ⟨1, 0, 0⟩ = .ok 0 ∧
    ray_color ratEnv loc0 white matteWorld dullLight 1 zRay rngZero = .error Fault.nonFinite ∧
    ¬ ∃ g1, ray_color ratEnv loc0 white matteWorld dullLight 1 zRay rngZero =
      .ok (matte.emitted ratEnv zRay zHit zHit.u zHit.v zHit.p, g1) :=
  have h : ray_color ratEnv loc0 white matteWorld dullLight 1 zRay rngZero =
      .error Fault.nonFinite :=
    ray_color_zero_density ratEnv loc0 white matteWorld dullLight 1 zRay rngZero rngZero
      rngZero rngZero1 rngZero1 zHit matte (matteScatter zHit) ⟨1, 0, 0⟩ ⟨0, 0, 0⟩
      (by norm_num) matteWorld_hit_zRay rfl (matte_scatter _ _ _)
      (mixture_generate_dull _ _) mixture_value_zHit
      (ray_color_nonpos _ _ _ _ _ _ (by norm_num) _ _)
  ⟨matteWorld_hit_zRay, mixture_generate_dull _ _, mixture_value_zHit, h,
    fun ⟨g1, hg⟩ => by rw [h] at hg; exact absurd hg (by simp)⟩

/-- The amended C6 at the diffuse unit sphere, the ray from `(0, 0, -3)` along
`+z` and depth 1: the recursive call returns the zero colour, the density at
the drawn direction is zero, and the result is the division by zero. -/
theorem C6_ray_color_zero_density_unguarded_witness :
    (MixturePdf (HittablePdf zHit.p dullLight) (matteScatter zHit).pdf_ptr).value ratEnv
      ⟨1, 0, 0⟩ = .ok 0 ∧
    ray_color ratEnv loc0 white matteWorld dullLight (1 - 1) ⟨zHit.p, ⟨1, 0, 0⟩, zRay.time⟩
      rngZero1 = .ok (⟨0, 0, 0⟩, rngZero1) ∧
    ray_color ratEnv loc0 white matteWorld dullLight 1 zRay rngZero = .error Fault.nonFinite :=
  have hrc : ray_color ratEnv loc0 white matteWorld dullLight (1 - 1)
      ⟨zHit.p, ⟨1, 0, 0⟩, zRay.time⟩ rngZero1 = .ok (⟨0, 0, 0⟩, rngZero1) :=
    ray_color_nonpos _ _ _ _ _ _ (by norm_num) _ _
  ⟨mixture_value_zHit, hrc,
    C6_ray_color_zero_density_unguarded ratEnv loc0 white matteWorld dullLight 1 zRay rngZero
      rngZero rngZero rngZero1 rngZero1 zHit matte (matteScatter zHit) ⟨1, 0, 0⟩ ⟨0, 0, 0⟩
      (by norm_num) matteWorld_hit_zRay rfl (matte_scatter _ _ _)
      (mixture_generate_dull _ _) mixture_value_zHit hrc⟩

/-! ### Specular materials -/

/-- The method `Metal::scatter` returns true and leaves a specular record whose
`pdf_ptr` is null. -/
theorem Material.scatter_metal (env : Env F) (a : Vec3 F) (fuzz : F) (r_in : Ray F)
    (rec : HitRecord F) (srec : ScatterRecord F) (g : Rng F) :
    ((Material.metal a fuzz).scatter env r_in rec srec g).1.1 = true ∧
    ((Material.metal a fuzz).scatter env r_in rec srec g).1.2.is_specular = true ∧
    ((Material.metal a fuzz).scatter env r_in rec srec g).1.2.pdf_ptr = Pdf.null ∧
    ((Material.metal a fuzz).scatter env r_in rec srec g).1.2.attenuation = a :=
  ⟨rfl, rfl, rfl, rfl⟩

/-- The method `Dielectric::scatter` returns true and leaves a specular record
whose `pdf_ptr` is null. -/
theorem Material.scatter_dielectric (env : Env F) (ir : F) (r_in : Ray F)
    (rec : HitRecord F) (srec : ScatterRecord F) (g : Rng F) :
    ((Material.dielectric ir).scatter env r_in rec srec g).1.1 = true ∧
    ((Material.dielectric ir).scatter env r_in rec srec g).1.2.is_specular = true ∧
    ((Material.dielectric ir).scatter env r_in rec srec g).1.2.pdf_ptr = Pdf.null ∧
    ((Material.dielectric ir).scatter env r_in rec srec g).1.2.attenuation = ⟨1.0, 1.0, 1.0⟩ :=
  ⟨rfl, rfl, rfl, rfl⟩

/-- On a hit of a `Metal` or `Dielectric` surface with `depth > 0`, `ray_color`
does not take the specular ray: it builds the mixture over the null `pdf_ptr`
and dereferences it. -/
theorem ray_color_specular_null_deref (env : Env F) (loc : Locals F) (background : Vec3 F)
    (world lights : Hittable F) (depth : ℤ) (r : Ray F) (g g1 : Rng F) (hrec : HitRecord F)
    (mat : Material F) (hdepth : 0 < depth)
    (hhit : world.hit r (Ext.fin 0.001) Ext.posInf loc.hrec g = ((true, hrec), g1))
    (hmat : hrec.mat_ptr = some mat)
    (hspec : (∃ a fuzz, mat = .metal a fuzz) ∨ (∃ ir, mat = .dielectric ir)) :
    ray_color env loc background world lights depth r g = .error Fault.nullDeref := by
  rw [ray_color_pos _ _ _ _ _ _ hdepth]
  rcases hspec with ⟨a, fuzz, rfl⟩ | ⟨ir, rfl⟩
  · exact ray_color_body_null_pdf env loc background world lights _ r g g1 _ hrec _ _ hhit hmat
      (Prod.ext (Prod.ext (Material.scatter_metal env a fuzz r hrec loc.srec g1).1 rfl) rfl)
      (Material.scatter_metal env a fuzz r hrec loc.srec g1).2.2.1
  · exact ray_color_body_null_pdf env loc background world lights _ r g g1 _ hrec _ _ hhit hmat
      (Prod.ext (Prod.ext (Material.scatter_dielectric env ir r hrec loc.srec g1).1 rfl) rfl)
      (Material.scatter_dielectric env ir r hrec loc.srec g1).2.2.1

theorem mirrorWorld_hit_zRay :
    mirrorWorld.hit zRay (Ext.fin 0.001) Ext.posInf loc0.hrec rngZero =
      ((true, Sphere.fill ratEnv (ball (some mirror)) zRay rec0 2), rngZero) := by
  show (Sphere.hit ratEnv (ball (some mirror)) zRay (Ext.fin 0.001) Ext.posInf rec0, rngZero) = _
  rw [ball_hit_zRay]

/-- C5, the code at a failing input: the metal unit sphere (`Metal::scatter` sets
`is_specular` and a null `pdf_ptr`) hit by the ray from `(0, 0, -3)` along `+z`
with depth 1.  `ray_color` does not return
`attenuation * ray_color(specular_ray, depth - 1)`; it dereferences the null
pointer. -/
theorem C5_ray_color_specular_null_deref :
    (mirror.scatter ratEnv zRay (Sphere.fill ratEnv (ball (some mirror)) zRay rec0 2)
        loc0.srec rngZero).1.2.is_specular = true ∧
    ray_color ratEnv loc0 white mirrorWorld dullLight 1 zRay rngZero =
      .error Fault.nullDeref :=
  ⟨rfl, ray_color_specular_null_deref ratEnv loc0 white mirrorWorld dullLight 1 zRay rngZero
    rngZero (Sphere.fill ratEnv (ball (some mirror)) zRay rec0 2) mirror (by norm_num)
    mirrorWorld_hit_zRay rfl (Or.inl ⟨_, _, rfl⟩)⟩

/-! ## main.cpp: the order of the emitted pixels -/

theorem row_from_mem {C : Type} (j : ℤ) (cs : List C) :
    ∀ (i : ℤ) (a : Pixel C), a ∈ row_from j i cs → a.1.1 = j ∧ i ≤ a.1.2 := by
  induction cs with
  | nil => intro i a h; simp [row_from] at h
  | cons c cs ih =>
    intro i a h
    simp only [row_from, List.mem_cons] at h
    rcases h with rfl | h
    · exact ⟨rfl, le_refl _⟩
    · have := ih (i + 1) a h
      exact ⟨this.1, by omega⟩

/-- The results of a row in column order are strictly increasing for the
comparator. -/
theorem row_from_sorted {C : Type} (j : ℤ) (cs : List C) :
    ∀ i : ℤ, (row_from j i cs).Pairwise (fun a b => pixel_less a b = true) := by
  induction cs with
  | nil => intro i; simp [row_from]
  | cons c cs ih =>
    intro i
    simp only [row_from, List.pairwise_cons]
    refine ⟨?_, ih (i + 1)⟩
    intro b hb
    have := row_from_mem j cs (i + 1) b hb
    simp only [pixel_less, this.1, if_true, decide_eq_true_eq]
    omega

theorem row_from_columns {C : Type} (j : ℤ) (cs : List C) :
    ∀ i : ℤ, (row_from j i cs).map (fun a => a.1.2) =
      (List.range cs.length).map (fun k : ℕ => i + (k : ℤ)) := by
  induction cs with
  | nil => intro i; simp [row_from]
  | cons c cs ih =>
    intro i
    rw [List.length_cons, List.range_succ_eq_map]
    simp only [row_from, List.map_cons, ih (i + 1), List.map_map, Nat.cast_zero, add_zero,
      List.cons.injEq, true_and]
    apply List.map_congr_left
    intro k _
    simp only [Function.comp, Nat.cast_succ]
    ring

theorem row_from_colors {C : Type} (j : ℤ) (cs : List C) :
    ∀ i : ℤ, (row_from j i cs).map (fun a => a.2) = cs := by
  induction cs with
  | nil => intro i; rfl
  | cons c cs ih => intro i; simp only [row_from, List.map_cons, ih (i + 1)]

/-- Neither of two pixels comes before the other only if they have the same row
and column. -/
theorem pixel_less_total {C : Type} (a b : Pixel C)
    (h1 : pixel_less a b = false) (h2 : pixel_less b a = false) : a.1 = b.1 := by
  unfold pixel_less at h1 h2
  by_cases h : a.1.1 = b.1.1
  · rw [if_pos h] at h1
    rw [if_pos h.symm] at h2
    simp only [decide_eq_false_iff_not, not_lt] at h1 h2
    exact Prod.ext h (le_antisymm h2 h1)
  · rw [if_neg h] at h1
    rw [if_neg (Ne.symm h)] at h2
    simp only [decide_eq_false_iff_not, not_lt, gt_iff_lt] at h1 h2
    exact absurd (le_antisymm h1 h2) h

theorem pixel_less_asymm {C : Type} (a b : Pixel C) (h : pixel_less a b = true) :
    pixel_less b a = false := by
  unfold pixel_less at h ⊢
  by_cases hr : a.1.1 = b.1.1
  · rw [if_pos hr] at h
    rw [if_pos hr.symm]
    simp only [decide_eq_true_eq] at h
    simp only [decide_eq_false_iff_not, not_lt]
    exact h.le
  · rw [if_neg hr] at h
    rw [if_neg (Ne.symm hr)]
    simp only [decide_eq_true_eq, gt_iff_lt] at h
    simp only [decide_eq_false_iff_not, not_lt, gt_iff_lt]
    exact h.le

/-- A list strictly increasing for the comparator is the only rearrangement of
itself that `std::sort` may leave. -/
theorem sorted_unique {C : Type} (l : List (Pixel C))
    (hl : l.Pairwise (fun a b => pixel_less a b = true)) :
    ∀ out : List (Pixel C), out.Perm l →
      out.Pairwise (fun a b => pixel_less b a = false) → out = l := by
  induction l with
  | nil => intro out hp _; exact hp.eq_nil
  | cons x xs ih =>
    intro out hp hs
    rw [List.pairwise_cons] at hl
    cases out with
    | nil => exact absurd hp.symm.eq_nil (by simp)
    | cons y ys =>
      rw [List.pairwise_cons] at hs
      have hy : y ∈ x :: xs := hp.subset (List.mem_cons_self _ _)
      have hx : x ∈ y :: ys := hp.symm.subset (List.mem_cons_self _ _)
      have hyx : y = x := by
        rcases List.mem_cons.mp hy with h | h
        · exact h
        · rcases List.mem_cons.mp hx with h' | h'
          · exact h'.symm
          · have h1 : pixel_less x y = true := hl.1 y h
            have h2 : pixel_less x y = false := hs.1 x h'
            rw [h1] at h2
            exact absurd h2 (by simp)
      subst hyx
      rw [ih hl.2 ys (List.Perm.cons_inv hp) hs.2]

/-- C8: for every row `j` and every order in which that row's results
`((j, i), color_i)`, `i = 0 .. width - 1`, are placed in the vector `pixels`,
sorting with the scheduler's comparator (row descending, then column ascending)
yields the same sequence, the results in the order of the columns
`0, 1, ..., width - 1`, each with its own colour: that sequence meets the
postcondition of `std::sort`, and it is the only one that does. -/
theorem C8_row_sort_deterministic {C : Type} (j : ℤ) (colors : List C)
    (pixels : List (Pixel C)) (hperm : pixels.Perm (row_results j colors)) :
    std_sort_post pixel_less pixels (row_results j colors) ∧
    (∀ out : List (Pixel C), std_sort_post pixel_less pixels out → out = row_results j colors) ∧
    (row_results j colors).map (fun a => a.1.2) =
      (List.range colors.length).map (fun k : ℕ => (k : ℤ)) ∧
    (row_results j colors).map (fun a => a.2) = colors := by
  have hs := row_from_sorted j colors 0
  refine ⟨⟨hperm.symm, ?_⟩, ?_, ?_, ?_⟩
  · exact hs.imp (fun {a b} h => pixel_less_asymm a b h)
  · intro out hout
    exact sorted_unique _ hs out (hout.1.trans hperm) hout.2
  · have := row_from_columns j colors 0
    simpa using this
  · exact row_from_colors j colors 0

theorem rowShuffled_perm : rowShuffled.Perm (row_results 5 rowColors) :=
  List.Perm.swap _ _ _

/-- C8 at row 5 of width 3 with the results of columns 0 and 1 swapped: the
sort can only leave the columns in the order 0, 1, 2. -/
theorem C8_row_sort_deterministic_witness :
    rowShuffled.Perm (row_results 5 rowColors) ∧
    row_results 5 rowColors =
      [((5, 0), ⟨1, 0, 0⟩), ((5, 1), ⟨0, 1, 0⟩), ((5, 2), ⟨0, 0, 1⟩)] ∧
    std_sort_post pixel_less rowShuffled (row_results 5 rowColors) ∧
    (∀ out : List (Pixel (Vec3 ℚ)), std_sort_post pixel_less rowShuffled out →
      out = row_results 5 rowColors) :=
  ⟨rowShuffled_perm, rfl,
    (C8_row_sort_deterministic 5 rowColors rowShuffled rowShuffled_perm).1,
    (C8_row_sort_deterministic 5 rowColors rowShuffled rowShuffled_perm).2.1⟩

/-! ## hittable.h: set_face_normal and the decorators -/

theorem Vec3.dot_neg_right (a b : Vec3 F) : Vec3.dot a (-b) = -Vec3.dot a b := by
  simp only [Vec3.dot, Vec3.neg_def]
  ring

/-- The normal `set_face_normal` stores points against the ray. -/
theorem dot_oriented (d N : Vec3 F) :
    Vec3.dot d (if decide (Vec3.dot d N < 0) = true then N else -N) ≤ 0 := by
  simp only [decide_eq_true_eq]
  split_ifs with h
  · exact h.le
  · rw [Vec3.dot_neg_right]
    linarith [not_lt.mp h]

/-- After `set_face_normal(r, N)`: `front_face` is `dot(D, N) < 0`, the normal is
`N` or `-N` accordingly, it points against the ray, and nothing else changed. -/
theorem HitRecord.set_face_normal_spec (rec : HitRecord F) (r : Ray F) (N : Vec3 F) :
    ((rec.set_face_normal r N).front_face = true ↔ Vec3.dot r.direction N < 0) ∧
    (rec.set_face_normal r N).normal =
      (if (rec.set_face_normal r N).front_face = true then N else -N) ∧
    Vec3.dot r.direction (rec.set_face_normal r N).normal ≤ 0 ∧
    (rec.set_face_normal r N).p = rec.p ∧ (rec.set_face_normal r N).t = rec.t ∧
    (rec.set_face_normal r N).u = rec.u ∧ (rec.set_face_normal r N).v = rec.v ∧
    (rec.set_face_normal r N).mat_ptr = rec.mat_ptr := by
  refine ⟨?_, rfl, ?_, rfl, rfl, rfl, rfl, rfl⟩
  · simp only [HitRecord.set_face_normal, decide_eq_true_eq]
  · exact dot_oriented r.direction N

theorem Sphere.fill_normal_against (env : Env F) (s : Sphere F) (r : Ray F)
    (rec : HitRecord F) (root : F) :
    Vec3.dot r.direction (Sphere.fill env s r rec root).normal ≤ 0 :=
  dot_oriented r.direction _

theorem Sphere_hit_normal (env : Env F) (s : Sphere F) (r : Ray F) (t_min t_max : Ext F)
    (rec : HitRecord F) (h : (Sphere.hit env s r t_min t_max rec).1 = true) :
    Vec3.dot r.direction (Sphere.hit env s r t_min t_max rec).2.normal ≤ 0 := by
  rw [Sphere.hit_eq] at h ⊢
  split_ifs at h ⊢
  · exact Sphere.fill_normal_against env s r rec _
  · exact Sphere.fill_normal_against env s r rec _

theorem MovingSphere_hit_normal (env : Env F) (s : MovingSphere F) (r : Ray F)
    (t_min t_max : Ext F) (rec : HitRecord F)
    (h : (MovingSphere.hit env s r t_min t_max rec).1 = true) :
    Vec3.dot r.direction (MovingSphere.hit env s r t_min t_max rec).2.normal ≤ 0 := by
  unfold MovingSphere.hit at h ⊢
  simp only at h ⊢
  split_ifs at h ⊢
  · exact dot_oriented r.direction _
  · exact dot_oriented r.direction _

theorem XYRect_hit_normal (q : XYRect F) (r : Ray F) (t_min t_max : Ext F)
    (rec : HitRecord F) (h : (q.hit r t_min t_max rec).1 = true) :
    Vec3.dot r.direction (q.hit r t_min t_max rec).2.normal ≤ 0 := by
  unfold XYRect.hit at h ⊢
  simp only at h ⊢
  split_ifs at h ⊢
  exact dot_oriented r.direction _

theorem XZRect_hit_normal (q : XZRect F) (r : Ray F) (t_min t_max : Ext F)
    (rec : HitRecord F) (h : (q.hit r t_min t_max rec).1 = true) :
    Vec3.dot r.direction (q.hit r t_min t_max rec).2.normal ≤ 0 := by
  unfold XZRect.hit at h ⊢
  simp only at h ⊢
  split_ifs at h ⊢
  exact dot_oriented r.direction _

theorem YZRect_hit_normal (q : YZRect F) (r : Ray F) (t_min t_max : Ext F)
    (rec : HitRecord F) (h : (q.hit r t_min t_max rec).1 = true) :
    Vec3.dot r.direction (q.hit r t_min t_max rec).2.normal ≤ 0 := by
  unfold YZRect.hit at h ⊢
  simp only at h ⊢
  split_ifs at h ⊢
  exact dot_oriented r.direction _

/-- C19: for every child shape `S`, ray and interval, `FlipFace(S).hit` returns
true exactly when `S.hit` does (and leaves the generator as `S.hit` does); on a
hit the record is the child's record with `front_face` negated, so `t`, the
point, the normal, `u`, `v` and the material are unchanged; on a miss the record
is what the child left; and `FlipFace(S).bounding_box` is `S.bounding_box`. -/
theorem C19_flip_face_frame (S : Hittable F) (r : Ray F) (t_min t_max : Ext F)
    (rec : HitRecord F) (g : Rng F) (time0 time1 : F) (box : Aabb F) :
    ((FlipFace S).hit r t_min t_max rec g).1.1 = (S.hit r t_min t_max rec g).1.1 ∧
    ((FlipFace S).hit r t_min t_max rec g).2 = (S.hit r t_min t_max rec g).2 ∧
    ((S.hit r t_min t_max rec g).1.1 = true →
      ((FlipFace S).hit r t_min t_max rec g).1.2 =
        { (S.hit r t_min t_max rec g).1.2 with
          front_face := !(S.hit r t_min t_max rec g).1.2.front_face } ∧
      ((FlipFace S).hit r t_min t_max rec g).1.2.front_face =
        !(S.hit r t_min t_max rec g).1.2.front_face ∧
      ((FlipFace S).hit r t_min t_max rec g).1.2.t = (S.hit r t_min t_max rec g).1.2.t ∧
      ((FlipFace S).hit r t_min t_max rec g).1.2.p = (S.hit r t_min t_max rec g).1.2.p ∧
      ((FlipFace S).hit r t_min t_max rec g).1.2.normal =
        (S.hit r t_min t_max rec g).1.2.normal ∧
      ((FlipFace S).hit r t_min t_max rec g).1.2.u = (S.hit r t_min t_max rec g).1.2.u ∧
      ((FlipFace S).hit r t_min t_max rec g).1.2.v = (S.hit r t_min t_max rec g).1.2.v ∧
      ((FlipFace S).hit r t_min t_max rec g).1.2.mat_ptr =
        (S.hit r t_min t_max rec g).1.2.mat_ptr) ∧
    ((S.hit r t_min t_max rec g).1.1 = false →
      ((FlipFace S).hit r t_min t_max rec g).1.2 = (S.hit r t_min t_max rec g).1.2) ∧
    (FlipFace S).bounding_box time0 time1 box = S.bounding_box time0 time1 box := by
  simp only [FlipFace]
  cases h : (S.hit r t_min t_max rec g).1.1 <;> simp

/-- The method `Translate::hit` in terms of the child's answer on the moved ray. -/
theorem Translate_hit (S : Hittable F) (offset : Vec3 F) (r : Ray F) (t_min t_max : Ext F)
    (rec : HitRecord F) (g : Rng F) :
    ((Translate S offset).hit r t_min t_max rec g).1.1 =
      (S.hit ⟨r.origin - offset, r.direction, r.time⟩ t_min t_max rec g).1.1 ∧
    ((Translate S offset).hit r t_min t_max rec g).2 =
      (S.hit ⟨r.origin - offset, r.direction, r.time⟩ t_min t_max rec g).2 ∧
    ((S.hit ⟨r.origin - offset, r.direction, r.time⟩ t_min t_max rec g).1.1 = true →
      ((Translate S offset).hit r t_min t_max rec g).1.2.t =
        (S.hit ⟨r.origin - offset, r.direction, r.time⟩ t_min t_max rec g).1.2.t ∧
      ((Translate S offset).hit r t_min t_max rec g).1.2.p =
        (S.hit ⟨r.origin - offset, r.direction, r.time⟩ t_min t_max rec g).1.2.p + offset) := by
  simp only [Translate]
  cases h : (S.hit ⟨r.origin - offset, r.direction, r.time⟩ t_min t_max rec g).1.1
  · simp
  · simp only [not_true_eq_false, if_false, true_and, forall_const]
    exact ⟨rfl, rfl⟩

/-- C15: for every child shape `S`, offset `v`, ray `r` and interval
`[t_min, t_max]`, `Translate(S, v).hit(r)` returns true if and only if `S.hit`
returns true on the ray with origin `r.origin - v`, the same direction and the
same time; on a hit the reported `t` is the child's `t` and the reported point
is the child's point plus `v`. -/
theorem C15_translate_hit (S : Hittable F) (v : Vec3 F) (r : Ray F) (t_min t_max : Ext F)
    (rec : HitRecord F) (g : Rng F) :
    (((Translate S v).hit r t_min t_max rec g).1.1 = true ↔
      (S.hit ⟨r.origin - v, r.direction, r.time⟩ t_min t_max rec g).1.1 = true) ∧
    (((Translate S v).hit r t_min t_max rec g).1.1 = true →
      ((Translate S v).hit r t_min t_max rec g).1.2.t =
        (S.hit ⟨r.origin - v, r.direction, r.time⟩ t_min t_max rec g).1.2.t ∧
      ((Translate S v).hit r t_min t_max rec g).1.2.p =
        (S.hit ⟨r.origin - v, r.direction, r.time⟩ t_min t_max rec g).1.2.p + v) := by
  have h := Translate_hit S v r t_min t_max rec g
  refine ⟨by rw [h.1], ?_⟩
  intro ht
  rw [h.1] at ht
  exact h.2.2 ht

theorem Vec3.add_sub_cancel (a b : Vec3 F) : a + b - b = a := by
  cases a
  simp only [Vec3.add_def, Vec3.sub_def, add_sub_cancel_right]

/-- A ray whose origin was shifted by `+v` is moved back onto itself by
`Translate::hit`. -/
theorem moved_shifted_ray (r : Ray F) (v : Vec3 F) :
    (⟨Ray.origin ⟨r.origin + v, r.direction, r.time⟩ - v,
      Ray.direction ⟨r.origin + v, r.direction, r.time⟩,
      Ray.time ⟨r.origin + v, r.direction, r.time⟩⟩ : Ray F) = r := by
  cases r
  simp only [Ray.origin, Ray.direction, Ray.time, Vec3.add_sub_cancel]

/-- The amended C14: for every shape `S`, offset `v`, ray `r` and interval,
testing `Translate(S, v)` against the ray `r` with its origin shifted by `+v`
reports a hit exactly when testing `S` against `r` does, with the same `t`, and
the hit point it reports is the hit point of `S` shifted by `+v`. -/
theorem C14_translate_shifted_ray (S : Hittable F) (v : Vec3 F) (r : Ray F)
    (t_min t_max : Ext F) (rec : HitRecord F) (g : Rng F) :
    (((Translate S v).hit ⟨r.origin + v, r.direction, r.time⟩ t_min t_max rec g).1.1 =
      (S.hit r t_min t_max rec g).1.1) ∧
    ((S.hit r t_min t_max rec g).1.1 = true →
      ((Translate S v).hit ⟨r.origin + v, r.direction, r.time⟩ t_min t_max rec g).1.2.t =
        (S.hit r t_min t_max rec g).1.2.t ∧
      ((Translate S v).hit ⟨r.origin + v, r.direction, r.time⟩ t_min t_max rec g).1.2.p =
        (S.hit r t_min t_max rec g).1.2.p + v) := by
  have h := Translate_hit S v ⟨r.origin + v, r.direction, r.time⟩ t_min t_max rec g
  rw [moved_shifted_ray] at h
  exact ⟨h.1, h.2.2⟩

/-! ### Concrete evaluation: the unit sphere under `Translate` -/

theorem ball_hit_zRayFrom (m : Option (Material ℚ)) (z0 : ℚ) (hz : z0 ≤ -2)
    (rec : HitRecord ℚ) :
    Sphere.hit ratEnv (ball m) (zRayFrom z0) (Ext.fin 0.001) Ext.posInf rec =
      (true, Sphere.fill ratEnv (ball m) (zRayFrom z0) rec (-z0 - 1)) := by
  have hd : (ball m).discriminant (zRayFrom z0) = 1 := by
    simp only [Sphere.discriminant, ball, zRayFrom, Ray.origin, Ray.direction, Vec3.dot,
      Vec3.length_squared, Vec3.sub_def]
    ring
  have hr : (ball m).root_minus ratEnv (zRayFrom z0) = -z0 - 1 := by
    simp only [Sphere.root_minus, hd]
    simp only [ratEnv, ratSqrt_one, Sphere.half_b, ball, zRayFrom, Ray.origin, Ray.direction,
      Vec3.dot, Vec3.length_squared, Vec3.sub_def]
    norm_num
  rw [Sphere.hit_eq, hd, hr]
  have h1 : ¬ ((1 : ℚ) < 0) := by norm_num
  have h2 : ¬ ((Ext.fin (-z0 - 1 : ℚ) < Ext.fin 0.001) ∨
      (Ext.posInf < Ext.fin (-z0 - 1 : ℚ))) := by
    simp only [Ext.fin_lt_fin, Ext.not_posInf_lt, or_false, not_lt]
    norm_num
    linarith
  rw [if_neg h1, if_neg h2]

theorem fill_zRayFrom_p (m : Option (Material ℚ)) (z0 t : ℚ) (rec : HitRecord ℚ) :
    (Sphere.fill ratEnv (ball m) (zRayFrom z0) rec t).p = ⟨0, 0, z0 + t⟩ := by
  simp only [Sphere.fill_p, Ray.at, zRayFrom, Vec3.add_def, Vec3.smul_def]
  norm_num

/-- C14 fails as stated: for the unit sphere `S`, the offset `v = (0, 0, 1)` and
the ray `r` from `(0, 0, -3)` along `+z`, `S` is hit by `r` at `(0, 0, -1)`,
while `Translate(S, v)` tested against `r` with its origin shifted by `-v` (from
`(0, 0, -4)`) reports the hit point `(0, 0, 0)`. -/
theorem C14_translate_counterexample :
    (unitBall.hit (zRayFrom (-3)) (Ext.fin 0.001) Ext.posInf rec0 rngZero).1.1 = true ∧
    (unitBall.hit (zRayFrom (-3)) (Ext.fin 0.001) Ext.posInf rec0 rngZero).1.2.p =
      ⟨0, 0, -1⟩ ∧
    ((Translate unitBall zShift).hit
      ⟨(zRayFrom (-3)).origin - zShift, (zRayFrom (-3)).direction, (zRayFrom (-3)).time⟩
      (Ext.fin 0.001) Ext.posInf rec0 rngZero).1.1 = true ∧
    ((Translate unitBall zShift).hit
      ⟨(zRayFrom (-3)).origin - zShift, (zRayFrom (-3)).direction, (zRayFrom (-3)).time⟩
      (Ext.fin 0.001) Ext.posInf rec0 rngZero).1.2.p = ⟨0, 0, 0⟩ ∧
    ((Translate unitBall zShift).hit
      ⟨(zRayFrom (-3)).origin - zShift, (zRayFrom (-3)).direction, (zRayFrom (-3)).time⟩
      (Ext.fin 0.001) Ext.posInf rec0 rngZero).1.2.p ≠
    (unitBall.hit (zRayFrom (-3)) (Ext.fin 0.001) Ext.posInf rec0 rngZero).1.2.p := by
  have hS : unitBall.hit (zRayFrom (-3)) (Ext.fin 0.001) Ext.posInf rec0 rngZero =
      ((true, Sphere.fill ratEnv (ball none) (zRayFrom (-3)) rec0 2), rngZero) := by
    show (Sphere.hit ratEnv (ball none) (zRayFrom (-3)) (Ext.fin 0.001) Ext.posInf rec0,
      rngZero) = _
    rw [ball_hit_zRayFrom none (-3) (by norm_num)]
    norm_num
  have hmoved : (⟨Ray.origin ⟨(zRayFrom (-3)).origin - zShift, (zRayFrom (-3)).direction,
        (zRayFrom (-3)).time⟩ - zShift,
      Ray.direction ⟨(zRayFrom (-3)).origin - zShift, (zRayFrom (-3)).direction,
        (zRayFrom (-3)).time⟩,
      Ray.time ⟨(zRayFrom (-3)).origin - zShift, (zRayFrom (-3)).direction,
        (zRayFrom (-3)).time⟩⟩ : Ray ℚ) = zRayFrom (-5) := by
    simp only [zRayFrom, zShift, Ray.origin, Ray.direction, Ray.time, Vec3.sub_def]
    norm_num
  have hC : unitBall.hit (zRayFrom (-5)) (Ext.fin 0.001) Ext.posInf rec0 rngZero =
      ((true, Sphere.fill ratEnv (ball none) (zRayFrom (-5)) rec0 4), rngZero) := by
    show (Sphere.hit ratEnv (ball none) (zRayFrom (-5)) (Ext.fin 0.001) Ext.posInf rec0,
      rngZero) = _
    rw [ball_hit_zRayFrom none (-5) (by norm_num)]
    norm_num
  have hT := Translate_hit unitBall zShift
    ⟨(zRayFrom (-3)).origin - zShift, (zRayFrom (-3)).direction, (zRayFrom (-3)).time⟩
    (Ext.fin 0.001) Ext.posInf rec0 rngZero
  rw [hmoved, hC] at hT
  have hp : ((Translate unitBall zShift).hit
      ⟨(zRayFrom (-3)).origin - zShift, (zRayFrom (-3)).direction, (zRayFrom (-3)).time⟩
      (Ext.fin 0.001) Ext.posInf rec0 rngZero).1.2.p = ⟨0, 0, 0⟩ := by
    rw [(hT.2.2 rfl).2, fill_zRayFrom_p]
    simp only [zShift, Vec3.add_def]
    norm_num
  have hq : (unitBall.hit (zRayFrom (-3)) (Ext.fin 0.001) Ext.posInf rec0 rngZero).1.2.p =
      ⟨0, 0, -1⟩ := by
    rw [hS, fill_zRayFrom_p]
    norm_num
  refine ⟨by rw [hS], hq, hT.1, hp, ?_⟩
  rw [hp, hq]
  intro h
  have hz := congrArg Vec3.z h
  norm_num at hz

/-! ## aarect.h -/

theorem Ray.at_x (r : Ray F) (t : F) : (r.at t).x = r.origin.x + t * r.direction.x := rfl

theorem Ray.at_y (r : Ray F) (t : F) : (r.at t).y = r.origin.y + t * r.direction.y := rfl

theorem Ray.at_z (r : Ray F) (t : F) : (r.at t).z = r.origin.z + t * r.direction.z := rfl

/-- The tests of the rectangles, as membership in the interval and the bounds. -/
theorem not_outside_iff (t_min t_max : Ext F) (t : F) :
    ¬ (Ext.fin t < t_min ∨ Ext.fin t > t_max) ↔ (t_min ≤ Ext.fin t ∧ Ext.fin t ≤ t_max) := by
  rw [not_or, Ext.not_lt_iff]
  exact and_congr Iff.rfl (Ext.not_lt_iff _ _)

theorem not_out_of_bounds_iff (a a0 a1 b b0 b1 : F) :
    ¬ (a < a0 ∨ a > a1 ∨ b < b0 ∨ b > b1) ↔ (a0 ≤ a ∧ a ≤ a1 ∧ b0 ≤ b ∧ b ≤ b1) := by
  simp only [not_or, not_lt, gt_iff_lt]

/-- The method `XYRect::hit`, written with `t_plane` and `Ray::at`. -/
theorem XYRect_hit_eq (q : XYRect F) (r : Ray F) (t_min t_max : Ext F) (rec : HitRecord F) :
    q.hit r t_min t_max rec =
      if Ext.fin (q.t_plane r) < t_min ∨ Ext.fin (q.t_plane r) > t_max then (false, rec)
      else if (r.at (q.t_plane r)).x < q.x0 ∨ (r.at (q.t_plane r)).x > q.x1 ∨
          (r.at (q.t_plane r)).y < q.y0 ∨ (r.at (q.t_plane r)).y > q.y1 then (false, rec)
      else (true,
        { ({ rec with u := ((r.at (q.t_plane r)).x - q.x0) / (q.x1 - q.x0),
                      v := ((r.at (q.t_plane r)).y - q.y0) / (q.y1 - q.y0),
                      t := q.t_plane r } : HitRecord F).set_face_normal r ⟨0, 0, 1⟩ with
          mat_ptr := q.mp, p := r.at (q.t_plane r) }) := rfl

/-- The method `XYRect::hit` when the ray is not parallel to the plane. -/
theorem XYRect_hit_spec (q : XYRect F) (r : Ray F) (t_min t_max : Ext F) (rec : HitRecord F)
    (hd : r.direction.z ≠ 0) :
    ((q.hit r t_min t_max rec).1 = true ↔
      (t_min ≤ Ext.fin (q.t_plane r) ∧ Ext.fin (q.t_plane r) ≤ t_max) ∧
      q.x0 ≤ (r.at (q.t_plane r)).x ∧ (r.at (q.t_plane r)).x ≤ q.x1 ∧
      q.y0 ≤ (r.at (q.t_plane r)).y ∧ (r.at (q.t_plane r)).y ≤ q.y1) ∧
    ((q.hit r t_min t_max rec).1 = true →
      (q.hit r t_min t_max rec).2.t = q.t_plane r ∧
      (q.hit r t_min t_max rec).2.p = r.at (q.t_plane r) ∧
      (q.hit r t_min t_max rec).2.p.z = q.k ∧
      (q.hit r t_min t_max rec).2.u =
        ((q.hit r t_min t_max rec).2.p.x - q.x0) / (q.x1 - q.x0) ∧
      (q.hit r t_min t_max rec).2.v =
        ((q.hit r t_min t_max rec).2.p.y - q.y0) / (q.y1 - q.y0)) ∧
    ((q.hit r t_min t_max rec).1 = false → (q.hit r t_min t_max rec).2 = rec) := by
  have hk : (r.at (q.t_plane r)).z = q.k := by
    rw [Ray.at_z, XYRect.t_plane]
    field_simp
  rw [← not_outside_iff, ← not_out_of_bounds_iff, XYRect_hit_eq]
  by_cases h1 : Ext.fin (q.t_plane r) < t_min ∨ Ext.fin (q.t_plane r) > t_max
  · rw [if_pos h1]
    exact ⟨⟨fun h => absurd h (by simp), fun h => absurd h1 h.1⟩, fun h => absurd h (by simp),
      fun _ => rfl⟩
  · rw [if_neg h1]
    by_cases h2 : (r.at (q.t_plane r)).x < q.x0 ∨ (r.at (q.t_plane r)).x > q.x1 ∨
        (r.at (q.t_plane r)).y < q.y0 ∨ (r.at (q.t_plane r)).y > q.y1
    · rw [if_pos h2]
      exact ⟨⟨fun h => absurd h (by simp), fun h => absurd h2 h.2⟩,
        fun h => absurd h (by simp), fun _ => rfl⟩
    · rw [if_neg h2]
      exact ⟨⟨fun _ => ⟨h1, h2⟩, fun _ => rfl⟩, fun _ => ⟨rfl, rfl, hk, rfl, rfl⟩,
        fun h => absurd h (by simp)⟩

/-- The method `XZRect::hit`, written with `t_plane` and `Ray::at`. -/
theorem XZRect_hit_eq (q : XZRect F) (r : Ray F) (t_min t_max : Ext F) (rec : HitRecord F) :
    q.hit r t_min t_max rec =
      if Ext.fin (q.t_plane r) < t_min ∨ Ext.fin (q.t_plane r) > t_max then (false, rec)
      else if (r.at (q.t_plane r)).x < q.x0 ∨ (r.at (q.t_plane r)).x > q.x1 ∨
          (r.at (q.t_plane r)).z < q.z0 ∨ (r.at (q.t_plane r)).z > q.z1 then (false, rec)
      else (true,
        { ({ rec with u := ((r.at (q.t_plane r)).x - q.x0) / (q.x1 - q.x0),
                      v := ((r.at (q.t_plane r)).z - q.z0) / (q.z1 - q.z0),
                      t := q.t_plane r } : HitRecord F).set_face_normal r ⟨0, 1, 0⟩ with
          mat_ptr := q.mp, p := r.at (q.t_plane r) }) := rfl

/-- The method `XZRect::hit` when the ray is not parallel to the plane. -/
theorem XZRect_hit_spec (q : XZRect F) (r : Ray F) (t_min t_max : Ext F) (rec : HitRecord F)
    (hd : r.direction.y ≠ 0) :
    ((q.hit r t_min t_max rec).1 = true ↔
      (t_min ≤ Ext.fin (q.t_plane r) ∧ Ext.fin (q.t_plane r) ≤ t_max) ∧
      q.x0 ≤ (r.at (q.t_plane r)).x ∧ (r.at (q.t_plane r)).x ≤ q.x1 ∧
      q.z0 ≤ (r.at (q.t_plane r)).z ∧ (r.at (q.t_plane r)).z ≤ q.z1) ∧
    ((q.hit r t_min t_max rec).1 = true →
      (q.hit r t_min t_max rec).2.t = q.t_plane r ∧
      (q.hit r t_min t_max rec).2.p = r.at (q.t_plane r) ∧
      (q.hit r t_min t_max rec).2.p.y = q.k ∧
      (q.hit r t_min t_max rec).2.u =
        ((q.hit r t_min t_max rec).2.p.x - q.x0) / (q.x1 - q.x0) ∧
      (q.hit r t_min t_max rec).2.v =
        ((q.hit r t_min t_max rec).2.p.z - q.z0) / (q.z1 - q.z0)) ∧
    ((q.hit r t_min t_max rec).1 = false → (q.hit r t_min t_max rec).2 = rec) := by
  have hk : (r.at (q.t_plane r)).y = q.k := by
    rw [Ray.at_y, XZRect.t_plane]
    field_simp
  rw [← not_outside_iff, ← not_out_of_bounds_iff, XZRect_hit_eq]
  by_cases h1 : Ext.fin (q.t_plane r) < t_min ∨ Ext.fin (q.t_plane r) > t_max
  · rw [if_pos h1]
    exact ⟨⟨fun h => absurd h (by simp), fun h => absurd h1 h.1⟩, fun h => absurd h (by simp),
      fun _ => rfl⟩
  · rw [if_neg h1]
    by_cases h2 : (r.at (q.t_plane r)).x < q.x0 ∨ (r.at (q.t_plane r)).x > q.x1 ∨
        (r.at (q.t_plane r)).z < q.z0 ∨ (r.at (q.t_plane r)).z > q.z1
    · rw [if_pos h2]
      exact ⟨⟨fun h => absurd h (by simp), fun h => absurd h2 h.2⟩,
        fun h => absurd h (by simp), fun _ => rfl⟩
    · rw [if_neg h2]
      exact ⟨⟨fun _ => ⟨h1, h2⟩, fun _ => rfl⟩, fun _ => ⟨rfl, rfl, hk, rfl, rfl⟩,
        fun h => absurd h (by simp)⟩

/-- The method `YZRect::hit`, written with `t_plane` and `Ray::at`. -/
theorem YZRect_hit_eq (q : YZRect F) (r : Ray F) (t_min t_max : Ext F) (rec : HitRecord F) :
    q.hit r t_min t_max rec =
      if Ext.fin (q.t_plane r) < t_min ∨ Ext.fin (q.t_plane r) > t_max then (false, rec)
      else if (r.at (q.t_plane r)).y < q.y0 ∨ (r.at (q.t_plane r)).y > q.y1 ∨
          (r.at (q.t_plane r)).z < q.z0 ∨ (r.at (q.t_plane r)).z > q.z1 then (false, rec)
      else (true,
        { ({ rec with u := ((r.at (q.t_plane r)).y - q.y0) / (q.y1 - q.y0),
                      v := ((r.at (q.t_plane r)).z - q.z0) / (q.z1 - q.z0),
                      t := q.t_plane r } : HitRecord F).set_face_normal r ⟨1, 0, 0⟩ with
          mat_ptr := q.mp, p := r.at (q.t_plane r) }) := rfl

/-- The method `YZRect::hit` when the ray is not parallel to the plane. -/
theorem YZRect_hit_spec (q : YZRect F) (r : Ray F) (t_min t_max : Ext F) (rec : HitRecord F)
    (hd : r.direction.x ≠ 0) :
    ((q.hit r t_min t_max rec).1 = true ↔
      (t_min ≤ Ext.fin (q.t_plane r) ∧ Ext.fin (q.t_plane r) ≤ t_max) ∧
      q.y0 ≤ (r.at (q.t_plane r)).y ∧ (r.at (q.t_plane r)).y ≤ q.y1 ∧
      q.z0 ≤ (r.at (q.t_plane r)).z ∧ (r.at (q.t_plane r)).z ≤ q.z1) ∧
    ((q.hit r t_min t_max rec).1 = true →
      (q.hit r t_min t_max rec).2.t = q.t_plane r ∧
      (q.hit r t_min t_max rec).2.p = r.at (q.t_plane r) ∧
      (q.hit r t_min t_max rec).2.p.x = q.k ∧
      (q.hit r t_min t_max rec).2.u =
        ((q.hit r t_min t_max rec).2.p.y - q.y0) / (q.y1 - q.y0) ∧
      (q.hit r t_min t_max rec).2.v =
        ((q.hit r t_min t_max rec).2.p.z - q.z0) / (q.z1 - q.z0)) ∧
    ((q.hit r t_min t_max rec).1 = false → (q.hit r t_min t_max rec).2 = rec) := by
  have hk : (r.at (q.t_plane r)).x = q.k := by
    rw [Ray.at_x, YZRect.t_plane]
    field_simp
  rw [← not_outside_iff, ← not_out_of_bounds_iff, YZRect_hit_eq]
  by_cases h1 : Ext.fin (q.t_plane r) < t_min ∨ Ext.fin (q.t_plane r) > t_max
  · rw [if_pos h1]
    exact ⟨⟨fun h => absurd h (by simp), fun h => absurd h1 h.1⟩, fun h => absurd h (by simp),
      fun _ => rfl⟩
  · rw [if_neg h1]
    by_cases h2 : (r.at (q.t_plane r)).y < q.y0 ∨ (r.at (q.t_plane r)).y > q.y1 ∨
        (r.at (q.t_plane r)).z < q.z0 ∨ (r.at (q.t_plane r)).z > q.z1
    · rw [if_pos h2]
      exact ⟨⟨fun h => absurd h (by simp), fun h => absurd h2 h.2⟩,
        fun h => absurd h (by simp), fun _ => rfl⟩
    · rw [if_neg h2]
      exact ⟨⟨fun _ => ⟨h1, h2⟩, fun _ => rfl⟩, fun _ => ⟨rfl, rfl, hk, rfl, rfl⟩,
        fun h => absurd h (by simp)⟩

/-- C11: for each of `XYRect`, `XZRect`, `YZRect` and every ray whose direction
component along the rectangle's normal axis is non-zero, `hit` returns true if
and only if `t = (k - origin_axis) / direction_axis` lies in `[t_min, t_max]` and
the two in-plane coordinates of `origin + t * direction` lie within the
rectangle's closed bounds; in that case `rec.t = t` and
`rec.p = origin + t * direction`, which lies in the plane `axis = k`. -/
theorem C11_rect_hit_iff (qxy : XYRect F) (qxz : XZRect F) (qyz : YZRect F) (r : Ray F)
    (t_min t_max : Ext F) (rec : HitRecord F) :
    (r.direction.z ≠ 0 →
      ((qxy.hit r t_min t_max rec).1 = true ↔
        (t_min ≤ Ext.fin (qxy.t_plane r) ∧ Ext.fin (qxy.t_plane r) ≤ t_max) ∧
        qxy.x0 ≤ (r.at (qxy.t_plane r)).x ∧ (r.at (qxy.t_plane r)).x ≤ qxy.x1 ∧
        qxy.y0 ≤ (r.at (qxy.t_plane r)).y ∧ (r.at (qxy.t_plane r)).y ≤ qxy.y1) ∧
      ((qxy.hit r t_min t_max rec).1 = true →
        (qxy.hit r t_min t_max rec).2.t = qxy.t_plane r ∧
        (qxy.hit r t_min t_max rec).2.p = r.origin + qxy.t_plane r * r.direction ∧
        (qxy.hit r t_min t_max rec).2.p.z = qxy.k)) ∧
    (r.direction.y ≠ 0 →
      ((qxz.hit r t_min t_max rec).1 = true ↔
        (t_min ≤ Ext.fin (qxz.t_plane r) ∧ Ext.fin (qxz.t_plane r) ≤ t_max) ∧
        qxz.x0 ≤ (r.at (qxz.t_plane r)).x ∧ (r.at (qxz.t_plane r)).x ≤ qxz.x1 ∧
        qxz.z0 ≤ (r.at (qxz.t_plane r)).z ∧ (r.at (qxz.t_plane r)).z ≤ qxz.z1) ∧
      ((qxz.hit r t_min t_max rec).1 = true →
        (qxz.hit r t_min t_max rec).2.t = qxz.t_plane r ∧
        (qxz.hit r t_min t_max rec).2.p = r.origin + qxz.t_plane r * r.direction ∧
        (qxz.hit r t_min t_max rec).2.p.y = qxz.k)) ∧
    (r.direction.x ≠ 0 →
      ((qyz.hit r t_min t_max rec).1 = true ↔
        (t_min ≤ Ext.fin (qyz.t_plane r) ∧ Ext.fin (qyz.t_plane r) ≤ t_max) ∧
        qyz.y0 ≤ (r.at (qyz.t_plane r)).y ∧ (r.at (qyz.t_plane r)).y ≤ qyz.y1 ∧
        qyz.z0 ≤ (r.at (qyz.t_plane r)).z ∧ (r.at (qyz.t_plane r)).z ≤ qyz.z1) ∧
      ((qyz.hit r t_min t_max rec).1 = true →
        (qyz.hit r t_min t_max rec).2.t = qyz.t_plane r ∧
        (qyz.hit r t_min t_max rec).2.p = r.origin + qyz.t_plane r * r.direction ∧
        (qyz.hit r t_min t_max rec).2.p.x = qyz.k)) := by
  refine ⟨fun hd => ?_, fun hd => ?_, fun hd => ?_⟩
  · have h := XYRect_hit_spec qxy r t_min t_max rec hd
    exact ⟨h.1, fun ht => ⟨(h.2.1 ht).1, (h.2.1 ht).2.1, (h.2.1 ht).2.2.1⟩⟩
  · have h := XZRect_hit_spec qxz r t_min t_max rec hd
    exact ⟨h.1, fun ht => ⟨(h.2.1 ht).1, (h.2.1 ht).2.1, (h.2.1 ht).2.2.1⟩⟩
  · have h := YZRect_hit_spec qyz r t_min t_max rec hd
    exact ⟨h.1, fun ht => ⟨(h.2.1 ht).1, (h.2.1 ht).2.1, (h.2.1 ht).2.2.1⟩⟩

theorem upRay_direction_y : upRay.direction.y ≠ 0 := by
  simp [upRay, Ray.direction]

theorem cornellLight_t_plane : cornellLight.t_plane upRay = 554 := by
  simp only [XZRect.t_plane, cornellLight, upRay, Ray.origin, Ray.direction]
  norm_num

theorem cornellLight_at : upRay.at 554 = ⟨278, 554, 280⟩ := by
  simp only [Ray.at, upRay, Vec3.add_def, Vec3.smul_def]
  norm_num

theorem cornellLight_hit (rec : HitRecord ℚ) :
    (cornellLight.hit upRay (Ext.fin 0.001) Ext.posInf rec).1 = true := by
  rw [(XZRect_hit_spec cornellLight upRay _ _ rec upRay_direction_y).1, cornellLight_t_plane,
    cornellLight_at]
  simp only [cornellLight, Ext.fin_le_fin, Ext.le_posInf]
  norm_num

/-- C11 at the light of the Cornell box and the ray from `(278, 0, 280)` straight
up, on `[0.001, INF]`: the plane `y = 554` is crossed at `t = 554`, inside the
rectangle, and the hit is recorded there. -/
theorem C11_rect_hit_iff_witness :
    upRay.direction.y ≠ 0 ∧ cornellLight.t_plane upRay = 554 ∧
    (cornellLight.hit upRay (Ext.fin 0.001) Ext.posInf rec0).1 = true ∧
    ((cornellLight.hit upRay (Ext.fin 0.001) Ext.posInf rec0).2.t = cornellLight.t_plane upRay ∧
      (cornellLight.hit upRay (Ext.fin 0.001) Ext.posInf rec0).2.p =
        upRay.origin + cornellLight.t_plane upRay * upRay.direction ∧
      (cornellLight.hit upRay (Ext.fin 0.001) Ext.posInf rec0).2.p.y = cornellLight.k) :=
  ⟨upRay_direction_y, cornellLight_t_plane, cornellLight_hit rec0,
    ((C11_rect_hit_iff ⟨0, 1, 0, 1, 0, none⟩ cornellLight ⟨0, 1, 0, 1, 0, none⟩ upRay
      (Ext.fin 0.001) Ext.posInf rec0).2.1 upRay_direction_y).2 (cornellLight_hit rec0)⟩

theorem unit_interval_of_bounds (a a0 a1 : F) (h : a0 < a1) (h0 : a0 ≤ a) (h1 : a ≤ a1) :
    0 ≤ (a - a0) / (a1 - a0) ∧ (a - a0) / (a1 - a0) ≤ 1 := by
  have hpos : 0 < a1 - a0 := sub_pos.mpr h
  constructor
  · exact div_nonneg (sub_nonneg.mpr h0) hpos.le
  · rw [div_le_one hpos]
    linarith

/-- C12 as amended: for each rectangle orientation with strictly increasing
bounds on both in-plane axes and every ray with a non-zero direction component
along the normal that hits it, the
recorded `u` and `v` equal `(a - a0) / (a1 - a0)` and `(b - b0) / (b1 - b0)` for
the two in-plane coordinates `a`, `b` of the hit point, and both lie in
`[0, 1]`. -/
theorem C12_rect_uv (qxy : XYRect F) (qxz : XZRect F) (qyz : YZRect F) (r : Ray F)
    (t_min t_max : Ext F) (rec : HitRecord F) :
    (qxy.x0 < qxy.x1 → qxy.y0 < qxy.y1 → r.direction.z ≠ 0 →
      (qxy.hit r t_min t_max rec).1 = true →
      (qxy.hit r t_min t_max rec).2.u =
        ((qxy.hit r t_min t_max rec).2.p.x - qxy.x0) / (qxy.x1 - qxy.x0) ∧
      (qxy.hit r t_min t_max rec).2.v =
        ((qxy.hit r t_min t_max rec).2.p.y - qxy.y0) / (qxy.y1 - qxy.y0) ∧
      0 ≤ (qxy.hit r t_min t_max rec).2.u ∧ (qxy.hit r t_min t_max rec).2.u ≤ 1 ∧
      0 ≤ (qxy.hit r t_min t_max rec).2.v ∧ (qxy.hit r t_min t_max rec).2.v ≤ 1) ∧
    (qxz.x0 < qxz.x1 → qxz.z0 < qxz.z1 → r.direction.y ≠ 0 →
      (qxz.hit r t_min t_max rec).1 = true →
      (qxz.hit r t_min t_max rec).2.u =
        ((qxz.hit r t_min t_max rec).2.p.x - qxz.x0) / (qxz.x1 - qxz.x0) ∧
      (qxz.hit r t_min t_max rec).2.v =
        ((qxz.hit r t_min t_max rec).2.p.z - qxz.z0) / (qxz.z1 - qxz.z0) ∧
      0 ≤ (qxz.hit r t_min t_max rec).2.u ∧ (qxz.hit r t_min t_max rec).2.u ≤ 1 ∧
      0 ≤ (qxz.hit r t_min t_max rec).2.v ∧ (qxz.hit r t_min t_max rec).2.v ≤ 1) ∧
    (qyz.y0 < qyz.y1 → qyz.z0 < qyz.z1 → r.direction.x ≠ 0 →
      (qyz.hit r t_min t_max rec).1 = true →
      (qyz.hit r t_min t_max rec).2.u =
        ((qyz.hit r t_min t_max rec).2.p.y - qyz.y0) / (qyz.y1 - qyz.y0) ∧
      (qyz.hit r t_min t_max rec).2.v =
        ((qyz.hit r t_min t_max rec).2.p.z - qyz.z0) / (qyz.z1 - qyz.z0) ∧
      0 ≤ (qyz.hit r t_min t_max rec).2.u ∧ (qyz.hit r t_min t_max rec).2.u ≤ 1 ∧
      0 ≤ (qyz.hit r t_min t_max rec).2.v ∧ (qyz.hit r t_min t_max rec).2.v ≤ 1) := by
  refine ⟨fun ha hb hd ht => ?_, fun ha hb hd ht => ?_, fun ha hb hd ht => ?_⟩
  · have h := XYRect_hit_spec qxy r t_min t_max rec hd
    obtain ⟨_, hp, _, hu, hv⟩ := h.2.1 ht
    obtain ⟨_, h0, h1, h2, h3⟩ := h.1.mp ht
    rw [← hp] at h0 h1 h2 h3
    refine ⟨hu, hv, ?_⟩
    rw [hu, hv]
    exact ⟨(unit_interval_of_bounds _ _ _ ha h0 h1).1, (unit_interval_of_bounds _ _ _ ha h0 h1).2,
      (unit_interval_of_bounds _ _ _ hb h2 h3).1, (unit_interval_of_bounds _ _ _ hb h2 h3).2⟩
  · have h := XZRect_hit_spec qxz r t_min t_max rec hd
    obtain ⟨_, hp, _, hu, hv⟩ := h.2.1 ht
    obtain ⟨_, h0, h1, h2, h3⟩ := h.1.mp ht
    rw [← hp] at h0 h1 h2 h3
    refine ⟨hu, hv, ?_⟩
    rw [hu, hv]
    exact ⟨(unit_interval_of_bounds _ _ _ ha h0 h1).1, (unit_interval_of_bounds _ _ _ ha h0 h1).2,
      (unit_interval_of_bounds _ _ _ hb h2 h3).1, (unit_interval_of_bounds _ _ _ hb h2 h3).2⟩
  · have h := YZRect_hit_spec qyz r t_min t_max rec hd
    obtain ⟨_, hp, _, hu, hv⟩ := h.2.1 ht
    obtain ⟨_, h0, h1, h2, h3⟩ := h.1.mp ht
    rw [← hp] at h0 h1 h2 h3
    refine ⟨hu, hv, ?_⟩
    rw [hu, hv]
    exact ⟨(unit_interval_of_bounds _ _ _ ha h0 h1).1, (unit_interval_of_bounds _ _ _ ha h0 h1).2,
      (unit_interval_of_bounds _ _ _ hb h2 h3).1, (unit_interval_of_bounds _ _ _ hb h2 h3).2⟩

/-- C12 at the light of the Cornell box and the ray from `(278, 0, 280)` straight
up: `u = (278 - 213) / (343 - 213) = 1/2` and `v = (280 - 227) / (332 - 227)`. -/
theorem C12_rect_uv_witness :
    cornellLight.x0 < cornellLight.x1 ∧ cornellLight.z0 < cornellLight.z1 ∧
    upRay.direction.y ≠ 0 ∧
    (cornellLight.hit upRay (Ext.fin 0.001) Ext.posInf rec0).1 = true ∧
    (cornellLight.hit upRay (Ext.fin 0.001) Ext.posInf rec0).2.p = ⟨278, 554, 280⟩ ∧
    ((cornellLight.hit upRay (Ext.fin 0.001) Ext.posInf rec0).2.u =
        ((cornellLight.hit upRay (Ext.fin 0.001) Ext.posInf rec0).2.p.x - cornellLight.x0) /
          (cornellLight.x1 - cornellLight.x0) ∧
      (cornellLight.hit upRay (Ext.fin 0.001) Ext.posInf rec0).2.v =
        ((cornellLight.hit upRay (Ext.fin 0.001) Ext.posInf rec0).2.p.z - cornellLight.z0) /
          (cornellLight.z1 - cornellLight.z0) ∧
      0 ≤ (cornellLight.hit upRay (Ext.fin 0.001) Ext.posInf rec0).2.u ∧
      (cornellLight.hit upRay (Ext.fin 0.001) Ext.posInf rec0).2.u ≤ 1 ∧
      0 ≤ (cornellLight.hit upRay (Ext.fin 0.001) Ext.posInf rec0).2.v ∧
      (cornellLight.hit upRay (Ext.fin 0.001) Ext.posInf rec0).2.v ≤ 1) :=
  have ha : cornellLight.x0 < cornellLight.x1 := by simp only [cornellLight]; norm_num
  have hb : cornellLight.z0 < cornellLight.z1 := by simp only [cornellLight]; norm_num
  ⟨ha, hb, upRay_direction_y, cornellLight_hit rec0,
    by
      rw [((XZRect_hit_spec cornellLight upRay _ _ rec0 upRay_direction_y).2.1
        (cornellLight_hit rec0)).2.1, cornellLight_t_plane, cornellLight_at],
    (C12_rect_uv ⟨0, 1, 0, 1, 0, none⟩ cornellLight ⟨0, 1, 0, 1, 0, none⟩ upRay
      (Ext.fin 0.001) Ext.posInf rec0).2.1 ha hb upRay_direction_y (cornellLight_hit rec0)⟩

/-! ## aarect.h: a zero direction component along the normal -/

theorem Dbl_fin_lt_fin (a b : F) : Dbl.lt (Dbl.fin a) (Dbl.fin b) = true ↔ a < b := by
  simp [Dbl.lt]

theorem Dbl.nan_lt (b : Dbl F) : Dbl.lt Dbl.nan b = false := by
  cases b <;> rfl

theorem Dbl.lt_nan (a : Dbl F) : Dbl.lt a Dbl.nan = false := by
  cases a <;> rfl

theorem Dbl.fin_lt_ofExt (a : F) (b : Ext F) :
    Dbl.lt (Dbl.fin a) (Dbl.ofExt b) = true ↔ Ext.fin a < b := by
  cases b <;> simp [Dbl.lt, Dbl.ofExt]

theorem Dbl.ofExt_lt_fin (a : Ext F) (b : F) :
    Dbl.lt (Dbl.ofExt a) (Dbl.fin b) = true ↔ a < Ext.fin b := by
  cases a <;> simp [Dbl.lt, Dbl.ofExt]

/-- Where the ray is not parallel to the plane, the IEEE tests of `XYRect::hit`
are the tests of the exact embedding. -/
theorem XYRect_hit_ieee_finite (q : XYRect F) (r : Ray F) (negZero : Bool) (t_min t_max : Ext F)
    (rec : HitRecord F) (hd : r.direction.z ≠ 0) :
    q.hit_ieee r negZero t_min t_max = ((q.hit r t_min t_max rec).1, Dbl.fin (q.t_plane r)) := by
  rw [XYRect_hit_eq]
  simp only [XYRect.hit_ieee, Dbl.div, if_pos hd, ← XYRect.t_plane.eq_1, Dbl.mul, Dbl.add, Ray.at_x,
    Ray.at_y, Ray.at_z, Dbl.fin_lt_ofExt, Dbl.ofExt_lt_fin, Dbl_fin_lt_fin, gt_iff_lt]
  split_ifs <;> rfl

/-- A ray lying in the plane of an `XYRect`: `t` is `0 / 0`, NaN, no test rejects it
and the hit is reported, whatever the interval and the bounds. -/
theorem XYRect_hit_ieee_in_plane (q : XYRect F) (r : Ray F) (negZero : Bool)
    (t_min t_max : Ext F) (hd : r.direction.z = 0) (ho : r.origin.z = q.k) :
    q.hit_ieee r negZero t_min t_max = (true, Dbl.nan) := by
  simp [XYRect.hit_ieee, Dbl.div, hd, ho, Dbl.nan_lt, Dbl.lt_nan, Dbl.mul, Dbl.add]

/-- A ray parallel to the plane of an `XYRect` and off it, with a non-zero
direction: `t` is an infinity and the hit is rejected. -/
theorem XYRect_hit_ieee_off_plane (q : XYRect F) (r : Ray F) (negZero : Bool)
    (t_min t_max : Ext F) (hd : r.direction.z = 0) (ho : r.origin.z ≠ q.k)
    (hdir : r.direction.x ≠ 0 ∨ r.direction.y ≠ 0) :
    (q.hit_ieee r negZero t_min t_max).1 = false ∧
    ((q.hit_ieee r negZero t_min t_max).2 = Dbl.posInf ∨
      (q.hit_ieee r negZero t_min t_max).2 = Dbl.negInf) := by
  have hn : q.k - r.origin.z ≠ 0 := sub_ne_zero.mpr (Ne.symm ho)
  have ht : Dbl.div (q.k - r.origin.z) r.direction.z negZero = Dbl.posInf ∨
      Dbl.div (q.k - r.origin.z) r.direction.z negZero = Dbl.negInf := by
    simp only [Dbl.div, hd, ne_eq, not_true_eq_false, if_false, if_neg hn]
    split_ifs
    · exact Or.inr rfl
    · exact Or.inl rfl
  have hmul : ∀ (t : Dbl F) (x : F), (t = Dbl.posInf ∨ t = Dbl.negInf) → x ≠ 0 →
      ∀ o : F, Dbl.add o (t.mul x) = Dbl.posInf ∨ Dbl.add o (t.mul x) = Dbl.negInf := by
    intro t x h hx o
    rcases h with rfl | rfl <;> simp only [Dbl.mul, if_neg hx] <;> split_ifs <;>
      simp [Dbl.add]
  have hrej : ∀ (c : Dbl F) (lo hi : F), (c = Dbl.posInf ∨ c = Dbl.negInf) →
      (c.lt (Dbl.fin lo) = true ∨ (Dbl.fin hi).lt c = true) := by
    intro c lo hi h
    rcases h with rfl | rfl
    · exact Or.inr rfl
    · exact Or.inl rfl
  unfold XYRect.hit_ieee
  simp only
  split_ifs with h1 h2
  · exact ⟨rfl, ht⟩
  · exact ⟨rfl, ht⟩
  · exfalso
    apply h2
    rcases hdir with hx | hy
    · rcases hrej _ q.x0 q.x1 (hmul _ _ ht hx r.origin.x) with h | h
      · exact Or.inl h
      · exact Or.inr (Or.inl h)
    · rcases hrej _ q.y0 q.y1 (hmul _ _ ht hy r.origin.y) with h | h
      · exact Or.inr (Or.inr (Or.inl h))
      · exact Or.inr (Or.inr (Or.inr h))

/-- Where the ray is not parallel to the plane, the IEEE tests of `XZRect::hit`
are the tests of the exact embedding. -/
theorem XZRect_hit_ieee_finite (q : XZRect F) (r : Ray F) (negZero : Bool) (t_min t_max : Ext F)
    (rec : HitRecord F) (hd : r.direction.y ≠ 0) :
    q.hit_ieee r negZero t_min t_max = ((q.hit r t_min t_max rec).1, Dbl.fin (q.t_plane r)) := by
  rw [XZRect_hit_eq]
  simp only [XZRect.hit_ieee, Dbl.div, if_pos hd, ← XZRect.t_plane.eq_1, Dbl.mul, Dbl.add, Ray.at_x,
    Ray.at_y, Ray.at_z, Dbl.fin_lt_ofExt, Dbl.ofExt_lt_fin, Dbl_fin_lt_fin, gt_iff_lt]
  split_ifs <;> rfl

/-- A ray lying in the plane of an `XZRect`: `t` is `0 / 0`, NaN, no test rejects it
and the hit is reported, whatever the interval and the bounds. -/
theorem XZRect_hit_ieee_in_plane (q : XZRect F) (r : Ray F) (negZero : Bool)
    (t_min t_max : Ext F) (hd : r.direction.y = 0) (ho : r.origin.y = q.k) :
    q.hit_ieee r negZero t_min t_max = (true, Dbl.nan) := by
  simp [XZRect.hit_ieee, Dbl.div, hd, ho, Dbl.nan_lt, Dbl.lt_nan, Dbl.mul, Dbl.add]

/-- A ray parallel to the plane of an `XZRect` and off it, with a non-zero
direction: `t` is an infinity and the hit is rejected. -/
theorem XZRect_hit_ieee_off_plane (q : XZRect F) (r : Ray F) (negZero : Bool)
    (t_min t_max : Ext F) (hd : r.direction.y = 0) (ho : r.origin.y ≠ q.k)
    (hdir : r.direction.x ≠ 0 ∨ r.direction.z ≠ 0) :
    (q.hit_ieee r negZero t_min t_max).1 = false ∧
    ((q.hit_ieee r negZero t_min t_max).2 = Dbl.posInf ∨
      (q.hit_ieee r negZero t_min t_max).2 = Dbl.negInf) := by
  have hn : q.k - r.origin.y ≠ 0 := sub_ne_zero.mpr (Ne.symm ho)
  have ht : Dbl.div (q.k - r.origin.y) r.direction.y negZero = Dbl.posInf ∨
      Dbl.div (q.k - r.origin.y) r.direction.y negZero = Dbl.negInf := by
    simp only [Dbl.div, hd, ne_eq, not_true_eq_false, if_false, if_neg hn]
    split_ifs
    · exact Or.inr rfl
    · exact Or.inl rfl
  have hmul : ∀ (t : Dbl F) (x : F), (t = Dbl.posInf ∨ t = Dbl.negInf) → x ≠ 0 →
      ∀ o : F, Dbl.add o (t.mul x) = Dbl.posInf ∨ Dbl.add o (t.mul x) = Dbl.negInf := by
    intro t x h hx o
    rcases h with rfl | rfl <;> simp only [Dbl.mul, if_neg hx] <;> split_ifs <;>
      simp [Dbl.add]
  have hrej : ∀ (c : Dbl F) (lo hi : F), (c = Dbl.posInf ∨ c = Dbl.negInf) →
      (c.lt (Dbl.fin lo) = true ∨ (Dbl.fin hi).lt c = true) := by
    intro c lo hi h
    rcases h with rfl | rfl
    · exact Or.inr rfl
    · exact Or.inl rfl
  unfold XZRect.hit_ieee
  simp only
  split_ifs with h1 h2
  · exact ⟨rfl, ht⟩
  · exact ⟨rfl, ht⟩
  · exfalso
    apply h2
    rcases hdir with hx | hy
    · rcases hrej _ q.x0 q.x1 (hmul _ _ ht hx r.origin.x) with h | h
      · exact Or.inl h
      · exact Or.inr (Or.inl h)
    · rcases hrej _ q.z0 q.z1 (hmul _ _ ht hy r.origin.z) with h | h
      · exact Or.inr (Or.inr (Or.inl h))
      · exact Or.inr (Or.inr (Or.inr h))

/-- Where the ray is not parallel to the plane, the IEEE tests of `YZRect::hit`
are the tests of the exact embedding. -/
theorem YZRect_hit_ieee_finite (q : YZRect F) (r : Ray F) (negZero : Bool) (t_min t_max : Ext F)
    (rec : HitRecord F) (hd : r.direction.x ≠ 0) :
    q.hit_ieee r negZero t_min t_max = ((q.hit r t_min t_max rec).1, Dbl.fin (q.t_plane r)) := by
  rw [YZRect_hit_eq]
  simp only [YZRect.hit_ieee, Dbl.div, if_pos hd, ← YZRect.t_plane.eq_1, Dbl.mul, Dbl.add, Ray.at_x,
    Ray.at_y, Ray.at_z, Dbl.fin_lt_ofExt, Dbl.ofExt_lt_fin, Dbl_fin_lt_fin, gt_iff_lt]
  split_ifs <;> rfl

/-- A ray lying in the plane of an `YZRect`: `t` is `0 / 0`, NaN, no test rejects it
and the hit is reported, whatever the interval and the bounds. -/
theorem YZRect_hit_ieee_in_plane (q : YZRect F) (r : Ray F) (negZero : Bool)
    (t_min t_max : Ext F) (hd : r.direction.x = 0) (ho : r.origin.x = q.k) :
    q.hit_ieee r negZero t_min t_max = (true, Dbl.nan) := by
  simp [YZRect.hit_ieee, Dbl.div, hd, ho, Dbl.nan_lt, Dbl.lt_nan, Dbl.mul, Dbl.add]

/-- A ray parallel to the plane of an `YZRect` and off it, with a non-zero
direction: `t` is an infinity and the hit is rejected. -/
theorem YZRect_hit_ieee_off_plane (q : YZRect F) (r : Ray F) (negZero : Bool)
    (t_min t_max : Ext F) (hd : r.direction.x = 0) (ho : r.origin.x ≠ q.k)
    (hdir : r.direction.y ≠ 0 ∨ r.direction.z ≠ 0) :
    (q.hit_ieee r negZero t_min t_max).1 = false ∧
    ((q.hit_ieee r negZero t_min t_max).2 = Dbl.posInf ∨
      (q.hit_ieee r negZero t_min t_max).2 = Dbl.negInf) := by
  have hn : q.k - r.origin.x ≠ 0 := sub_ne_zero.mpr (Ne.symm ho)
  have ht : Dbl.div (q.k - r.origin.x) r.direction.x negZero = Dbl.posInf ∨
      Dbl.div (q.k - r.origin.x) r.direction.x negZero = Dbl.negInf := by
    simp only [Dbl.div, hd, ne_eq, not_true_eq_false, if_false, if_neg hn]
    split_ifs
    · exact Or.inr rfl
    · exact Or.inl rfl
  have hmul : ∀ (t : Dbl F) (x : F), (t = Dbl.posInf ∨ t = Dbl.negInf) → x ≠ 0 →
      ∀ o : F, Dbl.add o (t.mul x) = Dbl.posInf ∨ Dbl.add o (t.mul x) = Dbl.negInf := by
    intro t x h hx o
    rcases h with rfl | rfl <;> simp only [Dbl.mul, if_neg hx] <;> split_ifs <;>
      simp [Dbl.add]
  have hrej : ∀ (c : Dbl F) (lo hi : F), (c = Dbl.posInf ∨ c = Dbl.negInf) →
      (c.lt (Dbl.fin lo) = true ∨ (Dbl.fin hi).lt c = true) := by
    intro c lo hi h
    rcases h with rfl | rfl
    · exact Or.inr rfl
    · exact Or.inl rfl
  unfold YZRect.hit_ieee
  simp only
  split_ifs with h1 h2
  · exact ⟨rfl, ht⟩
  · exact ⟨rfl, ht⟩
  · exfalso
    apply h2
    rcases hdir with hx | hy
    · rcases hrej _ q.y0 q.y1 (hmul _ _ ht hx r.origin.y) with h | h
      · exact Or.inl h
      · exact Or.inr (Or.inl h)
    · rcases hrej _ q.z0 q.z1 (hmul _ _ ht hy r.origin.z) with h | h
      · exact Or.inr (Or.inr (Or.inl h))
      · exact Or.inr (Or.inr (Or.inr h))

/-! ## hittable.h: the boxes of the rotations -/

theorem foldl_min_le (l : List F) : ∀ a : F, ∀ x ∈ a :: l, l.foldl min a ≤ x := by
  induction l with
  | nil =>
    intro a x hx
    simp only [List.mem_singleton] at hx
    simp [hx]
  | cons b l ih =>
    intro a x hx
    simp only [List.foldl_cons]
    rcases List.mem_cons.mp hx with rfl | hx
    · exact le_trans (ih _ _ (List.mem_cons_self _ _)) (min_le_left _ _)
    · rcases List.mem_cons.mp hx with rfl | hx
      · exact le_trans (ih _ _ (List.mem_cons_self _ _)) (min_le_right _ _)
      · exact ih _ _ (List.mem_cons_of_mem _ hx)

theorem foldl_min_mem (l : List F) : ∀ a : F, l.foldl min a ∈ a :: l := by
  induction l with
  | nil => intro a; simp
  | cons b l ih =>
    intro a
    simp only [List.foldl_cons]
    rcases List.mem_cons.mp (ih (min a b)) with h | h
    · rw [h]
      rcases min_choice a b with h' | h' <;> rw [h'] <;> simp
    · exact List.mem_cons_of_mem _ (List.mem_cons_of_mem _ h)

theorem le_foldl_max (l : List F) : ∀ a : F, ∀ x ∈ a :: l, x ≤ l.foldl max a := by
  induction l with
  | nil =>
    intro a x hx
    simp only [List.mem_singleton] at hx
    simp [hx]
  | cons b l ih =>
    intro a x hx
    simp only [List.foldl_cons]
    rcases List.mem_cons.mp hx with rfl | hx
    · exact le_trans (le_max_left _ _) (ih _ _ (List.mem_cons_self _ _))
    · rcases List.mem_cons.mp hx with rfl | hx
      · exact le_trans (le_max_right _ _) (ih _ _ (List.mem_cons_self _ _))
      · exact ih _ _ (List.mem_cons_of_mem _ hx)

theorem foldl_max_mem (l : List F) : ∀ a : F, l.foldl max a ∈ a :: l := by
  induction l with
  | nil => intro a; simp
  | cons b l ih =>
    intro a
    simp only [List.foldl_cons]
    rcases List.mem_cons.mp (ih (max a b)) with h | h
    · rw [h]
      rcases max_choice a b with h' | h' <;> rw [h'] <;> simp
    · exact List.mem_cons_of_mem _ (List.mem_cons_of_mem _ h)

/-- `corner_min` is a lower bound of `f` on the corners. -/
theorem Aabb.corner_min_le (b : Aabb F) (f : Vec3 F → F) (c : Vec3 F) (hc : c ∈ b.corners) :
    b.corner_min f ≤ f c :=
  foldl_min_le _ _ _ (List.mem_map_of_mem f hc)

/-- `corner_min` is attained at a corner. -/
theorem Aabb.corner_min_mem (b : Aabb F) (f : Vec3 F → F) :
    ∃ c ∈ b.corners, b.corner_min f = f c := by
  have h := foldl_min_mem ((b.corners.map f).tail) ((b.corners.map f).head (by simp [Aabb.corners]))
  obtain ⟨c, hc, hfc⟩ := List.mem_map.mp (show b.corner_min f ∈ b.corners.map f from h)
  exact ⟨c, hc, hfc.symm⟩

/-- `corner_max` is an upper bound of `f` on the corners. -/
theorem Aabb.le_corner_max (b : Aabb F) (f : Vec3 F → F) (c : Vec3 F) (hc : c ∈ b.corners) :
    f c ≤ b.corner_max f :=
  le_foldl_max _ _ _ (List.mem_map_of_mem f hc)

/-- `corner_max` is attained at a corner. -/
theorem Aabb.corner_max_mem (b : Aabb F) (f : Vec3 F → F) :
    ∃ c ∈ b.corners, b.corner_max f = f c := by
  have h := foldl_max_mem ((b.corners.map f).tail) ((b.corners.map f).head (by simp [Aabb.corners]))
  obtain ⟨c, hc, hfc⟩ := List.mem_map.mp (show b.corner_max f ∈ b.corners.map f from h)
  exact ⟨c, hc, hfc.symm⟩

/-- The loops of the rotation constructors leave the componentwise extrema of
`tester` over the eight corners. -/
theorem rotated_box_eq (b : Aabb F) (tester : F → F → F → Vec3 F) :
    rotated_box b tester =
      ⟨⟨b.corner_min (fun c => (tester c.x c.y c.z).x),
        b.corner_min (fun c => (tester c.x c.y c.z).y),
        b.corner_min (fun c => (tester c.x c.y c.z).z)⟩,
       ⟨b.corner_max (fun c => (tester c.x c.y c.z).x),
        b.corner_max (fun c => (tester c.x c.y c.z).y),
        b.corner_max (fun c => (tester c.x c.y c.z).z)⟩⟩ := by
  simp only [rotated_box, List.foldl_cons, List.foldl_nil, extend_extrema, Ext.fmin, Ext.fmax,
    Ext.val, zero_mul, one_mul, sub_zero, sub_self, zero_add, add_zero]
  rfl

theorem mul_corner_le (a x lo hi : F) (h0 : lo ≤ x) (h1 : x ≤ hi) :
    a * (if 0 ≤ a then lo else hi) ≤ a * x := by
  split_ifs with h
  · exact mul_le_mul_of_nonneg_left h0 h
  · exact mul_le_mul_of_nonpos_left h1 (not_le.mp h).le

theorem le_mul_corner (a x lo hi : F) (h0 : lo ≤ x) (h1 : x ≤ hi) :
    a * x ≤ a * (if 0 ≤ a then hi else lo) := by
  split_ifs with h
  · exact mul_le_mul_of_nonneg_left h1 h
  · exact mul_le_mul_of_nonpos_left h0 (not_le.mp h).le

theorem Aabb.mem_corners (b : Aabb F) (x y z : F)
    (hx : x = b.minimum.x ∨ x = b.maximum.x) (hy : y = b.minimum.y ∨ y = b.maximum.y)
    (hz : z = b.minimum.z ∨ z = b.maximum.z) : (⟨x, y, z⟩ : Vec3 F) ∈ b.corners := by
  rcases hx with rfl | rfl <;> rcases hy with rfl | rfl <;> rcases hz with rfl | rfl <;>
    simp [Aabb.corners]

/-- A linear form on a box lies between its extrema over the corners. -/
theorem Aabb.corner_bounds_linear (b : Aabb F) (a1 a2 a3 : F) (f : Vec3 F → F)
    (hf : ∀ c, f c = a1 * c.x + a2 * c.y + a3 * c.z) (v : Vec3 F) (hv : b.contains v) :
    b.corner_min f ≤ f v ∧ f v ≤ b.corner_max f := by
  obtain ⟨hx0, hx1, hy0, hy1, hz0, hz1⟩ := hv
  have pick : ∀ (p : Prop) [Decidable p] (lo hi : F),
      (if p then lo else hi) = lo ∨ (if p then lo else hi) = hi := by
    intro p _ lo hi
    by_cases h : p
    · exact Or.inl (if_pos h)
    · exact Or.inr (if_neg h)
  constructor
  · have hc : (⟨if 0 ≤ a1 then b.minimum.x else b.maximum.x,
        if 0 ≤ a2 then b.minimum.y else b.maximum.y,
        if 0 ≤ a3 then b.minimum.z else b.maximum.z⟩ : Vec3 F) ∈ b.corners :=
      b.mem_corners _ _ _ (pick _ _ _) (pick _ _ _) (pick _ _ _)
    refine le_trans (b.corner_min_le f _ hc) ?_
    rw [hf, hf]
    exact add_le_add (add_le_add (mul_corner_le a1 v.x _ _ hx0 hx1)
      (mul_corner_le a2 v.y _ _ hy0 hy1)) (mul_corner_le a3 v.z _ _ hz0 hz1)
  · have hc : (⟨if 0 ≤ a1 then b.maximum.x else b.minimum.x,
        if 0 ≤ a2 then b.maximum.y else b.minimum.y,
        if 0 ≤ a3 then b.maximum.z else b.minimum.z⟩ : Vec3 F) ∈ b.corners :=
      b.mem_corners _ _ _ ((pick _ _ _).symm) ((pick _ _ _).symm) ((pick _ _ _).symm)
    refine le_trans ?_ (b.le_corner_max f _ hc)
    rw [hf, hf]
    exact add_le_add (add_le_add (le_mul_corner a1 v.x _ _ hx0 hx1)
      (le_mul_corner a2 v.y _ _ hy0 hy1)) (le_mul_corner a3 v.z _ _ hz0 hz1)

/-- The box stored by `RotateY::RotateY`. -/
theorem RotateY_construct_bbox (env : Env F) (junk : Aabb F) (p : Hittable F) (angle : F) :
    (RotateY.construct env junk p angle).bbox =
      ⟨⟨(p.bounding_box 0 1 junk).2.corner_min
          (fun c => ((RotateY.construct env junk p angle).to_world c).x),
        (p.bounding_box 0 1 junk).2.corner_min
          (fun c => ((RotateY.construct env junk p angle).to_world c).y),
        (p.bounding_box 0 1 junk).2.corner_min
          (fun c => ((RotateY.construct env junk p angle).to_world c).z)⟩,
       ⟨(p.bounding_box 0 1 junk).2.corner_max
          (fun c => ((RotateY.construct env junk p angle).to_world c).x),
        (p.bounding_box 0 1 junk).2.corner_max
          (fun c => ((RotateY.construct env junk p angle).to_world c).y),
        (p.bounding_box 0 1 junk).2.corner_max
          (fun c => ((RotateY.construct env junk p angle).to_world c).z)⟩⟩ := by
  simp only [RotateY.construct, rotated_box_eq, RotateY.to_world]

/-- The box stored by `RotateZ::RotateZ`. -/
theorem RotateZ_construct_bbox (env : Env F) (junk : Aabb F) (p : Hittable F) (angle : F) :
    (RotateZ.construct env junk p angle).bbox =
      ⟨⟨(p.bounding_box 0 1 junk).2.corner_min
          (fun c => ((RotateZ.construct env junk p angle).to_world c).x),
        (p.bounding_box 0 1 junk).2.corner_min
          (fun c => ((RotateZ.construct env junk p angle).to_world c).y),
        (p.bounding_box 0 1 junk).2.corner_min
          (fun c => ((RotateZ.construct env junk p angle).to_world c).z)⟩,
       ⟨(p.bounding_box 0 1 junk).2.corner_max
          (fun c => ((RotateZ.construct env junk p angle).to_world c).x),
        (p.bounding_box 0 1 junk).2.corner_max
          (fun c => ((RotateZ.construct env junk p angle).to_world c).y),
        (p.bounding_box 0 1 junk).2.corner_max
          (fun c => ((RotateZ.construct env junk p angle).to_world c).z)⟩⟩ := by
  simp only [RotateZ.construct, rotated_box_eq, RotateZ.to_world]

/-- The method `RotateX::hit`, written with `rotated_r`, `to_world` and the
answer of the child. -/
theorem RotateX_hit_eq (q : RotateX F) (r : Ray F) (t_min t_max : Ext F)
    (rec : HitRecord F) (g : Rng F) :
    q.hit r t_min t_max rec g =
      if ¬ (q.ptr.hit (q.rotated_r r) t_min t_max rec g).1.1 = true then
        ((false, (q.ptr.hit (q.rotated_r r) t_min t_max rec g).1.2),
          (q.ptr.hit (q.rotated_r r) t_min t_max rec g).2)
      else
        ((true, ({ (q.ptr.hit (q.rotated_r r) t_min t_max rec g).1.2 with
              p := q.to_world (q.ptr.hit (q.rotated_r r) t_min t_max rec g).1.2.p } :
            HitRecord F).set_face_normal (q.rotated_r r)
              (q.to_world (q.ptr.hit (q.rotated_r r) t_min t_max rec g).1.2.normal)),
          (q.ptr.hit (q.rotated_r r) t_min t_max rec g).2) := rfl

/-- The method `RotateX::hit` reports a hit exactly when the child is hit by
`rotated_r`, with the child's `t` and the child's point under `to_world`. -/
theorem RotateX_hit_spec (q : RotateX F) (r : Ray F) (t_min t_max : Ext F)
    (rec : HitRecord F) (g : Rng F) :
    (q.hit r t_min t_max rec g).1.1 = (q.ptr.hit (q.rotated_r r) t_min t_max rec g).1.1 ∧
    (q.hit r t_min t_max rec g).2 = (q.ptr.hit (q.rotated_r r) t_min t_max rec g).2 ∧
    ((q.ptr.hit (q.rotated_r r) t_min t_max rec g).1.1 = true →
      (q.hit r t_min t_max rec g).1.2.t = (q.ptr.hit (q.rotated_r r) t_min t_max rec g).1.2.t ∧
      (q.hit r t_min t_max rec g).1.2.p =
        q.to_world (q.ptr.hit (q.rotated_r r) t_min t_max rec g).1.2.p ∧
      (q.hit r t_min t_max rec g).1.2.normal =
        (if Vec3.dot (q.rotated_r r).direction
            (q.to_world (q.ptr.hit (q.rotated_r r) t_min t_max rec g).1.2.normal) < 0
          then q.to_world (q.ptr.hit (q.rotated_r r) t_min t_max rec g).1.2.normal
          else -q.to_world (q.ptr.hit (q.rotated_r r) t_min t_max rec g).1.2.normal)) := by
  rw [RotateX_hit_eq]
  cases h : (q.ptr.hit (q.rotated_r r) t_min t_max rec g).1.1
  · simp
  · simp only [not_true_eq_false, if_false, true_and, forall_const]
    refine ⟨rfl, rfl, ?_⟩
    simp only [HitRecord.set_face_normal, decide_eq_true_eq]

/-- The method `RotateY::hit`, written with `rotated_r`, `to_world` and the
answer of the child. -/
theorem RotateY_hit_eq (q : RotateY F) (r : Ray F) (t_min t_max : Ext F)
    (rec : HitRecord F) (g : Rng F) :
    q.hit r t_min t_max rec g =
      if ¬ (q.ptr.hit (q.rotated_r r) t_min t_max rec g).1.1 = true then
        ((false, (q.ptr.hit (q.rotated_r r) t_min t_max rec g).1.2),
          (q.ptr.hit (q.rotated_r r) t_min t_max rec g).2)
      else
        ((true, ({ (q.ptr.hit (q.rotated_r r) t_min t_max rec g).1.2 with
              p := q.to_world (q.ptr.hit (q.rotated_r r) t_min t_max rec g).1.2.p } :
            HitRecord F).set_face_normal (q.rotated_r r)
              (q.to_world (q.ptr.hit (q.rotated_r r) t_min t_max rec g).1.2.normal)),
          (q.ptr.hit (q.rotated_r r) t_min t_max rec g).2) := rfl

/-- The method `RotateY::hit` reports a hit exactly when the child is hit by
`rotated_r`, with the child's `t` and the child's point under `to_world`. -/
theorem RotateY_hit_spec (q : RotateY F) (r : Ray F) (t_min t_max : Ext F)
    (rec : HitRecord F) (g : Rng F) :
    (q.hit r t_min t_max rec g).1.1 = (q.ptr.hit (q.rotated_r r) t_min t_max rec g).1.1 ∧
    (q.hit r t_min t_max rec g).2 = (q.ptr.hit (q.rotated_r r) t_min t_max rec g).2 ∧
    ((q.ptr.hit (q.rotated_r r) t_min t_max rec g).1.1 = true →
      (q.hit r t_min t_max rec g).1.2.t = (q.ptr.hit (q.rotated_r r) t_min t_max rec g).1.2.t ∧
      (q.hit r t_min t_max rec g).1.2.p =
        q.to_world (q.ptr.hit (q.rotated_r r) t_min t_max rec g).1.2.p ∧
      (q.hit r t_min t_max rec g).1.2.normal =
        (if Vec3.dot (q.rotated_r r).direction
            (q.to_world (q.ptr.hit (q.rotated_r r) t_min t_max rec g).1.2.normal) < 0
          then q.to_world (q.ptr.hit (q.rotated_r r) t_min t_max rec g).1.2.normal
          else -q.to_world (q.ptr.hit (q.rotated_r r) t_min t_max rec g).1.2.normal)) := by
  rw [RotateY_hit_eq]
  cases h : (q.ptr.hit (q.rotated_r r) t_min t_max rec g).1.1
  · simp
  · simp only [not_true_eq_false, if_false, true_and, forall_const]
    refine ⟨rfl, rfl, ?_⟩
    simp only [HitRecord.set_face_normal, decide_eq_true_eq]

/-- The method `RotateZ::hit`, written with `rotated_r`, `to_world` and the
answer of the child. -/
theorem RotateZ_hit_eq (q : RotateZ F) (r : Ray F) (t_min t_max : Ext F)
    (rec : HitRecord F) (g : Rng F) :
    q.hit r t_min t_max rec g =
      if ¬ (q.ptr.hit (q.rotated_r r) t_min t_max rec g).1.1 = true then
        ((false, (q.ptr.hit (q.rotated_r r) t_min t_max rec g).1.2),
          (q.ptr.hit (q.rotated_r r) t_min t_max rec g).2)
      else
        ((true, ({ (q.ptr.hit (q.rotated_r r) t_min t_max rec g).1.2 with
              p := q.to_world (q.ptr.hit (q.rotated_r r) t_min t_max rec g).1.2.p } :
            HitRecord F).set_face_normal (q.rotated_r r)
              (q.to_world (q.ptr.hit (q.rotated_r r) t_min t_max rec g).1.2.normal)),
          (q.ptr.hit (q.rotated_r r) t_min t_max rec g).2) := rfl

/-- The method `RotateZ::hit` reports a hit exactly when the child is hit by
`rotated_r`, with the child's `t` and the child's point under `to_world`. -/
theorem RotateZ_hit_spec (q : RotateZ F) (r : Ray F) (t_min t_max : Ext F)
    (rec : HitRecord F) (g : Rng F) :
    (q.hit r t_min t_max rec g).1.1 = (q.ptr.hit (q.rotated_r r) t_min t_max rec g).1.1 ∧
    (q.hit r t_min t_max rec g).2 = (q.ptr.hit (q.rotated_r r) t_min t_max rec g).2 ∧
    ((q.ptr.hit (q.rotated_r r) t_min t_max rec g).1.1 = true →
      (q.hit r t_min t_max rec g).1.2.t = (q.ptr.hit (q.rotated_r r) t_min t_max rec g).1.2.t ∧
      (q.hit r t_min t_max rec g).1.2.p =
        q.to_world (q.ptr.hit (q.rotated_r r) t_min t_max rec g).1.2.p ∧
      (q.hit r t_min t_max rec g).1.2.normal =
        (if Vec3.dot (q.rotated_r r).direction
            (q.to_world (q.ptr.hit (q.rotated_r r) t_min t_max rec g).1.2.normal) < 0
          then q.to_world (q.ptr.hit (q.rotated_r r) t_min t_max rec g).1.2.normal
          else -q.to_world (q.ptr.hit (q.rotated_r r) t_min t_max rec g).1.2.normal)) := by
  rw [RotateZ_hit_eq]
  cases h : (q.ptr.hit (q.rotated_r r) t_min t_max rec g).1.1
  · simp
  · simp only [not_true_eq_false, if_false, true_and, forall_const]
    refine ⟨rfl, rfl, ?_⟩
    simp only [HitRecord.set_face_normal, decide_eq_true_eq]

/-- The box of the componentwise corner extrema of `f` is the corner hull. -/
theorem Aabb.corner_hull (b : Aabb F) (f : Vec3 F → Vec3 F) :
    Aabb.is_corner_hull
      ⟨⟨b.corner_min (fun c => (f c).x), b.corner_min (fun c => (f c).y),
        b.corner_min (fun c => (f c).z)⟩,
       ⟨b.corner_max (fun c => (f c).x), b.corner_max (fun c => (f c).y),
        b.corner_max (fun c => (f c).z)⟩⟩ b f :=
  ⟨fun c hc => ⟨b.corner_min_le (fun c => (f c).x) c hc, b.le_corner_max (fun c => (f c).x) c hc,
      b.corner_min_le (fun c => (f c).y) c hc, b.le_corner_max (fun c => (f c).y) c hc,
      b.corner_min_le (fun c => (f c).z) c hc, b.le_corner_max (fun c => (f c).z) c hc⟩,
    b.corner_min_mem (fun c => (f c).x), b.corner_min_mem (fun c => (f c).y),
    b.corner_min_mem (fun c => (f c).z), b.corner_max_mem (fun c => (f c).x),
    b.corner_max_mem (fun c => (f c).y), b.corner_max_mem (fun c => (f c).z)⟩

/-- The box of the componentwise corner extrema of a linear map contains the
image of every point of the box. -/
theorem Aabb.corner_hull_contains (b : Aabb F) (f : Vec3 F → Vec3 F)
    (a1 a2 a3 b1 b2 b3 c1 c2 c3 : F)
    (hx : ∀ c, (f c).x = a1 * c.x + a2 * c.y + a3 * c.z)
    (hy : ∀ c, (f c).y = b1 * c.x + b2 * c.y + b3 * c.z)
    (hz : ∀ c, (f c).z = c1 * c.x + c2 * c.y + c3 * c.z)
    (v : Vec3 F) (hv : b.contains v) :
    Aabb.contains
      ⟨⟨b.corner_min (fun c => (f c).x), b.corner_min (fun c => (f c).y),
        b.corner_min (fun c => (f c).z)⟩,
       ⟨b.corner_max (fun c => (f c).x), b.corner_max (fun c => (f c).y),
        b.corner_max (fun c => (f c).z)⟩⟩ (f v) :=
  ⟨(b.corner_bounds_linear a1 a2 a3 _ hx v hv).1, (b.corner_bounds_linear a1 a2 a3 _ hx v hv).2,
    (b.corner_bounds_linear b1 b2 b3 _ hy v hv).1, (b.corner_bounds_linear b1 b2 b3 _ hy v hv).2,
    (b.corner_bounds_linear c1 c2 c3 _ hz v hv).1, (b.corner_bounds_linear c1 c2 c3 _ hz v hv).2⟩

/-- C17: for `RotateY` and `RotateZ` over a child whose bounding box is `B`, the
box stored by the constructor is the component-wise minimum and maximum of the
eight corners of `B` mapped through the object-to-world rotation that `hit`
applies to hit points, and therefore contains the image under that rotation of
every point of `B`. -/
theorem C17_rotate_yz_bbox (env : Env F) (junk : Aabb F) (p : Hittable F) (angle : F) :
    (Aabb.is_corner_hull (RotateY.construct env junk p angle).bbox
        (p.bounding_box 0 1 junk).2 (RotateY.construct env junk p angle).to_world ∧
      (∀ v, (p.bounding_box 0 1 junk).2.contains v →
        (RotateY.construct env junk p angle).bbox.contains
          ((RotateY.construct env junk p angle).to_world v)) ∧
      (∀ (r : Ray F) (t_min t_max : Ext F) (rec : HitRecord F) (g : Rng F),
        ((RotateY.construct env junk p angle).hit r t_min t_max rec g).1.1 = true →
        ((RotateY.construct env junk p angle).hit r t_min t_max rec g).1.2.p =
          (RotateY.construct env junk p angle).to_world
            (p.hit ((RotateY.construct env junk p angle).rotated_r r) t_min t_max rec g).1.2.p)) ∧
    (Aabb.is_corner_hull (RotateZ.construct env junk p angle).bbox
        (p.bounding_box 0 1 junk).2 (RotateZ.construct env junk p angle).to_world ∧
      (∀ v, (p.bounding_box 0 1 junk).2.contains v →
        (RotateZ.construct env junk p angle).bbox.contains
          ((RotateZ.construct env junk p angle).to_world v)) ∧
      (∀ (r : Ray F) (t_min t_max : Ext F) (rec : HitRecord F) (g : Rng F),
        ((RotateZ.construct env junk p angle).hit r t_min t_max rec g).1.1 = true →
        ((RotateZ.construct env junk p angle).hit r t_min t_max rec g).1.2.p =
          (RotateZ.construct env junk p angle).to_world
            (p.hit ((RotateZ.construct env junk p angle).rotated_r r) t_min t_max rec g).1.2.p)) := by
  refine ⟨⟨?_, ?_, ?_⟩, ⟨?_, ?_, ?_⟩⟩
  · rw [RotateY_construct_bbox]
    exact Aabb.corner_hull _ _
  · intro v hv
    rw [RotateY_construct_bbox]
    exact Aabb.corner_hull_contains _ _
      (RotateY.construct env junk p angle).cos_theta 0 (RotateY.construct env junk p angle).sin_theta
      0 1 0
      (-(RotateY.construct env junk p angle).sin_theta) 0
      (RotateY.construct env junk p angle).cos_theta
      (fun c => by simp only [RotateY.to_world]; ring)
      (fun c => by simp only [RotateY.to_world]; ring)
      (fun c => by simp only [RotateY.to_world]; ring) v hv
  · intro r t_min t_max rec g h
    have hs := RotateY_hit_spec (RotateY.construct env junk p angle) r t_min t_max rec g
    rw [hs.1] at h
    exact (hs.2.2 h).2.1
  · rw [RotateZ_construct_bbox]
    exact Aabb.corner_hull _ _
  · intro v hv
    rw [RotateZ_construct_bbox]
    exact Aabb.corner_hull_contains _ _
      (RotateZ.construct env junk p angle).cos_theta
      (-(RotateZ.construct env junk p angle).sin_theta) 0
      (RotateZ.construct env junk p angle).sin_theta
      (RotateZ.construct env junk p angle).cos_theta 0
      0 0 1
      (fun c => by simp only [RotateZ.to_world]; ring)
      (fun c => by simp only [RotateZ.to_world]; ring)
      (fun c => by simp only [RotateZ.to_world]; ring) v hv
  · intro r t_min t_max rec g h
    have hs := RotateZ_hit_spec (RotateZ.construct env junk p angle) r t_min t_max rec g
    rw [hs.1] at h
    exact (hs.2.2 h).2.1

/-- The box stored by `RotateX::RotateX`: the constructor builds
`tester(newy, x, newz)`, so the `x` bounds are the extrema of the rotated `y` and
the `y` bounds the extrema of `x`. -/
theorem RotateX_construct_bbox (env : Env F) (junk : Aabb F) (p : Hittable F) (angle : F) :
    (RotateX.construct env junk p angle).bbox =
      ⟨⟨(p.bounding_box 0 1 junk).2.corner_min
          (fun c => ((RotateX.construct env junk p angle).to_world c).y),
        (p.bounding_box 0 1 junk).2.corner_min
          (fun c => ((RotateX.construct env junk p angle).to_world c).x),
        (p.bounding_box 0 1 junk).2.corner_min
          (fun c => ((RotateX.construct env junk p angle).to_world c).z)⟩,
       ⟨(p.bounding_box 0 1 junk).2.corner_max
          (fun c => ((RotateX.construct env junk p angle).to_world c).y),
        (p.bounding_box 0 1 junk).2.corner_max
          (fun c => ((RotateX.construct env junk p angle).to_world c).x),
        (p.bounding_box 0 1 junk).2.corner_max
          (fun c => ((RotateX.construct env junk p angle).to_world c).z)⟩⟩ := by
  simp only [RotateX.construct, rotated_box_eq, RotateX.to_world]

theorem offSphere_box : (offSphere.bounding_box 0 1 junkBox).2 = ⟨⟨0, 10, 0⟩, ⟨1, 11, 1⟩⟩ := by
  simp only [offSphere, Sphere.toHittable, Sphere.bounding_box, Vec3.sub_def, Vec3.add_def]
  norm_num

/-- C18, the code at a failing input: `RotateX` by the angle `0` around the
sphere of radius `1/2` about `(1/2, 21/2, 1/2)`.  The child's box is
`[0, 1] × [10, 11] × [0, 1]` and the rotation is the identity, but the stored box
is `[10, 11] × [0, 1] × [0, 1]`: it is not the hull of the mapped corners and
does not contain the image `(1/2, 21/2, 1/2)` of the centre. -/
theorem C18_rotate_x_bbox_swapped :
    (RotateX.construct angle0Env junkBox offSphere 0).sin_theta = 0 ∧
    (RotateX.construct angle0Env junkBox offSphere 0).cos_theta = 1 ∧
    (offSphere.bounding_box 0 1 junkBox).2 = ⟨⟨0, 10, 0⟩, ⟨1, 11, 1⟩⟩ ∧
    (RotateX.construct angle0Env junkBox offSphere 0).bbox = ⟨⟨10, 0, 0⟩, ⟨11, 1, 1⟩⟩ ∧
    (offSphere.bounding_box 0 1 junkBox).2.contains ⟨1 / 2, 21 / 2, 1 / 2⟩ ∧
    (RotateX.construct angle0Env junkBox offSphere 0).to_world ⟨1 / 2, 21 / 2, 1 / 2⟩ =
      ⟨1 / 2, 21 / 2, 1 / 2⟩ ∧
    ¬ (RotateX.construct angle0Env junkBox offSphere 0).bbox.contains
        ((RotateX.construct angle0Env junkBox offSphere 0).to_world ⟨1 / 2, 21 / 2, 1 / 2⟩) ∧
    ¬ Aabb.is_corner_hull (RotateX.construct angle0Env junkBox offSphere 0).bbox
        (offSphere.bounding_box 0 1 junkBox).2
        (RotateX.construct angle0Env junkBox offSphere 0).to_world := by
  have hb : (RotateX.construct angle0Env junkBox offSphere 0).bbox =
      ⟨⟨10, 0, 0⟩, ⟨11, 1, 1⟩⟩ := by
    rw [RotateX_construct_bbox, offSphere_box]
    simp only [RotateX.to_world, RotateX.construct, angle0Env, Aabb.corner_min, Aabb.corner_max,
      Aabb.corners, List.map_cons, List.map_nil, List.foldl_cons, List.foldl_nil]
    norm_num
  have hw : (RotateX.construct angle0Env junkBox offSphere 0).to_world ⟨1 / 2, 21 / 2, 1 / 2⟩ =
      ⟨1 / 2, 21 / 2, 1 / 2⟩ := by
    simp only [RotateX.to_world, RotateX.construct, angle0Env]
    norm_num
  refine ⟨rfl, rfl, offSphere_box, hb, ?_, hw, ?_, ?_⟩
  · rw [offSphere_box]
    simp only [Aabb.contains]
    norm_num
  · rw [hb, hw]
    simp only [Aabb.contains]
    norm_num
  · intro h
    have h0 := h.1 ⟨0, 10, 0⟩ (by rw [offSphere_box]; simp [Aabb.corners])
    rw [hb] at h0
    simp only [Aabb.contains, RotateX.to_world, RotateX.construct, angle0Env] at h0
    norm_num at h0

/-- C13 as amended: the three `hit` methods divide by the component of the
direction along the plane normal without a guard.  For a ray with that
component zero and every interval: when the origin lies in the plane, `t` is
`0 / 0 = NaN`, every test is false and `hit` returns true (with the `NaN` as
`rec.t`); when the origin lies off the plane and the direction is not zero, `t`
is an infinity and `hit` returns false. -/
theorem C13_rect_parallel_ray_unguarded (qxy : XYRect F) (qxz : XZRect F) (qyz : YZRect F)
    (r : Ray F) (negZero : Bool) (t_min t_max : Ext F) :
    (r.direction.z = 0 →
      (r.origin.z = qxy.k → qxy.hit_ieee r negZero t_min t_max = (true, Dbl.nan)) ∧
      (r.origin.z ≠ qxy.k → (r.direction.x ≠ 0 ∨ r.direction.y ≠ 0) →
        (qxy.hit_ieee r negZero t_min t_max).1 = false ∧
        ((qxy.hit_ieee r negZero t_min t_max).2 = Dbl.posInf ∨
          (qxy.hit_ieee r negZero t_min t_max).2 = Dbl.negInf))) ∧
    (r.direction.y = 0 →
      (r.origin.y = qxz.k → qxz.hit_ieee r negZero t_min t_max = (true, Dbl.nan)) ∧
      (r.origin.y ≠ qxz.k → (r.direction.x ≠ 0 ∨ r.direction.z ≠ 0) →
        (qxz.hit_ieee r negZero t_min t_max).1 = false ∧
        ((qxz.hit_ieee r negZero t_min t_max).2 = Dbl.posInf ∨
          (qxz.hit_ieee r negZero t_min t_max).2 = Dbl.negInf))) ∧
    (r.direction.x = 0 →
      (r.origin.x = qyz.k → qyz.hit_ieee r negZero t_min t_max = (true, Dbl.nan)) ∧
      (r.origin.x ≠ qyz.k → (r.direction.y ≠ 0 ∨ r.direction.z ≠ 0) →
        (qyz.hit_ieee r negZero t_min t_max).1 = false ∧
        ((qyz.hit_ieee r negZero t_min t_max).2 = Dbl.posInf ∨
          (qyz.hit_ieee r negZero t_min t_max).2 = Dbl.negInf))) :=
  ⟨fun hd => ⟨fun ho => XYRect_hit_ieee_in_plane qxy r negZero t_min t_max hd ho,
      fun ho hdir => XYRect_hit_ieee_off_plane qxy r negZero t_min t_max hd ho hdir⟩,
    fun hd => ⟨fun ho => XZRect_hit_ieee_in_plane qxz r negZero t_min t_max hd ho,
      fun ho hdir => XZRect_hit_ieee_off_plane qxz r negZero t_min t_max hd ho hdir⟩,
    fun hd => ⟨fun ho => YZRect_hit_ieee_in_plane qyz r negZero t_min t_max hd ho,
      fun ho hdir => YZRect_hit_ieee_off_plane qyz r negZero t_min t_max hd ho hdir⟩⟩

/-- C13 at a ray parallel to the unit square and off its plane: the ray from
`(1/2, 1/2, 1)` along `+x` is rejected, with an infinite `t`. -/
theorem C13_rect_parallel_ray_unguarded_witness :
    aboveRay.direction.z = 0 ∧ aboveRay.origin.z ≠ unitSquare.k ∧
    (unitSquare.hit_ieee aboveRay false (Ext.fin 0.001) Ext.posInf).1 = false ∧
    ((unitSquare.hit_ieee aboveRay false (Ext.fin 0.001) Ext.posInf).2 = Dbl.posInf ∨
      (unitSquare.hit_ieee aboveRay false (Ext.fin 0.001) Ext.posInf).2 = Dbl.negInf) :=
  ⟨rfl, by simp [aboveRay, unitSquare, Ray.origin],
    ((C13_rect_parallel_ray_unguarded unitSquare ⟨0, 1, 0, 1, 0, none⟩ ⟨0, 1, 0, 1, 0, none⟩
      aboveRay false (Ext.fin 0.001) Ext.posInf).1 rfl).2
      (by simp [aboveRay, unitSquare, Ray.origin])
      (Or.inl (by simp [aboveRay, Ray.direction]))⟩

/-- C13 fails as stated: the ray from `(1/2, 1/2, 0)` along `+x` lies in the
plane of the unit square `XYRect(0, 1, 0, 1, 0)`, its direction has `z`
component zero, and `hit` on `[0.001, INF]` returns true with `t = NaN`. -/
theorem C13_rect_parallel_counterexample :
    planeRay.direction.z = 0 ∧
    unitSquare.hit_ieee planeRay false (Ext.fin 0.001) Ext.posInf = (true, Dbl.nan) ∧
    ¬ (unitSquare.hit_ieee planeRay false (Ext.fin 0.001) Ext.posInf).1 = false ∧
    (∀ x : ℚ, (unitSquare.hit_ieee planeRay false (Ext.fin 0.001) Ext.posInf).2 ≠ Dbl.fin x) := by
  have h := XYRect_hit_ieee_in_plane unitSquare planeRay false (Ext.fin 0.001) Ext.posInf rfl rfl
  refine ⟨rfl, h, ?_, ?_⟩
  · rw [h]
    simp
  · intro x
    rw [h]
    simp

/-! ### Concrete evaluation: a rotation wrapped in the opposite rotation -/

theorem unitBall_hit_zRay :
    unitBall.hit zRay (Ext.fin 0.001) Ext.posInf rec0 rngZero =
      ((true, Sphere.fill ratEnv (ball none) zRay rec0 2), rngZero) := by
  show (Sphere.hit ratEnv (ball none) zRay (Ext.fin 0.001) Ext.posInf rec0, rngZero) = _
  rw [ball_hit_zRay]

theorem innerTurn_outerTurn_zRay : innerTurn.rotated_r (outerTurn.rotated_r zRay) = zRay := by
  simp only [RotateY.rotated_r, RotateY.to_object, innerTurn, outerTurn, zRay, Ray.origin,
    Ray.direction, Ray.time]
  norm_num

/-- C16, the code at a failing input: the unit sphere `S` wrapped in `RotateY`
by `θ` (`sin θ = 3/5`, `cos θ = -4/5`) and then in `RotateY` by `-θ`, and the
ray from `(0, 0, -3)` along `+z`.  Both report a hit at `(0, 0, -1)`; `S`
reports the normal `(0, 0, -1)`, the wrapped shape reports `(0, 0, 1)`. -/
theorem C16_rotate_roundtrip_normal_flipped :
    innerTurn.sin_theta ^ 2 + innerTurn.cos_theta ^ 2 = 1 ∧
    outerTurn.sin_theta = -innerTurn.sin_theta ∧ outerTurn.cos_theta = innerTurn.cos_theta ∧
    (unitBall.hit zRay (Ext.fin 0.001) Ext.posInf rec0 rngZero).1.1 = true ∧
    (outerTurn.toHittable.hit zRay (Ext.fin 0.001) Ext.posInf rec0 rngZero).1.1 = true ∧
    (unitBall.hit zRay (Ext.fin 0.001) Ext.posInf rec0 rngZero).1.2.p = ⟨0, 0, -1⟩ ∧
    (outerTurn.toHittable.hit zRay (Ext.fin 0.001) Ext.posInf rec0 rngZero).1.2.p =
      ⟨0, 0, -1⟩ ∧
    (unitBall.hit zRay (Ext.fin 0.001) Ext.posInf rec0 rngZero).1.2.normal = ⟨0, 0, -1⟩ ∧
    (outerTurn.toHittable.hit zRay (Ext.fin 0.001) Ext.posInf rec0 rngZero).1.2.normal =
      ⟨0, 0, 1⟩ := by
  have hin := RotateY_hit_spec innerTurn (outerTurn.rotated_r zRay) (Ext.fin 0.001) Ext.posInf
    rec0 rngZero
  rw [innerTurn_outerTurn_zRay] at hin
  have hc : innerTurn.ptr.hit zRay (Ext.fin 0.001) Ext.posInf rec0 rngZero =
      ((true, Sphere.fill ratEnv (ball none) zRay rec0 2), rngZero) := unitBall_hit_zRay
  rw [hc] at hin
  obtain ⟨hin1, -, hin3⟩ := hin
  obtain ⟨-, hinp, hinn⟩ := hin3 rfl
  simp only [fill_zRay_p, fill_zRay_normal] at hinp hinn
  have hinp2 : (innerTurn.hit (outerTurn.rotated_r zRay) (Ext.fin 0.001) Ext.posInf rec0
      rngZero).1.2.p = ⟨-3 / 5, 0, 4 / 5⟩ := by
    rw [hinp]
    simp only [RotateY.to_world, innerTurn]
    norm_num
  have hinn2 : (innerTurn.hit (outerTurn.rotated_r zRay) (Ext.fin 0.001) Ext.posInf rec0
      rngZero).1.2.normal = ⟨3 / 5, 0, -4 / 5⟩ := by
    rw [hinn]
    simp only [RotateY.to_world, innerTurn, zRay, Vec3.dot, Vec3.neg_def, Ray.direction]
    norm_num
  have hout := RotateY_hit_spec outerTurn zRay (Ext.fin 0.001) Ext.posInf rec0 rngZero
  have hptr : outerTurn.ptr.hit (outerTurn.rotated_r zRay) (Ext.fin 0.001) Ext.posInf rec0
      rngZero = innerTurn.hit (outerTurn.rotated_r zRay) (Ext.fin 0.001) Ext.posInf rec0
      rngZero := rfl
  rw [hptr] at hout
  obtain ⟨hout1, -, hout3⟩ := hout
  obtain ⟨-, houtp, houtn⟩ := hout3 hin1
  rw [hinp2] at houtp
  rw [hinn2] at houtn
  refine ⟨?_, ?_, rfl, ?_, ?_, ?_, ?_, ?_, ?_⟩
  · simp only [innerTurn]
    norm_num
  · simp only [innerTurn, outerTurn]
    norm_num
  · rw [unitBall_hit_zRay]
  · exact hout1.trans hin1
  · rw [unitBall_hit_zRay]
    exact fill_zRay_p none rec0
  · show (outerTurn.hit zRay (Ext.fin 0.001) Ext.posInf rec0 rngZero).1.2.p = _
    rw [houtp]
    simp only [RotateY.to_world, outerTurn]
    norm_num
  · rw [unitBall_hit_zRay]
    exact fill_zRay_normal none rec0
  · show (outerTurn.hit zRay (Ext.fin 0.001) Ext.posInf rec0 rngZero).1.2.normal = _
    rw [houtn]
    simp only [RotateY.to_world, RotateY.rotated_r, RotateY.to_object, outerTurn, zRay,
      Vec3.dot, Vec3.neg_def, Ray.direction]
    norm_num

/-! ## material.h: DiffuseLight, Isotropic, Metal, Dielectric -/

/-- C24: for every incoming ray and hit record, `DiffuseLight` never scatters
(`scatter` returns false, leaving `srec` and the generator untouched), and
`DiffuseLight::emitted` returns its texture's value at `(u, v, p)` when
`rec.front_face` is true and the zero colour when `rec.front_face` is false. -/
theorem C24_diffuse_light (env : Env F) (emit : Texture F) (r_in : Ray F) (rec : HitRecord F)
    (srec : ScatterRecord F) (g : Rng F) (u v : F) (p : Vec3 F) :
    ((Material.diffuseLight emit).scatter env r_in rec srec g).1.1 = false ∧
    (Material.diffuseLight emit).scatter env r_in rec srec g = ((false, srec), g) ∧
    (rec.front_face = true →
      (Material.diffuseLight emit).emitted env r_in rec u v p = emit.value env u v p) ∧
    (rec.front_face = false →
      (Material.diffuseLight emit).emitted env r_in rec u v p = ⟨0, 0, 0⟩) := by
  refine ⟨rfl, rfl, ?_, ?_⟩
  · intro h
    simp [Material.emitted, h]
  · intro h
    simp [Material.emitted, h]

/-- C23, the code at every input: the override of `scatter` in `Isotropic` is
commented out, so the call reaches `Material::scatter`, which returns false and
writes nothing (no attenuation, no scattered ray) and draws no random number. -/
theorem C23_isotropic_scatter_returns_false (env : Env F) (albedo : Texture F) (r_in : Ray F)
    (rec : HitRecord F) (srec : ScatterRecord F) (g : Rng F) :
    ((Material.isotropic albedo).scatter env r_in rec srec g).1.1 = false ∧
    (Material.isotropic albedo).scatter env r_in rec srec g = ((false, srec), g) :=
  ⟨rfl, rfl⟩

theorem Metal_fuzz (a : Vec3 F) (f : F) : (Metal a f).metal_fuzz = some (min f 1) := by
  unfold Metal
  by_cases h : f < 1
  · rw [if_pos h, min_eq_left h.le]
    rfl
  · rw [if_neg h, min_eq_right (not_lt.mp h)]
    rfl

/-- C25 as amended: for every constructor argument `f`, the fuzz coefficient
stored by `Metal` is `min(f, 1)`: it is at most 1, it lies in `[0, 1]` when
`f ≥ 0`, and it is `f` itself, a negative number, when `f < 0`. -/
theorem C25_metal_fuzz_capped (a : Vec3 F) (f : F) :
    (Metal a f).metal_fuzz = some (min f 1) ∧ min f 1 ≤ 1 ∧
    (0 ≤ f → 0 ≤ min f 1 ∧ min f 1 ≤ 1) ∧
    (f < 0 → (Metal a f).metal_fuzz = some f ∧ min f 1 < 0) := by
  refine ⟨Metal_fuzz a f, min_le_right f 1, ?_, ?_⟩
  · intro h
    exact ⟨le_min h zero_le_one, min_le_right f 1⟩
  · intro h
    have h1 : min f 1 = f := min_eq_left (h.le.trans zero_le_one)
    rw [Metal_fuzz, h1]
    exact ⟨rfl, h⟩

/-- C25 fails as stated: `Metal(Color(1, 1, 1), -1)` stores the fuzz coefficient
`-1`, which is not in `[0, 1]`. -/
theorem C25_metal_fuzz_counterexample :
    (Metal (⟨1, 1, 1⟩ : Vec3 ℚ) (-1)).metal_fuzz = some (-1) ∧
    ¬ ((0 : ℚ) ≤ -1 ∧ (-1 : ℚ) ≤ 1) := by
  refine ⟨?_, by norm_num⟩
  rw [Metal_fuzz]
  norm_num

/-- The method `Dielectric::scatter` in terms of its locals: the specular ray
it leaves and the generator after it. -/
theorem Dielectric_scatter_ray (env : Env F) (ir : F) (r_in : Ray F) (rec : HitRecord F)
    (srec : ScatterRecord F) (g : Rng F) :
    (Dielectric.refraction_ratio ir rec * Dielectric.sin_theta env r_in rec > 1 →
      ((Material.dielectric ir).scatter env r_in rec srec g).1.2.specular_ray =
        ⟨rec.p, Vec3.reflect (Vec3.normal env r_in.direction) rec.normal, r_in.time⟩ ∧
      ((Material.dielectric ir).scatter env r_in rec srec g).2 = g) ∧
    (¬ Dielectric.refraction_ratio ir rec * Dielectric.sin_theta env r_in rec > 1 →
      ((Material.dielectric ir).scatter env r_in rec srec g).1.2.specular_ray =
        ⟨rec.p,
          if Dielectric.reflectance (Dielectric.cos_theta env r_in rec)
              (Dielectric.refraction_ratio ir rec) > (random_double2 g).1
          then Vec3.reflect (Vec3.normal env r_in.direction) rec.normal
          else env.refract (Vec3.normal env r_in.direction) rec.normal
            (Dielectric.refraction_ratio ir rec),
          r_in.time⟩ ∧
      ((Material.dielectric ir).scatter env r_in rec srec g).2 = (random_double2 g).2) := by
  have h1 : (1.0 : F) = 1 := by norm_num
  constructor
  · intro h
    simp only [Dielectric.refraction_ratio, Dielectric.sin_theta, Dielectric.cos_theta, h1] at h
    simp only [Material.scatter, h1, h, decide_True, if_true, and_self]
  · intro h
    simp only [Dielectric.refraction_ratio, Dielectric.sin_theta, Dielectric.cos_theta, h1] at h
    simp only [Material.scatter, h1, h, decide_False, Dielectric.refraction_ratio,
      Dielectric.cos_theta]
    by_cases hr : Dielectric.reflectance (min (Vec3.dot (-Vec3.normal env r_in.direction)
        rec.normal) 1) (if rec.front_face = true then 1 / ir else ir) > (random_double2 g).1
    · simp [hr]
    · simp [hr]

/-- C26: for every `Dielectric` with index `ir`, incoming ray and hit record,
`scatter` returns true with `is_specular` true and attenuation `(1, 1, 1)`; the
refraction ratio used is `1 / ir` when `rec.front_face` is true and `ir`
otherwise; whenever `ratio * sin(theta) > 1` the specular ray leaves `rec.p` in
the mirror reflection of the unit incoming direction about the normal, for
every state of the generator (no number is drawn); otherwise the direction is
the reflection or `refract(unit_direction, rec.normal, ratio)`, by the draw. -/
theorem C26_dielectric_scatter (env : Env F) (ir : F) (r_in : Ray F) (rec : HitRecord F)
    (srec : ScatterRecord F) (g : Rng F) :
    ((Material.dielectric ir).scatter env r_in rec srec g).1.1 = true ∧
    ((Material.dielectric ir).scatter env r_in rec srec g).1.2.is_specular = true ∧
    ((Material.dielectric ir).scatter env r_in rec srec g).1.2.attenuation = ⟨1, 1, 1⟩ ∧
    (rec.front_face = true → Dielectric.refraction_ratio ir rec = 1 / ir) ∧
    (rec.front_face = false → Dielectric.refraction_ratio ir rec = ir) ∧
    (Dielectric.refraction_ratio ir rec * Dielectric.sin_theta env r_in rec > 1 →
      ((Material.dielectric ir).scatter env r_in rec srec g).1.2.specular_ray =
        ⟨rec.p, Vec3.reflect (Vec3.normal env r_in.direction) rec.normal, r_in.time⟩ ∧
      ((Material.dielectric ir).scatter env r_in rec srec g).2 = g) ∧
    (¬ Dielectric.refraction_ratio ir rec * Dielectric.sin_theta env r_in rec > 1 →
      ((Material.dielectric ir).scatter env r_in rec srec g).1.2.specular_ray =
        ⟨rec.p,
          if Dielectric.reflectance (Dielectric.cos_theta env r_in rec)
              (Dielectric.refraction_ratio ir rec) > (random_double2 g).1
          then Vec3.reflect (Vec3.normal env r_in.direction) rec.normal
          else env.refract (Vec3.normal env r_in.direction) rec.normal
            (Dielectric.refraction_ratio ir rec),
          r_in.time⟩ ∧
      ((Material.dielectric ir).scatter env r_in rec srec g).2 = (random_double2 g).2) := by
  have h1 : (1.0 : F) = 1 := by norm_num
  refine ⟨rfl, rfl, ?_, ?_, ?_, (Dielectric_scatter_ray env ir r_in rec srec g).1,
    (Dielectric_scatter_ray env ir r_in rec srec g).2⟩
  · rw [(Material.scatter_dielectric env ir r_in rec srec g).2.2.2, h1]
  · intro h
    simp only [Dielectric.refraction_ratio, h, if_true, h1]
  · intro h
    simp [Dielectric.refraction_ratio, h]

theorem grazeRec_total_reflection :
    Dielectric.refraction_ratio (3 / 2 : ℚ) grazeRec * Dielectric.sin_theta ratEnv xOut grazeRec >
      1 := by
  have hn : Vec3.normal ratEnv xOut.direction = ⟨1, 0, 0⟩ := normal_ex ratEnv ratEnv_sqrt_one
  simp only [Dielectric.refraction_ratio, Dielectric.sin_theta, Dielectric.cos_theta, hn,
    grazeRec, Vec3.dot, Vec3.neg_def]
  norm_num
  rw [ratEnv_sqrt_one]
  norm_num

/-- C26 at a grazing back-face hit: index `3/2`, the ray along `+x`, the normal
`(0, 0, 1)`: `ratio * sin(theta) = 3/2 > 1`, and the specular ray leaves
`(1, 0, 0)` along the reflection `(1, 0, 0)` whatever the generator holds. -/
theorem C26_dielectric_scatter_witness :
    Dielectric.refraction_ratio (3 / 2 : ℚ) grazeRec * Dielectric.sin_theta ratEnv xOut grazeRec >
      1 ∧
    ((Material.dielectric (3 / 2 : ℚ)).scatter ratEnv xOut grazeRec srec0 rngZero).1.2.specular_ray =
      ⟨grazeRec.p, Vec3.reflect (Vec3.normal ratEnv xOut.direction) grazeRec.normal,
        xOut.time⟩ ∧
    ((Material.dielectric (3 / 2 : ℚ)).scatter ratEnv xOut grazeRec srec0 rngZero).2 = rngZero :=
  ⟨grazeRec_total_reflection,
    (C26_dielectric_scatter ratEnv (3 / 2) xOut grazeRec srec0 rngZero).2.2.2.2.2.1
      grazeRec_total_reflection⟩

/-! ## moving_sphere.h -/

/-- The method `MovingSphere::hit` and `Sphere::hit` of the static sphere at the
time of the ray leave the same flag and the same record up to `u` and `v`. -/
theorem MovingSphere_hit_static (env : Env F) (ms : MovingSphere F) (r : Ray F)
    (t_min t_max : Ext F) (rec : HitRecord F) :
    (MovingSphere.hit env ms r t_min t_max rec).1 =
      (Sphere.hit env (ms.static_at r.time) r t_min t_max rec).1 ∧
    (MovingSphere.hit env ms r t_min t_max rec).2.t =
      (Sphere.hit env (ms.static_at r.time) r t_min t_max rec).2.t ∧
    (MovingSphere.hit env ms r t_min t_max rec).2.p =
      (Sphere.hit env (ms.static_at r.time) r t_min t_max rec).2.p ∧
    (MovingSphere.hit env ms r t_min t_max rec).2.normal =
      (Sphere.hit env (ms.static_at r.time) r t_min t_max rec).2.normal ∧
    (MovingSphere.hit env ms r t_min t_max rec).2.front_face =
      (Sphere.hit env (ms.static_at r.time) r t_min t_max rec).2.front_face ∧
    (MovingSphere.hit env ms r t_min t_max rec).2.mat_ptr =
      (Sphere.hit env (ms.static_at r.time) r t_min t_max rec).2.mat_ptr := by
  simp only [MovingSphere.hit, Sphere.hit, Sphere.fill, MovingSphere.center,
    MovingSphere.static_at]
  split_ifs <;> exact ⟨rfl, rfl, rfl, rfl, rfl, rfl⟩

/-- C29: for every `MovingSphere` with `time0 ≠ time1`, every ray with time
`tau` and every interval, `MovingSphere::hit` agrees with `Sphere::hit` of the
static sphere of the same radius and material centred at
`center0 + ((tau - time0) / (time1 - time0)) * (center1 - center0)` on hit or
miss, `t`, hit point, normal, `front_face` and material; the centre is `center0`
at `tau = time0` and `center1` at `tau = time1`. -/
theorem C29_moving_sphere_refines_static (env : Env F) (ms : MovingSphere F) (r : Ray F)
    (t_min t_max : Ext F) (rec : HitRecord F) (htime : ms.time0 ≠ ms.time1) :
    ((MovingSphere.hit env ms r t_min t_max rec).1 =
        (Sphere.hit env (ms.static_at r.time) r t_min t_max rec).1 ∧
      (MovingSphere.hit env ms r t_min t_max rec).2.t =
        (Sphere.hit env (ms.static_at r.time) r t_min t_max rec).2.t ∧
      (MovingSphere.hit env ms r t_min t_max rec).2.p =
        (Sphere.hit env (ms.static_at r.time) r t_min t_max rec).2.p ∧
      (MovingSphere.hit env ms r t_min t_max rec).2.normal =
        (Sphere.hit env (ms.static_at r.time) r t_min t_max rec).2.normal ∧
      (MovingSphere.hit env ms r t_min t_max rec).2.front_face =
        (Sphere.hit env (ms.static_at r.time) r t_min t_max rec).2.front_face ∧
      (MovingSphere.hit env ms r t_min t_max rec).2.mat_ptr =
        (Sphere.hit env (ms.static_at r.time) r t_min t_max rec).2.mat_ptr) ∧
    (ms.static_at r.time).center = ms.center r.time ∧
    (ms.static_at r.time).radius = ms.radius ∧
    (ms.static_at r.time).mat_ptr = ms.mat_ptr ∧
    ms.center ms.time0 = ms.center0 ∧ ms.center ms.time1 = ms.center1 := by
  refine ⟨MovingSphere_hit_static env ms r t_min t_max rec, rfl, rfl, rfl, ?_, ?_⟩
  · simp only [MovingSphere.center, Vec3.add_def, Vec3.smul_def, sub_self, zero_div, zero_mul,
      add_zero]
  · have h : ms.time1 - ms.time0 ≠ 0 := sub_ne_zero.mpr (Ne.symm htime)
    simp only [MovingSphere.center, Vec3.add_def, Vec3.smul_def, Vec3.sub_def, div_self h,
      one_mul, add_sub_cancel]

/-- C29 at the unit sphere sliding from the origin to `(0, 2, 0)` over the times
`[0, 1]` and the ray from `(0, 0, -3)` along `+z` at time `0`: the static sphere
is the unit sphere at the origin, and both report the hit at `t = 2`. -/
theorem C29_moving_sphere_refines_static_witness :
    slidingBall.time0 ≠ slidingBall.time1 ∧
    (MovingSphere.hit ratEnv slidingBall zRay (Ext.fin 0.001) Ext.posInf rec0).1 = true ∧
    (MovingSphere.hit ratEnv slidingBall zRay (Ext.fin 0.001) Ext.posInf rec0).2.t = 2 ∧
    slidingBall.center slidingBall.time0 = slidingBall.center0 ∧
    slidingBall.center slidingBall.time1 = slidingBall.center1 := by
  have hne : slidingBall.time0 ≠ slidingBall.time1 := by
    simp [slidingBall]
  have hs : slidingBall.static_at zRay.time = ball none := by
    simp only [MovingSphere.static_at, slidingBall, zRay, Ray.time, ball, Vec3.add_def,
      Vec3.smul_def, Vec3.sub_def]
    norm_num
  have h := C29_moving_sphere_refines_static ratEnv slidingBall zRay (Ext.fin 0.001) Ext.posInf
    rec0 hne
  rw [hs, ball_hit_zRay] at h
  exact ⟨hne, h.1.1, h.1.2.1, h.2.2.2.2.1, h.2.2.2.2.2⟩

/-! ## sphere.h: the density of a sphere -/

/-- C28: for every sphere with centre `C` and radius `r > 0` and every origin
`o` strictly outside it (`r² < |C - o|²`), `Sphere::pdf_value(o, v)` is 0 when
the ray `(o, v)` misses the sphere for `t` in `[0.001, INF)`, and otherwise
equals `1 / (2 * PI * (1 - sqrt(1 - r² / |C - o|²)))`, whatever `v` is; the
argument of the square root lies strictly between 0 and 1. -/
theorem C28_sphere_pdf_value (env : Env F) (s : Sphere F) (junk : HitRecord F) (o v : Vec3 F)
    (hr : 0 < s.radius) (hout : s.radius * s.radius < (s.center - o).length_squared) :
    ((Sphere.hit env s (Ray.mk2 o v) (Ext.fin 0.001) Ext.posInf junk).1 = false →
      s.pdf_value env junk o v = 0) ∧
    ((Sphere.hit env s (Ray.mk2 o v) (Ext.fin 0.001) Ext.posInf junk).1 = true →
      s.pdf_value env junk o v =
        1 / (2 * PI * (1 - env.sqrt (1 - s.radius * s.radius / (s.center - o).length_squared)))) ∧
    (∀ w : Vec3 F,
      (Sphere.hit env s (Ray.mk2 o v) (Ext.fin 0.001) Ext.posInf junk).1 = true →
      (Sphere.hit env s (Ray.mk2 o w) (Ext.fin 0.001) Ext.posInf junk).1 = true →
      s.pdf_value env junk o w = s.pdf_value env junk o v) ∧
    0 < 1 - s.radius * s.radius / (s.center - o).length_squared ∧
    1 - s.radius * s.radius / (s.center - o).length_squared < 1 := by
  have hpos : 0 < (s.center - o).length_squared := lt_trans (mul_pos hr hr) hout
  refine ⟨?_, ?_, ?_, ?_, ?_⟩
  · intro h
    simp [Sphere.pdf_value, h]
  · intro h
    simp [Sphere.pdf_value, h]
  · intro w hv hw
    simp [Sphere.pdf_value, hv, hw]
  · rw [sub_pos, div_lt_one hpos]
    exact hout
  · have : 0 < s.radius * s.radius / (s.center - o).length_squared :=
      div_pos (mul_pos hr hr) hpos
    linarith

/-- C28 at the unit sphere seen from `(0, 0, -3)` along `+z`: the ray hits, the
sphere has radius `1 > 0` and the origin is at squared distance `9 > 1`. -/
theorem C28_sphere_pdf_value_witness :
    (0 : ℚ) < (ball none).radius ∧
    (ball none).radius * (ball none).radius <
      ((ball none).center - (⟨0, 0, -3⟩ : Vec3 ℚ)).length_squared ∧
    (Sphere.hit ratEnv (ball none) (Ray.mk2 ⟨0, 0, -3⟩ ⟨0, 0, 1⟩) (Ext.fin 0.001) Ext.posInf
      rec0).1 = true ∧
    (ball none).pdf_value ratEnv rec0 ⟨0, 0, -3⟩ ⟨0, 0, 1⟩ =
      1 / (2 * PI * (1 - ratEnv.sqrt (1 - (ball none).radius * (ball none).radius /
        ((ball none).center - (⟨0, 0, -3⟩ : Vec3 ℚ)).length_squared))) := by
  have hr : (0 : ℚ) < (ball none).radius := by
    simp [ball]
  have hout : (ball none).radius * (ball none).radius <
      ((ball none).center - (⟨0, 0, -3⟩ : Vec3 ℚ)).length_squared := by
    simp only [ball, Vec3.sub_def, Vec3.length_squared]
    norm_num
  have hhit : (Sphere.hit ratEnv (ball none) (Ray.mk2 ⟨0, 0, -3⟩ ⟨0, 0, 1⟩) (Ext.fin 0.001)
      Ext.posInf rec0).1 = true := by
    have h := ball_hit_zRay none rec0
    have hz : (Ray.mk2 ⟨0, 0, -3⟩ ⟨0, 0, 1⟩ : Ray ℚ) = zRay := rfl
    rw [hz, h]
  exact ⟨hr, hout, hhit,
    (C28_sphere_pdf_value ratEnv (ball none) rec0 ⟨0, 0, -3⟩ ⟨0, 0, 1⟩ hr hout).2.1 hhit⟩

/-! ## rtweekend.h: random_int -/

/-- The number `random_int` converts lies in `[min, max + 1)` for a draw in
`[0, 1)`. -/
theorem random_double2_range_bounds (lo hi : F) (g : Rng F) (hle : lo ≤ hi)
    (h0 : 0 ≤ (random_double2 g).1) (h1 : (random_double2 g).1 < 1) :
    lo ≤ (random_double2_range lo hi g).1 ∧
    (lo < hi → (random_double2_range lo hi g).1 < hi) := by
  constructor
  · simp only [random_double2_range]
    nlinarith [mul_nonneg (sub_nonneg.mpr hle) h0]
  · intro hlt
    simp only [random_double2_range]
    nlinarith [mul_pos (sub_pos.mpr hlt) (sub_pos.mpr h1)]

/-- When `max ≥ 0` the truncation toward zero stays in `[min, max]`. -/
theorem random_int_in_range [FloorRing F] (lo hi : ℤ) (g : Rng F) (hle : lo ≤ hi)
    (hhi : 0 ≤ hi) (h0 : 0 ≤ (random_double2 g).1) (h1 : (random_double2 g).1 < 1) :
    lo ≤ (random_int lo hi g).1 ∧ (random_int lo hi g).1 ≤ hi := by
  have hc : (lo : F) ≤ ((hi + 1 : ℤ) : F) := by
    exact_mod_cast (by omega : lo ≤ hi + 1)
  have hlt : (lo : F) < ((hi + 1 : ℤ) : F) := by
    exact_mod_cast (by omega : lo < hi + 1)
  obtain ⟨hb1, hb2⟩ := random_double2_range_bounds (lo : F) ((hi + 1 : ℤ) : F) g hc h0 h1
  have hb3 := hb2 hlt
  simp only [random_int, static_cast_int]
  split_ifs with hx
  · constructor
    · exact Int.le_floor.mpr hb1
    · have : ⌊(random_double2_range (lo : F) ((hi + 1 : ℤ) : F) g).1⌋ < hi + 1 :=
        Int.floor_lt.mpr hb3
      omega
  · constructor
    · have h2 : (lo : F) ≤ ((⌈(random_double2_range (lo : F) ((hi + 1 : ℤ) : F) g).1⌉ : ℤ) : F) :=
        le_trans hb1 (Int.le_ceil _)
      exact_mod_cast h2
    · apply Int.ceil_le.mpr
      have h3 : (0 : F) ≤ (hi : F) := by exact_mod_cast hhi
      exact le_trans (le_of_lt (not_le.mp hx)) h3

/-- C30, the code at a failing input: `random_int(-1, -1)` with the draw `1/2`.
The number converted is `-1 + (0 - (-1)) * 1/2 = -1/2`, and
`static_cast<int>` discards the fraction toward zero: the result is `0`, which
is greater than `max = -1`. -/
theorem C30_random_int_negative_range :
    (0 : ℚ) ≤ (random_double2 rngHalf).1 ∧ (random_double2 rngHalf).1 < 1 ∧
    ((-1 : ℤ) ≤ -1) ∧
    (random_double2_range ((-1 : ℤ) : ℚ) (((-1 : ℤ) + 1 : ℤ) : ℚ) rngHalf).1 = -1 / 2 ∧
    (random_int (-1) (-1) rngHalf).1 = 0 ∧
    ¬ (random_int (-1) (-1) rngHalf).1 ≤ -1 := by
  have hx : (random_double2_range ((-1 : ℤ) : ℚ) (((-1 : ℤ) + 1 : ℤ) : ℚ) rngHalf).1 = -1 / 2 := by
    simp only [random_double2_range, random_double2, rngHalf]
    norm_num
  have hn : (random_int (-1) (-1) rngHalf).1 = 0 := by
    simp only [random_int, static_cast_int, hx]
    have h1 : ¬ ((0 : ℚ) ≤ -1 / 2) := by norm_num
    rw [if_neg h1, Int.ceil_eq_iff]
    norm_num
  refine ⟨?_, ?_, le_refl _, hx, hn, ?_⟩
  · simp only [random_double2, rngHalf]
    norm_num
  · simp only [random_double2, rngHalf]
    norm_num
  · rw [hn]
    norm_num

/-! ## constant_medium.h -/

/-- The method `ConstantMedium::hit`, written with its locals. -/
theorem ConstantMedium_hit_eq (env : Env F) (junk1 junk2 : HitRecord F) (m : ConstantMedium F)
    (r : Ray F) (t_min t_max : Ext F) (rec : HitRecord F) (g : Rng F) :
    ConstantMedium.hit env junk1 junk2 m r t_min t_max rec g =
      if ¬ (m.first_hit junk1 r g).1.1 = true then ((false, rec), (m.first_hit junk1 r g).2)
      else if ¬ (m.second_hit junk1 junk2 r g).1.1 = true then
        ((false, rec), (m.second_hit junk1 junk2 r g).2)
      else if (m.clamped junk1 junk2 r t_min t_max g).1 ≥
          (m.clamped junk1 junk2 r t_min t_max g).2 then
        ((false, rec), (m.second_hit junk1 junk2 r g).2)
      else if m.hit_distance env junk1 junk2 r g >
          m.distance_inside_boundary env junk1 junk2 r t_min t_max g then
        ((false, rec), (random_double2 (m.second_hit junk1 junk2 r g).2).2)
      else
        ((true, { rec with
            t := m.rec1_t junk1 junk2 r t_min t_max g +
              m.hit_distance env junk1 junk2 r g / r.direction.length env,
            p := r.at (m.rec1_t junk1 junk2 r t_min t_max g +
              m.hit_distance env junk1 junk2 r g / r.direction.length env),
            normal := ⟨1, 0, 0⟩,
            front_face := true,
            mat_ptr := m.phase_function }),
          (random_double2 (m.second_hit junk1 junk2 r g).2).2) := rfl

/-- The method `ConstantMedium::hit` returns true exactly when the sampling is
reached and `hit_distance` does not exceed `distance_inside_boundary`. -/
theorem ConstantMedium_hit_iff (env : Env F) (junk1 junk2 : HitRecord F) (m : ConstantMedium F)
    (r : Ray F) (t_min t_max : Ext F) (rec : HitRecord F) (g : Rng F) :
    (ConstantMedium.hit env junk1 junk2 m r t_min t_max rec g).1.1 = true ↔
      m.reaches_sampling junk1 junk2 r t_min t_max g ∧
      m.hit_distance env junk1 junk2 r g ≤
        m.distance_inside_boundary env junk1 junk2 r t_min t_max g := by
  rw [ConstantMedium_hit_eq]
  unfold ConstantMedium.reaches_sampling
  by_cases h1 : (m.first_hit junk1 r g).1.1 = true
  · by_cases h2 : (m.second_hit junk1 junk2 r g).1.1 = true
    · by_cases h3 : (m.clamped junk1 junk2 r t_min t_max g).1 ≥
          (m.clamped junk1 junk2 r t_min t_max g).2
      · have h3n : ¬ (m.clamped junk1 junk2 r t_min t_max g).1 <
            (m.clamped junk1 junk2 r t_min t_max g).2 := by
          rw [Ext.not_lt_iff]
          exact h3
        simp [h1, h2, h3, h3n]
      · have h3p : (m.clamped junk1 junk2 r t_min t_max g).1 <
            (m.clamped junk1 junk2 r t_min t_max g).2 := by
          by_contra hc
          exact h3 ((Ext.not_lt_iff _ _).mp hc)
        by_cases h4 : m.hit_distance env junk1 junk2 r g >
            m.distance_inside_boundary env junk1 junk2 r t_min t_max g
        · simp [h1, h2, h3, h3p, h4, not_le.mpr h4]
        · simp [h1, h2, h3, h3p, h4, not_lt.mp h4]
    · simp [h1, h2]
  · simp [h1]

theorem Ext.lt_iff_blt (a b : Ext F) : a < b ↔ Ext.blt a b = true := Iff.rfl

theorem Ext.le_iff_blt (a b : Ext F) : a ≤ b ↔ Ext.blt b a = false := Iff.rfl

/-- Past the test `rec1.t >= rec2.t` the clamped values are numbers `a < b` with
`t_min ≤ a`, `entry ≤ a`, `b ≤ t_max` and `b ≤ exit`. -/
theorem ConstantMedium_clamp_interval_lt (entry exit : F) (t_min t_max : Ext F)
    (h : (ConstantMedium.clamp_interval entry exit t_min t_max).1 <
      (ConstantMedium.clamp_interval entry exit t_min t_max).2) :
    t_min ≤ Ext.fin (ConstantMedium.clamp_interval entry exit t_min t_max).1.val ∧
    entry ≤ (ConstantMedium.clamp_interval entry exit t_min t_max).1.val ∧
    (ConstantMedium.clamp_interval entry exit t_min t_max).1.val <
      (ConstantMedium.clamp_interval entry exit t_min t_max).2.val ∧
    Ext.fin (ConstantMedium.clamp_interval entry exit t_min t_max).2.val ≤ t_max ∧
    (ConstantMedium.clamp_interval entry exit t_min t_max).2.val ≤ exit := by
  unfold ConstantMedium.clamp_interval at h ⊢
  simp only [gt_iff_lt] at h ⊢
  rcases t_min with _ | a | _ <;> rcases t_max with _ | b | _ <;>
    simp only [Ext.lt_iff_blt, Ext.le_iff_blt, Ext.blt, Ext.val, decide_eq_true_eq,
      decide_eq_false_iff_not, not_lt, if_true, if_false, Bool.false_eq_true] at h ⊢ <;>
    (try split_ifs at h ⊢) <;>
    (try simp only [Ext.blt, Ext.val, decide_eq_true_eq, decide_eq_false_iff_not, not_lt,
      Bool.false_eq_true] at h ⊢) <;>
    (try (refine ⟨?_, ?_, ?_, ?_, ?_⟩ <;> first | trivial | linarith))

theorem Ext.le_fin_of_le (a : Ext F) (x y : F) (h : a ≤ Ext.fin x) (hxy : x ≤ y) :
    a ≤ Ext.fin y := by
  rcases a with _ | a | _
  · exact Ext.negInf_le _
  · rw [Ext.fin_le_fin] at h ⊢
    exact le_trans h hxy
  · simp [Ext.le_iff_blt, Ext.blt] at h

theorem Ext.fin_le_of_le (a : Ext F) (x y : F) (h : Ext.fin y ≤ a) (hxy : x ≤ y) :
    Ext.fin x ≤ a := by
  rcases a with _ | a | _
  · simp [Ext.le_iff_blt, Ext.blt] at h
  · rw [Ext.fin_le_fin] at h ⊢
    exact le_trans hxy h
  · exact Ext.le_posInf _

/-- The record `ConstantMedium::hit` leaves on a hit. -/
theorem ConstantMedium_hit_record (env : Env F) (junk1 junk2 : HitRecord F)
    (m : ConstantMedium F) (r : Ray F) (t_min t_max : Ext F) (rec : HitRecord F) (g : Rng F)
    (hhit : (ConstantMedium.hit env junk1 junk2 m r t_min t_max rec g).1.1 = true) :
    (ConstantMedium.hit env junk1 junk2 m r t_min t_max rec g).1.2.t =
      m.rec1_t junk1 junk2 r t_min t_max g +
        m.hit_distance env junk1 junk2 r g / r.direction.length env ∧
    (ConstantMedium.hit env junk1 junk2 m r t_min t_max rec g).1.2.p =
      r.at (ConstantMedium.hit env junk1 junk2 m r t_min t_max rec g).1.2.t ∧
    (ConstantMedium.hit env junk1 junk2 m r t_min t_max rec g).1.2.mat_ptr = m.phase_function := by
  rw [ConstantMedium_hit_eq] at hhit ⊢
  split_ifs at hhit ⊢
  exact ⟨rfl, rfl, rfl⟩

theorem natSqrt_foldl_pos (n : ℕ) (l : List ℕ) (acc : ℕ) (hacc : 1 ≤ acc)
    (hl : ∀ k ∈ l, 1 ≤ k) :
    1 ≤ l.foldl (fun acc k => if k * k ≤ n then k else acc) acc := by
  induction l generalizing acc with
  | nil => exact hacc
  | cons k l ih =>
    rw [List.foldl_cons]
    apply ih
    · split_ifs
      · exact hl k (List.mem_cons_self k l)
      · exact hacc
    · intro j hj
      exact hl j (List.mem_cons_of_mem k hj)

theorem natSqrt_pos (n : ℕ) (hn : 1 ≤ n) : 1 ≤ natSqrt n := by
  obtain ⟨m, rfl⟩ : ∃ m, n = m + 1 := ⟨n - 1, by omega⟩
  unfold natSqrt
  rw [List.range_succ_eq_map, List.range_succ_eq_map, List.foldl_cons, List.map_cons,
    List.foldl_cons]
  apply natSqrt_foldl_pos
  · simp
  · intro k hk
    simp only [List.mem_map] at hk
    obtain ⟨j, -, rfl⟩ := hk
    omega

theorem ratSqrt_pos (x : ℚ) (hx : 0 < x) : 0 < ratSqrt x := by
  unfold ratSqrt
  have hnum : 1 ≤ x.num.toNat := by
    have : 0 < x.num := Rat.num_pos.mpr hx
    omega
  have hden : 1 ≤ x.den := x.den_pos
  have h1 : (0 : ℚ) < (natSqrt x.num.toNat : ℚ) := by
    exact_mod_cast natSqrt_pos _ hnum
  have h2 : (0 : ℚ) < (natSqrt x.den : ℚ) := by
    exact_mod_cast natSqrt_pos _ hden
  exact div_pos h1 h2

theorem fog_first_hit (junk1 : HitRecord ℚ) (g : Rng ℚ) :
    fog.first_hit junk1 zRay g = ((true, Sphere.fill ratEnv unitSphere zRay junk1 2), g) := by
  show (Sphere.hit ratEnv unitSphere zRay Ext.negInf Ext.posInf junk1, g) = _
  rw [Sphere.hit_eq, unitSphere_discriminant, unitSphere_root_minus]
  have h1 : ¬ ((1 : ℚ) < 0) := by norm_num
  have h2 : ¬ ((Ext.fin (2 : ℚ) < Ext.negInf) ∨ (Ext.posInf < Ext.fin (2 : ℚ))) := by
    simp
  rw [if_neg h1, if_neg h2]

theorem fog_second_hit (junk1 junk2 : HitRecord ℚ) (g : Rng ℚ) :
    fog.second_hit junk1 junk2 zRay g =
      ((true, Sphere.fill ratEnv unitSphere zRay junk2 4), g) := by
  unfold ConstantMedium.second_hit
  rw [fog_first_hit]
  show (Sphere.hit ratEnv unitSphere zRay (Ext.fin (2 + 0.0001)) Ext.posInf junk2, g) = _
  rw [Sphere.hit_eq, unitSphere_discriminant, unitSphere_root_minus, unitSphere_root_plus]
  norm_num

theorem fog_clamped (junk1 junk2 : HitRecord ℚ) (g : Rng ℚ) :
    fog.clamped junk1 junk2 zRay (Ext.fin 0.001) Ext.posInf g = (Ext.fin 2, Ext.fin 4) := by
  unfold ConstantMedium.clamped ConstantMedium.clamp_interval
  rw [fog_first_hit, fog_second_hit]
  simp only [Sphere.fill_t, Ext.fin_lt_fin, gt_iff_lt, Ext.not_posInf_lt, if_false]
  norm_num

theorem zRay_length : zRay.direction.length logEnv = 1 := by
  simp only [zRay, Ray.direction, Vec3.length, Vec3.length_squared, logEnv, ratEnv]
  norm_num
  exact ratSqrt_one

theorem fog_sampled_draw (junk1 junk2 : HitRecord ℚ) :
    fog.sampled_draw junk1 junk2 zRay rngHalf = 1 / 2 := by
  unfold ConstantMedium.sampled_draw
  rw [fog_second_hit]
  rfl

theorem fog_hit_distance (junk1 junk2 : HitRecord ℚ) :
    fog.hit_distance logEnv junk1 junk2 zRay rngHalf = 1 / 2 := by
  unfold ConstantMedium.hit_distance
  rw [fog_sampled_draw]
  simp only [fog, ConstantMedium.construct, logEnv]
  norm_num

theorem fog_rec1_t (junk1 junk2 : HitRecord ℚ) (g : Rng ℚ) :
    fog.rec1_t junk1 junk2 zRay (Ext.fin 0.001) Ext.posInf g = 2 := by
  unfold ConstantMedium.rec1_t
  rw [fog_clamped]
  simp [Ext.val]

theorem fog_distance_inside (junk1 junk2 : HitRecord ℚ) (g : Rng ℚ) :
    fog.distance_inside_boundary logEnv junk1 junk2 zRay (Ext.fin 0.001) Ext.posInf g = 2 := by
  unfold ConstantMedium.distance_inside_boundary
  rw [fog_clamped, fog_rec1_t, zRay_length]
  simp only [Ext.val]
  norm_num

theorem fog_reaches_sampling (junk1 junk2 : HitRecord ℚ) (g : Rng ℚ) :
    fog.reaches_sampling junk1 junk2 zRay (Ext.fin 0.001) Ext.posInf g := by
  unfold ConstantMedium.reaches_sampling
  rw [fog_first_hit, fog_second_hit, fog_clamped]
  refine ⟨rfl, rfl, ?_⟩
  rw [Ext.fin_lt_fin]
  norm_num

theorem fog_hit (junk1 junk2 rec : HitRecord ℚ) :
    (ConstantMedium.hit logEnv junk1 junk2 fog zRay (Ext.fin 0.001) Ext.posInf rec
      rngHalf).1.1 = true := by
  rw [ConstantMedium_hit_iff]
  refine ⟨fog_reaches_sampling junk1 junk2 rngHalf, ?_⟩
  rw [fog_hit_distance, fog_distance_inside]
  norm_num

theorem logEnv_log_neg : ∀ x : ℚ, 0 < x → x < 1 → logEnv.log x < 0 := by
  intro x _ h1
  show x - 1 < 0
  linarith

theorem logEnv_sqrt_pos : ∀ x : ℚ, 0 < x → 0 < logEnv.sqrt x := ratSqrt_pos

/-- On a hit of a ray not parallel to the plane, `XZRect::hit` leaves
`t = t_plane ≥ t_min` and the normal of `set_face_normal`, which is `(0, 1, 0)`
or its opposite. -/
theorem XZRect_hit_facts (q : XZRect F) (junk : HitRecord F) (o v : Vec3 F) (t_min : F)
    (hvy : v.y ≠ 0)
    (hhit : (q.hit (Ray.mk2 o v) (Ext.fin t_min) Ext.posInf junk).1 = true) :
    (q.hit (Ray.mk2 o v) (Ext.fin t_min) Ext.posInf junk).2.t = q.t_plane (Ray.mk2 o v) ∧
    t_min ≤ (q.hit (Ray.mk2 o v) (Ext.fin t_min) Ext.posInf junk).2.t ∧
    (q.hit (Ray.mk2 o v) (Ext.fin t_min) Ext.posInf junk).2.normal =
      (junk.set_face_normal (Ray.mk2 o v) ⟨0, 1, 0⟩).normal ∧
    |Vec3.dot v (q.hit (Ray.mk2 o v) (Ext.fin t_min) Ext.posInf junk).2.normal| = |v.y| := by
  have hspec := XZRect_hit_spec q (Ray.mk2 o v) (Ext.fin t_min) Ext.posInf junk hvy
  have ht := (hspec.2.1 hhit).1
  have hge := ((hspec.1.mp hhit).1).1
  rw [Ext.fin_le_fin] at hge
  have hn : (q.hit (Ray.mk2 o v) (Ext.fin t_min) Ext.posInf junk).2.normal =
      (junk.set_face_normal (Ray.mk2 o v) ⟨0, 1, 0⟩).normal := by
    rw [XZRect_hit_eq] at hhit ⊢
    split_ifs at hhit ⊢
    rfl
  refine ⟨ht, by rw [ht]; exact hge, hn, ?_⟩
  rw [hn]
  simp only [HitRecord.set_face_normal, Ray.mk2, Ray.direction, Vec3.dot, Vec3.neg_def]
  split_ifs <;> simp

/-- For a direction with a non-zero `y` component the IEEE evaluation of
`XZRect::pdf_value` is the exact one. -/
theorem XZRect_pdf_value_ieee_finite (env : Env F) (q : XZRect F) (junk : HitRecord F)
    (negZero negArea : Bool) (o v : Vec3 F)
    (hx : q.x0 < q.x1) (hz : q.z0 < q.z1) (hvy : v.y ≠ 0) (hlen : 0 < v.length env) :
    q.pdf_value_ieee env junk negZero negArea o v = Dbl.fin (q.pdf_value env junk o v) := by
  have hfin := XZRect_hit_ieee_finite q (Ray.mk2 o v) negZero (Ext.fin 0.001) Ext.posInf junk hvy
  unfold XZRect.pdf_value_ieee XZRect.pdf_value
  rw [hfin]
  by_cases hhit : (q.hit (Ray.mk2 o v) (Ext.fin 0.001) Ext.posInf junk).1 = true
  · obtain ⟨ht, -, hn, habs⟩ := XZRect_hit_facts q junk o v 0.001 hvy hhit
    have harea : 0 < (q.x1 - q.x0) * (q.z1 - q.z0) := mul_pos (sub_pos.mpr hx) (sub_pos.mpr hz)
    have hcos : 0 < |Vec3.dot v (q.hit (Ray.mk2 o v) (Ext.fin 0.001) Ext.posInf junk).2.normal /
        v.length env| := by
      rw [abs_div, habs]
      exact div_pos (abs_pos.mpr hvy) (abs_pos.mpr hlen.ne')
    have hden : |Vec3.dot v (q.hit (Ray.mk2 o v) (Ext.fin 0.001) Ext.posInf junk).2.normal /
        v.length env| * ((q.x1 - q.x0) * (q.z1 - q.z0)) ≠ 0 := (mul_pos hcos harea).ne'
    rw [hn] at hden
    simp only [hhit, not_true_eq_false, if_false, Dbl.mulD, Dbl.mul, Dbl.div, Dbl.abs, Dbl.divD,
      if_pos hlen.ne', if_pos hden, ht, hn]
  · simp [hhit]

/-- C27 as amended: for every `XZRect` with `x0 < x1` and `z0 < z1`, every
origin `o` and every direction `v` with a non-zero `y` component,
`XZRect::pdf_value(o, v)` is 0 when the ray `(o, v)` does not hit the rectangle
for `t` in `[0.001, INF)`; otherwise it equals `distance² / (cosine * area)` with
`distance² = t² * |v|²`, `cosine = |dot(v, n)| / |v|` for the hit normal `n` and
`area = (x1 - x0) * (z1 - z0)`, and is strictly positive; the evaluation on
`double` gives the same number.  (The square root is positive on positive
numbers.) -/
theorem C27_xzrect_pdf_value (env : Env F) (q : XZRect F) (junk : HitRecord F)
    (negZero negArea : Bool) (o v : Vec3 F)
    (hx : q.x0 < q.x1) (hz : q.z0 < q.z1) (hvy : v.y ≠ 0)
    (hsqrt : ∀ x : F, 0 < x → 0 < env.sqrt x) :
    ((q.hit (Ray.mk2 o v) (Ext.fin 0.001) Ext.posInf junk).1 = false →
      q.pdf_value env junk o v = 0) ∧
    ((q.hit (Ray.mk2 o v) (Ext.fin 0.001) Ext.posInf junk).1 = true →
      q.pdf_value env junk o v =
        ((q.hit (Ray.mk2 o v) (Ext.fin 0.001) Ext.posInf junk).2.t *
            (q.hit (Ray.mk2 o v) (Ext.fin 0.001) Ext.posInf junk).2.t * v.length_squared) /
          (|Vec3.dot v (q.hit (Ray.mk2 o v) (Ext.fin 0.001) Ext.posInf junk).2.normal| /
              v.length env * ((q.x1 - q.x0) * (q.z1 - q.z0))) ∧
      0 < q.pdf_value env junk o v) ∧
    q.pdf_value_ieee env junk negZero negArea o v = Dbl.fin (q.pdf_value env junk o v) := by
  have hv : v ≠ 0 := by
    intro h
    apply hvy
    rw [h]
    rfl
  have hlsq : 0 < v.length_squared := Vec3.length_squared_pos hv
  have hlen : 0 < v.length env := hsqrt _ hlsq
  refine ⟨?_, ?_, XZRect_pdf_value_ieee_finite env q junk negZero negArea o v hx hz hvy hlen⟩
  · intro h
    simp [XZRect.pdf_value, h]
  · intro hhit
    obtain ⟨-, hge, -, habs⟩ := XZRect_hit_facts q junk o v 0.001 hvy hhit
    have harea : 0 < (q.x1 - q.x0) * (q.z1 - q.z0) := mul_pos (sub_pos.mpr hx) (sub_pos.mpr hz)
    have ht : 0 < (q.hit (Ray.mk2 o v) (Ext.fin 0.001) Ext.posInf junk).2.t :=
      lt_of_lt_of_le (by norm_num) hge
    have hval : q.pdf_value env junk o v =
        ((q.hit (Ray.mk2 o v) (Ext.fin 0.001) Ext.posInf junk).2.t *
            (q.hit (Ray.mk2 o v) (Ext.fin 0.001) Ext.posInf junk).2.t * v.length_squared) /
          (|Vec3.dot v (q.hit (Ray.mk2 o v) (Ext.fin 0.001) Ext.posInf junk).2.normal| /
              v.length env * ((q.x1 - q.x0) * (q.z1 - q.z0))) := by
      simp only [XZRect.pdf_value, hhit, not_true_eq_false, if_false, abs_div,
        abs_of_pos hlen]
    refine ⟨hval, ?_⟩
    rw [hval, habs]
    exact div_pos (mul_pos (mul_pos ht ht) hlsq)
      (mul_pos (div_pos (abs_pos.mpr hvy) hlen) harea)

/-- C27 at the light of the Cornell box seen from `(278, 0, 280)` straight up:
the ray hits the rectangle and the density is strictly positive. -/
theorem C27_xzrect_pdf_value_witness :
    cornellLight.x0 < cornellLight.x1 ∧ cornellLight.z0 < cornellLight.z1 ∧
    (⟨0, 1, 0⟩ : Vec3 ℚ).y ≠ 0 ∧
    (cornellLight.hit (Ray.mk2 ⟨278, 0, 280⟩ ⟨0, 1, 0⟩) (Ext.fin 0.001) Ext.posInf rec0).1 =
      true ∧
    0 < cornellLight.pdf_value ratEnv rec0 ⟨278, 0, 280⟩ ⟨0, 1, 0⟩ ∧
    cornellLight.pdf_value_ieee ratEnv rec0 false false ⟨278, 0, 280⟩ ⟨0, 1, 0⟩ =
      Dbl.fin (cornellLight.pdf_value ratEnv rec0 ⟨278, 0, 280⟩ ⟨0, 1, 0⟩) := by
  have hx : cornellLight.x0 < cornellLight.x1 := by
    simp only [cornellLight]
    norm_num
  have hz : cornellLight.z0 < cornellLight.z1 := by
    simp only [cornellLight]
    norm_num
  have hvy : (⟨0, 1, 0⟩ : Vec3 ℚ).y ≠ 0 := by
    norm_num
  have hhit : (cornellLight.hit (Ray.mk2 ⟨278, 0, 280⟩ ⟨0, 1, 0⟩) (Ext.fin 0.001) Ext.posInf
      rec0).1 = true := cornellLight_hit rec0
  have h := C27_xzrect_pdf_value ratEnv cornellLight rec0 false false ⟨278, 0, 280⟩ ⟨0, 1, 0⟩
    hx hz hvy ratSqrt_pos
  exact ⟨hx, hz, hvy, hhit, (h.2.1 hhit).2, h.2.2⟩

/-- C27 fails as stated: for the unit square `XZRect(0, 1, 0, 1, 0)`, the
origin `(1/2, 0, 1/2)` in its plane and the direction `(1, 0, 0)`, `hit`
divides `0` by `0`: `t` is NaN, no test rejects it and the hit is reported, so
`pdf_value` is computed from `rec.t = NaN` and is NaN: neither `0` nor strictly
positive. -/
theorem C27_xzrect_pdf_value_counterexample :
    floorSquare.x0 < floorSquare.x1 ∧ floorSquare.z0 < floorSquare.z1 ∧
    floorSquare.hit_ieee (Ray.mk2 floorPoint ⟨1, 0, 0⟩) false (Ext.fin 0.001) Ext.posInf =
      (true, Dbl.nan) ∧
    floorSquare.pdf_value_ieee ratEnv rec0 false false floorPoint ⟨1, 0, 0⟩ = Dbl.nan ∧
    floorSquare.pdf_value_ieee ratEnv rec0 true false floorPoint ⟨1, 0, 0⟩ = Dbl.nan ∧
    floorSquare.pdf_value_ieee ratEnv rec0 false false floorPoint ⟨1, 0, 0⟩ ≠ Dbl.fin 0 ∧
    (Dbl.fin 0).lt (floorSquare.pdf_value_ieee ratEnv rec0 false false floorPoint ⟨1, 0, 0⟩) =
      false := by
  have hin : ∀ negZero : Bool,
      floorSquare.hit_ieee (Ray.mk2 floorPoint ⟨1, 0, 0⟩) negZero (Ext.fin 0.001) Ext.posInf =
        (true, Dbl.nan) :=
    fun negZero => XZRect_hit_ieee_in_plane floorSquare (Ray.mk2 floorPoint ⟨1, 0, 0⟩) negZero
      (Ext.fin 0.001) Ext.posInf rfl rfl
  have hnan : ∀ negZero : Bool,
      floorSquare.pdf_value_ieee ratEnv rec0 negZero false floorPoint ⟨1, 0, 0⟩ = Dbl.nan := by
    intro negZero
    unfold XZRect.pdf_value_ieee
    rw [hin]
    simp [Dbl.mulD, Dbl.mul, Dbl.divD]
  refine ⟨?_, ?_, hin false, hnan false, hnan true, ?_, ?_⟩
  · simp only [floorSquare]
    norm_num
  · simp only [floorSquare]
    norm_num
  · rw [hnan]
    simp
  · rw [hnan]
    rfl

/-! ## material.h: Schlick's approximation -/

/-- C39: for every refraction ratio `n > 0` and every cosine `c` in `[0, 1]`,
`Dielectric::reflectance(c, n) = r0 + (1 - r0) * (1 - c)^5` with
`r0 = ((1 - n) / (1 + n))^2`; it equals `r0` at `c = 1` and `1` at `c = 0`, is
non-increasing in `c`, and lies in `[r0, 1]`, which lies within `[0, 1]`. -/
theorem C39_reflectance_schlick (c n : F) (hn : 0 < n) (hc0 : 0 ≤ c) (hc1 : c ≤ 1) :
    Dielectric.reflectance c n =
      ((1 - n) / (1 + n)) ^ 2 + (1 - ((1 - n) / (1 + n)) ^ 2) * (1 - c) ^ 5 ∧
    Dielectric.reflectance 1 n = ((1 - n) / (1 + n)) ^ 2 ∧
    Dielectric.reflectance 0 n = 1 ∧
    (∀ c' : F, c ≤ c' → c' ≤ 1 → Dielectric.reflectance c' n ≤ Dielectric.reflectance c n) ∧
    ((1 - n) / (1 + n)) ^ 2 ≤ Dielectric.reflectance c n ∧
    Dielectric.reflectance c n ≤ 1 ∧
    0 ≤ ((1 - n) / (1 + n)) ^ 2 ∧ ((1 - n) / (1 + n)) ^ 2 < 1 := by
  have hden : 0 < 1 + n := by linarith
  have hq1 : (1 - n) / (1 + n) < 1 := by
    rw [div_lt_one hden]
    linarith
  have hq2 : -1 < (1 - n) / (1 + n) := by
    rw [lt_div_iff₀ hden]
    linarith
  have hr0 : ((1 - n) / (1 + n)) ^ 2 < 1 := by
    nlinarith
  have hr0' : 0 ≤ ((1 - n) / (1 + n)) ^ 2 := sq_nonneg _
  have hval : ∀ x : F, Dielectric.reflectance x n =
      ((1 - n) / (1 + n)) ^ 2 + (1 - ((1 - n) / (1 + n)) ^ 2) * (1 - x) ^ 5 := by
    intro x
    simp only [Dielectric.reflectance]
    ring
  have hp0 : 0 ≤ (1 - c) ^ 5 := pow_nonneg (sub_nonneg.mpr hc1) 5
  have hp1 : (1 - c) ^ 5 ≤ 1 := pow_le_one₀ (sub_nonneg.mpr hc1) (by linarith)
  refine ⟨hval c, ?_, ?_, ?_, ?_, ?_, hr0', hr0⟩
  · rw [hval]
    ring
  · rw [hval]
    ring
  · intro c' hcc hc'
    rw [hval, hval]
    have hpow : (1 - c') ^ 5 ≤ (1 - c) ^ 5 :=
      pow_le_pow_left₀ (sub_nonneg.mpr hc') (by linarith) 5
    nlinarith
  · rw [hval]
    nlinarith
  · rw [hval]
    nlinarith

/-- C39 at the ratio `3/2` and the cosine `1/2`. -/
theorem C39_reflectance_schlick_witness :
    (0 : ℚ) < 3 / 2 ∧ (0 : ℚ) ≤ 1 / 2 ∧ (1 / 2 : ℚ) ≤ 1 ∧
    ((1 - (3 / 2 : ℚ)) / (1 + 3 / 2)) ^ 2 ≤ Dielectric.reflectance (1 / 2) (3 / 2 : ℚ) ∧
    Dielectric.reflectance (1 / 2) (3 / 2 : ℚ) ≤ 1 :=
  ⟨by norm_num, by norm_num, by norm_num,
    (C39_reflectance_schlick (1 / 2) (3 / 2 : ℚ) (by norm_num) (by norm_num)
      (by norm_num)).2.2.2.2.1,
    (C39_reflectance_schlick (1 / 2) (3 / 2 : ℚ) (by norm_num) (by norm_num)
      (by norm_num)).2.2.2.2.2.1⟩

/-! ## main.cpp: the coordinates of a sample -/

theorem pixel_coordinate_bounds (i w : ℤ) (d : F) (hw : 2 ≤ w) (hi0 : 0 ≤ i) (hi1 : i < w)
    (hd0 : 0 ≤ d) (hd1 : d < 1) :
    0 ≤ ((i : F) + d) / ((w - 1 : ℤ) : F) ∧
    ((i : F) + d) / ((w - 1 : ℤ) : F) < (w : F) / ((w - 1 : ℤ) : F) ∧
    (i ≤ w - 2 → ((i : F) + d) / ((w - 1 : ℤ) : F) ≤ 1) ∧
    (i = w - 1 → 0 < d → 1 < ((i : F) + d) / ((w - 1 : ℤ) : F)) := by
  have hden : (0 : F) < ((w - 1 : ℤ) : F) := by
    exact_mod_cast (by omega : (0 : ℤ) < w - 1)
  have hi0' : (0 : F) ≤ (i : F) := by exact_mod_cast hi0
  have hi1' : (i : F) + 1 ≤ (w : F) := by exact_mod_cast (by omega : i + 1 ≤ w)
  refine ⟨div_nonneg (add_nonneg hi0' hd0) hden.le, ?_, ?_, ?_⟩
  · exact div_lt_div_of_pos_right (by linarith) hden
  · intro hi
    have h2 : (i : F) + 1 ≤ ((w - 1 : ℤ) : F) := by exact_mod_cast (by omega : i + 1 ≤ w - 1)
    rw [div_le_one hden]
    linarith
  · intro hi hd
    rw [one_lt_div hden, hi]
    linarith

/-- C40 as amended: for every image with width `≥ 2` and height `≥ 2`, every
pixel column `i` in `[0, width)`, every row `j` in `[0, height)` and every pair
of jitter draws in `[0, 1)`, the coordinates `u = (i + jitter) / (width - 1)` and
`v = (j + jitter) / (height - 1)` satisfy `0 ≤ u < width / (width - 1)` and
`0 ≤ v < height / (height - 1)`; `u` lies in `[0, 1]` for `i ≤ width - 2` and
`v` for `j ≤ height - 2`; in the last column (row) `u` (`v`) exceeds `1` as soon
as the jitter is positive. -/
theorem C40_pixel_uv_range (i j image_width image_height : ℤ) (g : Rng F)
    (hw : 2 ≤ image_width) (hh : 2 ≤ image_height)
    (hi0 : 0 ≤ i) (hi1 : i < image_width) (hj0 : 0 ≤ j) (hj1 : j < image_height)
    (h1 : 0 ≤ (random_double2 g).1 ∧ (random_double2 g).1 < 1)
    (h2 : 0 ≤ (random_double2 (random_double2 g).2).1 ∧
      (random_double2 (random_double2 g).2).1 < 1) :
    (0 ≤ (pixel_uv i j image_width image_height g).1.1 ∧
      (pixel_uv i j image_width image_height g).1.1 <
        (image_width : F) / ((image_width - 1 : ℤ) : F) ∧
      (i ≤ image_width - 2 → (pixel_uv i j image_width image_height g).1.1 ≤ 1) ∧
      (i = image_width - 1 → 0 < (random_double2 g).1 →
        1 < (pixel_uv i j image_width image_height g).1.1)) ∧
    (0 ≤ (pixel_uv i j image_width image_height g).1.2 ∧
      (pixel_uv i j image_width image_height g).1.2 <
        (image_height : F) / ((image_height - 1 : ℤ) : F) ∧
      (j ≤ image_height - 2 → (pixel_uv i j image_width image_height g).1.2 ≤ 1) ∧
      (j = image_height - 1 → 0 < (random_double2 (random_double2 g).2).1 →
        1 < (pixel_uv i j image_width image_height g).1.2)) :=
  ⟨pixel_coordinate_bounds i image_width _ hw hi0 hi1 h1.1 h1.2,
    pixel_coordinate_bounds j image_height _ hh hj0 hj1 h2.1 h2.2⟩

/-- C40 at a `3 × 3` image, the pixel `(i, j) = (1, 1)` and the jitter `1/2`
twice: both coordinates are `3/4`. -/
theorem C40_pixel_uv_range_witness :
    (pixel_uv 1 1 3 3 rngHalf).1 = ((3 / 4 : ℚ), (3 / 4 : ℚ)) ∧
    (0 ≤ (pixel_uv 1 1 3 3 rngHalf).1.1 ∧ (pixel_uv 1 1 3 3 rngHalf).1.1 ≤ (1 : ℚ)) ∧
    (0 ≤ (pixel_uv 1 1 3 3 rngHalf).1.2 ∧ (pixel_uv 1 1 3 3 rngHalf).1.2 ≤ (1 : ℚ)) := by
  have hd : (0 : ℚ) ≤ 1 / 2 ∧ (1 / 2 : ℚ) < 1 := by norm_num
  have h := C40_pixel_uv_range 1 1 3 3 rngHalf (by norm_num) (by norm_num) (by norm_num)
    (by norm_num) (by norm_num) (by norm_num) hd hd
  refine ⟨?_, ⟨h.1.1, h.1.2.2.1 (by norm_num)⟩, ⟨h.2.1, h.2.2.2.1 (by norm_num)⟩⟩
  simp only [pixel_uv, random_double2, rngHalf]
  norm_num

/-- C40 fails as stated: in a `2 × 2` image, the last column `i = 1`, the row
`j = 0` and the jitter `1/2` twice give `u = (1 + 1/2) / (2 - 1) = 3/2 > 1`. -/
theorem C40_pixel_uv_counterexample :
    (2 : ℤ) ≤ 2 ∧ (0 : ℤ) ≤ 1 ∧ (1 : ℤ) < 2 ∧ (0 : ℤ) ≤ 0 ∧ (0 : ℤ) < 2 ∧
    (0 : ℚ) ≤ (random_double2 rngHalf).1 ∧ (random_double2 rngHalf).1 < 1 ∧
    (0 : ℚ) ≤ (random_double2 (random_double2 rngHalf).2).1 ∧
    (random_double2 (random_double2 rngHalf).2).1 < 1 ∧
    (pixel_uv 1 0 2 2 rngHalf).1 = ((3 / 2 : ℚ), (1 / 2 : ℚ)) ∧
    ¬ (pixel_uv 1 0 2 2 rngHalf).1.1 ≤ (1 : ℚ) := by
  have huv : (pixel_uv 1 0 2 2 rngHalf).1 = ((3 / 2 : ℚ), (1 / 2 : ℚ)) := by
    simp only [pixel_uv, random_double2, rngHalf]
    norm_num
  refine ⟨le_refl _, by norm_num, by norm_num, le_refl _, by norm_num, ?_, ?_, ?_, ?_, huv, ?_⟩
  · simp only [random_double2, rngHalf]
    norm_num
  · simp only [random_double2, rngHalf]
    norm_num
  · simp only [random_double2, rngHalf]
    norm_num
  · simp only [random_double2, rngHalf]
    norm_num
  · rw [huv]
    norm_num

/-! ## material.h and pdf.h: the density of a Lambertian surface -/

/-- The axis `w` stored by `CosinePdf(n)` for a unit vector `n` is `n`. -/
theorem build_from_w_unit (env : Env F) (n : Vec3 F) (hn : n.length_squared = 1)
    (hs : env.sqrt 1 = 1) : (Onb.build_from_w env n).w = n := by
  simp only [Onb.build_from_w, Onb.w, Vec3.normal, Vec3.length, hn, hs, Vec3.div_def, div_one,
    one_mul]

/-- C38: for every unit surface normal `n` and every non-zero direction `w`,
`Lambertian::scattering_pdf` for a hit with normal `n` and a scattered ray of
direction `w` equals `CosinePdf(n).value(w)`, and `CosinePdf(n)` is the
distribution `Lambertian::scatter` leaves in `srec.pdf_ptr`.  (`sqrt(1) = 1`.) -/
theorem C38_lambertian_pdf_is_cosine_pdf (env : Env F) (albedo : Texture F)
    (r_in scattered : Ray F) (rec : HitRecord F) (srec : ScatterRecord F) (g : Rng F)
    (hn : rec.normal.length_squared = 1) (_hw : scattered.direction ≠ 0)
    (hs : env.sqrt 1 = 1) :
    ((Material.lambertian albedo).scatter env r_in rec srec g).1.2.pdf_ptr =
      CosinePdf env rec.normal ∧
    (CosinePdf env rec.normal).value env scattered.direction =
      .ok ((Material.lambertian albedo).scattering_pdf env r_in rec scattered) := by
  refine ⟨rfl, ?_⟩
  have hw := build_from_w_unit env rec.normal hn hs
  have hc : Vec3.dot (Vec3.normal env scattered.direction) rec.normal =
      Vec3.dot rec.normal (Vec3.normal env scattered.direction) := by
    simp only [Vec3.dot]
    ring
  simp only [CosinePdf, Pdf.value, hw, Material.scattering_pdf, hc]
  congr 1
  by_cases h : Vec3.dot rec.normal (Vec3.normal env scattered.direction) < 0
  · rw [if_pos h.le, if_pos h]
  · rw [if_neg h]
    by_cases h0 : Vec3.dot rec.normal (Vec3.normal env scattered.direction) ≤ 0
    · have he : Vec3.dot rec.normal (Vec3.normal env scattered.direction) = 0 :=
        le_antisymm h0 (not_lt.mp h)
      rw [if_pos h0, he, zero_div]
    · rw [if_neg h0]

/-- C38 at the normal `(1, 0, 0)` and the direction `(1, 0, 0)`. -/
theorem C38_lambertian_pdf_is_cosine_pdf_witness :
    recX.normal.length_squared = 1 ∧ xOut.direction ≠ 0 ∧ ratEnv.sqrt 1 = 1 ∧
    (CosinePdf ratEnv recX.normal).value ratEnv xOut.direction =
      .ok ((Material.lambertian (Texture.solidColor ⟨1, 1, 1⟩)).scattering_pdf ratEnv zRay recX
        xOut) := by
  have hn : recX.normal.length_squared = 1 := by
    simp only [recX, Vec3.length_squared]
    norm_num
  exact ⟨hn, xOut_direction_ne_zero, ratEnv_sqrt_one,
    (C38_lambertian_pdf_is_cosine_pdf ratEnv (Texture.solidColor ⟨1, 1, 1⟩) zRay xOut recX srec0
      rngZero hn xOut_direction_ne_zero ratEnv_sqrt_one).2⟩

/-! ## hittable.h: what the decorators do to the record -/

/-- On a hit of the child, `Translate::hit` runs `set_face_normal` on the moved
ray and the normal the child stored: `front_face` and the normal are recomputed
from that normal, the other fields but `p` are the child's. -/
theorem Translate_hit_frame (S : Hittable F) (offset : Vec3 F) (r : Ray F)
    (t_min t_max : Ext F) (rec : HitRecord F) (g : Rng F)
    (h : (S.hit ⟨r.origin - offset, r.direction, r.time⟩ t_min t_max rec g).1.1 = true) :
    ((Translate S offset).hit r t_min t_max rec g).1.2.front_face =
      decide (Vec3.dot r.direction
        (S.hit ⟨r.origin - offset, r.direction, r.time⟩ t_min t_max rec g).1.2.normal < 0) ∧
    ((Translate S offset).hit r t_min t_max rec g).1.2.normal =
      (if Vec3.dot r.direction
          (S.hit ⟨r.origin - offset, r.direction, r.time⟩ t_min t_max rec g).1.2.normal < 0
        then (S.hit ⟨r.origin - offset, r.direction, r.time⟩ t_min t_max rec g).1.2.normal
        else -(S.hit ⟨r.origin - offset, r.direction, r.time⟩ t_min t_max rec g).1.2.normal) ∧
    ((Translate S offset).hit r t_min t_max rec g).1.2.u =
      (S.hit ⟨r.origin - offset, r.direction, r.time⟩ t_min t_max rec g).1.2.u ∧
    ((Translate S offset).hit r t_min t_max rec g).1.2.v =
      (S.hit ⟨r.origin - offset, r.direction, r.time⟩ t_min t_max rec g).1.2.v ∧
    ((Translate S offset).hit r t_min t_max rec g).1.2.mat_ptr =
      (S.hit ⟨r.origin - offset, r.direction, r.time⟩ t_min t_max rec g).1.2.mat_ptr := by
  simp only [Translate]
  rw [if_neg (by simp [h])]
  simp only [HitRecord.set_face_normal, decide_eq_true_eq]
  refine ⟨?_, ?_, ?_, ?_, ?_⟩ <;> first | rfl | trivial

/-! ### Concrete evaluation: a ray starting inside the unit sphere -/

theorem ball_hit_inside (m : Option (Material ℚ)) (rec : HitRecord ℚ) :
    Sphere.hit ratEnv (ball m) (zRayFrom 0) (Ext.fin 0.001) Ext.posInf rec =
      (true, Sphere.fill ratEnv (ball m) (zRayFrom 0) rec 1) := by
  have hd : (ball m).discriminant (zRayFrom 0) = 1 := by
    simp only [Sphere.discriminant, ball, zRayFrom, Ray.origin, Ray.direction, Vec3.dot,
      Vec3.length_squared, Vec3.sub_def]
    norm_num
  have hrm : (ball m).root_minus ratEnv (zRayFrom 0) = -1 := by
    simp only [Sphere.root_minus, hd]
    simp only [ratEnv, ratSqrt_one, Sphere.half_b, ball, zRayFrom, Ray.origin, Ray.direction,
      Vec3.dot, Vec3.length_squared, Vec3.sub_def]
    norm_num
  have hrp : (ball m).root_plus ratEnv (zRayFrom 0) = 1 := by
    simp only [Sphere.root_plus, hd]
    simp only [ratEnv, ratSqrt_one, Sphere.half_b, ball, zRayFrom, Ray.origin, Ray.direction,
      Vec3.dot, Vec3.length_squared, Vec3.sub_def]
    norm_num
  rw [Sphere.hit_eq, hd, hrm, hrp]
  norm_num

theorem fill_inside (m : Option (Material ℚ)) (rec : HitRecord ℚ) :
    (Sphere.fill ratEnv (ball m) (zRayFrom 0) rec 1).front_face = false ∧
    (Sphere.fill ratEnv (ball m) (zRayFrom 0) rec 1).normal = ⟨0, 0, -1⟩ := by
  simp only [Sphere.fill, HitRecord.set_face_normal, Ray.at, Ray.direction, zRayFrom, ball,
    Vec3.add_def, Vec3.smul_def, Vec3.sub_def, Vec3.div_def, Vec3.dot, Vec3.neg_def]
  norm_num

/-- C31, the code at a failing input: the unit sphere `S` under
`Translate(S, (0, 0, 1))` and the ray from `(0, 0, 1)` along `+z`, which starts at
the centre of the translated sphere.  `S` is tested on the ray from the origin
and reports a back-face hit: `front_face` false, normal `(0, 0, -1)`.
`Translate::hit` reports the same normal with `front_face` true. -/
theorem C31_translate_resets_front_face :
    (⟨(zRayFrom 1).origin - zShift, (zRayFrom 1).direction, (zRayFrom 1).time⟩ : Ray ℚ) =
      zRayFrom 0 ∧
    (unitBall.hit (zRayFrom 0) (Ext.fin 0.001) Ext.posInf rec0 rngZero).1.1 = true ∧
    (unitBall.hit (zRayFrom 0) (Ext.fin 0.001) Ext.posInf rec0 rngZero).1.2.front_face = false ∧
    (unitBall.hit (zRayFrom 0) (Ext.fin 0.001) Ext.posInf rec0 rngZero).1.2.normal =
      ⟨0, 0, -1⟩ ∧
    ((Translate unitBall zShift).hit (zRayFrom 1) (Ext.fin 0.001) Ext.posInf rec0
      rngZero).1.1 = true ∧
    ((Translate unitBall zShift).hit (zRayFrom 1) (Ext.fin 0.001) Ext.posInf rec0
      rngZero).1.2.normal = ⟨0, 0, -1⟩ ∧
    ((Translate unitBall zShift).hit (zRayFrom 1) (Ext.fin 0.001) Ext.posInf rec0
      rngZero).1.2.front_face = true := by
  have hmoved : (⟨(zRayFrom 1).origin - zShift, (zRayFrom 1).direction,
      (zRayFrom 1).time⟩ : Ray ℚ) = zRayFrom 0 := by
    simp only [zRayFrom, zShift, Ray.origin, Ray.direction, Ray.time, Vec3.sub_def]
    norm_num
  have hS : unitBall.hit (zRayFrom 0) (Ext.fin 0.001) Ext.posInf rec0 rngZero =
      ((true, Sphere.fill ratEnv (ball none) (zRayFrom 0) rec0 1), rngZero) := by
    show (Sphere.hit ratEnv (ball none) (zRayFrom 0) (Ext.fin 0.001) Ext.posInf rec0,
      rngZero) = _
    rw [ball_hit_inside]
  have hflag := (Translate_hit unitBall zShift (zRayFrom 1) (Ext.fin 0.001) Ext.posInf rec0
    rngZero).1
  have hframe := Translate_hit_frame unitBall zShift (zRayFrom 1) (Ext.fin 0.001) Ext.posInf
    rec0 rngZero
  rw [hmoved, hS] at hflag hframe
  have hf := hframe rfl
  rw [(fill_inside none rec0).2] at hf
  refine ⟨hmoved, ?_, ?_, ?_, hflag, ?_, ?_⟩
  · rw [hS]
  · rw [hS]
    exact (fill_inside none rec0).1
  · rw [hS]
    exact (fill_inside none rec0).2
  · rw [hf.2.1]
    simp only [zRayFrom, Ray.direction, Vec3.dot]
    norm_num
  · rw [hf.1]
    simp only [zRayFrom, Ray.direction, Vec3.dot]
    norm_num

/-! ## hittable.h: the rotations and the incoming ray -/

theorem RotateX_to_world_at (q : RotateX F) (r : Ray F) (t : F)
    (h : q.sin_theta ^ 2 + q.cos_theta ^ 2 = 1) :
    q.to_world ((q.rotated_r r).at t) = r.at t := by
  simp only [RotateX.to_world, RotateX.rotated_r, RotateX.to_object, Ray.at, Ray.origin,
    Ray.direction, Vec3.add_def, Vec3.smul_def, Vec3.mk.injEq]
  refine ⟨trivial, ?_, ?_⟩
  · linear_combination (r.orig.y + t * r.dir.y) * h
  · linear_combination (r.orig.z + t * r.dir.z) * h

theorem RotateY_to_world_at (q : RotateY F) (r : Ray F) (t : F)
    (h : q.sin_theta ^ 2 + q.cos_theta ^ 2 = 1) :
    q.to_world ((q.rotated_r r).at t) = r.at t := by
  simp only [RotateY.to_world, RotateY.rotated_r, RotateY.to_object, Ray.at, Ray.origin,
    Ray.direction, Vec3.add_def, Vec3.smul_def, Vec3.mk.injEq]
  refine ⟨?_, trivial, ?_⟩
  · linear_combination (r.orig.x + t * r.dir.x) * h
  · linear_combination (r.orig.z + t * r.dir.z) * h

theorem RotateZ_to_world_at (q : RotateZ F) (r : Ray F) (t : F)
    (h : q.sin_theta ^ 2 + q.cos_theta ^ 2 = 1) :
    q.to_world ((q.rotated_r r).at t) = r.at t := by
  simp only [RotateZ.to_world, RotateZ.rotated_r, RotateZ.to_object, Ray.at, Ray.origin,
    Ray.direction, Vec3.add_def, Vec3.smul_def, Vec3.mk.injEq]
  refine ⟨?_, ?_, trivial⟩
  · linear_combination (r.orig.x + t * r.dir.x) * h
  · linear_combination (r.orig.y + t * r.dir.y) * h

/-- C33: for each of `RotateX`, `RotateY`, `RotateZ` with `sin² + cos² = 1`,
every world-space ray `r` and interval: the decorator reports a hit exactly when
the child hits the forward-rotated ray, with the child's `t`, and if the child's
point equals `rotated_r.at(t)` then the reported point equals `r.at(t)`. -/
theorem C33_rotate_hit_point (qx : RotateX F) (qy : RotateY F) (qz : RotateZ F) (r : Ray F)
    (t_min t_max : Ext F) (rec : HitRecord F) (g : Rng F)
    (hx : qx.sin_theta ^ 2 + qx.cos_theta ^ 2 = 1)
    (hy : qy.sin_theta ^ 2 + qy.cos_theta ^ 2 = 1)
    (hz : qz.sin_theta ^ 2 + qz.cos_theta ^ 2 = 1) :
    ((qx.hit r t_min t_max rec g).1.1 = (qx.ptr.hit (qx.rotated_r r) t_min t_max rec g).1.1 ∧
      ((qx.ptr.hit (qx.rotated_r r) t_min t_max rec g).1.1 = true →
        (qx.hit r t_min t_max rec g).1.2.t =
          (qx.ptr.hit (qx.rotated_r r) t_min t_max rec g).1.2.t ∧
        ((qx.ptr.hit (qx.rotated_r r) t_min t_max rec g).1.2.p =
            (qx.rotated_r r).at (qx.ptr.hit (qx.rotated_r r) t_min t_max rec g).1.2.t →
          (qx.hit r t_min t_max rec g).1.2.p = r.at (qx.hit r t_min t_max rec g).1.2.t))) ∧
    ((qy.hit r t_min t_max rec g).1.1 = (qy.ptr.hit (qy.rotated_r r) t_min t_max rec g).1.1 ∧
      ((qy.ptr.hit (qy.rotated_r r) t_min t_max rec g).1.1 = true →
        (qy.hit r t_min t_max rec g).1.2.t =
          (qy.ptr.hit (qy.rotated_r r) t_min t_max rec g).1.2.t ∧
        ((qy.ptr.hit (qy.rotated_r r) t_min t_max rec g).1.2.p =
            (qy.rotated_r r).at (qy.ptr.hit (qy.rotated_r r) t_min t_max rec g).1.2.t →
          (qy.hit r t_min t_max rec g).1.2.p = r.at (qy.hit r t_min t_max rec g).1.2.t))) ∧
    ((qz.hit r t_min t_max rec g).1.1 = (qz.ptr.hit (qz.rotated_r r) t_min t_max rec g).1.1 ∧
      ((qz.ptr.hit (qz.rotated_r r) t_min t_max rec g).1.1 = true →
        (qz.hit r t_min t_max rec g).1.2.t =
          (qz.ptr.hit (qz.rotated_r r) t_min t_max rec g).1.2.t ∧
        ((qz.ptr.hit (qz.rotated_r r) t_min t_max rec g).1.2.p =
            (qz.rotated_r r).at (qz.ptr.hit (qz.rotated_r r) t_min t_max rec g).1.2.t →
          (qz.hit r t_min t_max rec g).1.2.p = r.at (qz.hit r t_min t_max rec g).1.2.t))) := by
  refine ⟨⟨(RotateX_hit_spec qx r t_min t_max rec g).1, ?_⟩,
    ⟨(RotateY_hit_spec qy r t_min t_max rec g).1, ?_⟩,
    ⟨(RotateZ_hit_spec qz r t_min t_max rec g).1, ?_⟩⟩
  · intro hc
    obtain ⟨ht, hp, -⟩ := (RotateX_hit_spec qx r t_min t_max rec g).2.2 hc
    refine ⟨ht, fun hat => ?_⟩
    rw [hp, ht, hat, RotateX_to_world_at qx r _ hx]
  · intro hc
    obtain ⟨ht, hp, -⟩ := (RotateY_hit_spec qy r t_min t_max rec g).2.2 hc
    refine ⟨ht, fun hat => ?_⟩
    rw [hp, ht, hat, RotateY_to_world_at qy r _ hy]
  · intro hc
    obtain ⟨ht, hp, -⟩ := (RotateZ_hit_spec qz r t_min t_max rec g).2.2 hc
    refine ⟨ht, fun hat => ?_⟩
    rw [hp, ht, hat, RotateZ_to_world_at qz r _ hz]

/-! ### Concrete evaluation: one rotation about `y` -/

theorem innerTurn_slantRay : innerTurn.rotated_r slantRay = zRay := by
  simp only [RotateY.rotated_r, RotateY.to_object, innerTurn, slantRay, zRay, Ray.origin,
    Ray.direction, Ray.time]
  norm_num

theorem innerTurn_unit : innerTurn.sin_theta ^ 2 + innerTurn.cos_theta ^ 2 = 1 := by
  simp only [innerTurn]
  norm_num

/-- C33 at the rotation about `y` with `sin = 3/5`, `cos = -4/5` around the unit
sphere and the ray from `(-9/5, 0, 12/5)` along `(3/5, 0, -4/5)`: the child is hit
by the rotated ray `zRay` at `t = 2`, and the reported point is the point of the
incoming ray at `t = 2`. -/
theorem C33_rotate_hit_point_witness :
    innerTurn.sin_theta ^ 2 + innerTurn.cos_theta ^ 2 = 1 ∧
    (innerTurn.hit slantRay (Ext.fin 0.001) Ext.posInf rec0 rngZero).1.1 = true ∧
    (innerTurn.hit slantRay (Ext.fin 0.001) Ext.posInf rec0 rngZero).1.2.t = 2 ∧
    (innerTurn.hit slantRay (Ext.fin 0.001) Ext.posInf rec0 rngZero).1.2.p =
      slantRay.at (innerTurn.hit slantRay (Ext.fin 0.001) Ext.posInf rec0 rngZero).1.2.t := by
  have hid : ∀ s c : ℚ, s = 0 → c = 1 → s ^ 2 + c ^ 2 = 1 := by
    intro s c hs hc
    rw [hs, hc]
    norm_num
  have h := (C33_rotate_hit_point idTurnX innerTurn idTurnZ slantRay (Ext.fin 0.001) Ext.posInf
    rec0 rngZero (hid _ _ rfl rfl) innerTurn_unit (hid _ _ rfl rfl)).2.1
  rw [innerTurn_slantRay] at h
  have hc : innerTurn.ptr.hit zRay (Ext.fin 0.001) Ext.posInf rec0 rngZero =
      ((true, Sphere.fill ratEnv (ball none) zRay rec0 2), rngZero) := unitBall_hit_zRay
  rw [hc] at h
  obtain ⟨hflag, hrest⟩ := h
  obtain ⟨ht, hp⟩ := hrest rfl
  exact ⟨innerTurn_unit, hflag, ht, hp rfl⟩

/-- C32, the code at a failing input: the rotation about `y` with `sin = 3/5`,
`cos = -4/5` around the unit sphere, and the incoming ray from `(-9/5, 0, 12/5)`
along `(3/5, 0, -4/5)`.  The child is tested on the rotated ray, from `(0, 0, -3)`
along `+z`, and reports the normal `(0, 0, -1)`, against that ray.  The decorator
reports the normal `(3/5, 0, -4/5)`, the direction of the incoming ray itself:
`dot(r.direction, rec.normal) = 1 > 0`. -/
theorem C32_rotate_normal_along_ray :
    innerTurn.sin_theta ^ 2 + innerTurn.cos_theta ^ 2 = 1 ∧
    innerTurn.rotated_r slantRay = zRay ∧
    (innerTurn.ptr.hit zRay (Ext.fin 0.001) Ext.posInf rec0 rngZero).1.1 = true ∧
    (innerTurn.ptr.hit zRay (Ext.fin 0.001) Ext.posInf rec0 rngZero).1.2.normal = ⟨0, 0, -1⟩ ∧
    Vec3.dot zRay.direction
      (innerTurn.ptr.hit zRay (Ext.fin 0.001) Ext.posInf rec0 rngZero).1.2.normal ≤ 0 ∧
    (innerTurn.hit slantRay (Ext.fin 0.001) Ext.posInf rec0 rngZero).1.1 = true ∧
    (innerTurn.hit slantRay (Ext.fin 0.001) Ext.posInf rec0 rngZero).1.2.normal =
      ⟨3 / 5, 0, -4 / 5⟩ ∧
    Vec3.dot slantRay.direction
      (innerTurn.hit slantRay (Ext.fin 0.001) Ext.posInf rec0 rngZero).1.2.normal = 1 ∧
    ¬ Vec3.dot slantRay.direction
      (innerTurn.hit slantRay (Ext.fin 0.001) Ext.posInf rec0 rngZero).1.2.normal ≤ 0 := by
  have hc : innerTurn.ptr.hit zRay (Ext.fin 0.001) Ext.posInf rec0 rngZero =
      ((true, Sphere.fill ratEnv (ball none) zRay rec0 2), rngZero) := unitBall_hit_zRay
  have h := RotateY_hit_spec innerTurn slantRay (Ext.fin 0.001) Ext.posInf rec0 rngZero
  rw [innerTurn_slantRay, hc] at h
  obtain ⟨hflag, -, hrest⟩ := h
  obtain ⟨-, -, hn⟩ := hrest rfl
  simp only [fill_zRay_normal] at hn
  have hn2 : (innerTurn.hit slantRay (Ext.fin 0.001) Ext.posInf rec0 rngZero).1.2.normal =
      ⟨3 / 5, 0, -4 / 5⟩ := by
    rw [hn]
    simp only [RotateY.to_world, innerTurn, zRay, Vec3.dot, Vec3.neg_def, Ray.direction]
    norm_num
  have hdot : Vec3.dot slantRay.direction
      (innerTurn.hit slantRay (Ext.fin 0.001) Ext.posInf rec0 rngZero).1.2.normal = 1 := by
    rw [hn2]
    simp only [slantRay, Ray.direction, Vec3.dot]
    norm_num
  refine ⟨innerTurn_unit, innerTurn_slantRay, ?_, ?_, ?_, hflag, hn2, hdot, ?_⟩
  · rw [hc]
  · rw [hc]
    exact fill_zRay_normal none rec0
  · rw [hc]
    show Vec3.dot zRay.direction (Sphere.fill ratEnv (ball none) zRay rec0 2).normal ≤ 0
    rw [fill_zRay_normal]
    simp only [zRay, Ray.direction, Vec3.dot]
    norm_num
  · rw [hdot]
    norm_num

/-! ## The hit points and the bounding boxes of the primitives -/

/-- A coordinate of a point at squared distance `r²` from the centre differs
from the centre's by at most `r`. -/
theorem coordinate_within_radius (a b c r : F) (h : a * a + b * b + c * c = r * r)
    (hr : 0 ≤ r) : -r ≤ a ∧ a ≤ r := by
  constructor
  · by_contra hc
    have hlt : a < -r := not_le.mp hc
    nlinarith [mul_self_nonneg b, mul_self_nonneg c, mul_pos (sub_pos.mpr hlt) (sub_pos.mpr hlt)]
  · by_contra hc
    have hlt : r < a := not_le.mp hc
    nlinarith [mul_self_nonneg b, mul_self_nonneg c, mul_pos (sub_pos.mpr hlt) (sub_pos.mpr hlt)]

/-- The point `Sphere::hit` reports lies on the sphere, given that `sqrt`
squares back to the discriminant. -/
theorem Sphere_hit_point_on_sphere (env : Env F) (s : Sphere F) (r : Ray F)
    (t_min t_max : Ext F) (rec : HitRecord F)
    (hD : r.direction ≠ 0)
    (hsq : 0 ≤ s.discriminant r →
      env.sqrt (s.discriminant r) * env.sqrt (s.discriminant r) = s.discriminant r)
    (hhit : (Sphere.hit env s r t_min t_max rec).1 = true) :
    ((Sphere.hit env s r t_min t_max rec).2.p - s.center).length_squared =
      s.radius * s.radius := by
  rw [Sphere.hit_eq] at hhit ⊢
  split_ifs at hhit ⊢ with h1 h2 h3
  · exact Sphere.at_root_on_sphere s r _ _ hD (hsq (not_lt.mp h1)) (Or.inr rfl)
  · exact Sphere.at_root_on_sphere s r _ _ hD (hsq (not_lt.mp h1)) (Or.inl rfl)

theorem Sphere_hit_point_in_box (env : Env F) (s : Sphere F) (r : Ray F)
    (t_min t_max : Ext F) (rec : HitRecord F) (time0 time1 : F) (box : Aabb F)
    (hr : 0 ≤ s.radius) (hD : r.direction ≠ 0)
    (hsq : 0 ≤ s.discriminant r →
      env.sqrt (s.discriminant r) * env.sqrt (s.discriminant r) = s.discriminant r)
    (hhit : (Sphere.hit env s r t_min t_max rec).1 = true) :
    (s.bounding_box time0 time1 box).2.contains (Sphere.hit env s r t_min t_max rec).2.p := by
  have h := Sphere_hit_point_on_sphere env s r t_min t_max rec hD hsq hhit
  simp only [Vec3.length_squared, Vec3.sub_def] at h
  have hx := coordinate_within_radius _ _ _ _ h hr
  have hy := coordinate_within_radius
    ((Sphere.hit env s r t_min t_max rec).2.p.y - s.center.y)
    ((Sphere.hit env s r t_min t_max rec).2.p.x - s.center.x)
    ((Sphere.hit env s r t_min t_max rec).2.p.z - s.center.z) _ (by linarith) hr
  have hz := coordinate_within_radius
    ((Sphere.hit env s r t_min t_max rec).2.p.z - s.center.z)
    ((Sphere.hit env s r t_min t_max rec).2.p.x - s.center.x)
    ((Sphere.hit env s r t_min t_max rec).2.p.y - s.center.y) _ (by linarith) hr
  simp only [Aabb.contains, Sphere.bounding_box, Vec3.sub_def, Vec3.add_def]
  refine ⟨?_, ?_, ?_, ?_, ?_, ?_⟩ <;> linarith [hx.1, hx.2, hy.1, hy.2, hz.1, hz.2]

theorem XYRect_hit_point_in_box (q : XYRect F) (r : Ray F) (t_min t_max : Ext F)
    (rec : HitRecord F) (time0 time1 : F) (box : Aabb F) (hd : r.direction.z ≠ 0)
    (hhit : (q.hit r t_min t_max rec).1 = true) :
    (q.bounding_box time0 time1 box).2.contains (q.hit r t_min t_max rec).2.p := by
  have hspec := XYRect_hit_spec q r t_min t_max rec hd
  obtain ⟨-, hp, hk, -, -⟩ := hspec.2.1 hhit
  obtain ⟨-, b1, b2, b3, b4⟩ := hspec.1.mp hhit
  rw [← hp] at b1 b2 b3 b4
  simp only [Aabb.contains, XYRect.bounding_box, hk]
  refine ⟨b1, b2, b3, b4, ?_, ?_⟩ <;> norm_num

theorem XZRect_hit_point_in_box (q : XZRect F) (r : Ray F) (t_min t_max : Ext F)
    (rec : HitRecord F) (time0 time1 : F) (box : Aabb F) (hd : r.direction.y ≠ 0)
    (hhit : (q.hit r t_min t_max rec).1 = true) :
    (q.bounding_box time0 time1 box).2.contains (q.hit r t_min t_max rec).2.p := by
  have hspec := XZRect_hit_spec q r t_min t_max rec hd
  obtain ⟨-, hp, hk, -, -⟩ := hspec.2.1 hhit
  obtain ⟨-, b1, b2, b3, b4⟩ := hspec.1.mp hhit
  rw [← hp] at b1 b2 b3 b4
  simp only [Aabb.contains, XZRect.bounding_box, hk]
  refine ⟨b1, b2, ?_, ?_, b3, b4⟩ <;> norm_num

theorem YZRect_hit_point_in_box (q : YZRect F) (r : Ray F) (t_min t_max : Ext F)
    (rec : HitRecord F) (time0 time1 : F) (box : Aabb F) (hd : r.direction.x ≠ 0)
    (hhit : (q.hit r t_min t_max rec).1 = true) :
    (q.bounding_box time0 time1 box).2.contains (q.hit r t_min t_max rec).2.p := by
  have hspec := YZRect_hit_spec q r t_min t_max rec hd
  obtain ⟨-, hp, hk, -, -⟩ := hspec.2.1 hhit
  obtain ⟨-, b1, b2, b3, b4⟩ := hspec.1.mp hhit
  rw [← hp] at b1 b2 b3 b4
  simp only [Aabb.contains, YZRect.bounding_box, hk]
  refine ⟨?_, ?_, b1, b2, b3, b4⟩ <;> norm_num

/-- C34: for `Sphere` with radius `r ≥ 0` and for `XYRect`, `XZRect`, `YZRect`,
every hit point reported by `hit` (for a ray with non-zero direction, resp.
non-zero component along the rectangle's normal) lies inside the box returned
by the same primitive's `bounding_box`, and a rectangle's box extends from
`k - 0.0001` to `k + 0.0001` along its normal axis.  (For the sphere, `sqrt`
squares back to the discriminant.) -/
theorem C34_hit_point_in_bounding_box (env : Env F) (s : Sphere F) (qxy : XYRect F)
    (qxz : XZRect F) (qyz : YZRect F) (r : Ray F) (t_min t_max : Ext F) (rec : HitRecord F)
    (time0 time1 : F) (box : Aabb F)
    (hr : 0 ≤ s.radius) (hD : r.direction ≠ 0)
    (hsq : 0 ≤ s.discriminant r →
      env.sqrt (s.discriminant r) * env.sqrt (s.discriminant r) = s.discriminant r) :
    ((Sphere.hit env s r t_min t_max rec).1 = true →
      (s.bounding_box time0 time1 box).2.contains (Sphere.hit env s r t_min t_max rec).2.p) ∧
    (r.direction.z ≠ 0 → (qxy.hit r t_min t_max rec).1 = true →
      (qxy.bounding_box time0 time1 box).2.contains (qxy.hit r t_min t_max rec).2.p) ∧
    (r.direction.y ≠ 0 → (qxz.hit r t_min t_max rec).1 = true →
      (qxz.bounding_box time0 time1 box).2.contains (qxz.hit r t_min t_max rec).2.p) ∧
    (r.direction.x ≠ 0 → (qyz.hit r t_min t_max rec).1 = true →
      (qyz.bounding_box time0 time1 box).2.contains (qyz.hit r t_min t_max rec).2.p) ∧
    ((qxy.bounding_box time0 time1 box).2.minimum.z = qxy.k - 0.0001 ∧
      (qxy.bounding_box time0 time1 box).2.maximum.z = qxy.k + 0.0001) ∧
    ((qxz.bounding_box time0 time1 box).2.minimum.y = qxz.k - 0.0001 ∧
      (qxz.bounding_box time0 time1 box).2.maximum.y = qxz.k + 0.0001) ∧
    ((qyz.bounding_box time0 time1 box).2.minimum.x = qyz.k - 0.0001 ∧
      (qyz.bounding_box time0 time1 box).2.maximum.x = qyz.k + 0.0001) :=
  ⟨Sphere_hit_point_in_box env s r t_min t_max rec time0 time1 box hr hD hsq,
    XYRect_hit_point_in_box qxy r t_min t_max rec time0 time1 box,
    XZRect_hit_point_in_box qxz r t_min t_max rec time0 time1 box,
    YZRect_hit_point_in_box qyz r t_min t_max rec time0 time1 box,
    ⟨rfl, rfl⟩, ⟨rfl, rfl⟩, ⟨rfl, rfl⟩⟩

/-- C34 at the unit sphere and the ray from `(0, 0, -3)` along `+z`: the hit
point `(0, 0, -1)` lies in the box `[-1, 1]³`. -/
theorem C34_hit_point_in_bounding_box_witness :
    (0 : ℚ) ≤ unitSphere.radius ∧ zRay.direction ≠ 0 ∧
    ratEnv.sqrt (unitSphere.discriminant zRay) * ratEnv.sqrt (unitSphere.discriminant zRay) =
      unitSphere.discriminant zRay ∧
    (Sphere.hit ratEnv unitSphere zRay (Ext.fin 0.001) Ext.posInf rec0).1 = true ∧
    (unitSphere.bounding_box 0 1 junkBox).2.contains
      (Sphere.hit ratEnv unitSphere zRay (Ext.fin 0.001) Ext.posInf rec0).2.p := by
  have hr : (0 : ℚ) ≤ unitSphere.radius := by
    simp [unitSphere]
  have hs : ratEnv.sqrt (unitSphere.discriminant zRay) *
      ratEnv.sqrt (unitSphere.discriminant zRay) = unitSphere.discriminant zRay := by
    rw [unitSphere_discriminant]
    show ratSqrt 1 * ratSqrt 1 = 1
    rw [ratSqrt_one]
    norm_num
  have hhit : (Sphere.hit ratEnv unitSphere zRay (Ext.fin 0.001) Ext.posInf rec0).1 = true := by
    rw [unitSphere_hit_near _ (by norm_num)]
  exact ⟨hr, zRay_direction_ne_zero, hs, hhit,
    (C34_hit_point_in_bounding_box ratEnv unitSphere unitSquare floorSquare ⟨0, 1, 0, 1, 0, none⟩
      zRay (Ext.fin 0.001) Ext.posInf rec0 0 1 junkBox hr zRay_direction_ne_zero
      (fun _ => hs)).1 hhit⟩

/-! ## sphere.h: the side of the surface that was struck -/

/-- The product `dot(r.direction(), outward_normal)` at the point `r.at(t)`. -/
theorem Sphere_dot_outward (s : Sphere F) (r : Ray F) (t : F) (hr : s.radius ≠ 0) :
    Vec3.dot r.direction ((r.at t - s.center) / s.radius) =
      (s.half_b r + r.direction.length_squared * t) / s.radius := by
  simp only [Sphere.half_b, Ray.at, Ray.origin, Ray.direction, Vec3.dot, Vec3.length_squared,
    Vec3.add_def, Vec3.sub_def, Vec3.smul_def, Vec3.div_def]
  field_simp
  ring

theorem Vec3.length_squared_div (v : Vec3 F) (k : F) :
    (v / k).length_squared = v.length_squared / (k * k) := by
  simp only [Vec3.length_squared, Vec3.div_def]
  by_cases hk : k = 0
  · simp [hk]
  · field_simp

theorem Vec3.length_squared_neg (v : Vec3 F) : (-v).length_squared = v.length_squared := by
  simp only [Vec3.length_squared, Vec3.neg_def]
  ring

/-- The record `Sphere::hit` fills at a root `t`, by the sign of
`half_b + a * t`. -/
theorem Sphere_fill_face (env : Env F) (s : Sphere F) (r : Ray F) (rec : HitRecord F) (t : F)
    (hr : 0 < s.radius) :
    (s.half_b r + r.direction.length_squared * t < 0 →
      (Sphere.fill env s r rec t).front_face = true ∧
      (Sphere.fill env s r rec t).normal = (r.at t - s.center) / s.radius) ∧
    (0 < s.half_b r + r.direction.length_squared * t →
      (Sphere.fill env s r rec t).front_face = false ∧
      (Sphere.fill env s r rec t).normal = -((r.at t - s.center) / s.radius)) := by
  have hd := Sphere_dot_outward s r t hr.ne'
  constructor
  · intro h
    have hneg : Vec3.dot r.direction ((r.at t - s.center) / s.radius) < 0 := by
      rw [hd]
      exact div_neg_of_neg_of_pos h hr
    simp only [Sphere.fill, HitRecord.set_face_normal, hneg, decide_True, if_true, and_self]
  · intro h
    have hpos : ¬ Vec3.dot r.direction ((r.at t - s.center) / s.radius) < 0 := by
      rw [hd]
      exact not_lt.mpr (div_pos h hr).le
    simp only [Sphere.fill, HitRecord.set_face_normal, hpos, decide_False, if_false,
      Bool.false_eq_true, and_self]

/-- C35: for every sphere with radius `r > 0` and every ray with non-zero
direction whose discriminant is strictly positive: a hit reported at the smaller
root has `front_face` true and normal equal to the outward normal `(p - C) / r`;
a hit reported at the larger root has `front_face` false and normal equal to
`-(p - C) / r`; every hit is reported at one of the two roots, and the recorded
normal has squared length 1.  (`sqrt` of the discriminant is positive and
squares back to it.) -/
theorem C35_sphere_front_face (env : Env F) (s : Sphere F) (r : Ray F) (t_min t_max : Ext F)
    (rec : HitRecord F)
    (hr : 0 < s.radius) (hD : r.direction ≠ 0) (_hdisc : 0 < s.discriminant r)
    (hpos : 0 < env.sqrt (s.discriminant r))
    (hsq : env.sqrt (s.discriminant r) * env.sqrt (s.discriminant r) = s.discriminant r)
    (hhit : (Sphere.hit env s r t_min t_max rec).1 = true) :
    s.root_minus env r < s.root_plus env r ∧
    ((Sphere.hit env s r t_min t_max rec).2.t = s.root_minus env r ∨
      (Sphere.hit env s r t_min t_max rec).2.t = s.root_plus env r) ∧
    ((Sphere.hit env s r t_min t_max rec).2.t = s.root_minus env r →
      (Sphere.hit env s r t_min t_max rec).2.front_face = true ∧
      (Sphere.hit env s r t_min t_max rec).2.normal =
        ((Sphere.hit env s r t_min t_max rec).2.p - s.center) / s.radius) ∧
    ((Sphere.hit env s r t_min t_max rec).2.t = s.root_plus env r →
      (Sphere.hit env s r t_min t_max rec).2.front_face = false ∧
      (Sphere.hit env s r t_min t_max rec).2.normal =
        -(((Sphere.hit env s r t_min t_max rec).2.p - s.center) / s.radius)) ∧
    (Sphere.hit env s r t_min t_max rec).2.normal.length_squared = 1 := by
  have ha : 0 < r.direction.length_squared := Vec3.length_squared_pos hD
  have hlt : s.root_minus env r < s.root_plus env r := by
    unfold Sphere.root_minus Sphere.root_plus
    exact div_lt_div_of_pos_right (by linarith) ha
  have hm : s.half_b r + r.direction.length_squared * s.root_minus env r < 0 := by
    have e : r.direction.length_squared * s.root_minus env r =
        -s.half_b r - env.sqrt (s.discriminant r) := by
      unfold Sphere.root_minus
      field_simp
    rw [e]
    linarith
  have hp : 0 < s.half_b r + r.direction.length_squared * s.root_plus env r := by
    have e : r.direction.length_squared * s.root_plus env r =
        -s.half_b r + env.sqrt (s.discriminant r) := by
      unfold Sphere.root_plus
      field_simp
    rw [e]
    linarith
  have hunit : ∀ t : F, (t = s.root_minus env r ∨ t = s.root_plus env r) →
      ((r.at t - s.center) / s.radius).length_squared = 1 := by
    intro t ht
    rw [Vec3.length_squared_div, Sphere.at_root_on_sphere s r _ t hD hsq ht]
    exact div_self (mul_pos hr hr).ne'
  have hfm := (Sphere_fill_face env s r rec (s.root_minus env r) hr).1 hm
  have hfp := (Sphere_fill_face env s r rec (s.root_plus env r) hr).2 hp
  rw [Sphere.hit_eq] at hhit ⊢
  split_ifs at hhit ⊢ with h1 h2 h3
  · refine ⟨hlt, Or.inr rfl, ?_, fun _ => hfp, ?_⟩
    · intro h
      exact absurd (show s.root_plus env r = s.root_minus env r from h) hlt.ne'
    · show (Sphere.fill env s r rec (s.root_plus env r)).normal.length_squared = 1
      rw [hfp.2, Vec3.length_squared_neg]
      exact hunit _ (Or.inr rfl)
  · refine ⟨hlt, Or.inl rfl, fun _ => hfm, ?_, ?_⟩
    · intro h
      exact absurd (show s.root_minus env r = s.root_plus env r from h) hlt.ne
    · show (Sphere.fill env s r rec (s.root_minus env r)).normal.length_squared = 1
      rw [hfm.2]
      exact hunit _ (Or.inl rfl)

/-- C35 at the unit sphere: the ray from `(0, 0, -3)` along `+z` is reported at
the smaller root `2` with `front_face` true and the outward normal. -/
theorem C35_sphere_front_face_witness :
    (0 : ℚ) < unitSphere.radius ∧ zRay.direction ≠ 0 ∧ 0 < unitSphere.discriminant zRay ∧
    (Sphere.hit ratEnv unitSphere zRay (Ext.fin 0.001) Ext.posInf rec0).1 = true ∧
    (Sphere.hit ratEnv unitSphere zRay (Ext.fin 0.001) Ext.posInf rec0).2.t =
      unitSphere.root_minus ratEnv zRay ∧
    ((Sphere.hit ratEnv unitSphere zRay (Ext.fin 0.001) Ext.posInf rec0).2.front_face = true ∧
      (Sphere.hit ratEnv unitSphere zRay (Ext.fin 0.001) Ext.posInf rec0).2.normal =
        ((Sphere.hit ratEnv unitSphere zRay (Ext.fin 0.001) Ext.posInf rec0).2.p -
          unitSphere.center) / unitSphere.radius) ∧
    (Sphere.hit ratEnv unitSphere zRay (Ext.fin 0.001) Ext.posInf rec0).2.normal.length_squared =
      1 := by
  have hr : (0 : ℚ) < unitSphere.radius := by
    simp [unitSphere]
  have hd : 0 < unitSphere.discriminant zRay := by
    rw [unitSphere_discriminant]
    norm_num
  have hp : 0 < ratEnv.sqrt (unitSphere.discriminant zRay) := by
    rw [unitSphere_discriminant]
    show 0 < ratSqrt 1
    rw [ratSqrt_one]
    norm_num
  have hs : ratEnv.sqrt (unitSphere.discriminant zRay) *
      ratEnv.sqrt (unitSphere.discriminant zRay) = unitSphere.discriminant zRay := by
    rw [unitSphere_discriminant]
    show ratSqrt 1 * ratSqrt 1 = 1
    rw [ratSqrt_one]
    norm_num
  have hhit : (Sphere.hit ratEnv unitSphere zRay (Ext.fin 0.001) Ext.posInf rec0).1 = true := by
    rw [unitSphere_hit_near _ (by norm_num)]
  have ht : (Sphere.hit ratEnv unitSphere zRay (Ext.fin 0.001) Ext.posInf rec0).2.t =
      unitSphere.root_minus ratEnv zRay := by
    rw [unitSphere_hit_near _ (by norm_num), unitSphere_root_minus]
    rfl
  have h := C35_sphere_front_face ratEnv unitSphere zRay (Ext.fin 0.001) Ext.posInf rec0 hr
    zRay_direction_ne_zero hd hp hs hhit
  exact ⟨hr, zRay_direction_ne_zero, hd, hhit, ht, h.2.2.1 ht, h.2.2.2.2⟩

/-! ## onb.h -/

theorem Vec3.cross_dot_left (a b : Vec3 F) : Vec3.dot (Vec3.cross a b) a = 0 := by
  simp only [Vec3.dot, Vec3.cross]
  ring

theorem Vec3.cross_dot_right (a b : Vec3 F) : Vec3.dot (Vec3.cross a b) b = 0 := by
  simp only [Vec3.dot, Vec3.cross]
  ring

theorem Vec3.cross_length_squared (a b : Vec3 F) :
    (Vec3.cross a b).length_squared =
      a.length_squared * b.length_squared - Vec3.dot a b ^ 2 := by
  simp only [Vec3.dot, Vec3.cross, Vec3.length_squared]
  ring

theorem Vec3.dot_div_left (v w : Vec3 F) (k : F) :
    Vec3.dot (v / k) w = Vec3.dot v w / k := by
  simp only [Vec3.dot, Vec3.div_def]
  ring

theorem Vec3.dot_symm (v w : Vec3 F) : Vec3.dot v w = Vec3.dot w v := by
  simp only [Vec3.dot]
  ring

/-- The vector `normal(v)` has squared length 1 when `sqrt` is exact and
positive at `v.length_squared()`. -/
theorem Vec3.normal_length_squared (env : Env F) (v : Vec3 F)
    (hp : 0 < env.sqrt v.length_squared)
    (hs : env.sqrt v.length_squared * env.sqrt v.length_squared = v.length_squared) :
    (Vec3.normal env v).length_squared = 1 := by
  unfold Vec3.normal Vec3.length
  rw [Vec3.length_squared_div, hs]
  have : v.length_squared ≠ 0 := by
    rw [← hs]
    exact (mul_pos hp hp).ne'
  exact div_self this

/-- The method `Onb::build_from_w`, written with the helper axis. -/
theorem Onb.build_from_w_eq (env : Env F) (n : Vec3 F) :
    Onb.build_from_w env n =
      ⟨Vec3.cross (Vec3.normal env n)
          (Vec3.normal env (Vec3.cross (Vec3.normal env n)
            (Onb.helper_axis (Vec3.normal env n)))),
        Vec3.normal env (Vec3.cross (Vec3.normal env n) (Onb.helper_axis (Vec3.normal env n))),
        Vec3.normal env n⟩ := rfl

/-- The helper axis is never parallel to a unit `w`: the cross product has
positive squared length. -/
theorem Onb.helper_axis_not_parallel (w : Vec3 F) (hw : w.length_squared = 1) :
    0 < (Vec3.cross w (Onb.helper_axis w)).length_squared := by
  unfold Onb.helper_axis
  simp only [Vec3.length_squared] at hw
  split_ifs with h
  · simp only [Vec3.cross, Vec3.length_squared]
    have hx : (0.9 : F) * 0.9 < w.x * w.x := by
      have h1 : (0.9 : F) < |w.x| := h
      have h2 : (0 : F) ≤ 0.9 := by norm_num
      have h3 : (0.9 : F) * 0.9 < |w.x| * |w.x| := mul_lt_mul'' h1 h1 h2 h2
      rwa [abs_mul_abs_self] at h3
    have h9 : (0 : F) < 0.9 * 0.9 := by norm_num
    nlinarith [mul_self_nonneg w.z]
  · simp only [Vec3.cross, Vec3.length_squared]
    have hx : w.x * w.x ≤ 0.9 * 0.9 := by
      have h1 : |w.x| ≤ (0.9 : F) := not_lt.mp h
      have h3 : |w.x| * |w.x| ≤ (0.9 : F) * 0.9 :=
        mul_le_mul h1 h1 (abs_nonneg _) (by norm_num)
      rwa [abs_mul_abs_self] at h3
    have h9 : (0.9 : F) * 0.9 < 1 := by norm_num
    nlinarith

/-- The method `Onb::local` preserves the squared length for an orthonormal
triple of axes. -/
theorem Onb.local_length_squared (b : Onb F) (a : Vec3 F)
    (hu : b.u.length_squared = 1) (hv : b.v.length_squared = 1) (hw : b.w.length_squared = 1)
    (huv : Vec3.dot b.u b.v = 0) (huw : Vec3.dot b.u b.w = 0) (hvw : Vec3.dot b.v b.w = 0) :
    (b.local a).length_squared = a.length_squared := by
  rcases b with ⟨u, v, w⟩
  simp only [Onb.local, Onb.u, Onb.v, Onb.w, Vec3.length_squared, Vec3.dot, Vec3.add_def,
    Vec3.smul_def] at *
  linear_combination a.x ^ 2 * hu + a.y ^ 2 * hv + a.z ^ 2 * hw + 2 * a.x * a.y * huv +
    2 * a.x * a.z * huw + 2 * a.y * a.z * hvw

/-- C36: for every non-zero vector `n`, after `Onb::build_from_w(n)` the three
axes form an orthonormal basis (each of `u`, `v`, `w` has squared length 1 and
they are pairwise orthogonal) with `w = n / |n|`; the helper axis chosen is
never parallel to `w` (the vector normalised for `v` is not zero); and
`Onb::local` preserves the squared length of every local vector.  (`sqrt` is
positive and exact at the two squared lengths that are normalised.) -/
theorem C36_onb_orthonormal (env : Env F) (n a : Vec3 F) (_hn : n ≠ 0)
    (h1p : 0 < env.sqrt n.length_squared)
    (h1 : env.sqrt n.length_squared * env.sqrt n.length_squared = n.length_squared)
    (h2p : 0 < env.sqrt
      (Vec3.cross (Vec3.normal env n) (Onb.helper_axis (Vec3.normal env n))).length_squared)
    (h2 : env.sqrt
        (Vec3.cross (Vec3.normal env n) (Onb.helper_axis (Vec3.normal env n))).length_squared *
      env.sqrt
        (Vec3.cross (Vec3.normal env n) (Onb.helper_axis (Vec3.normal env n))).length_squared =
      (Vec3.cross (Vec3.normal env n) (Onb.helper_axis (Vec3.normal env n))).length_squared) :
    (Onb.build_from_w env n).w = n / n.length env ∧
    ((Onb.build_from_w env n).u.length_squared = 1 ∧
      (Onb.build_from_w env n).v.length_squared = 1 ∧
      (Onb.build_from_w env n).w.length_squared = 1) ∧
    (Vec3.dot (Onb.build_from_w env n).u (Onb.build_from_w env n).v = 0 ∧
      Vec3.dot (Onb.build_from_w env n).u (Onb.build_from_w env n).w = 0 ∧
      Vec3.dot (Onb.build_from_w env n).v (Onb.build_from_w env n).w = 0) ∧
    0 < (Vec3.cross (Onb.build_from_w env n).w
      (Onb.helper_axis (Onb.build_from_w env n).w)).length_squared ∧
    ((Onb.build_from_w env n).local a).length_squared = a.length_squared := by
  have hw : (Vec3.normal env n).length_squared = 1 := Vec3.normal_length_squared env n h1p h1
  have hv : (Vec3.normal env (Vec3.cross (Vec3.normal env n)
      (Onb.helper_axis (Vec3.normal env n)))).length_squared = 1 :=
    Vec3.normal_length_squared env _ h2p h2
  have hvw : Vec3.dot (Vec3.normal env (Vec3.cross (Vec3.normal env n)
      (Onb.helper_axis (Vec3.normal env n)))) (Vec3.normal env n) = 0 := by
    conv_lhs => rw [Vec3.normal]
    rw [Vec3.dot_div_left, Vec3.cross_dot_left, zero_div]
  have huv : Vec3.dot (Vec3.cross (Vec3.normal env n) (Vec3.normal env (Vec3.cross
      (Vec3.normal env n) (Onb.helper_axis (Vec3.normal env n)))))
      (Vec3.normal env (Vec3.cross (Vec3.normal env n)
        (Onb.helper_axis (Vec3.normal env n)))) = 0 := Vec3.cross_dot_right _ _
  have huw : Vec3.dot (Vec3.cross (Vec3.normal env n) (Vec3.normal env (Vec3.cross
      (Vec3.normal env n) (Onb.helper_axis (Vec3.normal env n)))))
      (Vec3.normal env n) = 0 := Vec3.cross_dot_left _ _
  have hu : (Vec3.cross (Vec3.normal env n) (Vec3.normal env (Vec3.cross
      (Vec3.normal env n) (Onb.helper_axis (Vec3.normal env n))))).length_squared = 1 := by
    rw [Vec3.cross_length_squared, hw, hv, Vec3.dot_symm, hvw]
    norm_num
  have hbu : (Onb.build_from_w env n).u = Vec3.cross (Vec3.normal env n) (Vec3.normal env
      (Vec3.cross (Vec3.normal env n) (Onb.helper_axis (Vec3.normal env n)))) := rfl
  have hbv : (Onb.build_from_w env n).v = Vec3.normal env
      (Vec3.cross (Vec3.normal env n) (Onb.helper_axis (Vec3.normal env n))) := rfl
  have hbw : (Onb.build_from_w env n).w = Vec3.normal env n := rfl
  refine ⟨rfl, ⟨?_, ?_, ?_⟩, ⟨?_, ?_, ?_⟩, ?_, ?_⟩
  · rw [hbu]; exact hu
  · rw [hbv]; exact hv
  · rw [hbw]; exact hw
  · rw [hbu, hbv]; exact huv
  · rw [hbu, hbw]; exact huw
  · rw [hbv, hbw]; exact hvw
  · rw [hbw]; exact Onb.helper_axis_not_parallel _ hw
  · apply Onb.local_length_squared
    · rw [hbu]; exact hu
    · rw [hbv]; exact hv
    · rw [hbw]; exact hw
    · rw [hbu, hbv]; exact huv
    · rw [hbu, hbw]; exact huw
    · rw [hbv, hbw]; exact hvw

theorem normal_posz : Vec3.normal ratEnv (⟨0, 0, 1⟩ : Vec3 ℚ) = ⟨0, 0, 1⟩ := by
  simp only [Vec3.normal, Vec3.length, Vec3.length_squared, Vec3.div_def, ratEnv]
  norm_num [ratSqrt_one]

theorem helper_cross_posz :
    Vec3.cross (Vec3.normal ratEnv (⟨0, 0, 1⟩ : Vec3 ℚ))
      (Onb.helper_axis (Vec3.normal ratEnv (⟨0, 0, 1⟩ : Vec3 ℚ))) = ⟨0, 1, 0⟩ := by
  rw [normal_posz]
  simp only [Onb.helper_axis, Vec3.cross]
  norm_num

/-- C36 at `n = (0, 0, 1)` and the local vector `(1, 2, 3)`: the squared length
`14` is preserved. -/
theorem C36_onb_orthonormal_witness :
    (⟨0, 0, 1⟩ : Vec3 ℚ) ≠ 0 ∧
    (Onb.build_from_w ratEnv (⟨0, 0, 1⟩ : Vec3 ℚ)).w.length_squared = 1 ∧
    Vec3.dot (Onb.build_from_w ratEnv (⟨0, 0, 1⟩ : Vec3 ℚ)).u
      (Onb.build_from_w ratEnv (⟨0, 0, 1⟩ : Vec3 ℚ)).v = 0 ∧
    ((Onb.build_from_w ratEnv (⟨0, 0, 1⟩ : Vec3 ℚ)).local ⟨1, 2, 3⟩).length_squared =
      (⟨1, 2, 3⟩ : Vec3 ℚ).length_squared := by
  have hn : (⟨0, 0, 1⟩ : Vec3 ℚ) ≠ 0 := by
    intro h
    have hz : (⟨0, 0, 1⟩ : Vec3 ℚ).z = (0 : Vec3 ℚ).z := by rw [h]
    simp at hz
  have hl : (⟨0, 0, 1⟩ : Vec3 ℚ).length_squared = 1 := by
    simp only [Vec3.length_squared]
    norm_num
  have hc : (⟨0, 1, 0⟩ : Vec3 ℚ).length_squared = 1 := by
    simp only [Vec3.length_squared]
    norm_num
  have h := C36_onb_orthonormal ratEnv ⟨0, 0, 1⟩ ⟨1, 2, 3⟩ hn
    (by rw [hl]; show 0 < ratSqrt 1; rw [ratSqrt_one]; norm_num)
    (by rw [hl]; show ratSqrt 1 * ratSqrt 1 = 1; rw [ratSqrt_one]; norm_num)
    (by rw [helper_cross_posz, hc]; show 0 < ratSqrt 1; rw [ratSqrt_one]; norm_num)
    (by rw [helper_cross_posz, hc]; show ratSqrt 1 * ratSqrt 1 = 1; rw [ratSqrt_one]; norm_num)
  exact ⟨hn, h.2.1.2.2, h.2.2.1.1, h.2.2.2.2⟩

/-! ## aarect.h: XZRect::random -/

/-- On a hit of a ray not parallel to the plane the density of an `XZRect` with
increasing bounds is strictly positive. -/
theorem XZRect_pdf_value_pos (env : Env F) (q : XZRect F) (junk : HitRecord F) (o v : Vec3 F)
    (hx : q.x0 < q.x1) (hz : q.z0 < q.z1) (hvy : v.y ≠ 0)
    (hsqrt : ∀ x : F, 0 < x → 0 < env.sqrt x)
    (hhit : (q.hit (Ray.mk2 o v) (Ext.fin 0.001) Ext.posInf junk).1 = true) :
    0 < q.pdf_value env junk o v := by
  have hv : v ≠ 0 := by
    intro h
    apply hvy
    rw [h]
    rfl
  have hlsq : 0 < v.length_squared := Vec3.length_squared_pos hv
  have hlen : 0 < v.length env := hsqrt _ hlsq
  obtain ⟨-, hge, -, habs⟩ := XZRect_hit_facts q junk o v 0.001 hvy hhit
  have harea : 0 < (q.x1 - q.x0) * (q.z1 - q.z0) := mul_pos (sub_pos.mpr hx) (sub_pos.mpr hz)
  have ht : 0 < (q.hit (Ray.mk2 o v) (Ext.fin 0.001) Ext.posInf junk).2.t :=
    lt_of_lt_of_le (by norm_num) hge
  simp only [XZRect.pdf_value, hhit, not_true_eq_false, if_false, abs_div, abs_of_pos hlen, habs]
  exact div_pos (mul_pos (mul_pos ht ht) hlsq)
    (mul_pos (div_pos (abs_pos.mpr hvy) hlen) harea)

/-- The vector `XZRect::random(o)` returns, by its components. -/
theorem XZRect_random_eq (q : XZRect F) (o : Vec3 F) (g : Rng F) :
    (q.random o g).1 =
      ⟨q.x0 + (q.x1 - q.x0) * (random_double2 g).1 - o.x, q.k - o.y,
        q.z0 + (q.z1 - q.z0) * (random_double2 (random_double2 g).2).1 - o.z⟩ := rfl

/-- C37: for every `XZRect` with `x0 < x1` and `z0 < z1`, every origin `o` with
`o.y ≠ k` and every pair of random draws in `[0, 1)`, the vector `d` returned by
`XZRect::random(o)` points from `o` to a point of the rectangle (`o + d` has
`y = k`, `x` in `[x0, x1]`, `z` in `[z0, z1]`), the ray `(o, d)` hits the
rectangle at `t = 1`, and `XZRect::pdf_value(o, d) > 0`.  (The square root is
positive on positive numbers.) -/
theorem C37_xzrect_random_in_support (env : Env F) (q : XZRect F) (junk : HitRecord F)
    (o : Vec3 F) (g : Rng F)
    (hx : q.x0 < q.x1) (hz : q.z0 < q.z1) (ho : o.y ≠ q.k)
    (hd1 : 0 ≤ (random_double2 g).1 ∧ (random_double2 g).1 < 1)
    (hd2 : 0 ≤ (random_double2 (random_double2 g).2).1 ∧
      (random_double2 (random_double2 g).2).1 < 1)
    (hsqrt : ∀ x : F, 0 < x → 0 < env.sqrt x) :
    ((o + (q.random o g).1).y = q.k ∧
      q.x0 ≤ (o + (q.random o g).1).x ∧ (o + (q.random o g).1).x ≤ q.x1 ∧
      q.z0 ≤ (o + (q.random o g).1).z ∧ (o + (q.random o g).1).z ≤ q.z1) ∧
    (q.hit (Ray.mk2 o (q.random o g).1) (Ext.fin 0.001) Ext.posInf junk).1 = true ∧
    (q.hit (Ray.mk2 o (q.random o g).1) (Ext.fin 0.001) Ext.posInf junk).2.t = 1 ∧
    (q.hit (Ray.mk2 o (q.random o g).1) (Ext.fin 0.001) Ext.posInf junk).2.p =
      o + (q.random o g).1 ∧
    0 < q.pdf_value env junk o (q.random o g).1 := by
  have hdy : (q.random o g).1.y ≠ 0 := by
    rw [XZRect_random_eq]
    exact sub_ne_zero.mpr (Ne.symm ho)
  have hxb := random_double2_range_bounds q.x0 q.x1 g hx.le hd1.1 hd1.2
  have hzb := random_double2_range_bounds q.z0 q.z1 (random_double2 g).2 hz.le hd2.1 hd2.2
  have hpt : o + (q.random o g).1 =
      ⟨(random_double2_range q.x0 q.x1 g).1, q.k,
        (random_double2_range q.z0 q.z1 (random_double2 g).2).1⟩ := by
    rw [XZRect_random_eq]
    simp only [random_double2_range, Vec3.add_def, Vec3.mk.injEq]
    refine ⟨?_, ?_, ?_⟩ <;> ring
  have htp : q.t_plane (Ray.mk2 o (q.random o g).1) = 1 := by
    have hne : q.k - o.y ≠ 0 := sub_ne_zero.mpr (Ne.symm ho)
    rw [XZRect_random_eq]
    simp only [XZRect.t_plane, Ray.mk2, Ray.origin, Ray.direction]
    exact div_self hne
  have hat : (Ray.mk2 o (q.random o g).1).at 1 = o + (q.random o g).1 := by
    simp only [Ray.at, Ray.mk2, Vec3.add_def, Vec3.smul_def, one_mul]
  have hspec := XZRect_hit_spec q (Ray.mk2 o (q.random o g).1) (Ext.fin 0.001) Ext.posInf junk
    hdy
  have hbounds : q.x0 ≤ (o + (q.random o g).1).x ∧ (o + (q.random o g).1).x ≤ q.x1 ∧
      q.z0 ≤ (o + (q.random o g).1).z ∧ (o + (q.random o g).1).z ≤ q.z1 := by
    rw [hpt]
    exact ⟨hxb.1, (hxb.2 hx).le, hzb.1, (hzb.2 hz).le⟩
  have hhit : (q.hit (Ray.mk2 o (q.random o g).1) (Ext.fin 0.001) Ext.posInf junk).1 = true := by
    rw [hspec.1, htp, hat]
    refine ⟨⟨?_, Ext.le_posInf _⟩, hbounds⟩
    rw [Ext.fin_le_fin]
    norm_num
  obtain ⟨ht, hp, -⟩ := hspec.2.1 hhit
  refine ⟨⟨?_, hbounds⟩, hhit, ?_, ?_,
    XZRect_pdf_value_pos env q junk o _ hx hz hdy hsqrt hhit⟩
  · rw [hpt]
  · rw [ht, htp]
  · rw [hp, htp, hat]

/-- C37 at the light of the Cornell box, the origin `(278, 0, 280)` and the
draws `1/2`, `1/2`: the direction is `(0, 554, -1/2)`, the ray hits the light at
`t = 1` and the density there is positive. -/
theorem C37_xzrect_random_in_support_witness :
    (cornellLight.random ⟨278, 0, 280⟩ rngHalf).1 = ⟨0, 554, -1 / 2⟩ ∧
    (cornellLight.hit (Ray.mk2 ⟨278, 0, 280⟩ (cornellLight.random ⟨278, 0, 280⟩ rngHalf).1)
      (Ext.fin 0.001) Ext.posInf rec0).1 = true ∧
    (cornellLight.hit (Ray.mk2 ⟨278, 0, 280⟩ (cornellLight.random ⟨278, 0, 280⟩ rngHalf).1)
      (Ext.fin 0.001) Ext.posInf rec0).2.t = 1 ∧
    0 < cornellLight.pdf_value ratEnv rec0 ⟨278, 0, 280⟩
      (cornellLight.random ⟨278, 0, 280⟩ rngHalf).1 := by
  have hx : cornellLight.x0 < cornellLight.x1 := by
    simp only [cornellLight]
    norm_num
  have hz : cornellLight.z0 < cornellLight.z1 := by
    simp only [cornellLight]
    norm_num
  have ho : (⟨278, 0, 280⟩ : Vec3 ℚ).y ≠ cornellLight.k := by
    simp only [cornellLight]
    norm_num
  have hd : (0 : ℚ) ≤ 1 / 2 ∧ (1 / 2 : ℚ) < 1 := by norm_num
  have h := C37_xzrect_random_in_support ratEnv cornellLight rec0 ⟨278, 0, 280⟩ rngHalf hx hz ho
    hd hd ratSqrt_pos
  refine ⟨?_, h.2.1, h.2.2.1, h.2.2.2.2⟩
  rw [XZRect_random_eq]
  simp only [cornellLight, random_double2, rngHalf, Vec3.mk.injEq]
  norm_num

/-! ## aarect.h: the surface coordinates of a ray in the plane -/

/-- Where the ray is not parallel to the plane and the bounds increase, the IEEE
values of `rec.u` and `rec.v` are those of the exact embedding. -/
theorem XYRect_uv_ieee_finite (q : XYRect F) (r : Ray F) (negZero negX negY : Bool)
    (t_min t_max : Ext F) (rec : HitRecord F) (hd : r.direction.z ≠ 0)
    (hx : q.x0 < q.x1) (hy : q.y0 < q.y1)
    (hhit : (q.hit r t_min t_max rec).1 = true) :
    q.uv_ieee r negZero negX negY =
      (Dbl.fin (q.hit r t_min t_max rec).2.u, Dbl.fin (q.hit r t_min t_max rec).2.v) := by
  obtain ⟨-, hp, -, hu, hv⟩ := (XYRect_hit_spec q r t_min t_max rec hd).2.1 hhit
  have hx' : q.x1 - q.x0 ≠ 0 := (sub_pos.mpr hx).ne'
  have hy' : q.y1 - q.y0 ≠ 0 := (sub_pos.mpr hy).ne'
  rw [hu, hv, hp]
  simp only [XYRect.uv_ieee, Dbl.div, if_pos hd, Dbl.mul, Dbl.add, Dbl.divD, if_pos hx',
    if_pos hy', Ray.at_x, Ray.at_y, XYRect.t_plane, Prod.mk.injEq, Dbl.fin.injEq]
  constructor <;> ring

/-- C12 fails as stated: the ray from `(1/2, 1/2, 0)` along `+x` lies in the plane
of the unit square `XYRect(0, 1, 0, 1, 0)`, whose bounds increase.  `hit` on
`[0.001, INF]` returns true (`t` is `0 / 0`, NaN, and no test rejects it), and
the values it records for `u` and `v` are NaN, not numbers of `[0, 1]`. -/
theorem C12_rect_uv_counterexample :
    unitSquare.x0 < unitSquare.x1 ∧ unitSquare.y0 < unitSquare.y1 ∧
    (unitSquare.hit_ieee planeRay false (Ext.fin 0.001) Ext.posInf).1 = true ∧
    unitSquare.uv_ieee planeRay false false false = (Dbl.nan, Dbl.nan) ∧
    (Dbl.fin 0).lt (unitSquare.uv_ieee planeRay false false false).1 = false ∧
    (unitSquare.uv_ieee planeRay false false false).1.lt (Dbl.fin 1) = false ∧
    (∀ x : ℚ, (unitSquare.uv_ieee planeRay false false false).1 ≠ Dbl.fin x) := by
  have h := XYRect_hit_ieee_in_plane unitSquare planeRay false (Ext.fin 0.001) Ext.posInf rfl rfl
  have huv : unitSquare.uv_ieee planeRay false false false = (Dbl.nan, Dbl.nan) := by
    simp [XYRect.uv_ieee, unitSquare, planeRay, Ray.origin, Ray.direction, Dbl.div, Dbl.mul,
      Dbl.add, Dbl.divD]
  refine ⟨?_, ?_, ?_, huv, ?_, ?_, ?_⟩
  · simp only [unitSquare]
    norm_num
  · simp only [unitSquare]
    norm_num
  · rw [h]
  · rw [huv]
    rfl
  · rw [huv]
    rfl
  · intro x
    rw [huv]
    simp

/-! ## sphere.h and moving_sphere.h: zero divisors (C20) -/

theorem Dbl_vsub_vec (a b : Vec3 F) : Dbl.vsub (Dbl.vec a) (Dbl.vec b) = Dbl.vec (a - b) := by
  simp only [Dbl.vsub, Dbl.vec, Dbl.subD, Dbl.addD, Dbl.neg, Vec3.sub_def, sub_eq_add_neg]

theorem Dbl_vadd_vec (a b : Vec3 F) : Dbl.vadd (Dbl.vec a) (Dbl.vec b) = Dbl.vec (a + b) := by
  simp only [Dbl.vadd, Dbl.vec, Dbl.addD, Vec3.add_def]

theorem Dbl_vneg_vec (a : Vec3 F) : Dbl.vneg (Dbl.vec a) = Dbl.vec (-a) := by
  simp only [Dbl.vneg, Dbl.vec, Dbl.neg, Vec3.neg_def]

theorem Dbl_smul_fin_vec (t : F) (a : Vec3 F) :
    Dbl.smul (Dbl.fin t) (Dbl.vec a) = Dbl.vec (t * a) := by
  simp only [Dbl.smul, Dbl.vec, Dbl.mulD, Dbl.mul, Vec3.smul_def]

theorem Dbl_dot_vec (a b : Vec3 F) : Dbl.dot (Dbl.vec a) (Dbl.vec b) = Dbl.fin (Vec3.dot a b) := by
  simp only [Dbl.dot, Dbl.vec, Dbl.mulD, Dbl.mul, Dbl.addD, Vec3.dot]

/-- Where the direction is not the zero vector and the radius is not zero, the
IEEE evaluation of `Sphere::hit` divides by non-zero numbers only, and it is the
exact embedding: the same flag and the same `t`, `p`, `normal`, `front_face`. -/
theorem Sphere_hit_ieee_finite (env : Env F) (s : Sphere F) (negRadius : Bool) (r : Ray F)
    (t_min t_max : Ext F) (rec : HitRecord F) (hD : r.direction ≠ 0) (hR : s.radius ≠ 0) :
    s.hit_ieee env negRadius r t_min t_max =
      if (Sphere.hit env s r t_min t_max rec).1 = true then
        some ⟨Dbl.fin (Sphere.hit env s r t_min t_max rec).2.t,
          Dbl.vec (Sphere.hit env s r t_min t_max rec).2.p,
          Dbl.vec (Sphere.hit env s r t_min t_max rec).2.normal,
          (Sphere.hit env s r t_min t_max rec).2.front_face⟩
      else none := by
  have ha : r.direction.length_squared ≠ 0 := (Vec3.length_squared_pos hD).ne.symm
  have hdiv : ∀ n : F, Dbl.divD (Dbl.fin n) (Dbl.fin r.direction.length_squared) false =
      Dbl.fin (n / r.direction.length_squared) := by
    intro n
    simp only [Dbl.divD, Dbl.div, if_pos ha]
  have hfill : ∀ root : F,
      (⟨Dbl.fin root,
        Dbl.vadd (Dbl.vec r.origin) (Dbl.smul (Dbl.fin root) (Dbl.vec r.direction)),
        if (Dbl.dot (Dbl.vec r.direction) (Dbl.smul (Dbl.div 1 s.radius negRadius)
            (Dbl.vsub (Dbl.vadd (Dbl.vec r.origin)
              (Dbl.smul (Dbl.fin root) (Dbl.vec r.direction))) (Dbl.vec s.center)))).lt
            (Dbl.fin 0) = true
        then Dbl.smul (Dbl.div 1 s.radius negRadius)
            (Dbl.vsub (Dbl.vadd (Dbl.vec r.origin)
              (Dbl.smul (Dbl.fin root) (Dbl.vec r.direction))) (Dbl.vec s.center))
        else Dbl.vneg (Dbl.smul (Dbl.div 1 s.radius negRadius)
            (Dbl.vsub (Dbl.vadd (Dbl.vec r.origin)
              (Dbl.smul (Dbl.fin root) (Dbl.vec r.direction))) (Dbl.vec s.center))),
        (Dbl.dot (Dbl.vec r.direction) (Dbl.smul (Dbl.div 1 s.radius negRadius)
            (Dbl.vsub (Dbl.vadd (Dbl.vec r.origin)
              (Dbl.smul (Dbl.fin root) (Dbl.vec r.direction))) (Dbl.vec s.center)))).lt
            (Dbl.fin 0)⟩ : HitRecordD F) =
      ⟨Dbl.fin (Sphere.fill env s r rec root).t, Dbl.vec (Sphere.fill env s r rec root).p,
        Dbl.vec (Sphere.fill env s r rec root).normal,
        (Sphere.fill env s r rec root).front_face⟩ := by
    intro root
    simp only [Dbl.div, if_pos hR, Dbl_smul_fin_vec, Dbl_vadd_vec, Dbl_vsub_vec, Dbl_dot_vec,
      Dbl_vneg_vec, Sphere.fill, HitRecord.set_face_normal, Ray.at, Ray.origin, Ray.direction,
      Vec3.div_def, Vec3.smul_def, Dbl.lt]
    split_ifs <;> simp_all
  have hls : ∀ v : Vec3 F, Vec3.dot v v = v.length_squared := fun _ => rfl
  simp only [Sphere.hit_ieee, sphere_hit_ieee, Sphere.hit, Dbl_vsub_vec, Dbl_dot_vec, Dbl.mulD,
    Dbl.mul, Dbl.subD, Dbl.addD, Dbl.neg, Dbl_fin_lt_fin, hls, ← sub_eq_add_neg]
  by_cases hdisc : Vec3.dot (r.origin - s.center) r.direction *
      Vec3.dot (r.origin - s.center) r.direction -
      r.direction.length_squared *
        ((r.origin - s.center).length_squared - s.radius * s.radius) < 0
  · simp only [if_pos hdisc, Bool.false_eq_true, if_false]
  · simp only [if_neg hdisc, Dbl.sqrt, Dbl.addD, Dbl.neg, hdiv, Dbl.fin_lt_ofExt,
      Dbl.ofExt_lt_fin, hfill, ← sub_eq_add_neg]
    split_ifs <;> simp_all

/-- Where `time0 ≠ time1`, the IEEE evaluation of `MovingSphere::center` is the
exact one. -/
theorem MovingSphere_center_ieee_finite (ms : MovingSphere F) (time : F) (negDt : Bool)
    (ht : ms.time0 ≠ ms.time1) : ms.center_ieee time negDt = Dbl.vec (ms.center time) := by
  have hdt : ms.time1 - ms.time0 ≠ 0 := sub_ne_zero.mpr (Ne.symm ht)
  simp only [MovingSphere.center_ieee, MovingSphere.center, Dbl.div, if_pos hdt,
    Dbl_smul_fin_vec, Dbl_vadd_vec]

/-- Where the direction is not the zero vector, the radius is not zero and
`time0 ≠ time1`, the IEEE evaluation of `MovingSphere::hit` divides by non-zero
numbers only, and it is the exact embedding. -/
theorem MovingSphere_hit_ieee_finite (env : Env F) (ms : MovingSphere F)
    (negRadius negDt : Bool) (r : Ray F) (t_min t_max : Ext F) (rec : HitRecord F)
    (hD : r.direction ≠ 0) (hR : ms.radius ≠ 0) (ht : ms.time0 ≠ ms.time1) :
    ms.hit_ieee env negRadius negDt r t_min t_max =
      if (MovingSphere.hit env ms r t_min t_max rec).1 = true then
        some ⟨Dbl.fin (MovingSphere.hit env ms r t_min t_max rec).2.t,
          Dbl.vec (MovingSphere.hit env ms r t_min t_max rec).2.p,
          Dbl.vec (MovingSphere.hit env ms r t_min t_max rec).2.normal,
          (MovingSphere.hit env ms r t_min t_max rec).2.front_face⟩
      else none := by
  have h := Sphere_hit_ieee_finite env (ms.static_at r.time) negRadius r t_min t_max rec hD hR
  obtain ⟨h1, h2, h3, h4, h5, _⟩ := MovingSphere_hit_static env ms r t_min t_max rec
  rw [h1, h2, h3, h4, h5, ← h]
  simp only [MovingSphere.hit_ieee, Sphere.hit_ieee, MovingSphere_center_ieee_finite ms _ _ ht,
    MovingSphere.center, MovingSphere.static_at]

/-- C20, the degenerate cases of `Sphere::hit` and `MovingSphere::hit` in IEEE
arithmetic, on the interval `[0.001, INF]`.  The unit sphere and the ray from
`(0, 0, -3)` with direction zero: `a = 0`, the discriminant is `0`, the root is
`0 / 0`, no comparison rejects it and the hit carries a NaN normal.  The sphere
of radius `0` at the origin and the ray from `(0, 0, -3)` along `+z`: the root
is `3`, the point is the centre and the outward normal is `(±INF) * 0`, NaN for
both signs of the zero radius.  The moving unit sphere with `time0 = time1 = 0`
and the same ray: the centre is `0 / 0`, and the hit carries a NaN normal.  In
each case `dot(D, normal) <= 0` is false. -/
theorem C20_degenerate_counterexample :
    (unitSphere.hit_ieee ratEnv false stillRay (Ext.fin 0.001) Ext.posInf =
        some ⟨Dbl.nan, ⟨Dbl.nan, Dbl.nan, Dbl.nan⟩, ⟨Dbl.nan, Dbl.nan, Dbl.nan⟩, false⟩ ∧
      Dbl.le (Dbl.dot (Dbl.vec stillRay.direction) ⟨Dbl.nan, Dbl.nan, Dbl.nan⟩) (Dbl.fin 0) =
        false) ∧
    (pointSphere.hit_ieee ratEnv false zRay (Ext.fin 0.001) Ext.posInf =
        some ⟨Dbl.fin 3, Dbl.vec ⟨0, 0, 0⟩, ⟨Dbl.nan, Dbl.nan, Dbl.nan⟩, false⟩ ∧
      pointSphere.hit_ieee ratEnv true zRay (Ext.fin 0.001) Ext.posInf =
        some ⟨Dbl.fin 3, Dbl.vec ⟨0, 0, 0⟩, ⟨Dbl.nan, Dbl.nan, Dbl.nan⟩, false⟩ ∧
      Dbl.le (Dbl.dot (Dbl.vec zRay.direction) ⟨Dbl.nan, Dbl.nan, Dbl.nan⟩) (Dbl.fin 0) =
        false) ∧
    (frozenBall.hit_ieee ratEnv false false zRay (Ext.fin 0.001) Ext.posInf =
        some ⟨Dbl.nan, ⟨Dbl.nan, Dbl.nan, Dbl.nan⟩, ⟨Dbl.nan, Dbl.nan, Dbl.nan⟩, false⟩ ∧
      frozenBall.hit_ieee ratEnv false true zRay (Ext.fin 0.001) Ext.posInf =
        some ⟨Dbl.nan, ⟨Dbl.nan, Dbl.nan, Dbl.nan⟩, ⟨Dbl.nan, Dbl.nan, Dbl.nan⟩, false⟩) := by
  refine ⟨⟨?_, ?_⟩, ⟨?_, ?_, ?_⟩, ?_, ?_⟩
  all_goals
    simp only [Sphere.hit_ieee, MovingSphere.hit_ieee, MovingSphere.center_ieee,
      sphere_hit_ieee, unitSphere, pointSphere, frozenBall, stillRay, zRay, ratEnv, Dbl.vec,
      Dbl.vsub, Dbl.vadd, Dbl.vneg, Dbl.smul, Dbl.dot, Dbl.mulD, Dbl.mul, Dbl.addD, Dbl.subD,
      Dbl.neg, Dbl.lt, Dbl.le, Dbl.sqrt, Dbl.divD, Dbl.div, Dbl.ofExt, Ray.origin,
      Ray.direction, Ray.time, Vec3.length_squared, Vec3.sub_def] <;>
    norm_num [ratSqrt_zero, Dbl.lt, Dbl.sqrt, Dbl.divD, Dbl.div, Dbl.addD, Dbl.mulD, Dbl.mul,
      Dbl.neg]

/-- Where the direction and the radius are not zero, a hit that `Sphere::hit`
reports in IEEE arithmetic carries a normal against the ray. -/
theorem Sphere_hit_ieee_normal (env : Env F) (s : Sphere F) (negRadius : Bool) (r : Ray F)
    (t_min t_max : Ext F) (h : HitRecordD F) (hD : r.direction ≠ 0) (hR : s.radius ≠ 0)
    (hh : s.hit_ieee env negRadius r t_min t_max = some h) :
    Dbl.le (Dbl.dot (Dbl.vec r.direction) h.normal) (Dbl.fin 0) = true := by
  rw [Sphere_hit_ieee_finite env s negRadius r t_min t_max ⟨0, 0, none, 0, 0, 0, false⟩ hD hR]
    at hh
  split_ifs at hh with hhit
  cases hh
  simp only [Dbl_dot_vec, Dbl.le, decide_eq_true_eq]
  exact Sphere_hit_normal env s r t_min t_max _ hhit

/-- Where the direction and the radius are not zero and `time0 ≠ time1`, a hit
that `MovingSphere::hit` reports in IEEE arithmetic carries a normal against the
ray. -/
theorem MovingSphere_hit_ieee_normal (env : Env F) (ms : MovingSphere F)
    (negRadius negDt : Bool) (r : Ray F) (t_min t_max : Ext F) (h : HitRecordD F)
    (hD : r.direction ≠ 0) (hR : ms.radius ≠ 0) (ht : ms.time0 ≠ ms.time1)
    (hh : ms.hit_ieee env negRadius negDt r t_min t_max = some h) :
    Dbl.le (Dbl.dot (Dbl.vec r.direction) h.normal) (Dbl.fin 0) = true := by
  rw [MovingSphere_hit_ieee_finite env ms negRadius negDt r t_min t_max
    ⟨0, 0, none, 0, 0, 0, false⟩ hD hR ht] at hh
  split_ifs at hh with hhit
  cases hh
  simp only [Dbl_dot_vec, Dbl.le, decide_eq_true_eq]
  exact MovingSphere_hit_normal env ms r t_min t_max _ hhit

/-- C20 as amended: for every ray direction `D` and outward normal `N`, after
`HitRecord::set_face_normal` the flag `front_face` is true exactly when
`dot(D, N) < 0`, the stored normal is `N` when `front_face` and `-N` otherwise,
and `dot(D, normal) ≤ 0`; consequently every hit reported by `XYRect`, `XZRect`
and `YZRect`, every hit reported by a `Sphere` of non-zero radius for a ray of
non-zero direction, and every hit reported by a `MovingSphere` of non-zero
radius with `time0 ≠ time1` for a ray of non-zero direction carries a normal
oriented against the incoming ray.  Under these conditions `Sphere::hit` and
`MovingSphere::hit` divide by non-zero numbers only, and the same holds of
their evaluation in IEEE arithmetic, whatever the sign bits of the zeros. -/
theorem C20_normal_against_ray (env : Env F) (rec : HitRecord F) (r : Ray F) (N : Vec3 F)
    (t_min t_max : Ext F) (s : Sphere F) (ms : MovingSphere F)
    (qxy : XYRect F) (qxz : XZRect F) (qyz : YZRect F) :
    (((rec.set_face_normal r N).front_face = true ↔ Vec3.dot r.direction N < 0) ∧
      (rec.set_face_normal r N).normal =
        (if (rec.set_face_normal r N).front_face = true then N else -N) ∧
      Vec3.dot r.direction (rec.set_face_normal r N).normal ≤ 0) ∧
    (r.direction ≠ 0 → s.radius ≠ 0 → (Sphere.hit env s r t_min t_max rec).1 = true →
      Vec3.dot r.direction (Sphere.hit env s r t_min t_max rec).2.normal ≤ 0) ∧
    (r.direction ≠ 0 → s.radius ≠ 0 → ∀ (negRadius : Bool) (h : HitRecordD F),
      s.hit_ieee env negRadius r t_min t_max = some h →
      Dbl.le (Dbl.dot (Dbl.vec r.direction) h.normal) (Dbl.fin 0) = true) ∧
    (r.direction ≠ 0 → ms.radius ≠ 0 → ms.time0 ≠ ms.time1 →
      (MovingSphere.hit env ms r t_min t_max rec).1 = true →
      Vec3.dot r.direction (MovingSphere.hit env ms r t_min t_max rec).2.normal ≤ 0) ∧
    (r.direction ≠ 0 → ms.radius ≠ 0 → ms.time0 ≠ ms.time1 →
      ∀ (negRadius negDt : Bool) (h : HitRecordD F),
      ms.hit_ieee env negRadius negDt r t_min t_max = some h →
      Dbl.le (Dbl.dot (Dbl.vec r.direction) h.normal) (Dbl.fin 0) = true) ∧
    ((qxy.hit r t_min t_max rec).1 = true →
      Vec3.dot r.direction (qxy.hit r t_min t_max rec).2.normal ≤ 0) ∧
    ((qxz.hit r t_min t_max rec).1 = true →
      Vec3.dot r.direction (qxz.hit r t_min t_max rec).2.normal ≤ 0) ∧
    ((qyz.hit r t_min t_max rec).1 = true →
      Vec3.dot r.direction (qyz.hit r t_min t_max rec).2.normal ≤ 0) :=
  ⟨⟨(HitRecord.set_face_normal_spec rec r N).1, (HitRecord.set_face_normal_spec rec r N).2.1,
      (HitRecord.set_face_normal_spec rec r N).2.2.1⟩,
    fun _ _ => Sphere_hit_normal env s r t_min t_max rec,
    fun hD hR negRadius h hh => Sphere_hit_ieee_normal env s negRadius r t_min t_max h hD hR hh,
    fun _ _ _ => MovingSphere_hit_normal env ms r t_min t_max rec,
    fun hD hR ht negRadius negDt h hh =>
      MovingSphere_hit_ieee_normal env ms negRadius negDt r t_min t_max h hD hR ht hh,
    XYRect_hit_normal qxy r t_min t_max rec,
    XZRect_hit_normal qxz r t_min t_max rec,
    YZRect_hit_normal qyz r t_min t_max rec⟩

/-- The amended C20 on the ray from `(0, 0, -3)` along `+z`, the unit sphere and
the unit sphere that moves from the origin to `(0, 2, 0)` over `[0, 1]`, on the
interval `[0.001, INF]`: the direction and the radii are not zero, the two key
times differ, both report a hit, and the stored normals are against the ray; in
IEEE arithmetic the unit sphere reports the hit at `t = 2` with the normal
`(0, 0, -1)`. -/
theorem C20_normal_against_ray_witness :
    zRay.direction ≠ 0 ∧ unitSphere.radius ≠ 0 ∧
    (Sphere.hit ratEnv unitSphere zRay (Ext.fin 0.001) Ext.posInf rec0).1 = true ∧
    Vec3.dot zRay.direction
      (Sphere.hit ratEnv unitSphere zRay (Ext.fin 0.001) Ext.posInf rec0).2.normal ≤ 0 ∧
    unitSphere.hit_ieee ratEnv false zRay (Ext.fin 0.001) Ext.posInf =
      some ⟨Dbl.fin 2, Dbl.vec ⟨0, 0, -1⟩, Dbl.vec ⟨0, 0, -1⟩, true⟩ ∧
    Dbl.le (Dbl.dot (Dbl.vec zRay.direction) (Dbl.vec ⟨0, 0, -1⟩)) (Dbl.fin 0) = true ∧
    slidingBall.radius ≠ 0 ∧ slidingBall.time0 ≠ slidingBall.time1 ∧
    (MovingSphere.hit ratEnv slidingBall zRay (Ext.fin 0.001) Ext.posInf rec0).1 = true ∧
    Vec3.dot zRay.direction
      (MovingSphere.hit ratEnv slidingBall zRay (Ext.fin 0.001) Ext.posInf rec0).2.normal ≤ 0 := by
  have hR : unitSphere.radius ≠ 0 := by simp [unitSphere]
  have hR2 : slidingBall.radius ≠ 0 := by simp [slidingBall]
  have hne : slidingBall.time0 ≠ slidingBall.time1 := by simp [slidingBall]
  have hhit : (Sphere.hit ratEnv unitSphere zRay (Ext.fin 0.001) Ext.posInf rec0).1 = true := by
    rw [unitSphere_hit_near 0.001 (by norm_num) rec0]
  have hs : slidingBall.static_at zRay.time = ball none := by
    simp only [MovingSphere.static_at, slidingBall, zRay, Ray.time, ball, Vec3.add_def,
      Vec3.smul_def, Vec3.sub_def]
    norm_num
  have hhit2 :
      (MovingSphere.hit ratEnv slidingBall zRay (Ext.fin 0.001) Ext.posInf rec0).1 = true := by
    rw [(MovingSphere_hit_static ratEnv slidingBall zRay (Ext.fin 0.001) Ext.posInf rec0).1, hs,
      ball_hit_zRay]
  have hieee : unitSphere.hit_ieee ratEnv false zRay (Ext.fin 0.001) Ext.posInf =
      some ⟨Dbl.fin 2, Dbl.vec ⟨0, 0, -1⟩, Dbl.vec ⟨0, 0, -1⟩, true⟩ := by
    simp only [Sphere.hit_ieee, sphere_hit_ieee, unitSphere, zRay, ratEnv, Dbl.vec, Dbl.vsub,
      Dbl.vadd, Dbl.vneg, Dbl.smul, Dbl.dot, Dbl.mulD, Dbl.mul, Dbl.addD, Dbl.subD, Dbl.neg,
      Dbl.lt, Dbl.sqrt, Dbl.divD, Dbl.div, Dbl.ofExt, Ray.origin, Ray.direction,
      Vec3.length_squared]
    norm_num [ratSqrt_one, Dbl.lt, Dbl.sqrt, Dbl.divD, Dbl.div, Dbl.addD, Dbl.mulD, Dbl.mul,
      Dbl.neg]
  have h := C20_normal_against_ray ratEnv rec0 zRay ⟨0, 0, -1⟩ (Ext.fin 0.001) Ext.posInf
    unitSphere slidingBall unitSquare floorSquare ⟨0, 1, 0, 1, 0, none⟩
  exact ⟨zRay_direction_ne_zero, hR, hhit, h.2.1 zRay_direction_ne_zero hR hhit, hieee,
    h.2.2.1 zRay_direction_ne_zero hR false _ hieee, hR2, hne, hhit2,
    h.2.2.2.1 zRay_direction_ne_zero hR2 hne hhit2⟩

end RayTracing
